import Mathlib

/-!
CuttDB: a verification development over a shallow embedding

The definitions below transcribe the C sources of CuttDB (`cdb_core.c`,
`cdb_hashtable.c`, `cdb_bloomfilter.c`, `vio_apnd2.c`, `cdb_types.h`) into
pure Lean functions with explicit state passing.

Conventions of the embedding

* A C function that mutates `CDB *db` becomes a function `CDB → ... → CDB`.
  A function that may fail to return (a NULL dereference, a loop that spins
  forever) returns `Option`; `none` stands for "does not return".
* Locks are not modelled: every function is run by one thread from entry to
  exit.  Statistic counters (`rchit`, `pcmiss`, `rtime`, ...) and timers are
  left out, they never influence control flow.
* Byte strings (keys, values) are lists of natural numbers below 256.
* `time(NULL)` is an explicit argument `now`.
* `cdb_crc64` is declared in `cdb_crc64.h` but its body is not part of the
  sources at hand, so the 64-bit key hash is an explicit argument `crc`.
* Sizes of C structures are those of the LP64 ABI (8-byte pointers).
-/

namespace CuttDB

/-! ## cdb_types.h -/

/-- Byte strings. -/
abbrev Bytes := List Nat

def KB : Nat := 1024
def MB : Nat := 1048576
def SI8 : Nat := 8
def SI4 : Nat := 4
def SBUFSIZE : Nat := 64 * KB
def SFOFFNUM : Nat := 8
def CDB_PAGEINCR : Nat := 4
def MLOCKNUM : Nat := 256

/-- Two to the power 32, the modulus of `uint32_t` arithmetic. -/
def U32 : Nat := 4294967296
/-- Two to the power 64, the modulus of `uint64_t` arithmetic. -/
def U64 : Nat := 18446744073709551616

/-- The 48-bit virtual offset `struct FOFF { uint32_t i4; uint16_t i2; }`. -/
structure FOFF where
  i4 : Nat
  i2 : Nat
deriving DecidableEq, Repr

/-- Size in bytes of a packed offset, `sizeof(FOFF)`. -/
def SFOFF : Nat := 6

/-- Macro `OFFNOTNULL(o)`: `(o).i4 || (o).i2`. -/
def OFFNOTNULL (o : FOFF) : Bool := o.i4 != 0 || o.i2 != 0
/-- Macro `OFFNULL(o)`: `(o).i4 == 0 && (o).i2 == 0`. -/
def OFFNULL (o : FOFF) : Bool := o.i4 == 0 && o.i2 == 0
/-- Macro `OFFZERO(o)`: the null offset. -/
def OFFZERO : FOFF := { i4 := 0, i2 := 0 }
/-- Macro `OFFEQ(a,b)`. -/
def OFFEQ (a b : FOFF) : Bool := a.i4 == b.i4 && a.i2 == b.i2

/-- The 24-bit packed hash `struct PHASH { uint16_t i2; uint8_t i1; }`. -/
structure PHASH where
  i2 : Nat
  i1 : Nat
deriving DecidableEq, Repr

/-- Macro `PHASHEQ(a,b)`. -/
def PHASHEQ (a b : PHASH) : Bool := a.i2 == b.i2 && a.i1 == b.i1

/-- An index-page item `struct PITEM { FOFF off; PHASH hash; }`. -/
structure PITEM where
  off : FOFF
  hash : PHASH
deriving DecidableEq, Repr

/-- The packed hash of a 64-bit key hash, as computed at the top of
`cdb_getoff`, `cdb_replaceoff` and `cdb_updatepage`:
`phash.i1 = hash & 0xff; phash.i2 = (hash >> 8) & 0xffff`. -/
def mkPHASH (hash : Nat) : PHASH :=
  { i1 := hash % 256, i2 := (hash / 256) % 65536 }

/-- Real size of a record header on disk, `RECHSIZE = SI4 * 4 + SI8`. -/
def RECHSIZE : Nat := 24
/-- Real size of a page header on disk, `PAGEHSIZE = SI4 * 3 + SI8`. -/
def PAGEHSIZE : Nat := 20
/-- Value of `sizeof(PITEM)` (packed). -/
def SIZEOF_PITEM : Nat := 9
/-- Value of `sizeof(CDBPAGE)` (packed): 6 + 4 + 4 + 4 + 4 + 4 + 8. -/
def SIZEOF_CDBPAGE : Nat := 34
/-- Value of `sizeof(CDBREC)` (packed): 6 + 4 + 8 + 8 + 4 + 4 + 4 + 4 + 8. -/
def SIZEOF_CDBREC : Nat := 50

/-- Macro `OFFALIGNED(off)`: `(((off)-1) | (ALIGNBYTES - 1)) + 1` for a
positive `off`, which rounds up to a multiple of 16; 0 stays 0 in 32-bit
arithmetic. -/
def OFFALIGNED (off : Nat) : Nat := (off + 15) / 16 * 16

/-- The index page `struct CDBPAGE`.  `items` is the flexible array member:
it has `cap` slots of which the first `num` are in use.  `magic` shares its
storage with `mtime` (a union in C). -/
structure CDBPAGE where
  ooff : FOFF
  osize : Nat
  cap : Nat
  magic : Nat
  bid : Nat
  num : Nat
  oid : Nat
  items : List PITEM
deriving DecidableEq, Repr

/-- Macro `PAGESIZE(p)`: bytes of a page on disk. -/
def PAGESIZE (p : CDBPAGE) : Nat := PAGEHSIZE + SIZEOF_PITEM * p.num
/-- Macro `MPAGESIZE(p)`: bytes of a page in memory. -/
def MPAGESIZE (p : CDBPAGE) : Nat := SIZEOF_CDBPAGE + SIZEOF_PITEM * p.cap

/-- The data record `struct CDBREC`; `key`/`val` stand for the bytes the two
pointers refer to. -/
structure CDBREC where
  ooff : FOFF
  osize : Nat
  key : Bytes
  val : Bytes
  magic : Nat
  ksize : Nat
  vsize : Nat
  expire : Nat
  oid : Nat
deriving DecidableEq, Repr

/-! ## cdb_hashtable.c

The table is modelled by its bookkeeping fields (`size`, `num`, the `bnum`
and `rnum` of the 256 first-level buckets) and by the list of its items in
LRU order, newest first: `head` is the first element of `items`, `tail` the
last.  The second-level chains are not represented: an item is found exactly
when an item with the same hash, key size and key is in the table. -/

/-- An item `struct CDBHTITEM` with its key and value. -/
structure CDBHTITEM (K V : Type) where
  ksize : Nat
  vsize : Nat
  hash : Nat
  key : K
  val : V
deriving DecidableEq, Repr

/-- A first-level bucket `CDBHTBUCKET`, without its chains. -/
structure CDBHTBUCKET where
  bnum : Nat
  rnum : Nat
deriving DecidableEq, Repr

/-- The table `struct CDBHASHTABLE`. -/
structure CDBHASHTABLE (K V : Type) where
  lru : Bool
  buckets : List CDBHTBUCKET
  size : Nat
  num : Nat
  items : List (CDBHTITEM K V)
deriving DecidableEq, Repr

/-- Value of `sizeof(CDBHTITEM)` (packed): 4 + 4 + 4 + 8. -/
def SIZEOF_CDBHTITEM : Nat := 20
/-- Value of `sizeof(CDBHASHTABLE)`: 8 + 8 + 256 * 16 + 8 + 8 + 8 + 8. -/
def SIZEOF_CDBHASHTABLE : Nat := 4144
/-- Value of `sizeof(void*)`. -/
def SIZEOF_PTR : Nat := 8
/-- Number of first-level buckets, `1 << CDBHTBNUMPOW`. -/
def CDBHTBNUM : Nat := 256

/-- One step of the word loop of `MurmurHash1`:
`h += k; h *= m; h ^= h >> 16`. -/
def murmurMix (h k : Nat) : Nat :=
  let h1 := ((h + k) % U32 * 0xc6a4a793) % U32
  Nat.xor h1 (h1 / 65536)

/-- The `while (len >= 4)` loop and the `switch (len)` tail of `MurmurHash1`;
words are read little-endian. -/
def murmurBody : Nat → Bytes → Nat
  | h, a :: b :: c :: d :: rest =>
      murmurBody (murmurMix h (a + 256 * b + 65536 * c + 16777216 * d)) rest
  | h, [a, b, c] => murmurMix ((h + c * 65536) % U32 + b * 256) a
  | h, [a, b] => murmurMix (h + b * 256) a
  | h, [a] => murmurMix h a
  | h, [] => h

/-- Function `MurmurHash1`, the default hash of a table. -/
def MurmurHash1 (key : Bytes) : Nat :=
  let h0 := Nat.xor 0x19900917 ((key.length * 0xc6a4a793) % U32)
  let h1 := murmurBody h0 key
  let h2 := (h1 * 0xc6a4a793) % U32
  let h3 := Nat.xor h2 (h2 / 1024)
  let h4 := (h3 * 0xc6a4a793) % U32
  Nat.xor h4 (h4 / 131072)

/-- Function `_pagehash` of cdb_core.c: the bucket id itself. -/
def _pagehash (bid : Nat) : Nat := bid

/-- Bytes an item accounts for in `ht->size`:
`sizeof(CDBHTITEM) + ksize + vsize + lru * sizeof(CDBHTITEM*) * 2`. -/
def htItemBytes {K V : Type} (lru : Bool) (it : CDBHTITEM K V) : Nat :=
  SIZEOF_CDBHTITEM + it.ksize + it.vsize + (if lru then 2 * SIZEOF_PTR else 0)

/-- Function `cdb_ht_new`: 256 buckets of 2 slots each. -/
def cdb_ht_new {K V : Type} (lru : Bool) : CDBHASHTABLE K V :=
  { lru := lru
    buckets := List.replicate CDBHTBNUM { bnum := 2, rnum := 0 }
    size := CDBHTBNUM * (SIZEOF_PTR * 2) + SIZEOF_CDBHASHTABLE
    num := 0
    items := [] }

/-- The test on a chain element used by insert, get and delete:
same hash, same key size, same key bytes. -/
def htMatch {K V : Type} [DecidableEq K] (hash ksize : Nat) (key : K)
    (c : CDBHTITEM K V) : Bool :=
  c.hash == hash && c.ksize == ksize && decide (c.key = key)

/-- Remove the first item that passes `htMatch`, returning it. -/
def htUnlink {K V : Type} [DecidableEq K] (hash ksize : Nat) (key : K) :
    List (CDBHTITEM K V) → Option (CDBHTITEM K V) × List (CDBHTITEM K V)
  | [] => (none, [])
  | c :: rest =>
      if htMatch hash ksize key c then (some c, rest)
      else
        let r := htUnlink hash ksize key rest
        (r.1, c :: r.2)

/-- The bucket of a hash, `buckets[hash & 255]`; the default is only reached
if the bucket list is shorter than 256. -/
def htBucket {K V : Type} (ht : CDBHASHTABLE K V) (hash : Nat) : CDBHTBUCKET :=
  ht.buckets.getD (hash % CDBHTBNUM) { bnum := 2, rnum := 0 }

/-- Function `cdb_ht_del`: unlink the item with the given key and return it. -/
def cdb_ht_del {K V : Type} [DecidableEq K] (hf : K → Nat)
    (ht : CDBHASHTABLE K V) (key : K) (ksize : Nat) :
    Option (CDBHTITEM K V) × CDBHASHTABLE K V :=
  let hash := hf key
  let bucket := htBucket ht hash
  match htUnlink hash ksize key ht.items with
  | (some cur, rest) =>
      (some cur,
       { ht with
         items := rest
         size := ht.size - htItemBytes ht.lru cur
         num := ht.num - 1
         buckets := ht.buckets.set (hash % CDBHTBNUM)
           { bucket with rnum := bucket.rnum - 1 } })
  | (none, _) => (none, ht)

/-- Function `cdb_ht_del2`: delete and free; 0 if an item was removed, -1
otherwise. -/
def cdb_ht_del2 {K V : Type} [DecidableEq K] (hf : K → Nat)
    (ht : CDBHASHTABLE K V) (key : K) (ksize : Nat) : Int × CDBHASHTABLE K V :=
  match cdb_ht_del hf ht key ksize with
  | (some _, ht1) => (0, ht1)
  | (none, ht1) => (-1, ht1)

/-- Function `cdb_ht_insert`: grow the second level of the bucket when it is
crowded, drop an item with the same key, link the new item at the head. -/
def cdb_ht_insert {K V : Type} [DecidableEq K] (hf : K → Nat)
    (ht : CDBHASHTABLE K V) (item0 : CDBHTITEM K V) : CDBHASHTABLE K V :=
  let item := { item0 with hash := hf item0.key }
  let bid := item.hash % CDBHTBNUM
  let bucket0 := htBucket ht item.hash
  let grow := decide (bucket0.rnum > bucket0.bnum * 2)
  let exp := if bucket0.bnum < 512 then 4 else 2
  let listsize := (bucket0.bnum * exp) * SIZEOF_PTR
  let size1 := if grow then ht.size + listsize - bucket0.bnum * SIZEOF_PTR else ht.size
  let bnum1 := if grow then bucket0.bnum * exp else bucket0.bnum
  match htUnlink item.hash item.ksize item.key ht.items with
  | (some cur, rest) =>
      { ht with
        items := item :: rest
        buckets := ht.buckets.set bid { bnum := bnum1, rnum := bucket0.rnum - 1 + 1 }
        num := ht.num - 1 + 1
        size := size1 - htItemBytes ht.lru cur + htItemBytes ht.lru item }
  | (none, rest) =>
      { ht with
        items := item :: rest
        buckets := ht.buckets.set bid { bnum := bnum1, rnum := bucket0.rnum + 1 }
        num := ht.num + 1
        size := size1 + htItemBytes ht.lru item }

/-- Function `cdb_ht_newitem`: an item of the given sizes, not yet in a
table. -/
def cdb_ht_newitem {K V : Type} (ksize vsize : Nat) (key : K) (val : V) :
    CDBHTITEM K V :=
  { ksize := ksize, vsize := vsize, hash := 0, key := key, val := val }

/-- Function `cdb_ht_insert2`: allocate an item for key and value and insert
it. -/
def cdb_ht_insert2 {K V : Type} [DecidableEq K] (hf : K → Nat)
    (ht : CDBHASHTABLE K V) (key : K) (ksize : Nat) (val : V) (vsize : Nat) :
    CDBHASHTABLE K V :=
  cdb_ht_insert hf ht (cdb_ht_newitem ksize vsize key val)

/-- Function `cdb_ht_get3`: find the item; in LRU mode with `mtf` move it to
the head of the LRU list. -/
def cdb_ht_get3 {K V : Type} [DecidableEq K] (hf : K → Nat)
    (ht : CDBHASHTABLE K V) (key : K) (ksize : Nat) (mtf : Bool) :
    Option (CDBHTITEM K V) × CDBHASHTABLE K V :=
  let hash := hf key
  match htUnlink hash ksize key ht.items with
  | (some cur, rest) =>
      if ht.lru && mtf then (some cur, { ht with items := cur :: rest })
      else (some cur, ht)
  | (none, _) => (none, ht)

/-- Function `cdb_ht_get`: value and value size of the item, or NULL and 0. -/
def cdb_ht_get {K V : Type} [DecidableEq K] (hf : K → Nat)
    (ht : CDBHASHTABLE K V) (key : K) (ksize : Nat) (mtf : Bool) :
    Option V × Nat × CDBHASHTABLE K V :=
  match cdb_ht_get3 hf ht key ksize mtf with
  | (some res, ht1) => (some res.val, res.vsize, ht1)
  | (none, ht1) => (none, 0, ht1)

/-- Function `cdb_ht_get2`: value of the item, or NULL. -/
def cdb_ht_get2 {K V : Type} [DecidableEq K] (hf : K → Nat)
    (ht : CDBHASHTABLE K V) (key : K) (ksize : Nat) (mtf : Bool) :
    Option V × CDBHASHTABLE K V :=
  match cdb_ht_get3 hf ht key ksize mtf with
  | (some res, ht1) => (some res.val, ht1)
  | (none, ht1) => (none, ht1)

/-- Function `cdb_ht_gettail`: the oldest item, `ht->tail` (which is only
maintained in LRU mode). -/
def cdb_ht_gettail {K V : Type} (ht : CDBHASHTABLE K V) : Option (CDBHTITEM K V) :=
  if ht.lru then ht.items.getLast? else none

/-- A write through a pointer obtained from `cdb_ht_get2`: the value of the
item with the given key is replaced in place; sizes and order stay. -/
def htPoke {K V : Type} [DecidableEq K] (hash ksize : Nat) (key : K) (v : V) :
    List (CDBHTITEM K V) → List (CDBHTITEM K V)
  | [] => []
  | c :: rest =>
      if htMatch hash ksize key c then { c with val := v } :: rest
      else c :: htPoke hash ksize key v rest

/-- Function `cdb_ht_poptail`: unlink and return the oldest item; NULL if the
table is not in LRU mode or empty. -/
def cdb_ht_poptail {K V : Type} (ht : CDBHASHTABLE K V) :
    Option (CDBHTITEM K V) × CDBHASHTABLE K V :=
  if !ht.lru then (none, ht)
  else
    match ht.items.getLast? with
    | none => (none, ht)
    | some item =>
        let bucket := htBucket ht item.hash
        (some item,
         { ht with
           items := ht.items.dropLast
           buckets := ht.buckets.set (item.hash % CDBHTBNUM)
             { bucket with rnum := bucket.rnum - 1 }
           num := ht.num - 1
           size := ht.size - (SIZEOF_CDBHTITEM + item.ksize + item.vsize
                     + SIZEOF_PTR * 2) })

/-- Function `cdb_ht_removetail`: pop the oldest item and free it. -/
def cdb_ht_removetail {K V : Type} (ht : CDBHASHTABLE K V) : CDBHASHTABLE K V :=
  (cdb_ht_poptail ht).2

/-! ## cdb_bloomfilter.c

The 64 bitmaps are zero-filled byte arrays in which bits are only ever
switched on; the model keeps the list of the bits that are on, each named by
the index of its bitmap and its bit position `p` inside that bitmap. -/

/-- The seed table `BFSEEDS`. -/
def BFSEEDS : List Nat :=
  [217636919, 290182597, 386910137, 515880193,
   687840301, 917120411, 1222827239, 1610612741,
   3300450239, 3300450259, 3300450281, 3300450289,
   3221225473, 4294967291, 163227661, 122420729]

def CDBBFHASHNUM : Nat := 16

/-- The filter `struct CDBBLOOMFILTER`; `hnum` is an `int`. -/
structure CDBBLOOMFILTER where
  bits : List (Nat × Nat)
  rnum : Nat
  size : Nat
  hnum : Int
deriving DecidableEq, Repr

/-- The `int` that a conversion from `uint64_t` yields: the low 32 bits, read
as a two's-complement number. -/
def toInt32 (x : Nat) : Int :=
  if x % U32 < 2147483648 then ((x % U32 : Nat) : Int) else ((x % U32 : Nat) : Int) - 4294967296

/-- Function `cdb_bf_new`; `rnum` and `size` are `uint64_t`.  The quotient
`size * 8 * 7 / (rnum * 10)` is computed in 64 bits and stored in the `int`
field `hnum`.  `none`: the divisor `rnum * 10` is 0 in 64 bits and the
division traps. -/
def cdb_bf_new (rnum size : Nat) : Option CDBBLOOMFILTER :=
  if (rnum * 10) % U64 = 0 then none
  else
    let h0 : Int := toInt32 ((size * 8 * 7) % U64 / ((rnum * 10) % U64))
    let h1 : Int := if h0 > (CDBBFHASHNUM : Int) then (CDBBFHASHNUM : Int) else h0
    let h2 : Int := if h1 = 0 then 1 else h1
    some { bits := [], rnum := 0, size := size, hnum := h2 }

/-- The value `hval[i]` after the byte loop shared by `cdb_bf_set` and
`cdb_bf_exist`: `hval[i] = hval[i] * BFSEEDS[i] + *src` over all key bytes. -/
def bfHval (key : Bytes) (i : Nat) : Nat :=
  key.foldl (fun h b => (h * BFSEEDS.getD i 0 + b) % U64) 0

/-- The bit that hash number `i` selects: bitmap `hval & 63`, position
`(hval >> 6) % ((size >> 6) << 3)`. -/
def bfBit (bf : CDBBLOOMFILTER) (key : Bytes) (i : Nat) : Nat × Nat :=
  let hval := bfHval key i
  (hval % 64, (hval / 64) % ((bf.size / 64) * 8))

/-- The second loop of `cdb_bf_set` and `cdb_bf_exist` divides by
`(bf->size >> 6) << 3`: it traps when it runs at least once (`hnum > 0`) and
that divisor is 0 (`size < 64`). -/
def bfTraps (bf : CDBBLOOMFILTER) : Bool :=
  decide (0 < bf.hnum) && ((bf.size / 64) * 8 == 0)

/-- What `cdb_bf_set` does when it does not trap: the bits of the hashes
`0 .. hnum - 1` are switched on (none if `hnum` is not positive) and `rnum`
is counted up. -/
def bfSetBits (bf : CDBBLOOMFILTER) (key : Bytes) : CDBBLOOMFILTER :=
  { bf with
    bits := (List.range bf.hnum.toNat).map (bfBit bf key) ++ bf.bits
    rnum := (bf.rnum + 1) % U64 }

/-- Function `cdb_bf_set`; `none`: the division traps. -/
def cdb_bf_set (bf : CDBBLOOMFILTER) (key : Bytes) : Option CDBBLOOMFILTER :=
  if bfTraps bf then none else some (bfSetBits bf key)

/-- What `cdb_bf_exist` returns when it does not trap: `exist` counts the
hashes from 0 on whose bit is on, up to the first one whose bit is off, and
the result is `exist == bf->hnum`. -/
def bfAllOn (bf : CDBBLOOMFILTER) (key : Bytes) : Bool :=
  let exist := ((List.range bf.hnum.toNat).takeWhile
    (fun i => decide (bfBit bf key i ∈ bf.bits))).length
  decide ((exist : Int) = bf.hnum)

/-- Function `cdb_bf_exist`; `none`: the division traps. -/
def cdb_bf_exist (bf : CDBBLOOMFILTER) (key : Bytes) : Option Bool :=
  if bfTraps bf then none else some (bfAllOn bf key)

/-- The `n` little-endian bytes of `x`, the memory image of an unsigned
integer of `n` bytes. -/
def leBytes : Nat → Nat → Bytes
  | 0, _ => []
  | n + 1, x => (x % 256) :: leBytes n (x / 256)

/-- The unsigned integer whose little-endian memory image is `bs`. -/
def leVal : Bytes → Nat
  | [] => 0
  | b :: bs => b + 256 * leVal bs

/-! ## vio_apnd2.c, seen through the `CDBVIO` interface

The segment files, their write buffers and the fd cache are replaced by what
they implement together: an append-only store in which every object written
keeps its virtual offset for good.  `recs` and `pages` list the data records
and index pages written so far (newest first), `dnext` and `inext` are the
48-bit numbers `fid * 2^24 + roff / 16` of the next write positions.  Moving
on to a new segment file, junk-space accounting and failing system calls are
not modelled; a read fails only when nothing was written at the offset. -/

def RECMAGIC : Nat := 0x19871022
def PAGEMAGIC : Nat := 0x19890604
def IOBUFSIZE : Nat := 2 * MB
def FILEMETASIZE : Nat := 64

/-- The virtual offset with 48-bit number `n`; this is macro `ROFF2VOFF` with
`n = fid * 2^24 + roff / 16`: `i4 = (fid << 8) | (roff / 16 >> 16)`,
`i2 = (roff / 16) & 0xffff`. -/
def natFOFF (n : Nat) : FOFF := { i4 := n / 65536, i2 := n % 65536 }

/-- The storage object `VIOAPND2`. -/
structure VIOAPND2 where
  recs : List (FOFF × CDBREC)
  pages : List (FOFF × CDBPAGE)
  dnext : Nat
  inext : Nat
  dlimit : Nat
  delbuf : List FOFF
deriving DecidableEq, Repr

/-- What is stored at an offset: the newest entry written there. -/
def storeAt {α : Type} (off : FOFF) : List (FOFF × α) → Option α
  | [] => none
  | (o, a) :: rest => if o = off then some a else storeAt off rest

/-! ## cdb_core.h: the database object -/

/-- The main bucket table `FOFF *mtable`, an array of `hsize` offsets that is
zero-filled when it is allocated.  The model lists the entries written so
far, newest first; an entry never written is null. -/
abbrev MTable := List (Nat × FOFF)

/-- The read `mtable[bid]`. -/
def mtGet : MTable → Nat → FOFF
  | [], _ => OFFZERO
  | (b, o) :: rest, bid => if b = bid then o else mtGet rest bid

/-- The write `mtable[bid] = off`. -/
def mtSet (mt : MTable) (bid : Nat) (off : FOFF) : MTable := (bid, off) :: mt

/-- The object `struct CDB`, without locks, callbacks and statistic counters.
`errno` is the per-thread error code behind `cdb_seterrno`/`cdb_errno`. -/
structure CDB where
  rclimit : Nat
  pclimit : Nat
  bfsize : Nat
  rnum : Nat
  oid : Nat
  roid : Nat
  hsize : Nat
  areadsize : Nat
  rcache : Option (CDBHASHTABLE Bytes Bytes)
  pcache : Option (CDBHASHTABLE Nat CDBPAGE)
  dpcache : Option (CDBHASHTABLE Nat CDBPAGE)
  bf : Option CDBBLOOMFILTER
  mtable : Option MTable
  vio : Option VIOAPND2
  errno : Nat
deriving DecidableEq, Repr

def CDB_SUCCESS : Nat := 0
def CDB_NOTFOUND : Nat := 1
def CDB_EXIST : Nat := 2

def CDB_OVERWRITE : Nat := 0
def CDB_INSERTIFEXIST : Nat := 1
def CDB_INSERTIFNOEXIST : Nat := 2
def CDB_INSERTCACHE : Nat := 8

/-- Operation codes of `cdb_updatepage`. -/
def CDB_PAGEDELETEOFF : Nat := 0
def CDB_PAGEINSERTOFF : Nat := 1

/-- Function `cdb_seterrno` (the callback is not modelled). -/
def cdb_seterrno (db : CDB) (ecode : Nat) : CDB := { db with errno := ecode }

/-! ## cdb_genoid (cdb_core.c) and the oid update of recovery -/

/-- Function `cdb_genoid`: `oid = db->oid++; return oid;` on a `uint64_t`. -/
def cdb_genoid (db : CDB) : Nat × CDB :=
  (db.oid, { db with oid := (db.oid + 1) % U64 })

/-- The oid update that `_vio_apnd2_recovery` performs for every replayed data
record: `if (rec->oid > db->oid) db->oid = rec->oid;`. -/
def recovery_replay_oid (db : CDB) (recoid : Nat) : CDB :=
  if recoid > db.oid then { db with oid := recoid } else db

/-! ## Reading and writing through the storage object -/

/-- Function `_vio_apnd2_readpage`: the page stored at `off`, with the
in-memory fields set as the function does at its end
(`osize = OFFALIGNED(psize)`, `ooff = off`, `cap = num`); `none` is the
return value -1. -/
def _vio_apnd2_readpage (vio : VIOAPND2) (off : FOFF) : Option CDBPAGE :=
  match storeAt off vio.pages with
  | none => none
  | some img =>
      if img.magic != PAGEMAGIC then none
      else some { img with osize := OFFALIGNED (PAGESIZE img), ooff := off, cap := img.num }

/-- Function `_vio_apnd2_writepage`: stamp magic and a new oid, append the
first `num` items at the next index position, remember that position in the
page (`ooff`, `osize`) and return it. -/
def _vio_apnd2_writepage (db : CDB) (vio : VIOAPND2) (page : CDBPAGE) :
    CDBPAGE × FOFF × CDB :=
  let g := cdb_genoid db
  let page1 := { page with magic := PAGEMAGIC, oid := g.1 }
  let psize := PAGESIZE page1
  let off := natFOFF vio.inext
  let img := { page1 with items := page1.items.take page1.num }
  let vio1 := { vio with pages := (off, img) :: vio.pages
                         inext := vio.inext + OFFALIGNED psize / 16 }
  ({ page1 with ooff := off, osize := OFFALIGNED psize }, off, { g.2 with vio := some vio1 })

/-- Function `_vio_apnd2_readrec`: the record stored at `off`; with
`readval = false` only the key is delivered and `vsize` reads 0, `osize`
covers the whole record in both cases; `none` is the return value -1. -/
def _vio_apnd2_readrec (vio : VIOAPND2) (off : FOFF) (readval : Bool) : Option CDBREC :=
  match storeAt off vio.recs with
  | none => none
  | some img =>
      if img.magic != RECMAGIC then none
      else
        some { img with
               vsize := if readval then img.vsize else 0
               val := if readval then img.val else []
               osize := OFFALIGNED (RECHSIZE + img.ksize + img.vsize)
               ooff := off }

/-- Function `_vio_apnd2_writerec` with `ptrtype = VIOAPND2_RECEXTERNAL`
(`vio->wrec`).  A record larger than the buffer limit is written directly and
the function returns right after `ROFF2VOFF`; otherwise the record goes
through the buffer and `rec->osize`, `rec->ooff` are set before returning. -/
def _vio_apnd2_writerec (db : CDB) (vio : VIOAPND2) (rec : CDBREC) :
    CDBREC × FOFF × CDB :=
  let rsize := RECHSIZE + rec.ksize + rec.vsize
  let g := cdb_genoid db
  let rec1 := { rec with magic := RECMAGIC, oid := g.1 }
  let off := natFOFF vio.dnext
  let vio1 := { vio with recs := (off, rec1) :: vio.recs
                         dnext := vio.dnext + OFFALIGNED rsize / 16 }
  let db1 := { g.2 with vio := some vio1 }
  if rsize > vio.dlimit then (rec1, off, db1)
  else ({ rec1 with osize := rsize, ooff := off }, off, db1)

/-- Function `_vio_apnd2_deleterec`: log the offset of a deleted record. -/
def _vio_apnd2_deleterec (db : CDB) (vio : VIOAPND2) (off : FOFF) : CDB :=
  { db with vio := some { vio with delbuf := vio.delbuf ++ [off] } }

/-! ## cdb_core.c: cache overflow and eviction -/

/-- Macro `PCOVERFLOW(db)`:
`db->dpcache && db->dpcache->size + db->pcache->size > db->pclimit`;
`none` is the NULL dereference of `db->pcache`. -/
def PCOVERFLOW (db : CDB) : Option Bool :=
  match db.dpcache with
  | none => some false
  | some dpc =>
      match db.pcache with
      | none => none
      | some pc => some (decide (dpc.size + pc.size > db.pclimit))

/-- Macro `RCOVERFLOW(db)`: `db->rcache && db->rcache->size > db->rclimit`. -/
def RCOVERFLOW (db : CDB) : Bool :=
  match db.rcache with
  | none => false
  | some rc => decide (rc.size > db.rclimit)

/-- The statements `db->vio->wpage(db->vio, page, &off); db->mtable[bid] = off;`
by which `_cdb_pageout`, `cdb_replaceoff` and `cdb_updatepage` put a page on
disk.  `none`: there is no storage object or no main table. -/
def writeBucketPage (db : CDB) (bid : Nat) (page : CDBPAGE) : Option CDB :=
  match db.vio with
  | none => none
  | some vio =>
      let w := _vio_apnd2_writepage db vio page
      match w.2.2.mtable with
      | some mt => some { w.2.2 with mtable := some (mtSet mt bid w.2.1) }
      | none => none

/-- The loop of `_cdb_pageout`, at most `fuel` rounds.  A round pops the LRU
tail of the clean page cache, or else writes out the LRU tail of the dirty
page cache and stores its offset in `mtable[bid]`.  The test
`cdb_lock_trylock(...) < 0` is never true (the pthread try-lock functions
return 0 or a positive error number), so that branch does not appear.
`none`: the loop cannot make progress and spins, or an access goes through
a NULL pointer or beyond the `hsize` entries of `mtable`. -/
def pageoutLoop : Nat → CDB → Option CDB
  | 0, db =>
      match PCOVERFLOW db with
      | some false => some db
      | _ => none
  | fuel + 1, db =>
      match PCOVERFLOW db with
      | none => none
      | some false => some db
      | some true =>
          match db.pcache, db.dpcache with
          | some pc, some dpc =>
              if pc.num != 0 then
                match cdb_ht_poptail pc with
                | (none, _) => none
                | (some _, pc1) => pageoutLoop fuel { db with pcache := some pc1 }
              else if dpc.num != 0 then
                match cdb_ht_gettail dpc with
                | none => some db
                | some item =>
                    let bid := item.key
                    let db1 := { db with dpcache := some (cdb_ht_poptail dpc).2 }
                    if bid < db1.hsize then
                      match writeBucketPage db1 bid item.val with
                      | some db2 => pageoutLoop fuel db2
                      | none => none
                    else none
              else none
          | _, _ => none

/-- Function `_cdb_pageout`.  Every round that does not end the loop removes
one item, so `pcache->num + dpcache->num` rounds are enough. -/
def _cdb_pageout (db : CDB) : Option CDB :=
  let n1 := match db.pcache with
    | some pc => pc.num
    | none => 0
  let n2 := match db.dpcache with
    | some dpc => dpc.num
    | none => 0
  pageoutLoop (n1 + n2 + 1) db

/-- The loop of `_cdb_recout`:
`while (RCOVERFLOW(db)) { if (db->rcache->num) cdb_ht_removetail(db->rcache); }`.
`none`: the loop spins without removing anything. -/
def recoutLoop : Nat → CDB → Option CDB
  | 0, db => if RCOVERFLOW db then none else some db
  | fuel + 1, db =>
      if RCOVERFLOW db then
        match db.rcache with
        | none => some db
        | some rc =>
            if rc.num != 0 then
              match cdb_ht_poptail rc with
              | (none, _) => none
              | (some _, rc1) => recoutLoop fuel { db with rcache := some rc1 }
            else none
      else some db

/-- Function `_cdb_recout`. -/
def _cdb_recout (db : CDB) : Option CDB :=
  let n := match db.rcache with
    | some rc => rc.num
    | none => 0
  recoutLoop (n + 1) db

/-- The tail shared by `cdb_getoff`, `cdb_replaceoff` and `cdb_updatepage`:
`if (PCOVERFLOW(db)) _cdb_pageout(db);`. -/
def checkPageOverflow (db : CDB) : Option CDB :=
  match PCOVERFLOW db with
  | none => none
  | some true => _cdb_pageout db
  | some false => some db

/-- The statement `if (RCOVERFLOW(db)) _cdb_recout(db);`. -/
def checkRecOverflow (db : CDB) : Option CDB :=
  if RCOVERFLOW db then _cdb_recout db else some db

/-! ## cdb_core.c: the index page of a bucket -/

/-- The page that the three index functions start from when neither cache
holds one and `mtable[bid]` is null: the stack buffer `sbuf` with
`cap = num = 0`, `osize = 0` and a null `ooff`; all other fields keep
whatever the stack held. -/
def emptyPage (sbuf : CDBPAGE) : CDBPAGE :=
  { sbuf with cap := 0, num := 0, osize := 0, ooff := OFFZERO }

/-- The block that the three index functions share for a bucket that is in
neither cache: `if (OFFNOTNULL(db->mtable[bid])) ret = db->vio->rpage(...)`,
else the stack page is made empty.  The inner `none` is `ret < 0`, the outer
one a NULL `mtable` or storage object. -/
def readBucketPage (db : CDB) (bid : Nat) (sbuf : CDBPAGE) : Option (Option CDBPAGE) :=
  match db.mtable with
  | none => none
  | some mt =>
      if OFFNOTNULL (mtGet mt bid) then
        match db.vio with
        | none => none
        | some vio => some (_vio_apnd2_readpage vio (mtGet mt bid))
      else some (some (emptyPage sbuf))

/-- The key under which the bloom filter is probed in `cdb_getoff`:
`uint64_t bfkey = (bid << 24) | (hash & 0xffffff)` with `uint32_t bid`, so the
shift is done in 32 bits. -/
def bfkeyGetoff (bid hash : Nat) : Nat :=
  Nat.lor ((bid * 16777216) % U32) (hash % 16777216)

/-- The key that `cdb_updatepage` sets in the bloom filter:
`(((hash >> 24) % db->hsize) << 24) | (hash & 0xffffff)`, all in 64 bits. -/
def bfkeyUpdate (hsize hash : Nat) : Nat :=
  Nat.lor ((((hash / 16777216) % hsize) * 16777216) % U64) (hash % 16777216)

/-- The collecting loop of `cdb_getoff` over the first `n` slots: the offsets
of the items whose packed hash equals `phash`, in page order. -/
def getoffLoop (phash : PHASH) : Nat → List PITEM → List FOFF
  | 0, _ => []
  | _ + 1, [] => []
  | n + 1, it :: its =>
      if PHASHEQ it.hash phash then it.off :: getoffLoop phash n its
      else getoffLoop phash n its

/-- The two cache probes of `cdb_getoff`: the clean page cache, then, if the
page is not there, the dirty page cache, both with move-to-front. -/
def getoffProbe (db : CDB) (bid : Nat) : Option CDBPAGE × CDB :=
  let r1 : Option CDBPAGE × CDB := match db.pcache with
    | some pc =>
        let r := cdb_ht_get2 _pagehash pc bid SI4 true
        (r.1, { db with pcache := some r.2 })
    | none => (none, db)
  match r1.1, r1.2.dpcache with
  | none, some dpc =>
      let r := cdb_ht_get2 _pagehash dpc bid SI4 true
      (r.1, { r1.2 with dpcache := some r.2 })
  | _, _ => r1

/-- Function `cdb_getoff` (called with the bucket lock held or not, which
makes no difference here).  Returns the count `rnum` (or -1), the offsets and
the database.  `none`: `hsize` is 0, the bloom filter traps, `mtable` is NULL, there
is no storage object, or the eviction does not return. -/
def cdb_getoff (db : CDB) (hash : Nat) (sbuf : CDBPAGE) : Option (Int × List FOFF × CDB) :=
  if db.hsize = 0 then none
  else
    let bid := (hash / 16777216) % db.hsize
    let phash := mkPHASH hash
    let probe : Option Bool := match db.bf with
      | some bf => cdb_bf_exist bf (leBytes SI8 (bfkeyGetoff bid hash))
      | none => some true
    match probe with
    | none => none
    | some false => some (0, [], db)
    | some true =>
      let r2 := getoffProbe db bid
      let db2 := r2.2
      match r2.1 with
      | some page =>
          (checkPageOverflow db2).map fun db3 =>
            let offs := getoffLoop phash page.num page.items
            ((offs.length : Int), offs, db3)
      | none =>
          match readBucketPage db2 bid sbuf with
          | none => none
          | some none => some (-1, [], db2)
          | some (some page) =>
              let offs := getoffLoop phash page.num page.items
              let db3 := match db2.pcache with
                | some pc =>
                    let pc1 := cdb_ht_insert2 _pagehash pc bid SI4 page (MPAGESIZE page)
                    { db2 with pcache := some pc1 }
                | none => db2
              (checkPageOverflow db3).map fun db4 => ((offs.length : Int), offs, db4)

/-- The block `if (db->pcache) { pitem = cdb_ht_del(db->pcache, &bid, SI4); ... }`
that opens `cdb_replaceoff` and `cdb_updatepage`: the page of the bucket is
taken out of the clean page cache. -/
def pcTake (db : CDB) (bid : Nat) : Option (CDBHTITEM Nat CDBPAGE) × CDB :=
  match db.pcache with
  | some pc =>
      let r := cdb_ht_del _pagehash pc bid SI4
      (r.1, { db with pcache := some r.2 })
  | none => (none, db)

/-- The block `if (page == NULL && db->dpcache) { pitem = cdb_ht_del(db->dpcache,
&bid, SI4); ... }` of `cdb_updatepage`, entered with `page == NULL`. -/
def dpcTake (db : CDB) (bid : Nat) : Option (CDBHTITEM Nat CDBPAGE) × CDB :=
  match db.dpcache with
  | some dpc =>
      let r := cdb_ht_del _pagehash dpc bid SI4
      (r.1, { db with dpcache := some r.2 })
  | none => (none, db)

/-- The block `if (page == NULL && db->dpcache) { page = cdb_ht_get2(db->dpcache,
&bid, SI4, true); ... }` of `cdb_replaceoff`, entered with `page == NULL`. -/
def dpcPeek (db : CDB) (bid : Nat) : Option CDBPAGE × CDB :=
  match db.dpcache with
  | some dpc =>
      let r := cdb_ht_get2 _pagehash dpc bid SI4 true
      (r.1, { db with dpcache := some r.2 })
  | none => (none, db)

/-- The call `cdb_ht_insert(db->dpcache, pitem)`; `none`: the cache is NULL. -/
def dpcPut (db : CDB) (it : CDBHTITEM Nat CDBPAGE) : Option CDB :=
  match db.dpcache with
  | some dpc => some { db with dpcache := some (cdb_ht_insert _pagehash dpc it) }
  | none => none

/-- The call `cdb_ht_insert(db->pcache, pitem)`; `none`: the cache is NULL. -/
def pcPut (db : CDB) (it : CDBHTITEM Nat CDBPAGE) : Option CDB :=
  match db.pcache with
  | some pc => some { db with pcache := some (cdb_ht_insert _pagehash pc it) }
  | none => none

/-- The page of the bucket in the dirty page cache changed in place, as
`cdb_replaceoff` does through the pointer it got from `cdb_ht_get2`. -/
def dpcPoke (db : CDB) (bid : Nat) (page : CDBPAGE) : Option CDB :=
  match db.dpcache with
  | some dpc =>
      some { db with
             dpcache := some { dpc with items := htPoke (_pagehash bid) SI4 bid page dpc.items } }
  | none => none

/-- The loop of `cdb_replaceoff` over the first `n` slots: the first item
with packed hash `phash` and offset `off` gets offset `noff`. -/
def replaceLoop (phash : PHASH) (off noff : FOFF) : Nat → List PITEM → List PITEM × Bool
  | 0, its => (its, false)
  | _ + 1, [] => ([], false)
  | n + 1, it :: its =>
      if PHASHEQ it.hash phash && OFFEQ it.off off then ({ it with off := noff } :: its, true)
      else
        let r := replaceLoop phash off noff n its
        (it :: r.1, r.2)

/-- The second half of `cdb_replaceoff`, from the comment `check and modify`
on: the loop over the page at hand, the filing of the page and the overflow
check.  `pitem` is the item taken out of the clean page cache, `indpcache`
tells that the page is the one in the dirty page cache. -/
def replaceFinish (db2 : CDB) (bid : Nat) (phash : PHASH) (off noff : FOFF)
    (pitem : Option (CDBHTITEM Nat CDBPAGE)) (indpcache : Bool) (page0 : CDBPAGE) :
    Option (Int × CDB) :=
  let lp := replaceLoop phash off noff page0.num page0.items
  let page := { page0 with items := lp.1 }
  let found := lp.2
  let db3 : Option CDB :=
    if db2.dpcache.isSome then
      if indpcache then dpcPoke db2 bid page
      else
        match pitem with
        | some it =>
            if found then dpcPut db2 { it with val := page }
            else pcPut db2 { it with val := page }
        | none => dpcPut db2 (cdb_ht_newitem SI4 (MPAGESIZE page) bid page)
    else writeBucketPage db2 bid page
  match db3 with
  | none => none
  | some db4 => (checkPageOverflow db4).map fun db5 => (0, db5)

/-- Function `cdb_replaceoff`.  Returns the C return value and the
database.  `none`: `hsize` is 0, `mtable` is NULL, there is no storage
object, or the eviction does not return. -/
def cdb_replaceoff (db : CDB) (hash : Nat) (off noff : FOFF) (sbuf : CDBPAGE) :
    Option (Int × CDB) :=
  if db.hsize = 0 then none
  else
    let bid := (hash / 16777216) % db.hsize
    let phash := mkPHASH hash
    let r1 := pcTake db bid
    match r1.1 with
    | some it => replaceFinish r1.2 bid phash off noff (some it) false it.val
    | none =>
        let r2 := dpcPeek r1.2 bid
        match r2.1 with
        | some page => replaceFinish r2.2 bid phash off noff none true page
        | none =>
            match readBucketPage r2.2 bid sbuf with
            | none => none
            | some none => some (-1, r2.2)
            | some (some page0) => replaceFinish r2.2 bid phash off noff none false page0

/-- The copy loop inside the deletion loop of `cdb_updatepage`, from the
matching slot on: `if (i + 1 < page->num) page->items[i] = page->items[i+1]`
for the `n` slots that are left. -/
def shiftLeft : Nat → List PITEM → List PITEM
  | n + 2, _ :: b :: rest => b :: shiftLeft (n + 1) (b :: rest)
  | _, its => its

/-- The deletion loop of `cdb_updatepage` over the first `n` slots; the flag
tells whether an item with packed hash `phash` and offset `off` was found. -/
def deleteLoop (phash : PHASH) (off : FOFF) : Nat → List PITEM → List PITEM × Bool
  | 0, its => (its, false)
  | _ + 1, [] => ([], false)
  | n + 1, it :: its =>
      if PHASHEQ it.hash phash && OFFEQ it.off off then (shiftLeft (n + 1) (it :: its), true)
      else
        let r := deleteLoop phash off n its
        (it :: r.1, r.2)

/-- The search loop of the insert branch of `cdb_updatepage` over the first
`n` slots. -/
def insertFound (phash : PHASH) (off : FOFF) : Nat → List PITEM → Bool
  | 0, _ => false
  | _ + 1, [] => false
  | n + 1, it :: its =>
      if PHASHEQ it.hash phash && OFFEQ it.off off then true
      else insertFound phash off n its

/-- Which cache `tmpcache`/`tmpclock` of `cdb_updatepage` point to. -/
inductive TmpCache where
  | pcache
  | dpcache
deriving DecidableEq, Repr

/-- The content of array slots that were allocated but never written; no loop
reads a slot at or beyond `num`. -/
def fillerItem : PITEM := { off := OFFZERO, hash := { i2 := 0, i1 := 0 } }

/-- The two cache blocks that open `cdb_updatepage`: `pitem`, `tmpcache` and
the database after them. -/
def updateTake (db : CDB) (bid : Nat) :
    Option (CDBHTITEM Nat CDBPAGE) × Option TmpCache × CDB :=
  let r1 := pcTake db bid
  match r1.1 with
  | some it => (some it, some TmpCache.pcache, r1.2)
  | none =>
      let r2 := dpcTake r1.2 bid
      (r2.1, if r2.1.isSome then some TmpCache.dpcache else none, r2.2)

/-- The new, larger page that `cdb_updatepage` makes of a full page before an
insertion: `cap` grows by `CDB_PAGEINCR`, the first `num` items are copied. -/
def growPage (page0 : CDBPAGE) (bid oid now : Nat) : CDBPAGE :=
  { bid := bid, oid := oid, osize := page0.osize, ooff := page0.ooff, magic := now
    cap := page0.cap + CDB_PAGEINCR, num := page0.num
    items := page0.items.take page0.num
      ++ List.replicate (page0.cap + CDB_PAGEINCR - page0.num) fillerItem }

/-- The deletion and insertion branches of `cdb_updatepage` on the page at
hand: the page and the database after them.  `none`: the insertion writes a
slot outside the item array, or the bloom filter traps. -/
def updateApply (db : CDB) (hash : Nat) (off : FOFF) (opt : Nat) (page1 : CDBPAGE) :
    Option (CDBPAGE × CDB) :=
  let phash := mkPHASH hash
  if opt == CDB_PAGEDELETEOFF then
    let lp := deleteLoop phash off page1.num page1.items
    if lp.2 then
      some ({ page1 with items := lp.1, num := page1.num - 1 },
            { db with rnum := (db.rnum + U64 - 1) % U64 })
    else some ({ page1 with items := lp.1 }, db)
  else if opt == CDB_PAGEINSERTOFF then
    if insertFound phash off page1.num page1.items then some (page1, db)
    else if page1.num < page1.items.length then
      let db4 := { db with rnum := (db.rnum + 1) % U64 }
      let db5 : Option CDB := match db4.bf with
        | some bf =>
            (cdb_bf_set bf (leBytes SI8 (bfkeyUpdate db4.hsize hash))).map fun bf1 =>
              { db4 with bf := some bf1 }
        | none => some db4
      db5.map fun d =>
        ({ page1 with items := page1.items.set page1.num { off := off, hash := phash }
                      num := page1.num + 1 }, d)
    else none
  else some (page1, db)

/-- The last part of `cdb_updatepage`, from `uint32_t onum = page->num` on:
the update of the page at hand, its filing and the overflow check.  `pitem1`
is the cache item of the page (NULL for a page on the stack or the heap). -/
def updateFile (db3 : CDB) (bid hash : Nat) (off : FOFF) (opt : Nat)
    (pitem1 : Option (CDBHTITEM Nat CDBPAGE)) (tmpcache : Option TmpCache) (page1 : CDBPAGE) :
    Option (Int × CDB) :=
  let onum := page1.num
  match updateApply db3 hash off opt page1 with
  | none => none
  | some (page, db6) =>
      if page.num == onum then
        -- nothing done
        match pitem1 with
        | some it =>
            match tmpcache with
            | none => none
            | some TmpCache.pcache => (pcPut db6 { it with val := page }).map fun d => (-1, d)
            | some TmpCache.dpcache => (dpcPut db6 { it with val := page }).map fun d => (-1, d)
        | none => some (-1, db6)
      else
        let db7 : Option CDB := match pitem1 with
          | some it => dpcPut db6 { it with val := page }
          | none => writeBucketPage db6 bid page
        match db7 with
        | none => none
        | some db8 => (checkPageOverflow db8).map fun db9 => (0, db9)

/-- The second half of `cdb_updatepage`, from `npsize = MPAGESIZE(page)` on:
a full page gets a new, larger copy before an insertion, then the page is
updated and filed.  `pitem0` and `tmpcache` are what the cache blocks left,
`page0` is the page at hand. -/
def updateFinish (db2 : CDB) (bid hash : Nat) (off : FOFF) (opt now : Nat)
    (pitem0 : Option (CDBHTITEM Nat CDBPAGE)) (tmpcache : Option TmpCache) (page0 : CDBPAGE) :
    Option (Int × CDB) :=
  if opt == CDB_PAGEINSERTOFF && page0.cap == page0.num then
    let g := cdb_genoid db2
    let npsize := MPAGESIZE page0 + CDB_PAGEINCR * SIZEOF_PITEM
    let npage := growPage page0 bid g.1 now
    let nitem : Option (CDBHTITEM Nat CDBPAGE) :=
      if db2.dpcache.isSome then some (cdb_ht_newitem SI4 npsize bid npage) else none
    updateFile g.2 bid hash off opt nitem tmpcache npage
  else updateFile db2 bid hash off opt pitem0 tmpcache page0

/-- Function `cdb_updatepage`; `now` is the value of `time(NULL)` used for
`mtime`.  Returns the C return value and the database.  `none`: a NULL cache
or lock is used, `hsize` is 0, `mtable` is NULL, a slot outside the item
array is written, or the eviction does not return. -/
def cdb_updatepage (db : CDB) (hash : Nat) (off : FOFF) (opt : Nat) (now : Nat)
    (sbuf : CDBPAGE) : Option (Int × CDB) :=
  if db.hsize = 0 then none
  else
    let bid := (hash / 16777216) % db.hsize
    let r2 := updateTake db bid
    match r2.1 with
    | some it => updateFinish r2.2.2 bid hash off opt now (some it) r2.2.1 it.val
    | none =>
        match readBucketPage r2.2.2 bid sbuf with
        | none => none
        | some none => some (-1, r2.2.2)
        | some (some page0) => updateFinish r2.2.2 bid hash off opt now none r2.2.1 page0

/-! ## cdb_core.c: set, get, del

In these functions `ksize` and `vsize` are the lengths of the byte strings
`key` and `val`. -/

/-- The value of a record-cache item in disk mode, as `cdb_set2` and `cdb_get`
lay it out: `*(FOFF*)cval = ooff; *(uint32_t*)(cval + SFOFF) = expire;`
followed by the value bytes at `cval + SI4 + SFOFF`. -/
def packRCVal (ooff : FOFF) (expire : Nat) (val : Bytes) : Bytes :=
  leBytes 4 ooff.i4 ++ leBytes 2 ooff.i2 ++ leBytes 4 expire ++ val

/-- The read `*(FOFF*)cval`. -/
def rcOoff (cval : Bytes) : FOFF :=
  { i4 := leVal (cval.take 4), i2 := leVal ((cval.drop 4).take 2) }

/-- The read `*(uint32_t*)(cval + SFOFF)`. -/
def rcExpire (cval : Bytes) : Nat := leVal ((cval.drop 6).take 4)

/-- The candidate loop of `cdb_set2`, `cdb_del` and `cdb_get`: read the
record at each offset in turn, skip the offsets that cannot be read, stop at
the first record whose key is `key`
(`ksize == rrec->ksize && memcmp(rrec->key, key, ksize) == 0`). -/
def findRec (vio : VIOAPND2) (key : Bytes) (readval : Bool) : List FOFF → Option CDBREC
  | [] => none
  | o :: rest =>
      match _vio_apnd2_readrec vio o readval with
      | none => findRec vio key readval rest
      | some rrec =>
          if key.length == rrec.ksize && rrec.key == key then some rrec
          else findRec vio key readval rest

/-- The stored expire time `expire ? now + expire : 0` in `uint32_t`
arithmetic (`expire` is an `int`). -/
def expireAt (now : Nat) (expire : Int) : Nat :=
  if expire != 0 then (((now : Int) + expire) % 4294967296).toNat else 0

/-- The block `if (db->rcache) { cval = cdb_ht_get(db->rcache, key, ksize,
&item_vsize, false); ... }` of `cdb_set2`: the cached value of the key and its
size, if the record cache holds the key. -/
def setCached (db1 : CDB) (key : Bytes) : Option (Bytes × Nat) :=
  match db1.rcache with
  | some rc =>
      let r := cdb_ht_get MurmurHash1 rc key key.length false
      r.1.map fun cval => (cval, r.2.1)
  | none => none

/-- The block `if (OFFNULL(ooff)) { ... }` of `cdb_set2`: the old meta
information from the index and the data files.  Returns the record with
`ooff`/`osize` filled in, the flag `expired` and the database; the inner
`none` is the return value -1 of `cdb_getoff`. -/
def setPrior (db1 : CDB) (hash : Nat) (key : Bytes) (now : Nat) (rec1 : CDBREC)
    (expired1 : Bool) (sbuf : CDBPAGE) : Option (Option (CDBREC × Bool) × CDB) :=
  if OFFNULL rec1.ooff then
    match cdb_getoff db1 hash sbuf with
    | none => none
    | some (retnum, offs, db2) =>
        if retnum < 0 then some (none, db2)
        else
          match db2.vio with
          | none => none
          | some vio =>
              match findRec vio key false offs with
              | some rrec =>
                  some (some ({ rec1 with osize := rrec.osize, ooff := rrec.ooff },
                              expired1 || decide (rrec.expire <= now)), db2)
              | none => some (some (rec1, expired1), db2)
  else some (some (rec1, expired1), db1)

/-- The block `if (db->rcache) { if ((opt & CDB_INSERTCACHE) == CDB_INSERTCACHE)
{ ... cdb_ht_insert(db->rcache, item); } }` of `cdb_set2`: with
`CDB_INSERTCACHE` the record cache gets an item for the key that holds
`rec.ooff`, `rec.expire` and the value. -/
def setFill (db5 : CDB) (key val : Bytes) (opt : Nat) (rec3 : CDBREC) : CDB :=
  match db5.rcache with
  | some rc =>
      if Nat.land opt CDB_INSERTCACHE == CDB_INSERTCACHE then
        let item := cdb_ht_newitem key.length (val.length + SI4 + SFOFF) key
          (packRCVal rec3.ooff rec3.expire val)
        { db5 with rcache := some (cdb_ht_insert MurmurHash1 rc item) }
      else db5
  | none => db5

/-- The last part of `cdb_set2`, from `db->vio->wrec` on: the record is
written, the index is pointed to it, the record cache is filled if
`CDB_INSERTCACHE` is set, and the overflow of the record cache is checked. -/
def setStore (db2 : CDB) (hash : Nat) (key val : Bytes) (opt now : Nat) (rec2 : CDBREC)
    (sbuf : CDBPAGE) : Option (Int × CDB) :=
  match db2.vio with
  | none => none
  | some vio =>
      let w := _vio_apnd2_writerec db2 vio rec2
      let rec3 := w.1
      let noff := w.2.1
      let r4 : Option (Int × CDB) :=
        if OFFNOTNULL rec2.ooff then cdb_replaceoff w.2.2 hash rec2.ooff noff sbuf
        else cdb_updatepage w.2.2 hash noff CDB_PAGEINSERTOFF now sbuf
      match r4 with
      | none => none
      | some (_, db5) =>
          (checkRecOverflow (setFill db5 key val opt rec3)).map fun db7 =>
            (0, cdb_seterrno db7 CDB_SUCCESS)

/-- The part of `cdb_set2` that follows the lookup in the record cache: the
old meta information from the index and the data files, the tests of
`CDB_INSERTIFNOEXIST` and `CDB_INSERTIFEXIST`, and the store. -/
def setFinish (db1 : CDB) (hash : Nat) (key val : Bytes) (opt now : Nat) (rec1 : CDBREC)
    (expired1 : Bool) (sbuf : CDBPAGE) : Option (Int × CDB) :=
  match setPrior db1 hash key now rec1 expired1 sbuf with
  | none => none
  | some (none, db2) => some (-1, db2)
  | some (some (rec2, expired), db2) =>
      let ooff := rec2.ooff
      if (OFFNOTNULL ooff && !expired) && Nat.land opt CDB_INSERTIFNOEXIST != 0 then
        some (-2, cdb_seterrno db2 CDB_EXIST)
      else if !(OFFNOTNULL ooff && !expired) && Nat.land opt CDB_INSERTIFEXIST != 0 then
        some (-3, cdb_seterrno db2 CDB_NOTFOUND)
      else setStore db2 hash key val opt now rec2 sbuf

/-- Function `cdb_set2`.  Returns the C return value and the database. -/
def cdb_set2 (crc : Bytes → Nat) (db : CDB) (key val : Bytes) (opt : Nat) (expire : Int)
    (now : Nat) (sbuf : CDBPAGE) : Option (Int × CDB) :=
  let ksize := key.length
  let vsize := val.length
  match db.vio with
  | none =>
      -- memdb: operate on the record cache and return
      match db.rcache with
      | none => none
      | some rc =>
          let rc1 := cdb_ht_insert2 MurmurHash1 rc key ksize val vsize
          (checkRecOverflow { db with rcache := some rc1 }).map fun d => (0, d)
  | some _ =>
      let hash := crc key
      let g := cdb_genoid db
      let rec0 : CDBREC :=
        { ooff := OFFZERO, osize := 0, key := key, val := val, magic := 0
          ksize := ksize, vsize := vsize, oid := g.1, expire := expireAt now expire }
      let db1 := g.2
      -- old meta info from the record cache
      let c := setCached db1 key
      let rec1 : CDBREC := match c with
        | some (cval, item_vsize) =>
            { rec0 with ooff := rcOoff cval, osize := item_vsize - SFOFF - SI4 }
        | none => rec0
      let old_expire : Nat := match c with
        | some (cval, _) => rcExpire cval
        | none => 0
      let expired1 : Bool := old_expire != 0 && old_expire <= now
      setFinish db1 hash key val opt now rec1 expired1 sbuf

/-- The second half of `cdb_get`, from `hash = CDBHASH64(key, ksize)` on: the
record is looked up through the index and, if found and not expired, copied
out and put into the record cache. -/
def getIndexed (crc : Bytes → Nat) (db1 : CDB) (key : Bytes) (now : Nat) (sbuf : CDBPAGE) :
    Option (Int × Option Bytes × Nat × CDB) :=
  let hash := crc key
  match cdb_getoff db1 hash sbuf with
  | none => none
  | some (dupnum, offs, db2) =>
      if dupnum < 0 then some (-1, none, 0, db2)
      else
        match db2.vio with
        | none => none
        | some vio =>
            let hit : Option CDBREC := match findRec vio key true offs with
              | some rec => if rec.expire != 0 && rec.expire <= now then none else some rec
              | none => none
            match hit with
            | some rec =>
                let v := rec.val.take rec.vsize
                let db3 := match db2.rcache with
                  | some rc =>
                      let item := cdb_ht_newitem key.length (rec.vsize + SI4 + SFOFF) key
                        (packRCVal rec.ooff rec.expire v)
                      { db2 with rcache := some (cdb_ht_insert MurmurHash1 rc item) }
                  | none => db2
                (checkRecOverflow db3).map fun db4 =>
                  (0, some v, rec.vsize, cdb_seterrno db4 CDB_SUCCESS)
            | none =>
                (checkRecOverflow db2).map fun db4 =>
                  (-3, none, 0, cdb_seterrno db4 CDB_NOTFOUND)

/-- Function `cdb_get`.  Returns the C return value, `*val` (`none` is NULL),
`*vsize` and the database. -/
def cdb_get (crc : Bytes → Nat) (db : CDB) (key : Bytes) (now : Nat) (sbuf : CDBPAGE) :
    Option (Int × Option Bytes × Nat × CDB) :=
  let ksize := key.length
  let c : Option (Bytes × Nat) × CDB := match db.rcache with
    | some rc =>
        let r := cdb_ht_get MurmurHash1 rc key ksize true
        (r.1.map fun cval => (cval, r.2.1), { db with rcache := some r.2.2 })
    | none => (none, db)
  let db1 := c.2
  match c.1 with
  | some (cval, item_vsize) =>
      match db1.vio with
      | some _ =>
          let vs := item_vsize - (SI4 + SFOFF)
          if rcExpire cval != 0 && rcExpire cval <= now then some (-3, none, vs, db1)
          else some (0, some ((cval.drop (SI4 + SFOFF)).take vs), vs, db1)
      | none => some (0, some (cval.take item_vsize), item_vsize, db1)
  | none =>
      if db1.rcache.isSome && db1.vio.isNone then some (-3, none, 0, db1)
      else getIndexed crc db1 key now sbuf

/-- Function `cdb_del`.  Returns the C return value and the database. -/
def cdb_del (crc : Bytes → Nat) (db : CDB) (key : Bytes) (now : Nat) (sbuf : CDBPAGE) :
    Option (Int × CDB) :=
  let ksize := key.length
  match db.vio with
  | none =>
      match db.rcache with
      | none => none
      | some rc =>
          let rc1 := (cdb_ht_del2 MurmurHash1 rc key ksize).2
          (checkRecOverflow { db with rcache := some rc1 }).map fun d => (0, d)
  | some _ =>
      let hash := crc key
      let c : Option (CDBHTITEM Bytes Bytes) × CDB := match db.rcache with
        | some rc =>
            let r := cdb_ht_del MurmurHash1 rc key ksize
            (r.1, { db with rcache := some r.2 })
        | none => (none, db)
      let db1 := c.2
      let ooff1 : FOFF := match c.1 with
        | some item => rcOoff item.val
        | none => OFFZERO
      let r2 : Option (Option FOFF × CDB) :=
        if OFFNULL ooff1 then
          match cdb_getoff db1 hash sbuf with
          | none => none
          | some (retnum, offs, db2) =>
              if retnum < 0 then some (none, db2)
              else
                match db2.vio with
                | none => none
                | some vio =>
                    match findRec vio key false offs with
                    | some rrec => some (some rrec.ooff, db2)
                    | none => some (some ooff1, db2)
        else some (some ooff1, db1)
      match r2 with
      | none => none
      | some (none, db2) => some (-1, db2)
      | some (some ooff, db2) =>
          if OFFNOTNULL ooff then
            match cdb_updatepage db2 hash ooff CDB_PAGEDELETEOFF now sbuf with
            | none => none
            | some (_, db3) =>
                match db3.vio with
                | none => none
                | some vio =>
                    some (0, cdb_seterrno (_vio_apnd2_deleterec db3 vio ooff) CDB_SUCCESS)
          else some (-3, cdb_seterrno db2 CDB_NOTFOUND)

/-! ## cdb_core.c: creating and opening a database -/

/-- Function `_cdb_defparam` applied by `cdb_new`: the default parameters. -/
def _cdb_defparam : CDB :=
  { rclimit := 128 * MB, pclimit := 1024 * MB, bfsize := 0, rnum := 0, oid := 0, roid := 0
    hsize := 1000000, areadsize := 4 * KB, rcache := none, pcache := none, dpcache := none
    bf := none, mtable := none, vio := none, errno := 0 }

/-- Function `cdb_option`. -/
def cdb_option (db : CDB) (bnum rcacheMB pcacheMB : Int) : Int × CDB :=
  let db1 := { db with hsize := if bnum > 4096 then bnum.toNat else 4096 }
  let db2 := if rcacheMB >= 0 then { db1 with rclimit := rcacheMB.toNat * MB } else db1
  let db3 := if pcacheMB >= 0 then { db2 with pclimit := pcacheMB.toNat * MB } else db2
  (0, db3)

/-- Function `cdb_option_bloomfilter`. -/
def cdb_option_bloomfilter (db : CDB) (size : Nat) : CDB := { db with bfsize := size }

/-- The storage object right after `_vio_apnd2_open` has created a new
database: both segment files are number 0 and their first free position is
behind the 64-byte file header. -/
def vioNew : VIOAPND2 :=
  { recs := [], pages := [], dnext := FILEMETASIZE / 16, inext := FILEMETASIZE / 16
    dlimit := IOBUFSIZE, delbuf := [] }

/-- Function `cdb_open` on the path `CDB_MEMDB` (`memdb = true`) or on an
empty directory with `CDB_CREAT`.  Returns the C return value and the
database; `none`: the division in `cdb_bf_new` traps. -/
def cdb_open (db : CDB) (memdb : Bool) : Option (Int × CDB) :=
  if db.rclimit = 0 && memdb then some (-1, _cdb_defparam)
  else
    let db1 := if db.rclimit != 0 then { db with rcache := some (cdb_ht_new true) } else db
    let db2 :=
      if db1.pclimit != 0 && !memdb then
        { db1 with dpcache := some (cdb_ht_new true), pcache := some (cdb_ht_new true) }
      else db1
    if memdb then some (0, { db2 with vio := none, mtable := none })
    else if db2.bfsize != 0 then
      match cdb_bf_new db2.bfsize db2.bfsize with
      | none => none
      | some bf => some (0, { db2 with bf := some bf, vio := some vioNew, mtable := some [] })
    else some (0, { db2 with vio := some vioNew, mtable := some [] })

/-! ## Specification vocabulary -/

/-- What the index functions look at in a page: `num` and the first `num`
items. -/
def CDBPAGE.view (p : CDBPAGE) : Nat × List PITEM := (p.num, p.items.take p.num)

/-- The items of a cache that may be absent (a NULL table has none). -/
def cacheItems {K V : Type} (c : Option (CDBHASHTABLE K V)) : List (CDBHTITEM K V) :=
  match c with
  | some t => t.items
  | none => []

/-- The first item stored under bucket id `bid`. -/
def pcFind (items : List (CDBHTITEM Nat CDBPAGE)) (bid : Nat) :
    Option (CDBHTITEM Nat CDBPAGE) :=
  items.find? (fun it => it.key == bid)

/-- The page item of a page cache is filed under its bucket id:
`hash` is `_pagehash` of the key and the key is 4 bytes long. -/
def PcItemOK (it : CDBHTITEM Nat CDBPAGE) : Prop :=
  it.hash = it.key ∧ it.ksize = SI4


/-- Sum of the bytes that the items of a table account for. -/
def htItemsBytes {K V : Type} (ht : CDBHASHTABLE K V) : Nat :=
  (ht.items.map (htItemBytes ht.lru)).sum

/-- Bytes of a table that do not belong to an item: the table structure and
the second-level arrays. -/
def htOverhead {K V : Type} (ht : CDBHASHTABLE K V) : Nat := ht.size - htItemsBytes ht

/-- Bookkeeping of an LRU table: `num` counts the items and `size` covers
their bytes. -/
def HtOK {K V : Type} (ht : CDBHASHTABLE K V) : Prop :=
  ht.lru = true ∧ ht.num = ht.items.length ∧ htItemsBytes ht ≤ ht.size

/-- Largest number of slots a second-level array of the table has (at least
the initial 2). -/
def htMaxBnum {K V : Type} (ht : CDBHASHTABLE K V) : Nat :=
  (ht.buckets.map (·.bnum)).foldl max 2

/-- Upper bound on the bytes by which one insertion can enlarge a
second-level array: the array grows four-fold at most. -/
def htGrowth {K V : Type} (ht : CDBHASHTABLE K V) : Nat := 3 * SIZEOF_PTR * htMaxBnum ht

/-- The page that `_vio_apnd2_readpage` delivers for bucket `bid` through
`mtable[bid]`, as a view; a null entry is the empty bucket, `none` a failed
read. -/
def diskView (db : CDB) (bid : Nat) : Option (Nat × List PITEM) :=
  match db.mtable, db.vio with
  | some mt, some vio =>
      if OFFNOTNULL (mtGet mt bid) then
        (_vio_apnd2_readpage vio (mtGet mt bid)).map CDBPAGE.view
      else some (0, [])
  | _, _ => none

/-- The current index page of bucket `bid`, as a view: the page in the clean
page cache, else the one in the dirty page cache, else the one `mtable[bid]`
points to.  This is the lookup order of `cdb_getoff`, `cdb_replaceoff` and
`cdb_updatepage`. -/
def curView (db : CDB) (bid : Nat) : Option (Nat × List PITEM) :=
  match pcFind (cacheItems db.pcache) bid with
  | some it => some it.val.view
  | none =>
      match pcFind (cacheItems db.dpcache) bid with
      | some it => some it.val.view
      | none => diskView db bid

/-- The index store is sound: every page image lies below the next write
position, carries the page magic and has its `num` items; every non-null
entry of the main table points to a page image. -/
def StoreOK (vio : VIOAPND2) (mt : MTable) : Prop :=
  0 < vio.inext
  ∧ (∀ e ∈ vio.pages, (∃ n, n < vio.inext ∧ e.1 = natFOFF n)
        ∧ e.2.magic = PAGEMAGIC ∧ e.2.num ≤ e.2.items.length)
  ∧ (∀ e ∈ mt, OFFNOTNULL e.2 = true → ∃ img, storeAt e.2 vio.pages = some img)

/-- A cached page is filed under a bucket id below `hsize` and has its `num`
items. -/
def PcEntryOK (hsize : Nat) (it : CDBHTITEM Nat CDBPAGE) : Prop :=
  PcItemOK it ∧ it.key < hsize ∧ it.val.num ≤ it.val.items.length

/-- The invariant of the index of a database in disk mode.  The two page
caches exist together, file every page once under its bucket id, and keep
their books; a bucket is never in both caches; a page in the clean cache
shows what the main table and the index store hold for its bucket.  A bloom
filter, if there is one, has at least 64 bytes or no hash function, so that
its probes take no remainder by zero. -/
structure PageInv (db : CDB) : Prop where
  hsize_pos : 0 < db.hsize
  both : db.pcache.isSome = db.dpcache.isSome
  pc_ok : ∀ it ∈ cacheItems db.pcache, PcEntryOK db.hsize it
  dpc_ok : ∀ it ∈ cacheItems db.dpcache, PcEntryOK db.hsize it
  pc_nodup : ((cacheItems db.pcache).map (·.key)).Nodup
  dpc_nodup : ((cacheItems db.dpcache).map (·.key)).Nodup
  disj : ∀ it ∈ cacheItems db.pcache, pcFind (cacheItems db.dpcache) it.key = none
  coh : ∀ it ∈ cacheItems db.pcache, diskView db it.key = some it.val.view
  pc_book : ∀ pc, db.pcache = some pc → HtOK pc
  dpc_book : ∀ dpc, db.dpcache = some dpc → HtOK dpc
  store : ∃ vio mt, db.vio = some vio ∧ db.mtable = some mt ∧ StoreOK vio mt
  bf_ok : ∀ bf, db.bf = some bf → bfTraps bf = false

/-- The part of the storage object that the index functions leave alone. -/
def vioData (vio : VIOAPND2) : List (FOFF × CDBREC) × Nat × Nat × List FOFF :=
  (vio.recs, vio.dnext, vio.dlimit, vio.delbuf)

/-- The part of the database that eviction of index pages leaves alone. -/
def dataOf (db : CDB) :=
  (db.rcache, db.rnum, db.bf, db.hsize, db.rclimit, db.pclimit, db.errno, db.vio.map vioData)

/-- The offsets of the items of a page view whose packed hash is `phash`, in
page order. -/
def candOffs (phash : PHASH) (live : List PITEM) : List FOFF :=
  (live.filter (fun it => PHASHEQ it.hash phash)).map (·.off)

/-- The bucket of a key hash, `(hash >> 24) % db->hsize`. -/
def bucketOf (db : CDB) (hash : Nat) : Nat := (hash / 16777216) % db.hsize

/-- The bloom filter of the database rejects the key hash: the probe that
opens `cdb_getoff`. -/
def bloomMiss (db : CDB) (hash : Nat) : Bool :=
  match db.bf with
  | some bf => !bfAllOn bf (leBytes SI8 (bfkeyGetoff (bucketOf db hash) hash))
  | none => false

/-- What `cdb_getoff` is to return for a key hash: nothing when the bloom
filter rejects it, else the matching offsets of the current page of the
bucket. -/
def getoffSpec (db : CDB) (hash : Nat) : Option (List FOFF) :=
  if bloomMiss db hash then some []
  else (curView db (bucketOf db hash)).map fun v => candOffs (mkPHASH hash) v.2

/-- The empty page caches leave room under the limit even after one more
second-level array of the clean cache has grown. -/
def PFit (db : CDB) : Prop :=
  ∀ pc dpc, db.pcache = some pc → db.dpcache = some dpc →
    htOverhead pc + htGrowth pc + htOverhead dpc ≤ db.pclimit

/-- Everything in the database object but the two page caches. -/
def restOf (db : CDB) :=
  (db.rclimit, db.pclimit, db.bfsize, db.rnum, db.oid, db.roid, db.hsize, db.areadsize,
    db.rcache, db.bf, db.mtable, db.vio, db.errno)

/-- The test of the loops of `cdb_replaceoff` and `cdb_updatepage`:
`PHASHEQ(item.hash, phash) && OFFEQ(item.off, off)`. -/
def itemIs (phash : PHASH) (off : FOFF) (it : PITEM) : Bool :=
  PHASHEQ it.hash phash && OFFEQ it.off off

/-- The first item that is `(phash, off)` gets offset `noff`. -/
def replFirst (phash : PHASH) (off noff : FOFF) : List PITEM → List PITEM
  | [] => []
  | it :: its =>
      if itemIs phash off it then { it with off := noff } :: its
      else it :: replFirst phash off noff its

/-- Whether an update of a page view changes it: a deletion when the item is
there, an insertion when it is not. -/
def updChanges (phash : PHASH) (off : FOFF) (opt : Nat) (v : Nat × List PITEM) : Bool :=
  (opt == CDB_PAGEDELETEOFF && v.2.any (itemIs phash off))
    || (opt != CDB_PAGEDELETEOFF && opt == CDB_PAGEINSERTOFF && !v.2.any (itemIs phash off))

/-- What an update makes of a page view: a deletion takes the first item that
is `(phash, off)` out, an insertion appends the item unless it is there. -/
def updView (phash : PHASH) (off : FOFF) (opt : Nat) (v : Nat × List PITEM) :
    Nat × List PITEM :=
  if updChanges phash off opt v then
    if opt == CDB_PAGEDELETEOFF then (v.1 - 1, v.2.eraseP (itemIs phash off))
    else (v.1 + 1, v.2 ++ [{ off := off, hash := phash }])
  else v

/-- The record count after an update of a page view. -/
def updRnum (phash : PHASH) (off : FOFF) (opt : Nat) (v : Nat × List PITEM) (rnum : Nat) : Nat :=
  if updChanges phash off opt v then
    if opt == CDB_PAGEDELETEOFF then (rnum + U64 - 1) % U64 else (rnum + 1) % U64
  else rnum

/-- The bloom filter after an update of a page view. -/
def updBf (db : CDB) (hash : Nat) (off : FOFF) (opt : Nat) (v : Nat × List PITEM) :
    Option CDBBLOOMFILTER :=
  if updChanges (mkPHASH hash) off opt v && opt != CDB_PAGEDELETEOFF then
    db.bf.map fun bf => bfSetBits bf (leBytes SI8 (bfkeyUpdate db.hsize hash))
  else db.bf

/-- The part of the database that the index functions leave alone. -/
def kvOf (db : CDB) :=
  (db.rcache, db.hsize, db.rclimit, db.pclimit, db.errno, db.vio.map vioData)

/-- A call of one of the functions that change the index. -/
inductive IndexCall where
  | insert (hash : Nat) (off : FOFF) (now : Nat) (sbuf : CDBPAGE)
  | delete (hash : Nat) (off : FOFF) (now : Nat) (sbuf : CDBPAGE)
  | replace (hash : Nat) (off noff : FOFF) (sbuf : CDBPAGE)

/-- The database after one call; `none` when the call does not return. -/
def runCall (db : CDB) : IndexCall → Option CDB
  | .insert hash off now sbuf =>
      (cdb_updatepage db hash off CDB_PAGEINSERTOFF now sbuf).map (·.2)
  | .delete hash off now sbuf =>
      (cdb_updatepage db hash off CDB_PAGEDELETEOFF now sbuf).map (·.2)
  | .replace hash off noff sbuf => (cdb_replaceoff db hash off noff sbuf).map (·.2)

/-- The database after a sequence of calls. -/
def runCalls : CDB → List IndexCall → Option CDB
  | db, [] => some db
  | db, c :: cs =>
      match runCall db c with
      | none => none
      | some d => runCalls d cs

/-- The field `num` of the current index page of a bucket. -/
def pageNum (db : CDB) (b : Nat) : Nat :=
  match curView db b with
  | some v => v.1
  | none => 0

/-- The sum of `num` over the current index pages of all buckets. -/
def indexNumSum (db : CDB) : Nat := ((List.range db.hsize).map (pageNum db)).sum

/-- A database opened on an empty directory with the smallest bucket table
and 1 MiB for each cache. -/
def freshDB : CDB :=
  ((cdb_open (cdb_option _cdb_defparam 4096 1 1).2 false).map (·.2)).getD _cdb_defparam

/-- A short run on `freshDB`: two insertions into one bucket, a deletion, a
replacement and a repeated insertion. -/
def countRunCalls : List IndexCall :=
  [ .insert 50332161 { i4 := 0, i2 := 4 } 100 (emptyPage { ooff := OFFZERO, osize := 0, cap := 0, magic := 0, bid := 0, num := 0, oid := 0, items := [] }),
    .insert 50332162 { i4 := 0, i2 := 6 } 100 (emptyPage { ooff := OFFZERO, osize := 0, cap := 0, magic := 0, bid := 0, num := 0, oid := 0, items := [] }),
    .delete 50332161 { i4 := 0, i2 := 4 } 100 (emptyPage { ooff := OFFZERO, osize := 0, cap := 0, magic := 0, bid := 0, num := 0, oid := 0, items := [] }),
    .replace 50332162 { i4 := 0, i2 := 6 } { i4 := 0, i2 := 8 } (emptyPage { ooff := OFFZERO, osize := 0, cap := 0, magic := 0, bid := 0, num := 0, oid := 0, items := [] }),
    .insert 50332162 { i4 := 0, i2 := 8 } 100 (emptyPage { ooff := OFFZERO, osize := 0, cap := 0, magic := 0, bid := 0, num := 0, oid := 0, items := [] }) ]

/-- The database after `countRunCalls`. -/
def countRunEnd : CDB := (runCalls freshDB countRunCalls).getD freshDB

/-! ## Concrete runs

`cdb_crc64` enters `cdb_set2`, `cdb_get` and `cdb_del` only as the hash of
the key.  The runs below use a single key and give it the hash
`3 * 2^24 + 513`, which is bucket 3 of a table of 4096 buckets. -/

/-- The hash function of the runs: every key hashes to `3 * 2^24 + 513`. -/
def runCrc : Bytes → Nat := fun _ => 50332161

/-- The stack buffer `sbuf` of the runs: zeroes, except that the bytes of
the field `bid` hold 7. -/
def runSbuf : CDBPAGE :=
  { ooff := OFFZERO, osize := 0, cap := 0, magic := 0, bid := 7, num := 0, oid := 0, items := [] }

/-- The database a call leaves behind (`freshDB` if the call does not
return). -/
def dbAfter (o : Option (Int × CDB)) : CDB := (o.map (·.2)).getD freshDB

/-- Run 1, step 1: `cdb_set2(k, [11], CDB_INSERTCACHE, 0)` at time 100 on a
freshly opened database, with `k = [107]`. -/
def run1Set1 : Option (Int × CDB) := cdb_set2 runCrc freshDB [107] [11] CDB_INSERTCACHE 0 100 runSbuf
/-- Run 1, step 2: `cdb_set2(k, [22], CDB_OVERWRITE, 0)`. -/
def run1Set2 : Option (Int × CDB) :=
  cdb_set2 runCrc (dbAfter run1Set1) [107] [22] CDB_OVERWRITE 0 100 runSbuf
/-- Run 1, step 3: `cdb_del(k)`. -/
def run1Del : Option (Int × CDB) := cdb_del runCrc (dbAfter run1Set2) [107] 100 runSbuf
/-- Run 1, step 4: `cdb_get(k)`. -/
def run1Get : Option (Int × Option Bytes × Nat × CDB) :=
  cdb_get runCrc (dbAfter run1Del) [107] 100 runSbuf

/-- Run 2, step 1: `cdb_set2(k, [11], CDB_OVERWRITE, 0)` at time 100 on a
freshly opened database, with `k = [107]`; the record cache is not filled. -/
def run2Set1 : Option (Int × CDB) := cdb_set2 runCrc freshDB [107] [11] CDB_OVERWRITE 0 100 runSbuf
/-- Run 2, step 2: `cdb_set2(k, [22], CDB_INSERTIFNOEXIST, 0)`. -/
def run2SetNoExist : Option (Int × CDB) :=
  cdb_set2 runCrc (dbAfter run2Set1) [107] [22] CDB_INSERTIFNOEXIST 0 100 runSbuf
/-- Run 2, step 3: `cdb_get(k)`. -/
def run2Get : Option (Int × Option Bytes × Nat × CDB) :=
  cdb_get runCrc (dbAfter run2SetNoExist) [107] 100 runSbuf

/-- Run 3, step 2 (step 1 is `run2Set1`):
`cdb_set2(k, [22], CDB_INSERTIFEXIST, 0)`. -/
def run3SetExist : Option (Int × CDB) :=
  cdb_set2 runCrc (dbAfter run2Set1) [107] [22] CDB_INSERTIFEXIST 0 100 runSbuf
/-- Run 3, step 3: `cdb_get(k)`. -/
def run3Get : Option (Int × Option Bytes × Nat × CDB) :=
  cdb_get runCrc (dbAfter run3SetExist) [107] 100 runSbuf

/-- Run 4: `cdb_replaceoff` for a key hash of bucket 3 on a freshly opened
database, in which bucket 3 has no page yet. -/
def run4Replace : Option (Int × CDB) :=
  cdb_replaceoff freshDB 50332161 { i4 := 0, i2 := 4 } { i4 := 0, i2 := 6 } runSbuf

/-- The `bid` fields of the pages filed in the dirty page cache, with the
bucket ids they are filed under. -/
def dirtyBids (db : CDB) : List (Nat × Nat) :=
  (cacheItems db.dpcache).map fun it => (it.key, it.val.bid)

/-- The record-cache item that the lookups of `cdb_set2`, `cdb_get` and
`cdb_del` find for a key. -/
def rcFind (db : CDB) (key : Bytes) : Option (CDBHTITEM Bytes Bytes) :=
  (htUnlink (MurmurHash1 key) key.length key (cacheItems db.rcache)).1

/-- The record that the index leads to for a key: the first record with
that key among the records at the offsets `cdb_getoff` is to return. -/
def indexedRec (crc : Bytes → Nat) (db : CDB) (key : Bytes) : Option CDBREC :=
  match getoffSpec db (crc key), db.vio with
  | some offs, some vio => findRec vio key true offs
  | _, _ => none

/-- The record cache keeps its books and its own overhead leaves room under
the limit even after one more second-level array has grown, so that
`_cdb_recout` comes to an end. -/
def RFit (db : CDB) : Prop :=
  ∀ rc, db.rcache = some rc → HtOK rc ∧ htOverhead rc + htGrowth rc ≤ db.rclimit

/-- Run 5: `cdb_set2(k, [11], CDB_INSERTCACHE, 5)` at time 100 on a freshly
opened database, with `k = [107]`; the stored expire time is 105 and the
record cache holds the record. -/
def run5Set : Option (Int × CDB) := cdb_set2 runCrc freshDB [107] [11] CDB_INSERTCACHE 5 100 runSbuf

/-- A database opened in memory mode (path `:memory:`) with 1 MiB for the
record cache. -/
def freshMemDB : CDB :=
  ((cdb_open (cdb_option _cdb_defparam 4096 1 1).2 true).map (·.2)).getD _cdb_defparam

/-- The record cache has room for one more item with a key of `ksize` and a
value of `vsize` bytes: even after a second-level array has grown, the table
with the new item alone stays within the limit, so `_cdb_recout` stops before
it reaches the new item. -/
def RcRoom (db : CDB) (ksize vsize : Nat) : Prop :=
  ∀ rc, db.rcache = some rc →
    htOverhead rc + htGrowth rc + (SIZEOF_CDBHTITEM + ksize + vsize + 2 * SIZEOF_PTR) ≤ db.rclimit

/-- The books of the record cache are in order. -/
def RcOK (db : CDB) : Prop := ∀ rc, db.rcache = some rc → HtOK rc

/-- No data record lies at the null offset. -/
def DataOK (db : CDB) : Prop :=
  ∀ vio, db.vio = some vio → ∀ e ∈ vio.recs, OFFNOTNULL e.1 = true

/-- The first occurrence of offset `o` in a list of offsets becomes `n`. -/
def substFirst (o n : FOFF) : List FOFF → List FOFF
  | [] => []
  | x :: xs => if OFFEQ x o then n :: xs else x :: substFirst o n xs

/-- The test of the candidate loops on one offset: the record there can be
read and has the key. -/
def recHit (vio : VIOAPND2) (key : Bytes) (rv : Bool) (o : FOFF) : Bool :=
  match _vio_apnd2_readrec vio o rv with
  | some r => key.length == r.ksize && r.key == key
  | none => false

/-- The bloom filter does not reject a key hash for which the page of the
bucket holds an item. -/
def BloomSound (db : CDB) (hash : Nat) : Prop :=
  bloomMiss db hash = true →
    ∀ v, curView db (bucketOf db hash) = some v → candOffs (mkPHASH hash) v.2 = []


/-- A value of 1 MiB: with its item header it is larger than the whole
record cache of `freshMemDB`. -/
def bigVal : Bytes := List.replicate 1048576 0

/-- Run 6: `cdb_set2(k, [11], CDB_OVERWRITE, 0)` on a database freshly opened
in memory mode, with `k = [107]`. -/
def run6Set1 : Option (Int × CDB) :=
  cdb_set2 runCrc freshMemDB [107] [11] CDB_OVERWRITE 0 100 runSbuf

/-- The database after a call on the memory database, `freshMemDB` if the
call did not return. -/
def memAfter (o : Option (Int × CDB)) : CDB := (o.map (·.2)).getD freshMemDB

/-- Run 7: after run 2 has stored `[11]` for `k` without putting it into the
record cache, `cdb_set2(k, [22], CDB_OVERWRITE, 0)`. -/
def run7Set2 : Option (Int × CDB) :=
  cdb_set2 runCrc (dbAfter run2Set1) [107] [22] CDB_OVERWRITE 0 100 runSbuf


/-- Function `cdb_option_areadsize`; `size` is a `uint32_t`. -/
def cdb_option_areadsize (db : CDB) (size : Nat) : CDB :=
  let db1 := { db with areadsize := size }
  let db2 := if db1.areadsize < 1 * KB then { db1 with areadsize := 1 * KB } else db1
  if db2.areadsize > SBUFSIZE - (SIZEOF_CDBREC - RECHSIZE) then
    { db2 with areadsize := SBUFSIZE - (SIZEOF_CDBREC - RECHSIZE) }
  else db2


/-- A sequence of `cdb_bf_set` calls, one for each key; `none`: a call
traps. -/
def bfSetKeys : CDBBLOOMFILTER → List Bytes → Option CDBBLOOMFILTER
  | bf, [] => some bf
  | bf, k :: ks =>
      match cdb_bf_set bf k with
      | none => none
      | some bf1 => bfSetKeys bf1 ks


/-- A disk database opened on an empty directory like `freshDB`, with the
bloom filter enabled by `cdb_option_bloomfilter(db, 100000)`. -/
def bloomDB : CDB :=
  ((cdb_open (cdb_option_bloomfilter (cdb_option _cdb_defparam 4096 1 1).2 100000) false).map
    (·.2)).getD _cdb_defparam

/-- A key hash whose bucket is 256 when `hsize` is 4096:
`256 * 2^24 + 1`. -/
def bloomCrc : Bytes → Nat := fun _ => 4294967297

/-- The database after a call on `bloomDB`, `bloomDB` if the call did not
return. -/
def bloomAfter (o : Option (Int × CDB)) : CDB := (o.map (·.2)).getD bloomDB

/-- Run 9: `cdb_set2(k, [11], CDB_OVERWRITE, 0)` on `bloomDB`, with `k = [107]`
and key hash `256 * 2^24 + 1`. -/
def run9Set : Option (Int × CDB) :=
  cdb_set2 bloomCrc bloomDB [107] [11] CDB_OVERWRITE 0 100 runSbuf

/-- Run 9, next call: `cdb_get(k)`. -/
def run9Get : Option (Int × Option Bytes × Nat × CDB) :=
  cdb_get bloomCrc (bloomAfter run9Set) [107] 100 runSbuf


/-- Run 8: after run 2 has put the item of `k` with the offset of its record
into the page of bucket 3, `cdb_replaceoff` is called for the hash of `k` with
an old offset that no item of the page has. -/
def run8Replace : Option (Int × CDB) :=
  cdb_replaceoff (dbAfter run2Set1) 50332161 (natFOFF 999) (natFOFF 1000) runSbuf


/-- The loop `while (db->dpcache->num) { item = cdb_ht_poptail(db->dpcache);
... wpage ...; db->mtable[bid] = off; free(item); }` of `cdb_flushalldpage`,
at most `fuel` rounds.  `none`: `cdb_ht_poptail` returns NULL, the write goes
through a NULL pointer or beyond the `hsize` entries of `mtable`, or the fuel
runs out. -/
def flushLoop : Nat → CDB → Option CDB
  | fuel, db =>
      match db.dpcache with
      | none => none
      | some dpc =>
          if dpc.num != 0 then
            match fuel with
            | 0 => none
            | fuel1 + 1 =>
                match cdb_ht_poptail dpc with
                | (none, _) => none
                | (some item, dpc1) =>
                    if item.key < db.hsize then
                      match writeBucketPage { db with dpcache := some dpc1 } item.key item.val with
                      | some db2 => flushLoop fuel1 db2
                      | none => none
                    else none
          else some db

/-- Function `cdb_flushalldpage`: every dirty page is written out and
dropped, then `roid = oid`.  The call `db->vio->cleanpoint` flushes the write
buffers and starts a new deletion log file; it leaves the store of the model
as it is.  Every round removes one item, so `dpcache->num` rounds are
enough. -/
def cdb_flushalldpage (db : CDB) : Option CDB :=
  match db.dpcache with
  | none => some db
  | some dpc => (flushLoop dpc.num db).map fun d => { d with roid := d.oid }

/-- Run 10: after run 2 has put the item of `k` into the page of bucket 3,
`cdb_flushalldpage` writes the page out. -/
def run10Flush : Option CDB := cdb_flushalldpage (dbAfter run2Set1)

/-- Run 10, next call: `cdb_updatepage` is asked to insert the item that the
page of bucket 3 holds, `(hash of k, offset number 4)`. -/
def run10Insert : Option (Int × CDB) :=
  run10Flush.bind fun d => cdb_updatepage d 50332161 (natFOFF 4) CDB_PAGEINSERTOFF 100 runSbuf


/-- The array that `*offs` points to in `cdb_getoff`: `cap` entries, of which
the first `elems.length` have been written.  It starts as the caller's array
of `SFOFFNUM` entries. -/
structure OffArr where
  cap : Nat
  elems : List FOFF
deriving DecidableEq, Repr

/-- The collecting loop of `cdb_getoff` with its array, from slot `i` on
(`its` are the items from slot `i`): a matching offset is written to
`(*offs)[rnum]`, and when `++rnum == SFOFFNUM` the array moves to the heap,
`malloc((page->num - i + SFOFFNUM + 1) * sizeof(FOFF))`, with the first
`SFOFFNUM` entries copied.  `none`: an entry outside the array is written. -/
def getoffFill (phash : PHASH) (num : Nat) : Nat → List PITEM → OffArr → Option OffArr
  | _, [], arr => some arr
  | i, it :: rest, arr =>
      if i < num then
        if PHASHEQ it.hash phash then
          if arr.elems.length < arr.cap then
            let elems1 := arr.elems ++ [it.off]
            if elems1.length == SFOFFNUM then
              getoffFill phash num (i + 1) rest
                { cap := num - i + SFOFFNUM + 1, elems := elems1.take SFOFFNUM }
            else getoffFill phash num (i + 1) rest { arr with elems := elems1 }
          else none
        else getoffFill phash num (i + 1) rest arr
      else some arr


/-! ## cdb_hashtable.c, with its chains

The second model of the table keeps what the first one leaves out: every
first-level bucket has its second-level array `items` of `bnum` slots, and
each slot holds the chain of the items linked through `hnext`, first item
first.  The doubly linked LRU list (`head`, `tail`, `LRUPREV`, `LRUNEXT`) is
the list `lrulist`, newest item first.  An item is a heap object that both
its chain and the LRU list point to; the model names it by its hash, key
size and key, which no two items of a table share. -/

/-- A first-level bucket `CDBHTBUCKET` with its second-level array. -/
structure Chain.CDBHTBUCKET (K V : Type) where
  items : List (List (CDBHTITEM K V))
  bnum : Nat
  rnum : Nat
deriving DecidableEq, Repr

/-- The table `struct CDBHASHTABLE` with its chains and its LRU list; the
hash function `ht->hash` is an argument of the functions that use it. -/
structure Chain.CDBHASHTABLE (K V : Type) where
  lru : Bool
  buckets : List (Chain.CDBHTBUCKET K V)
  size : Nat
  num : Nat
  lrulist : List (CDBHTITEM K V)
deriving DecidableEq, Repr

/-- The slot of a hash in a second-level array of `bnum` slots:
`(hash >> CDBHTBNUMPOW) & (bucket->bnum - 1)`. -/
def Chain.hid (bnum hash : Nat) : Nat := Nat.land (hash / CDBHTBNUM) (bnum - 1)

/-- The bucket of a hash, `buckets[hash & ((1 << CDBHTBNUMPOW) - 1)]`. -/
def Chain.bucketAt {K V : Type} (ht : Chain.CDBHASHTABLE K V) (hash : Nat) :
    Chain.CDBHTBUCKET K V :=
  ht.buckets.getD (hash % CDBHTBNUM) { items := [], bnum := 0, rnum := 0 }

/-- Function `cdb_ht_new`: 256 buckets with 2 empty slots each; `size`
counts the slot arrays and the table structure. -/
def Chain.cdb_ht_new {K V : Type} (lru : Bool) : Chain.CDBHASHTABLE K V :=
  { lru := lru
    buckets := List.replicate CDBHTBNUM { items := List.replicate 2 [], bnum := 2, rnum := 0 }
    size := CDBHTBNUM * (SIZEOF_PTR * 2) + SIZEOF_CDBHASHTABLE
    num := 0
    lrulist := [] }

/-- The inner loop of the growth in `cdb_ht_insert`: every item of an old
chain is pushed onto the head of its slot in the new array `ilist` of `nb`
slots. -/
def Chain.rehashChain {K V : Type} (nb : Nat) :
    List (List (CDBHTITEM K V)) → List (CDBHTITEM K V) → List (List (CDBHTITEM K V))
  | ilist, [] => ilist
  | ilist, cur :: rest =>
      Chain.rehashChain nb
        (ilist.set (Chain.hid nb cur.hash) (cur :: ilist.getD (Chain.hid nb cur.hash) [])) rest

/-- The growth of a second-level array in `cdb_ht_insert`: a zero-filled
array of `nb` slots receives the items of the old slots `0 .. bnum - 1` in
turn. -/
def Chain.rehash {K V : Type} (nb : Nat) (items : List (List (CDBHTITEM K V))) (bnum : Nat) :
    List (List (CDBHTITEM K V)) :=
  (items.take bnum).foldl (Chain.rehashChain nb) (List.replicate nb [])

/-- The item taken out of the LRU list (the four `if` statements on
`LRUPREV`, `LRUNEXT`, `head` and `tail`). -/
def Chain.lruUnlink {K V : Type} [DecidableEq K] (cur : CDBHTITEM K V)
    (l : List (CDBHTITEM K V)) : List (CDBHTITEM K V) :=
  (htUnlink cur.hash cur.ksize cur.key l).2

/-- The block `if (bucket->rnum > bucket->bnum * 2) { ... }` of
`cdb_ht_insert`: the second-level array of the bucket of `hash` grows
four-fold (two-fold from 512 slots on) and `size` follows.  `none`: the
`int listsize` cannot hold the size of the new array, so that `malloc` gets a
negative or truncated size. -/
def Chain.grow {K V : Type} (ht : Chain.CDBHASHTABLE K V) (hash : Nat) :
    Option (Chain.CDBHASHTABLE K V) :=
  let bucket := Chain.bucketAt ht hash
  if bucket.rnum > (bucket.bnum * 2) % U32 then
    let exp := if bucket.bnum < 512 then 4 else 2
    let nbnum := (bucket.bnum * exp) % U32
    let listsize := nbnum * SIZEOF_PTR
    if listsize ≥ 2147483648 then none
    else
      some { ht with
        buckets := ht.buckets.set (hash % CDBHTBNUM)
          { bucket with items := Chain.rehash nbnum bucket.items bucket.bnum, bnum := nbnum }
        size := (ht.size + listsize + (U64 - (bucket.bnum * SIZEOF_PTR) % U64)) % U64 }
  else some ht

/-- The rest of `cdb_ht_insert`: an item with the same hash, key size and key
is unlinked from the chain of the slot (and from the LRU list) and given up,
then the new item is linked at the head of the chain (and of the LRU
list). -/
def Chain.link {K V : Type} [DecidableEq K] (ht : Chain.CDBHASHTABLE K V)
    (item : CDBHTITEM K V) : Chain.CDBHASHTABLE K V :=
  let bid := item.hash % CDBHTBNUM
  let bucket1 := Chain.bucketAt ht item.hash
  let hid := Chain.hid bucket1.bnum item.hash
  match htUnlink item.hash item.ksize item.key (bucket1.items.getD hid []) with
  | (some cur, rest) =>
      { ht with
        buckets := ht.buckets.set bid
          { items := bucket1.items.set hid (item :: rest), bnum := bucket1.bnum
            rnum := ((bucket1.rnum + U32 - 1) % U32 + 1) % U32 }
        size := ((ht.size + (U64 - htItemBytes ht.lru cur % U64)) % U64
                  + htItemBytes ht.lru item) % U64
        num := ((ht.num + U64 - 1) % U64 + 1) % U64
        lrulist := if ht.lru then item :: Chain.lruUnlink cur ht.lrulist else ht.lrulist }
  | (none, _) =>
      { ht with
        buckets := ht.buckets.set bid
          { items := bucket1.items.set hid (item :: bucket1.items.getD hid [])
            bnum := bucket1.bnum, rnum := (bucket1.rnum + 1) % U32 }
        size := (ht.size + htItemBytes ht.lru item) % U64
        num := (ht.num + 1) % U64
        lrulist := if ht.lru then item :: ht.lrulist else ht.lrulist }

/-- Function `cdb_ht_insert`: the hash of the item is computed, the
second-level array of its bucket grows when the bucket holds more than
`2 * bnum` items, and the item is linked in place of an item with the same
key. -/
def Chain.cdb_ht_insert {K V : Type} [DecidableEq K] (hf : K → Nat → Nat)
    (ht : Chain.CDBHASHTABLE K V) (item0 : CDBHTITEM K V) : Option (Chain.CDBHASHTABLE K V) :=
  let item := { item0 with hash := hf item0.key item0.ksize }
  (Chain.grow ht item.hash).map fun ht1 => Chain.link ht1 item

/-- Function `cdb_ht_insert2`: allocate an item for key and value and insert
it. -/
def Chain.cdb_ht_insert2 {K V : Type} [DecidableEq K] (hf : K → Nat → Nat)
    (ht : Chain.CDBHASHTABLE K V) (key : K) (ksize : Nat) (val : V) (vsize : Nat) :
    Option (Chain.CDBHASHTABLE K V) :=
  Chain.cdb_ht_insert hf ht (cdb_ht_newitem ksize vsize key val)

/-- Function `cdb_ht_get3`: walk the chain of the key's slot; in LRU mode
with `mtf` an item that is not `ht->head` moves to the head of the LRU
list. -/
def Chain.cdb_ht_get3 {K V : Type} [DecidableEq K] (hf : K → Nat → Nat)
    (ht : Chain.CDBHASHTABLE K V) (key : K) (ksize : Nat) (mtf : Bool) :
    Option (CDBHTITEM K V) × Chain.CDBHASHTABLE K V :=
  let hash := hf key ksize
  let bucket := Chain.bucketAt ht hash
  let hid := Chain.hid bucket.bnum hash
  match (bucket.items.getD hid []).find? (htMatch hash ksize key) with
  | some cur =>
      let isHead := match ht.lrulist with
        | h :: _ => htMatch cur.hash cur.ksize cur.key h
        | [] => false
      if ht.lru && mtf && !isHead then
        (some cur, { ht with lrulist := cur :: Chain.lruUnlink cur ht.lrulist })
      else (some cur, ht)
  | none => (none, ht)

/-- Function `cdb_ht_get`: value and value size of the item, or NULL and 0. -/
def Chain.cdb_ht_get {K V : Type} [DecidableEq K] (hf : K → Nat → Nat)
    (ht : Chain.CDBHASHTABLE K V) (key : K) (ksize : Nat) (mtf : Bool) :
    Option V × Nat × Chain.CDBHASHTABLE K V :=
  match Chain.cdb_ht_get3 hf ht key ksize mtf with
  | (some res, ht1) => (some res.val, res.vsize, ht1)
  | (none, ht1) => (none, 0, ht1)

/-- Function `cdb_ht_del`: unlink the item with the given key from its chain
and from the LRU list and return it. -/
def Chain.cdb_ht_del {K V : Type} [DecidableEq K] (hf : K → Nat → Nat)
    (ht : Chain.CDBHASHTABLE K V) (key : K) (ksize : Nat) :
    Option (CDBHTITEM K V) × Chain.CDBHASHTABLE K V :=
  let hash := hf key ksize
  let bucket := Chain.bucketAt ht hash
  let hid := Chain.hid bucket.bnum hash
  match htUnlink hash ksize key (bucket.items.getD hid []) with
  | (some cur, rest) =>
      (some cur,
       { ht with
         buckets := ht.buckets.set (hash % CDBHTBNUM)
           { bucket with items := bucket.items.set hid rest
                         rnum := (bucket.rnum + U32 - 1) % U32 }
         size := (ht.size + (U64 - htItemBytes ht.lru cur % U64)) % U64
         num := (ht.num + U64 - 1) % U64
         lrulist := if ht.lru then Chain.lruUnlink cur ht.lrulist else ht.lrulist })
  | (none, _) => (none, ht)

/-- Function `cdb_ht_del2`: delete and free; 0 if an item was removed, -1
otherwise. -/
def Chain.cdb_ht_del2 {K V : Type} [DecidableEq K] (hf : K → Nat → Nat)
    (ht : Chain.CDBHASHTABLE K V) (key : K) (ksize : Nat) : Int × Chain.CDBHASHTABLE K V :=
  match Chain.cdb_ht_del hf ht key ksize with
  | (some _, ht1) => (0, ht1)
  | (none, ht1) => (-1, ht1)

/-- Function `cdb_ht_gettail`: `ht->tail`. -/
def Chain.cdb_ht_gettail {K V : Type} (ht : Chain.CDBHASHTABLE K V) : Option (CDBHTITEM K V) :=
  ht.lrulist.getLast?

/-- Function `cdb_ht_poptail`: NULL if the table is not in LRU mode or
`ht->tail` is NULL; else the tail item is unlinked from its chain and from
the LRU list and returned. -/
def Chain.cdb_ht_poptail {K V : Type} [DecidableEq K] (ht : Chain.CDBHASHTABLE K V) :
    Option (CDBHTITEM K V) × Chain.CDBHASHTABLE K V :=
  match ht.lrulist.getLast? with
  | none => (none, ht)
  | some item =>
      if !ht.lru then (none, ht)
      else
        let bucket := Chain.bucketAt ht item.hash
        let hid := Chain.hid bucket.bnum item.hash
        (some item,
         { ht with
           buckets := ht.buckets.set (item.hash % CDBHTBNUM)
             { bucket with
               items := bucket.items.set hid
                 (htUnlink item.hash item.ksize item.key (bucket.items.getD hid [])).2
               rnum := (bucket.rnum + U32 - 1) % U32 }
           num := (ht.num + U64 - 1) % U64
           size := (ht.size + (U64 - (SIZEOF_CDBHTITEM + item.ksize + item.vsize
                     + SIZEOF_PTR * 2) % U64)) % U64
           lrulist := ht.lrulist.dropLast })

/-- Function `cdb_ht_removetail`: pop the oldest item and free it. -/
def Chain.cdb_ht_removetail {K V : Type} [DecidableEq K] (ht : Chain.CDBHASHTABLE K V) :
    Chain.CDBHASHTABLE K V :=
  (Chain.cdb_ht_poptail ht).2

/-- Function `cdb_ht_clean`: every item is freed, every slot becomes NULL,
every `rnum` and `num` become 0.  The fields `size`, `head` and `tail` are
not touched. -/
def Chain.cdb_ht_clean {K V : Type} (ht : Chain.CDBHASHTABLE K V) : Chain.CDBHASHTABLE K V :=
  { ht with
    buckets := ht.buckets.map fun b =>
      { b with items := (List.replicate (min b.bnum b.items.length) [])
                          ++ b.items.drop b.bnum
               rnum := 0 }
    num := 0 }


/-- The items of a bucket, chain after chain. -/
def Chain.bucketItems {K V : Type} (b : Chain.CDBHTBUCKET K V) : List (CDBHTITEM K V) :=
  b.items.flatten

/-- The items of a table: those that are linked into a chain. -/
def Chain.allItems {K V : Type} (ht : Chain.CDBHASHTABLE K V) : List (CDBHTITEM K V) :=
  (ht.buckets.map Chain.bucketItems).flatten

/-- What names an item of a table: key size and key bytes. -/
def itemKey {K V : Type} (it : CDBHTITEM K V) : Nat × K := (it.ksize, it.key)


/-- A second-level array of `nb` slots in which every item lies in the chain
of the slot that its hash selects. -/
def Chain.SlotsOK {K V : Type} (nb : Nat) (l : List (List (CDBHTITEM K V))) : Prop :=
  l.length = nb ∧ ∀ j c, l[j]? = some c → ∀ it ∈ c, Chain.hid nb it.hash = j


/-- The invariant of a first-level bucket, number `bi`: its array has `bnum`
slots, at least 2 and at most `2 * n + 2`; every item lies in the chain that
its hash selects, carries the hash of its key and belongs to this bucket;
`rnum` counts the items. -/
structure Chain.BucketOK {K V : Type} (hf : K → Nat → Nat) (n bi : Nat)
    (b : Chain.CDBHTBUCKET K V) : Prop where
  slots : Chain.SlotsOK b.bnum b.items
  bnum_ge : 2 ≤ b.bnum
  bnum_le : b.bnum ≤ 2 * n + 2
  rnum_eq : b.rnum = (Chain.bucketItems b).length
  place : ∀ it ∈ Chain.bucketItems b, it.hash = hf it.key it.ksize ∧ it.hash % CDBHTBNUM = bi

/-- The invariant of the table with its chains, for a table of at most `n`
items: 256 sound buckets; no two items with the same key size and key; `num`
counts the items; key and value sizes are non-negative `int`s; `size` is the
table structure plus the slot arrays plus the bytes of the items; in LRU mode
the LRU list holds exactly the items of the chains, otherwise it is empty. -/
structure Chain.Inv {K V : Type} (hf : K → Nat → Nat) (n : Nat)
    (ht : Chain.CDBHASHTABLE K V) : Prop where
  nbuckets : ht.buckets.length = CDBHTBNUM
  bucket : ∀ (bi : Nat) (b : Chain.CDBHTBUCKET K V), ht.buckets[bi]? = some b →
    Chain.BucketOK hf n bi b
  nodup : ((Chain.allItems ht).map itemKey).Nodup
  count : ht.num = (Chain.allItems ht).length
  bound : (Chain.allItems ht).length ≤ n
  sizes : ∀ it ∈ Chain.allItems ht, it.ksize < 2147483648 ∧ it.vsize < 2147483648
  size_eq : ht.size = SIZEOF_CDBHASHTABLE + (ht.buckets.map fun b => b.bnum * SIZEOF_PTR).sum
    + ((Chain.allItems ht).map (htItemBytes ht.lru)).sum
  lru_ok : if ht.lru = true then List.Perm ht.lrulist (Chain.allItems ht) else ht.lrulist = []


/-! ## Sequences of calls on the table with its chains

A sequence of interface calls runs from a table; the log keeps, newest first,
every call with the item it found or removed.  What a key's value should be
and which item should be the oldest are read off the log alone. -/

/-- A call of the hash-table interface: `cdb_ht_insert2`, `cdb_ht_del`,
`cdb_ht_get3` (the body of `cdb_ht_get`) and `cdb_ht_poptail`. -/
inductive HtCall (K V : Type) where
  | insert2 (key : K) (ksize : Nat) (val : V) (vsize : Nat)
  | del (key : K) (ksize : Nat)
  | get (key : K) (ksize : Nat) (mtf : Bool)
  | poptail
deriving DecidableEq, Repr

/-- One call on a table: the item the call returned, if any, and the table
after the call; `none` when `cdb_ht_insert` cannot size the grown array. -/
def Chain.step {K V : Type} [DecidableEq K] (hf : K → Nat → Nat)
    (ht : Chain.CDBHASHTABLE K V) :
    HtCall K V → Option (Option (CDBHTITEM K V) × Chain.CDBHASHTABLE K V)
  | HtCall.insert2 key ksize val vsize =>
      (Chain.cdb_ht_insert2 hf ht key ksize val vsize).map fun t => (none, t)
  | HtCall.del key ksize => some (Chain.cdb_ht_del hf ht key ksize)
  | HtCall.get key ksize mtf => some (Chain.cdb_ht_get3 hf ht key ksize mtf)
  | HtCall.poptail => some (Chain.cdb_ht_poptail ht)

/-- A sequence of calls, first call first, from a table and a log; the log
grows at its head. -/
def Chain.run {K V : Type} [DecidableEq K] (hf : K → Nat → Nat) :
    Chain.CDBHASHTABLE K V → List (HtCall K V × Option (CDBHTITEM K V)) → List (HtCall K V) →
    Option (Chain.CDBHASHTABLE K V × List (HtCall K V × Option (CDBHTITEM K V)))
  | ht, log, [] => some (ht, log)
  | ht, log, c :: cs =>
      match Chain.step hf ht c with
      | none => none
      | some (r, ht2) => Chain.run hf ht2 ((c, r) :: log) cs

/-- The sizes of an insert are non-negative `int`s. -/
def callOK {K V : Type} : HtCall K V → Bool
  | HtCall.insert2 _ ksize _ vsize => decide (ksize < 2147483648) && decide (vsize < 2147483648)
  | _ => true

/-- A logged call removes the key: a delete of the key, or a `poptail` that
returned the item of the key. -/
def removes {K V : Type} [DecidableEq K] :
    HtCall K V × Option (CDBHTITEM K V) → Nat × K → Bool
  | (HtCall.del key ksize, _), k => decide ((ksize, key) = k)
  | (HtCall.poptail, some it), k => decide (itemKey it = k)
  | _, _ => false

/-- A logged call touches the key: an insert of the key, or a successful get
of the key with `mtf`. -/
def touches {K V : Type} [DecidableEq K] :
    HtCall K V × Option (CDBHTITEM K V) → Nat × K → Bool
  | (HtCall.insert2 key ksize _ _, _), k => decide ((ksize, key) = k)
  | (HtCall.get key ksize mtf, some _), k => mtf && decide ((ksize, key) = k)
  | _, _ => false

/-- The value and value size most recently inserted for the key and not
removed since, read off the log (newest call first). -/
def lastIns {K V : Type} [DecidableEq K] :
    List (HtCall K V × Option (CDBHTITEM K V)) → Nat × K → Option (V × Nat)
  | [], _ => none
  | (HtCall.insert2 key ksize val vsize, _) :: rest, k =>
      if (ksize, key) = k then some (val, vsize) else lastIns rest k
  | e :: rest, k => if removes e k then none else lastIns rest k

/-- The time of the most recent touch of the key: the number of the call,
counted from 1, or 0 if the key was never touched. -/
def touchTime {K V : Type} [DecidableEq K] :
    List (HtCall K V × Option (CDBHTITEM K V)) → Nat × K → Nat
  | [], _ => 0
  | e :: rest, k => if touches e k then rest.length + 1 else touchTime rest k

/-- The keys of the inserts of a log. -/
def insertedKeys {K V : Type} (log : List (HtCall K V × Option (CDBHTITEM K V))) :
    List (Nat × K) :=
  log.filterMap fun e =>
    match e.1 with
    | HtCall.insert2 key ksize _ _ => some (ksize, key)
    | _ => none

/-- The number of distinct keys present: inserted and not removed since. -/
def presentKeys {K V : Type} [DecidableEq K]
    (log : List (HtCall K V × Option (CDBHTITEM K V))) : Nat :=
  ((insertedKeys log).dedup.filter fun k => (lastIns log k).isSome).length

/-- The formula of the memory accounting: `sizeof(CDBHASHTABLE)`, the slot
arrays of all buckets, and header, key and value bytes of every item. -/
def Chain.sizeSpec {K V : Type} (ht : Chain.CDBHASHTABLE K V) : Nat :=
  SIZEOF_CDBHASHTABLE + (ht.buckets.map fun b => b.bnum * SIZEOF_PTR).sum
    + ((Chain.allItems ht).map fun it =>
        SIZEOF_CDBHTITEM + (if ht.lru then 2 * SIZEOF_PTR else 0) + it.ksize + it.vsize).sum


/-- What a run keeps true of table and log: the table is sound for at most
`N` items, holds no more items than calls were made, holds for every key
exactly what the log says, and its LRU list is ordered by the time of the most
recent touch, newest first. -/
structure Chain.RunInv {K V : Type} [DecidableEq K] (hf : K → Nat → Nat) (N : Nat)
    (ht : Chain.CDBHASHTABLE K V) (log : List (HtCall K V × Option (CDBHTITEM K V))) :
    Prop where
  inv : Chain.Inv hf N ht
  len : (Chain.allItems ht).length ≤ log.length
  present : ∀ it ∈ Chain.allItems ht, lastIns log (itemKey it) = some (it.val, it.vsize)
  absent : ∀ k, (∀ it ∈ Chain.allItems ht, itemKey it ≠ k) → lastIns log k = none
  order : ht.lru = true →
    (ht.lrulist.map itemKey).Pairwise (fun a b => touchTime log b < touchTime log a)


/-- A sequence of calls for a table whose hash function sends every key to
slot 0 of bucket 0: six inserts, so that the sixth finds five items in a
bucket of two slots and grows it, a second insert of key 1, a delete, a get
with `mtf`, and a `poptail`. -/
def growCalls : List (HtCall Nat Nat) :=
  [HtCall.insert2 1 4 10 4, HtCall.insert2 2 4 20 4, HtCall.insert2 3 4 30 4,
   HtCall.insert2 4 4 40 4, HtCall.insert2 5 4 50 4, HtCall.insert2 6 4 60 4,
   HtCall.insert2 1 4 11 8, HtCall.del 3 4, HtCall.get 2 4 true, HtCall.poptail]


/-- A sequence of calls for an LRU table with the default hash function of
byte keys replaced by the key itself: three inserts, a get of key 1 with
`mtf`, a get of key 2 without. -/
def lruCalls : List (HtCall Nat Nat) :=
  [HtCall.insert2 1 4 10 4, HtCall.insert2 2 4 20 4, HtCall.insert2 3 4 30 4,
   HtCall.get 1 4 true, HtCall.get 2 4 false]


/-! ## vio_apnd2.c: virtual offsets -/

/-- Macro `ROFF2VOFF(fid, roff, off)` with `uint32_t fid, roff`:
`(off).i4 = fid << 8; (off).i4 |= (roff / ALIGNBYTES) >> 16;
(off).i2 = (roff / ALIGNBYTES) & 0xffff`. -/
def ROFF2VOFF (fid roff : Nat) : FOFF :=
  { i4 := Nat.lor ((fid * 256) % U32) (roff / 16 / 65536)
    i2 := Nat.land (roff / 16) 65535 }

/-- Macro `VOFF2ROFF(off, fid, roff)` with `uint32_t fid, roff`:
`fid = (off).i4 >> 8; roff = ((off).i4 & 0xff) << 16;
roff = (roff | (off).i2) * ALIGNBYTES`.  The result is the pair
`(fid, roff)`. -/
def VOFF2ROFF (off : FOFF) : Nat × Nat :=
  let fid := off.i4 / 256
  let roff := (Nat.land off.i4 255 * 65536) % U32
  (fid, (Nat.lor roff off.i2 * 16) % U32)


/-! ## vio_apnd2.c: recovery -/

/-- The sort record `VIOAPND2SREORDER { uint32_t fid; uint64_t oidf; }` of the
recovery. -/
structure VIOAPND2SREORDER where
  fid : Nat
  oidf : Nat
deriving DecidableEq, Repr

/-- Function `_vio_apnd2_cmpfuncsreorder`: `return s1->oidf - s2->oidf;`, a
difference of two `uint64_t` returned as `int`. -/
def _vio_apnd2_cmpfuncsreorder (s1 s2 : VIOAPND2SREORDER) : Int :=
  toInt32 ((s1.oidf % U64 + U64 - s2.oidf % U64) % U64)


/-! ## cdb_bgtask.c: the task list -/

/-- Value of `MAXTASKNUM`. -/
def MAXTASKNUM : Nat := 16

/-- A timer task `TASK`: function, argument, interval in seconds and time of
the last run. -/
structure TASK where
  func : Nat
  arg : Nat
  intval : Int
  ltime : Nat
deriving DecidableEq, Repr

/-- The scheduler `struct CDBBGTASK`: the array `tasks[MAXTASKNUM]`, `int
tnum`, `int run` and the thread id (0 as long as no thread was made). -/
structure CDBBGTASK where
  tasks : List TASK
  tnum : Int
  run : Int
  tid : Nat
deriving DecidableEq, Repr

/-- Function `cdb_bgtask_new`: `tnum = 0, run = 0, tid = 0`; the slots of
`tasks` hold whatever `malloc` delivered, here zeroes. -/
def cdb_bgtask_new : CDBBGTASK :=
  { tasks := List.replicate MAXTASKNUM { func := 0, arg := 0, intval := 0, ltime := 0 }
    tnum := 0, run := 0, tid := 0 }

/-- Function `cdb_bgtask_add`; `now` is `time(NULL)`.  The test is
`bt->tid || bt->tnum > MAXTASKNUM`; past it the four fields of
`tasks[bt->tnum]` are stored and `tnum` is incremented.  `none`: the stores
go to a slot outside `tasks[0 .. MAXTASKNUM - 1]`. -/
def cdb_bgtask_add (bt : CDBBGTASK) (func arg : Nat) (intval : Int) (now : Nat) :
    Option (Int × CDBBGTASK) :=
  if bt.tid != 0 || bt.tnum > (MAXTASKNUM : Int) then some (-1, bt)
  else if 0 ≤ bt.tnum ∧ bt.tnum.toNat < bt.tasks.length then
    some (0, { bt with
      tasks := bt.tasks.set bt.tnum.toNat
        { func := func, arg := arg, intval := intval, ltime := now }
      tnum := bt.tnum + 1 })
  else none

/-- The call `cdb_bgtask_add(bt, f, NULL, 1)` made `n` times with functions
`1 .. n`, at time 100. -/
def bgtaskAdds : Nat → CDBBGTASK → Option CDBBGTASK
  | 0, bt => some bt
  | n + 1, bt =>
      match bgtaskAdds n bt with
      | some bt1 => (cdb_bgtask_add bt1 (n + 1) 0 1 100).map (·.2)
      | none => none


/-! ## vio_apnd2.c: a new segment file -/

/-- What `_vio_apnd2_shiftnew` uses of a write buffer `VIOAPND2IOBUF`: the
file descriptor and the file id of the segment being written. -/
structure VIOAPND2IOBUF where
  fd : Int
  fid : Nat
deriving DecidableEq, Repr

/-- The loop `while(cdb_ht_exist(ht, &curfid, SI4)) { curfid++; tryiter++;
if (tryiter == 0xffffff) return -1; if (curfid == 0xffffff) curfid = 0; }` of
`_vio_apnd2_shiftnew`, at most `fuel` rounds; `fids` are the keys of the
segment-meta table.  The inner `none` is the return with `CDB_NOFID`, the
outer one the end of the fuel. -/
def fidLoop (fids : List Nat) : Nat → Nat → Nat → Option (Option Nat)
  | 0, _, _ => none
  | fuel + 1, curfid, tryiter =>
      if curfid ∈ fids then
        let curfid1 := (curfid + 1) % U32
        let tryiter1 := (tryiter + 1) % U32
        if tryiter1 = 16777215 then some none
        else fidLoop fids fuel (if curfid1 = 16777215 then 0 else curfid1) tryiter1
      else some (some curfid)

/-- Function `_vio_apnd2_shiftnew` for one type of segment: the return value,
the write buffer and the keys of the segment-meta table afterwards.  `openfd`
is what `open` returns for the new file, `metaok` tells whether
`_vio_apnd2_writefmeta` succeeds.  The loop ends within `0xffffff` rounds. -/
def _vio_apnd2_shiftnew (fids : List Nat) (iobuf : VIOAPND2IOBUF) (openfd : Int)
    (metaok : Bool) : Option (Int × VIOAPND2IOBUF × List Nat) :=
  let curfid := iobuf.fid
  let invalid : VIOAPND2IOBUF := { fd := -1, fid := 16777215 }
  (fidLoop fids 16777215 curfid 0).map fun r =>
    match r with
    | none => (-1, invalid, fids)
    | some fid =>
        if openfd < 0 then (-1, invalid, fids)
        else if !metaok then (-1, invalid, fids)
        else (0, { fd := openfd, fid := fid }, fid :: fids)


/-- A freshly opened database whose data segment has 16 KiB left: the write
position is `FDATMAXSIZE - 16 KiB` and the buffer limit, `CDBMIN(IOBUFSIZE,
fsizemax - off)`, is 16384. -/
def nearFullDB : CDB :=
  { freshDB with vio := freshDB.vio.map fun vio => { vio with dlimit := 16384, dnext := 8387584 } }

/-- A value of 16 KiB: with its header and a key of one byte the record is
larger than the buffer limit of `nearFullDB`. -/
def val16K : Bytes := List.replicate 16384 0

/-- Run 11: `cdb_set2(k, v, CDB_INSERTCACHE, 0)` on `nearFullDB` with
`k = [107]` and the value of 16 KiB. -/
def run11Set : Option (Int × CDB) :=
  cdb_set2 runCrc nearFullDB [107] val16K CDB_INSERTCACHE 0 100 runSbuf


/-! ## cdb_core.c: the try-lock in `_cdb_pageout` -/

/-- Value of `EBUSY`, the error number that `pthread_mutex_trylock` and
`pthread_spin_trylock` return for a lock that is held. -/
def EBUSY : Int := 16

/-- Function `cdb_lock_trylock`: the return value of the pthread try-lock
function, 0 when the lock was free (and is taken now), `EBUSY` when it is
held. -/
def cdb_lock_trylock (held : Bool) : Int := if held then EBUSY else 0

/-- The loop of `_cdb_pageout` with its try-lock, at most `fuel` rounds;
`held` tells for each of the `MLOCKNUM` bucket locks whether another thread
holds it.  The round for a dirty page is left through
`if (cdb_lock_trylock(db->mlock[bid % MLOCKNUM]) < 0) { ...; break; }`. -/
def pageoutLoopTry (held : Nat → Bool) : Nat → CDB → Option CDB
  | 0, db =>
      match PCOVERFLOW db with
      | some false => some db
      | _ => none
  | fuel + 1, db =>
      match PCOVERFLOW db with
      | none => none
      | some false => some db
      | some true =>
          match db.pcache, db.dpcache with
          | some pc, some dpc =>
              if pc.num != 0 then
                match cdb_ht_poptail pc with
                | (none, _) => none
                | (some _, pc1) => pageoutLoopTry held fuel { db with pcache := some pc1 }
              else if dpc.num != 0 then
                match cdb_ht_gettail dpc with
                | none => some db
                | some item =>
                    let bid := item.key
                    if cdb_lock_trylock (held (bid % MLOCKNUM)) < 0 then some db
                    else
                      let db1 := { db with dpcache := some (cdb_ht_poptail dpc).2 }
                      if bid < db1.hsize then
                        match writeBucketPage db1 bid item.val with
                        | some db2 => pageoutLoopTry held fuel db2
                        | none => none
                      else none
              else none
          | _, _ => none

/-- Function `_cdb_pageout` with its try-lock. -/
def _cdb_pageoutTry (held : Nat → Bool) (db : CDB) : Option CDB :=
  let n1 := match db.pcache with
    | some pc => pc.num
    | none => 0
  let n2 := match db.dpcache with
    | some dpc => dpc.num
    | none => 0
  pageoutLoopTry held (n1 + n2 + 1) db

/-- The database after run 2 (the page of bucket 3 lies in the dirty page
cache) with the page-cache limit lowered to 16480 bytes, the size of the two
empty page caches. -/
def tightDB : CDB := { dbAfter run2Set1 with pclimit := 16480 }


/-! ## cdb_core.c: the handles of the branch "nothing done" -/

/-- The part of `updateFile` up to the test `page->num == onum`: `pitem` and
`tmpcache` as the branch "nothing done" finds them, `none` when the call does
not enter that branch. -/
def noopFile (db3 : CDB) (hash : Nat) (off : FOFF) (opt : Nat)
    (pitem1 : Option (CDBHTITEM Nat CDBPAGE)) (tmpcache : Option TmpCache) (page1 : CDBPAGE) :
    Option (Option (CDBHTITEM Nat CDBPAGE) × Option TmpCache) :=
  let onum := page1.num
  match updateApply db3 hash off opt page1 with
  | none => none
  | some (page, _) => if page.num == onum then some (pitem1, tmpcache) else none

/-- The part of `updateFinish` up to the test `page->num == onum`. -/
def noopFinish (db2 : CDB) (bid hash : Nat) (off : FOFF) (opt now : Nat)
    (pitem0 : Option (CDBHTITEM Nat CDBPAGE)) (tmpcache : Option TmpCache) (page0 : CDBPAGE) :
    Option (Option (CDBHTITEM Nat CDBPAGE) × Option TmpCache) :=
  if opt == CDB_PAGEINSERTOFF && page0.cap == page0.num then
    let g := cdb_genoid db2
    let npsize := MPAGESIZE page0 + CDB_PAGEINCR * SIZEOF_PITEM
    let npage := growPage page0 bid g.1 now
    let nitem : Option (CDBHTITEM Nat CDBPAGE) :=
      if db2.dpcache.isSome then some (cdb_ht_newitem SI4 npsize bid npage) else none
    noopFile g.2 hash off opt nitem tmpcache npage
  else noopFile db2 hash off opt pitem0 tmpcache page0

/-- Function `cdb_updatepage` up to the test `page->num == onum`: the values
of `pitem` and `tmpcache` with which the branch "nothing done" is entered,
`none` when the call does not enter it. -/
def updateNoop (db : CDB) (hash : Nat) (off : FOFF) (opt : Nat) (now : Nat)
    (sbuf : CDBPAGE) : Option (Option (CDBHTITEM Nat CDBPAGE) × Option TmpCache) :=
  if db.hsize = 0 then none
  else
    let bid := (hash / 16777216) % db.hsize
    let r2 := updateTake db bid
    match r2.1 with
    | some it => noopFinish r2.2.2 bid hash off opt now (some it) r2.2.1 it.val
    | none =>
        match readBucketPage r2.2.2 bid sbuf with
        | none => none
        | some none => none
        | some (some page0) => noopFinish r2.2.2 bid hash off opt now none r2.2.1 page0

/-- Run 12: after run 10 has left the page of bucket 3 on disk only,
`cdb_getoff` for the hash of `k` reads it into the clean page cache. -/
def run12Getoff : Option CDB :=
  run10Flush.bind fun d => (cdb_getoff d 50332161 runSbuf).map (·.2.2)


/-! ## Compaction of a data segment -/

/-- Function `cdb_checkoff`: whether `cdb_getoff` delivers the offset `off`
for the key hash; the loop runs over the first `dupnum` offsets. -/
def cdb_checkoff (db : CDB) (hash : Nat) (off : FOFF) (sbuf : CDBPAGE) : Option (Bool × CDB) :=
  (cdb_getoff db hash sbuf).map fun r =>
    ((r.2.1.take r.1.toNat).any fun o => OFFEQ o off, r.2.2)

/-- Function `_vio_apnd2_writerecinternal`, `_vio_apnd2_writerec` with
`ptrtype = VIOAPND2_RECINTERNAL`: as `_vio_apnd2_writerec`, but the magic
number of the record is left as it is. -/
def _vio_apnd2_writerecinternal (db : CDB) (vio : VIOAPND2) (rec : CDBREC) :
    CDBREC × FOFF × CDB :=
  let rsize := RECHSIZE + rec.ksize + rec.vsize
  let g := cdb_genoid db
  let rec1 := { rec with oid := g.1 }
  let off := natFOFF vio.dnext
  let vio1 := { vio with recs := (off, rec1) :: vio.recs
                         dnext := vio.dnext + OFFALIGNED rsize / 16 }
  let db1 := { g.2 with vio := some vio1 }
  if rsize > vio.dlimit then (rec1, off, db1)
  else ({ rec1 with osize := rsize, ooff := off }, off, db1)

/-- The loop `while(pos < fsize)` of `_vio_apnd2_rcyledatafile` over the
records that the scan finds in the segment file, each with the virtual offset
`ROFF2VOFF(finfo->fid, pos)` of its position; `crc` is `CDBHASH64`, `now` is
`time(NULL)` at the start of the function (and, for simplicity, the time that
`cdb_updatepage` stamps).  The sums `frsize` and `nexpire` are not modelled.
`none`: one of the index functions does not return, or there is no storage
object. -/
def rcyleLoop (crc : Bytes → Nat) (now : Nat) (rcyle : Bool) (sbuf : CDBPAGE) :
    List (FOFF × CDBREC) → CDB → Option CDB
  | [], db => some db
  | (off, rec) :: rest, db =>
      let hash := crc rec.key
      match cdb_checkoff db hash off sbuf with
      | none => none
      | some (c, db1) =>
          if c && (decide (rec.expire > now) || rec.expire == 0) then
            if rcyle then
              match db1.vio with
              | none => none
              | some vio =>
                  let w := _vio_apnd2_writerecinternal db1 vio
                    { rec with ooff := off, osize := OFFALIGNED (RECHSIZE + rec.ksize + rec.vsize) }
                  match cdb_replaceoff w.2.2 hash off w.2.1 sbuf with
                  | none => none
                  | some r => rcyleLoop crc now rcyle sbuf rest r.2
            else rcyleLoop crc now rcyle sbuf rest db1
          else if rcyle && rec.expire != 0 && decide (rec.expire < now) then
            match cdb_updatepage db1 hash off CDB_PAGEDELETEOFF now sbuf with
            | none => none
            | some r => rcyleLoop crc now rcyle sbuf rest r.2
          else rcyleLoop crc now rcyle sbuf rest db1

/-- Function `_vio_apnd2_rcyledatafile` on the segment with the records
`seg`. -/
def _vio_apnd2_rcyledatafile (crc : Bytes → Nat) (db : CDB) (seg : List (FOFF × CDBREC))
    (rcyle : Bool) (now : Nat) (sbuf : CDBPAGE) : Option CDB :=
  rcyleLoop crc now rcyle sbuf seg db

/-- The records of the data store of a database, oldest first: the content
of its data segment. -/
def segRecs (db : CDB) : List (FOFF × CDBREC) :=
  match db.vio with
  | some vio => vio.recs.reverse
  | none => []

/-- Run 13: after run 5 has stored the record of `k` with expire time 105,
the segment is compacted at time `now`. -/
def run13Rcyle (now : Nat) : Option CDB :=
  _vio_apnd2_rcyledatafile runCrc (dbAfter run5Set) (segRecs (dbAfter run5Set)) true now runSbuf


/-! ## Recovery: the rebuild of the main table -/

/-- The loop `while(_vio_apnd2_pageiternext(vio, &page, it) == 0)` of
`_vio_apnd2_recovery` over the pages that the iterator delivers, on the main
table and the record count (`uint64_t`).  The junk bytes of the segments
(`finfo->rcyled`) are not modelled.  `none`: `page->bid` is outside the table,
or `_vio_apnd2_readpage` fails: its return value is ignored, and `opage->num`
is then not the field of a page. -/
def recoveryIndexLoop (vio : VIOAPND2) (hsize : Nat) :
    List CDBPAGE → MTable → Nat → Option (MTable × Nat)
  | [], mt, rnum => some (mt, rnum)
  | page :: rest, mt, rnum =>
      if hsize ≤ page.bid then none
      else if OFFNOTNULL (mtGet mt page.bid) then
        match _vio_apnd2_readpage vio (mtGet mt page.bid) with
        | none => none
        | some opage =>
            recoveryIndexLoop vio hsize rest (mtSet mt page.bid page.ooff)
              (((rnum + U64 - opage.num % U64) % U64 + page.num) % U64)
      else
        recoveryIndexLoop vio hsize rest (mtSet mt page.bid page.ooff) ((rnum + page.num) % U64)

/-- The part "fix offsets in main index table" of `_vio_apnd2_recovery`:
`db->rnum = 0`, a zero-filled `mtable`, then the loop over the pages that the
iterator delivers. -/
def recoveryIndex (db : CDB) (pages : List CDBPAGE) : Option CDB :=
  match db.vio with
  | none => none
  | some vio =>
      (recoveryIndexLoop vio db.hsize pages [] 0).map fun r =>
        { db with mtable := some r.1, rnum := r.2 }

/-- The last page of a sequence with bucket id `b` (specification side). -/
def lastPageOf (pages : List CDBPAGE) (b : Nat) : Option CDBPAGE :=
  (pages.filter fun p => p.bid == b).getLast?

/-- The offset of the last page of a sequence with bucket id `b`, null if
there is none (specification side). -/
def lastOffOf (pages : List CDBPAGE) (b : Nat) : FOFF :=
  match lastPageOf pages b with
  | some p => p.ooff
  | none => OFFZERO

/-- The item count of the last page of a sequence with bucket id `b`, 0 if
there is none (specification side). -/
def lastNumOf (pages : List CDBPAGE) (b : Nat) : Nat :=
  match lastPageOf pages b with
  | some p => p.num
  | none => 0

/-- What the iterator and the store have to agree on for a delivered page:
the bucket id is inside the table, the offset is not null, the item count is
a `uint32_t`, and `_vio_apnd2_readpage` at the offset of the page finds a
page with the same item count. -/
def Delivered (vio : VIOAPND2) (hsize : Nat) (p : CDBPAGE) : Prop :=
  p.bid < hsize ∧ OFFNOTNULL p.ooff = true ∧ p.num < U32 ∧
    (_vio_apnd2_readpage vio p.ooff).map (fun q => q.num) = some p.num

instance (vio : VIOAPND2) (hsize : Nat) (p : CDBPAGE) : Decidable (Delivered vio hsize p) := by
  unfold Delivered; exact inferInstance

/-- The pages of the store in the order in which they were written, each as
`_vio_apnd2_pageiternext` delivers it (`osize = PAGESIZE`, `cap = num`, `ooff`
the position). -/
def storedPages (vio : VIOAPND2) : List CDBPAGE :=
  vio.pages.reverse.map fun e =>
    { e.2 with osize := PAGESIZE e.2, cap := e.2.num, ooff := e.1 }

/-- A store with three index pages: bucket 3 at offset number 4 (one item),
bucket 5 at 6 (two items), bucket 3 again at 8 (three items). -/
def recoveryVio : VIOAPND2 :=
  { recs := []
    pages := [(natFOFF 8, { ooff := OFFZERO, osize := 0, cap := 0, magic := PAGEMAGIC, bid := 3, num := 3, oid := 2, items := [⟨natFOFF 4, ⟨1, 2⟩⟩, ⟨natFOFF 6, ⟨1, 3⟩⟩, ⟨natFOFF 8, ⟨1, 4⟩⟩] }),
              (natFOFF 6, { ooff := OFFZERO, osize := 0, cap := 0, magic := PAGEMAGIC, bid := 5, num := 2, oid := 1, items := [⟨natFOFF 10, ⟨1, 5⟩⟩, ⟨natFOFF 12, ⟨1, 6⟩⟩] }),
              (natFOFF 4, { ooff := OFFZERO, osize := 0, cap := 0, magic := PAGEMAGIC, bid := 3, num := 1, oid := 0, items := [⟨natFOFF 4, ⟨1, 2⟩⟩] })]
    dnext := 14
    inext := 12
    dlimit := 0
    delbuf := [] }

/-- A database object with the store `recoveryVio` and 8 buckets, as it is
before the main table is rebuilt. -/
def recoveryDB : CDB :=
  { freshDB with hsize := 8, mtable := none, rnum := 77, vio := some recoveryVio }


/-- The empty page caches leave room under the limit even after one more
second-level array of the dirty cache has grown: what `_cdb_pageout` needs to
come to an end after `cdb_updatepage` has filed a page in the dirty cache. -/
def DFit (db : CDB) : Prop :=
  ∀ pc dpc, db.pcache = some pc → db.dpcache = some dpc →
    htOverhead pc + htOverhead dpc + htGrowth dpc ≤ db.pclimit

/-- Three insertions into bucket 3 of a freshly opened database: the items
`(513, 4)`, `(514, 6)` and `(513, 8)` by packed hash and offset number. -/
def delRunCalls : List IndexCall :=
  [ .insert 50332161 (natFOFF 4) 100 runSbuf,
    .insert 50332162 (natFOFF 6) 100 runSbuf,
    .insert 50332161 (natFOFF 8) 100 runSbuf ]

/-- The database after `delRunCalls`. -/
def delRunDB : CDB := (runCalls freshDB delRunCalls).getD freshDB

/-! ## The result of cdb_getoff, specification side -/

/-- Whether a packed hash holds the low 24 bits of a key hash (specification
side): the fields are a `uint8_t` and a `uint16_t`, `i1` is the low byte of
the 24 bits and `i2` the 16 bits above it. -/
def holdsLow24 (hash : Nat) (h : PHASH) : Bool :=
  decide (h.i1 < 256 ∧ h.i2 < 65536 ∧ h.i2 * 256 + h.i1 = hash % 16777216)

/-- Ten insertions into bucket 3 of a freshly opened database: nine items
with the low 24 bits 513 at the offset numbers 4, 8, 10, ..., 22 and, second
in the page, one item with the low 24 bits 514 at offset number 6. -/
def getoffRunCalls : List IndexCall :=
  [ .insert 50332161 (natFOFF 4) 100 runSbuf,
    .insert 50332162 (natFOFF 6) 100 runSbuf,
    .insert 50332161 (natFOFF 8) 100 runSbuf,
    .insert 50332161 (natFOFF 10) 100 runSbuf,
    .insert 50332161 (natFOFF 12) 100 runSbuf,
    .insert 50332161 (natFOFF 14) 100 runSbuf,
    .insert 50332161 (natFOFF 16) 100 runSbuf,
    .insert 50332161 (natFOFF 18) 100 runSbuf,
    .insert 50332161 (natFOFF 20) 100 runSbuf,
    .insert 50332161 (natFOFF 22) 100 runSbuf ]

/-- The database after `getoffRunCalls`. -/
def getoffRunDB : CDB := (runCalls freshDB getoffRunCalls).getD freshDB

/-! ## Runs with a stale record-cache entry -/

/-- The database a `cdb_get` leaves behind (`freshDB` if the call does not
return). -/
def dbAfterGet (o : Option (Int × Option Bytes × Nat × CDB)) : CDB :=
  (o.map (·.2.2.2)).getD freshDB

/-- Run 14, step 2 (step 1 is `run2Set1`, which stores `[11]` for `k` without
filling the record cache): `cdb_get(k)` reads the record from the data
segment and puts it into the record cache. -/
def run14Get : Option (Int × Option Bytes × Nat × CDB) :=
  cdb_get runCrc (dbAfter run2Set1) [107] 100 runSbuf
/-- Run 14, step 3: `cdb_set2(k, [22], CDB_OVERWRITE, 0)`. -/
def run14Set2 : Option (Int × CDB) :=
  cdb_set2 runCrc (dbAfterGet run14Get) [107] [22] CDB_OVERWRITE 0 100 runSbuf
/-- Run 14, step 4: `cdb_get(k)`. -/
def run14Get2 : Option (Int × Option Bytes × Nat × CDB) :=
  cdb_get runCrc (dbAfter run14Set2) [107] 100 runSbuf

/-- Run 15 (steps 1 and 2 are `run1Set1`, which stores `[11]` for `k` with
`CDB_INSERTCACHE`, and `run1Set2`, which overwrites it with `[22]` without
that flag): `cdb_get(k)`. -/
def run15Get : Option (Int × Option Bytes × Nat × CDB) :=
  cdb_get runCrc (dbAfter run1Set2) [107] 100 runSbuf


/-! # Theorems -/

/-- C10, evaluated: after recovery has replayed a record whose oid is 5 into a
database whose generator stands at 0, the next `cdb_genoid` hands out 5 again,
the oid of the record just replayed. -/
theorem cdb_genoid_repeats_replayed_oid (db : CDB) :
    (cdb_genoid (recovery_replay_oid { db with oid := 0 } 5)).1 = 5 := by
  simp [cdb_genoid, recovery_replay_oid]

theorem htMatch_pc {it : CDBHTITEM Nat CDBPAGE} (h : PcItemOK it) (bid : Nat) :
    htMatch (_pagehash bid) SI4 bid it = (it.key == bid) := by
  obtain ⟨h1, h2⟩ := h
  simp only [htMatch, _pagehash, h1, h2]
  by_cases hk : it.key = bid <;> simp [hk]

theorem htUnlink_pc (bid : Nat) :
    ∀ (items : List (CDBHTITEM Nat CDBPAGE)), (∀ it ∈ items, PcItemOK it) →
      htUnlink (_pagehash bid) SI4 bid items
        = (pcFind items bid, items.eraseP (fun it => it.key == bid))
  | [], _ => by simp [htUnlink, pcFind]
  | c :: rest, h => by
      have hc := htMatch_pc (h c (List.mem_cons_self _ _)) bid
      have ih := htUnlink_pc bid rest (fun it hit => h it (List.mem_cons_of_mem _ hit))
      by_cases hk : c.key = bid
      · simp [htUnlink, hc, hk, pcFind]
      · simp [htUnlink, hc, hk, pcFind, ih, List.eraseP_cons]

theorem pcFind_eraseP_self (bid : Nat) (items : List (CDBHTITEM Nat CDBPAGE))
    (hnd : (items.map (·.key)).Nodup) :
    pcFind (items.eraseP (fun it => it.key == bid)) bid = none := by
  induction items with
  | nil => simp [pcFind]
  | cons c rest ih =>
      simp only [List.map_cons, List.nodup_cons] at hnd
      by_cases hk : c.key = bid
      · simp only [List.eraseP_cons, hk, beq_self_eq_true, cond_true]
        simp only [pcFind, List.find?_eq_none]
        intro x hx
        have : x.key ∈ rest.map (·.key) := List.mem_map_of_mem _ hx
        simp
        intro hxb
        exact hnd.1 (by rw [hk, ← hxb]; exact this)
      · have hb : (c.key == bid) = false := by simp [hk]
        simp only [List.eraseP_cons, hb, cond_false, pcFind, List.find?_cons]
        simpa [pcFind] using ih hnd.2

theorem pcFind_eraseP_other (bid b : Nat) (items : List (CDBHTITEM Nat CDBPAGE)) (hne : b ≠ bid) :
    pcFind (items.eraseP (fun it => it.key == bid)) b = pcFind items b := by
  induction items with
  | nil => simp [pcFind]
  | cons c rest ih =>
      by_cases hk : c.key = bid
      · have hcb : (c.key == b) = false := by simp [hk]; exact fun h => hne h.symm
        have hbb : (bid == b) = false := by simp; exact fun h => hne h.symm
        simp [List.eraseP_cons, hk, pcFind, List.find?_cons, hbb]
      · have hb : (c.key == bid) = false := by simp [hk]
        simp only [List.eraseP_cons, hb, cond_false, pcFind, List.find?_cons]
        cases hcb : (c.key == b) <;> simp
        simpa [pcFind] using ih

/-! ## The hash table: what the operations do to the item list and to the
bookkeeping -/

theorem htUnlink_none {K V : Type} [DecidableEq K] (hash ksize : Nat) (key : K) :
    ∀ (items : List (CDBHTITEM K V)), (htUnlink hash ksize key items).1 = none →
      (htUnlink hash ksize key items).2 = items
  | [], _ => rfl
  | c :: rest, h => by
      by_cases hm : htMatch hash ksize key c = true
      · simp [htUnlink, hm] at h
      · simp only [htUnlink, hm, Bool.false_eq_true, ↓reduceIte] at h ⊢
        rw [htUnlink_none hash ksize key rest h]

theorem htUnlink_some {K V : Type} [DecidableEq K] (lru : Bool) (hash ksize : Nat) (key : K) :
    ∀ (items : List (CDBHTITEM K V)) (cur : CDBHTITEM K V),
      (htUnlink hash ksize key items).1 = some cur →
      items.length = (htUnlink hash ksize key items).2.length + 1
      ∧ (items.map (htItemBytes lru)).sum
          = htItemBytes lru cur + (((htUnlink hash ksize key items).2).map (htItemBytes lru)).sum
  | [], cur, h => by simp [htUnlink] at h
  | c :: rest, cur, h => by
      by_cases hm : htMatch hash ksize key c = true
      · simp only [htUnlink, hm, ↓reduceIte, Option.some.injEq] at h ⊢
        subst h
        simp
      · simp only [htUnlink, hm, Bool.false_eq_true, ↓reduceIte] at h ⊢
        obtain ⟨h1, h2⟩ := htUnlink_some lru hash ksize key rest cur h
        constructor
        · simp [h1]
        · simp only [List.map_cons, List.sum_cons, h2]
          omega

theorem htItemsBytes_eq {K V : Type} (ht : CDBHASHTABLE K V) :
    htItemsBytes ht = (ht.items.map (htItemBytes ht.lru)).sum := rfl

theorem cdb_ht_del_spec {K V : Type} [DecidableEq K] (hf : K → Nat)
    (ht : CDBHASHTABLE K V) (key : K) (ksize : Nat) (hok : HtOK ht) :
    (cdb_ht_del hf ht key ksize).1 = (htUnlink (hf key) ksize key ht.items).1
    ∧ (cdb_ht_del hf ht key ksize).2.items = (htUnlink (hf key) ksize key ht.items).2
    ∧ HtOK (cdb_ht_del hf ht key ksize).2
    ∧ htOverhead (cdb_ht_del hf ht key ksize).2 = htOverhead ht
    ∧ (cdb_ht_del hf ht key ksize).2.buckets.map (·.bnum) = ht.buckets.map (·.bnum) := by
  obtain ⟨hl, hn, hs⟩ := hok
  rcases hu : htUnlink (hf key) ksize key ht.items with ⟨r, rest⟩
  cases r with
  | none =>
      have := htUnlink_none (hf key) ksize key ht.items (by rw [hu])
      rw [hu] at this
      simp only at this
      subst this
      have e : cdb_ht_del hf ht key ksize = (none, ht) := by simp only [cdb_ht_del, hu]
      rw [e]
      exact ⟨rfl, rfl, ⟨hl, hn, hs⟩, rfl, rfl⟩
  | some cur =>
      obtain ⟨h1, h2⟩ := htUnlink_some ht.lru (hf key) ksize key ht.items cur (by rw [hu])
      rw [hu] at h1 h2
      simp only at h1 h2
      rw [htItemsBytes_eq] at hs
      have e : cdb_ht_del hf ht key ksize = (some cur,
          { ht with
            items := rest
            size := ht.size - htItemBytes ht.lru cur
            num := ht.num - 1
            buckets := ht.buckets.set (hf key % CDBHTBNUM)
              { htBucket ht (hf key) with rnum := (htBucket ht (hf key)).rnum - 1 } }) := by
        simp only [cdb_ht_del, hu]
      rw [e]
      refine ⟨rfl, rfl, ⟨hl, ?_, ?_⟩, ?_, ?_⟩
      · simp only; omega
      · simp only [htItemsBytes]; omega
      · simp only [htOverhead, htItemsBytes]; omega
      · simp only
        apply List.ext_getElem
        · simp
        · intro i h1 h2
          simp only [List.getElem_map, List.getElem_set]
          split
          · rename_i hi
            subst hi
            simp only [htBucket, List.getD_eq_getElem?_getD]
            simp only [List.length_map, List.length_set] at h2
            rw [List.getElem?_eq_getElem h2]
            simp
          · rfl

theorem foldl_max_ge (l : List Nat) : ∀ (a : Nat), a ≤ l.foldl max a := by
  induction l with
  | nil => intro a; exact Nat.le_refl a
  | cons x xs ih =>
      intro a
      exact Nat.le_trans (Nat.le_max_left a x) (ih (max a x))

theorem foldl_max_mem (l : List Nat) : ∀ (a x : Nat), x ∈ l → x ≤ l.foldl max a := by
  induction l with
  | nil => intro a x h; simp at h
  | cons y ys ih =>
      intro a x h
      rcases List.mem_cons.mp h with h | h
      · subst h
        exact Nat.le_trans (Nat.le_max_right a x) (foldl_max_ge ys (max a x))
      · exact ih (max a y) x h

theorem htBucket_bnum_le {K V : Type} (ht : CDBHASHTABLE K V) (hash : Nat) :
    (htBucket ht hash).bnum ≤ htMaxBnum ht := by
  unfold htBucket htMaxBnum
  rw [List.getD_eq_getElem?_getD]
  cases h : ht.buckets[hash % CDBHTBNUM]? with
  | none => simpa using foldl_max_ge _ 2
  | some bk =>
      simp only [Option.getD_some]
      apply foldl_max_mem
      have := List.getElem?_mem h
      exact List.mem_map_of_mem _ this

theorem cdb_ht_get3_spec {K V : Type} [DecidableEq K] (hf : K → Nat)
    (ht : CDBHASHTABLE K V) (key : K) (ksize : Nat) (mtf : Bool) (hok : HtOK ht) :
    (cdb_ht_get3 hf ht key ksize mtf).1 = (htUnlink (hf key) ksize key ht.items).1
    ∧ HtOK (cdb_ht_get3 hf ht key ksize mtf).2
    ∧ htOverhead (cdb_ht_get3 hf ht key ksize mtf).2 = htOverhead ht
    ∧ (cdb_ht_get3 hf ht key ksize mtf).2.buckets = ht.buckets
    ∧ ((cdb_ht_get3 hf ht key ksize mtf).2.items = ht.items
        ∨ ∃ cur, (htUnlink (hf key) ksize key ht.items).1 = some cur
            ∧ (cdb_ht_get3 hf ht key ksize mtf).2.items
                = cur :: (htUnlink (hf key) ksize key ht.items).2) := by
  obtain ⟨hl, hn, hs⟩ := hok
  rcases hu : htUnlink (hf key) ksize key ht.items with ⟨r, rest⟩
  cases r with
  | none =>
      have e : cdb_ht_get3 hf ht key ksize mtf = (none, ht) := by simp only [cdb_ht_get3, hu]
      rw [e]
      exact ⟨rfl, ⟨hl, hn, hs⟩, rfl, rfl, Or.inl rfl⟩
  | some cur =>
      obtain ⟨h1, h2⟩ := htUnlink_some ht.lru (hf key) ksize key ht.items cur (by rw [hu])
      rw [hu] at h1 h2
      simp only at h1 h2
      rw [htItemsBytes_eq] at hs
      cases mtf with
      | false =>
          have e : cdb_ht_get3 hf ht key ksize false = (some cur, ht) := by
            simp [cdb_ht_get3, hu]
          rw [e]
          exact ⟨rfl, ⟨hl, hn, hs⟩, rfl, rfl, Or.inl rfl⟩
      | true =>
          have e : cdb_ht_get3 hf ht key ksize true
              = (some cur, { ht with items := cur :: rest }) := by
            simp [cdb_ht_get3, hu, hl]
          rw [e]
          refine ⟨rfl, ⟨hl, ?_, ?_⟩, ?_, rfl, Or.inr ⟨cur, rfl, rfl⟩⟩
          · simp only [List.length_cons]; omega
          · simp only [htItemsBytes, List.map_cons, List.sum_cons]; omega
          · simp only [htOverhead, htItemsBytes, List.map_cons, List.sum_cons]; omega

theorem cdb_ht_insert_spec {K V : Type} [DecidableEq K] (hf : K → Nat)
    (ht : CDBHASHTABLE K V) (item : CDBHTITEM K V) (hok : HtOK ht) :
    (cdb_ht_insert hf ht item).items
        = { item with hash := hf item.key }
            :: (htUnlink (hf item.key) item.ksize item.key ht.items).2
    ∧ HtOK (cdb_ht_insert hf ht item)
    ∧ htOverhead (cdb_ht_insert hf ht item) ≤ htOverhead ht + htGrowth ht := by
  obtain ⟨hl, hn, hs⟩ := hok
  have hb := htBucket_bnum_le ht (hf item.key)
  rw [htItemsBytes_eq] at hs
  have hexp : (if (htBucket ht (hf item.key)).bnum < 512 then 4 else 2) ≤ 4 := by split <;> omega
  have hexp1 : 1 ≤ (if (htBucket ht (hf item.key)).bnum < 512 then 4 else 2) := by split <;> omega
  generalize hE : (if (htBucket ht (hf item.key)).bnum < 512 then 4 else 2) = ex at hexp hexp1
  have hmul : (htBucket ht (hf item.key)).bnum * ex ≤ 4 * (htBucket ht (hf item.key)).bnum := by
    calc (htBucket ht (hf item.key)).bnum * ex ≤ (htBucket ht (hf item.key)).bnum * 4 :=
          Nat.mul_le_mul_left _ hexp
      _ = 4 * (htBucket ht (hf item.key)).bnum := Nat.mul_comm _ _
  have hmul1 : (htBucket ht (hf item.key)).bnum ≤ (htBucket ht (hf item.key)).bnum * ex := by
    calc (htBucket ht (hf item.key)).bnum = (htBucket ht (hf item.key)).bnum * 1 := by simp
      _ ≤ (htBucket ht (hf item.key)).bnum * ex := Nat.mul_le_mul_left _ hexp1
  have hg : htGrowth ht = 24 * htMaxBnum ht := by simp [htGrowth, SIZEOF_PTR]
  have hi : htItemBytes ht.lru { item with hash := hf item.key } = htItemBytes ht.lru item := rfl
  rcases hu : htUnlink (hf item.key) item.ksize item.key ht.items with ⟨r, rest⟩
  cases r with
  | none =>
      have hr := htUnlink_none (hf item.key) item.ksize item.key ht.items (by rw [hu])
      rw [hu] at hr
      simp only at hr
      subst hr
      refine ⟨by simp only [cdb_ht_insert, hu], ⟨by simp only [cdb_ht_insert, hu]; exact hl, ?_, ?_⟩, ?_⟩
      · simp only [cdb_ht_insert, hu, List.length_cons]; omega
      · simp only [htItemsBytes, cdb_ht_insert, hu, List.map_cons, List.sum_cons, SIZEOF_PTR, hE, hi]
        split <;> omega
      · simp only [htOverhead, htItemsBytes, cdb_ht_insert, hu, List.map_cons, List.sum_cons,
          SIZEOF_PTR, hE, hg, hi]
        split <;> omega
  | some cur =>
      obtain ⟨h1, h2⟩ := htUnlink_some ht.lru (hf item.key) item.ksize item.key ht.items cur
        (by rw [hu])
      rw [hu] at h1 h2
      simp only at h1 h2
      refine ⟨by simp only [cdb_ht_insert, hu], ⟨by simp only [cdb_ht_insert, hu]; exact hl, ?_, ?_⟩, ?_⟩
      · simp only [cdb_ht_insert, hu, List.length_cons]; omega
      · simp only [htItemsBytes, cdb_ht_insert, hu, List.map_cons, List.sum_cons, SIZEOF_PTR, hE, hi]
        split <;> omega
      · simp only [htOverhead, htItemsBytes, cdb_ht_insert, hu, List.map_cons, List.sum_cons,
          SIZEOF_PTR, hE, hg, hi]
        split <;> omega

theorem buckets_set_bnum {K V : Type} (ht : CDBHASHTABLE K V) (hash r : Nat) :
    (ht.buckets.set (hash % CDBHTBNUM) { htBucket ht hash with rnum := r }).map (·.bnum)
      = ht.buckets.map (·.bnum) := by
  apply List.ext_getElem
  · simp
  · intro i h1 h2
    simp only [List.getElem_map, List.getElem_set]
    split
    · rename_i hi
      subst hi
      simp only [htBucket, List.getD_eq_getElem?_getD]
      simp only [List.length_map, List.length_set] at h2
      rw [List.getElem?_eq_getElem h2]
      simp
    · rfl

theorem cdb_ht_poptail_nil {K V : Type} (ht : CDBHASHTABLE K V) (h : ht.items = []) :
    cdb_ht_poptail ht = (none, ht) := by
  unfold cdb_ht_poptail
  split
  · rfl
  · simp [h]

theorem cdb_ht_poptail_spec {K V : Type} (ht : CDBHASHTABLE K V) (hok : HtOK ht)
    (hne : ht.items ≠ []) :
    ∃ last ht1, cdb_ht_poptail ht = (some last, ht1)
      ∧ ht.items = ht1.items ++ [last]
      ∧ HtOK ht1 ∧ htOverhead ht1 = htOverhead ht
      ∧ htMaxBnum ht1 = htMaxBnum ht
      ∧ ht1.size + htItemBytes true last = ht.size := by
  obtain ⟨hl, hn, hs⟩ := hok
  rw [htItemsBytes_eq] at hs
  obtain ⟨init, last, hil⟩ : ∃ init last, ht.items = init ++ [last] := by
    refine ⟨ht.items.dropLast, ht.items.getLast hne, ?_⟩
    exact (List.dropLast_append_getLast hne).symm
  have hgl : ht.items.getLast? = some last := by simp [hil]
  have hdl : ht.items.dropLast = init := by simp [hil]
  have hsum : (ht.items.map (htItemBytes ht.lru)).sum
      = (init.map (htItemBytes ht.lru)).sum + htItemBytes ht.lru last := by
    simp [hil]
  have hlen : ht.items.length = init.length + 1 := by simp [hil]
  have hb : htItemBytes ht.lru last = SIZEOF_CDBHTITEM + last.ksize + last.vsize + SIZEOF_PTR * 2 := by
    simp [htItemBytes, hl, SIZEOF_PTR]
  have hb2 : htItemBytes true last = htItemBytes ht.lru last := by rw [hl]
  refine ⟨last, { ht with
      items := init
      buckets := ht.buckets.set (last.hash % CDBHTBNUM)
        { htBucket ht last.hash with rnum := (htBucket ht last.hash).rnum - 1 }
      num := ht.num - 1
      size := ht.size - (SIZEOF_CDBHTITEM + last.ksize + last.vsize + SIZEOF_PTR * 2) }, ?_, ?_, ?_, ?_, ?_, ?_⟩
  · simp [cdb_ht_poptail, hl, hgl, hdl]
  · exact hil
  · refine ⟨hl, ?_, ?_⟩
    · simp only; omega
    · simp only [htItemsBytes]; omega
  · simp only [htOverhead, htItemsBytes]; omega
  · simp only [htMaxBnum, buckets_set_bnum]
  · simp only; omega

theorem sum_take_le (l : List Nat) (n : Nat) : (l.take n).sum ≤ l.sum := by
  induction l generalizing n with
  | nil => simp
  | cons x xs ih =>
      cases n with
      | zero => simp
      | succ m => simp only [List.take_succ_cons, List.sum_cons]; have := ih m; omega

theorem sum_take_mono (l : List Nat) (n m : Nat) (h : n ≤ m) : (l.take n).sum ≤ (l.take m).sum := by
  have : l.take n = (l.take m).take n := by rw [List.take_take, Nat.min_eq_left h]
  rw [this]
  exact sum_take_le _ _

/-- The eviction loop of the record cache comes to an end when the empty table
fits the limit; it keeps a front part of the LRU list, and at least every
front part that fits the limit. -/
theorem recoutLoop_spec : ∀ (fuel : Nat) (db : CDB) (rc : CDBHASHTABLE Bytes Bytes),
    db.rcache = some rc → HtOK rc → rc.items.length < fuel → htOverhead rc ≤ db.rclimit →
    ∃ rc1, recoutLoop fuel db = some { db with rcache := some rc1 }
      ∧ HtOK rc1 ∧ htOverhead rc1 = htOverhead rc ∧ htMaxBnum rc1 = htMaxBnum rc
      ∧ ∃ j, rc1.items = rc.items.take j
          ∧ ∀ n, htOverhead rc + ((rc.items.take n).map (htItemBytes true)).sum ≤ db.rclimit →
              rc.items.take n = rc1.items.take n
  | 0, _, _, _, _, hlen, _ => by omega
  | fuel + 1, db, rc, hrc, hok, hlen, hfit => by
      have hdb : db = { db with rcache := some rc } := by rw [← hrc]
      by_cases hov : RCOVERFLOW db = true
      · have hsz : rc.size > db.rclimit := by simpa [RCOVERFLOW, hrc] using hov
        have hne : rc.items ≠ [] := by
          intro h
          have : htOverhead rc = rc.size := by simp [htOverhead, htItemsBytes, h]
          omega
        obtain ⟨last, rc0, hp, hil, hok0, hov0, hmb0, hsz0⟩ := cdb_ht_poptail_spec rc hok hne
        have hnum : (rc.num != 0) = true := by
          obtain ⟨_, hn, _⟩ := hok
          have : rc.items.length ≠ 0 := by simpa using hne
          simp; omega
        have hlen0 : rc0.items.length < fuel := by
          have : rc.items.length = rc0.items.length + 1 := by simp [hil]
          omega
        obtain ⟨rc1, hr, hok1, hov1, hmb1, j, hj, hkeep⟩ :=
          recoutLoop_spec fuel { db with rcache := some rc0 } rc0 rfl hok0 hlen0
            (by rw [hov0]; exact hfit)
        refine ⟨rc1, ?_, hok1, by rw [hov1, hov0], by rw [hmb1, hmb0], ?_⟩
        · rw [recoutLoop]
          simp only [hov, ↓reduceIte, hrc, hnum, hp]
          exact hr
        · have hj0 : rc0.items.length ≤ rc.items.length := by simp [hil]
          refine ⟨min j rc0.items.length, ?_, ?_⟩
          · rw [hj, hil, List.take_append_of_le_length (Nat.min_le_right _ _)]
            rw [List.take_eq_take]
            omega
          · intro n hn
            -- the whole list does not fit, so a fitting front part is shorter
            have hOK := hok.1
            have hsum : htItemsBytes rc = (rc.items.map (htItemBytes true)).sum := by
              rw [htItemsBytes_eq, hOK]
            have hsize : rc.size = htOverhead rc + (rc.items.map (htItemBytes true)).sum := by
              have := hok.2.2
              simp only [htOverhead]
              omega
            have hnlt : n ≤ rc0.items.length := by
              by_contra hcon
              have hge : rc.items.length ≤ n := by
                have : rc.items.length = rc0.items.length + 1 := by simp [hil]
                omega
              rw [List.take_of_length_le hge] at hn
              omega
            have hpre : rc.items.take n = rc0.items.take n := by
              rw [hil, List.take_append_of_le_length hnlt]
            rw [hpre]
            rw [hpre, hov0.symm] at hn
            exact hkeep n hn
      · refine ⟨rc, ?_, hok, rfl, rfl, rc.items.length, by simp, fun n _ => rfl⟩
        rw [recoutLoop]
        simp only [hov, Bool.false_eq_true, ↓reduceIte]
        exact congrArg some hdb

/-! ## The index store -/

theorem natFOFF_inj {n m : Nat} (h : natFOFF n = natFOFF m) : n = m := by
  simp only [natFOFF, FOFF.mk.injEq] at h
  omega

theorem natFOFF_notnull {n : Nat} (h : 0 < n) : OFFNOTNULL (natFOFF n) = true := by
  simp only [OFFNOTNULL, natFOFF, bne_iff_ne, ne_eq, Bool.or_eq_true]
  omega

theorem storeAt_mem {α : Type} (off : FOFF) :
    ∀ (l : List (FOFF × α)) (a : α), storeAt off l = some a → (off, a) ∈ l
  | [], a, h => by simp [storeAt] at h
  | (o, b) :: rest, a, h => by
      by_cases ho : o = off
      · simp only [storeAt, ho, ↓reduceIte, Option.some.injEq] at h
        subst h; subst ho
        exact List.mem_cons_self _ _
      · simp only [storeAt, ho, ↓reduceIte] at h
        exact List.mem_cons_of_mem _ (storeAt_mem off rest a h)

theorem mtGet_mem (mt : MTable) (bid : Nat) (h : OFFNOTNULL (mtGet mt bid) = true) :
    (bid, mtGet mt bid) ∈ mt := by
  induction mt with
  | nil => simp [mtGet, OFFNOTNULL, OFFZERO] at h
  | cons e rest ih =>
      obtain ⟨b, o⟩ := e
      by_cases hb : b = bid
      · subst hb
        simp [mtGet]
      · simp only [mtGet, hb, ↓reduceIte] at h ⊢
        exact List.mem_cons_of_mem _ (ih h)

theorem view_readpage (vio : VIOAPND2) (off : FOFF) (img : CDBPAGE)
    (h : storeAt off vio.pages = some img) (hm : img.magic = PAGEMAGIC) :
    _vio_apnd2_readpage vio off
      = some { img with osize := OFFALIGNED (PAGESIZE img), ooff := off, cap := img.num } := by
  simp [_vio_apnd2_readpage, h, hm]

/-- Under a sound store every bucket can be read, and what is read is what
`diskView` shows. -/
theorem readBucketPage_ok (db : CDB) (vio : VIOAPND2) (mt : MTable) (hv : db.vio = some vio)
    (hm : db.mtable = some mt) (hs : StoreOK vio mt) (bid : Nat) (sbuf : CDBPAGE) :
    ∃ p, readBucketPage db bid sbuf = some (some p) ∧ diskView db bid = some p.view
        ∧ p.num ≤ p.items.length := by
  by_cases hn : OFFNOTNULL (mtGet mt bid) = true
  · obtain ⟨img, himg⟩ := hs.2.2 _ (mtGet_mem mt bid hn) hn
    have hmem := storeAt_mem _ _ _ himg
    obtain ⟨_, hmag, hnum⟩ := hs.2.1 _ hmem
    have hr := view_readpage vio _ img himg hmag
    simp only at hr hnum
    refine ⟨{ img with osize := OFFALIGNED (PAGESIZE img), ooff := mtGet mt bid, cap := img.num },
      ?_, ?_, hnum⟩
    · simp [readBucketPage, hv, hm, hn, hr]
    · simp [diskView, hv, hm, hn, hr]
  · refine ⟨emptyPage sbuf, ?_, ?_, ?_⟩
    · simp [readBucketPage, hm, hn]
    · simp [diskView, hv, hm, hn, CDBPAGE.view, emptyPage]
    · simp [emptyPage]

theorem OFFALIGNED_PAGESIZE_pos (p : CDBPAGE) : 0 < OFFALIGNED (PAGESIZE p) / 16 := by
  simp only [OFFALIGNED, PAGESIZE, PAGEHSIZE, SIZEOF_PITEM]
  omega

/-- Writing a page and storing its offset in the main table keeps the store
sound, makes the page the disk page of its bucket and leaves every other
bucket alone. -/
theorem writeBucketPage_spec (db : CDB) (vio : VIOAPND2) (mt : MTable) (bid : Nat) (p : CDBPAGE)
    (hv : db.vio = some vio) (hm : db.mtable = some mt) (hs : StoreOK vio mt)
    (hp : p.num ≤ p.items.length) :
    ∃ db1 vio1 mt1, writeBucketPage db bid p = some db1
      ∧ db1.vio = some vio1 ∧ db1.mtable = some mt1 ∧ StoreOK vio1 mt1
      ∧ diskView db1 bid = some p.view
      ∧ (∀ b, b ≠ bid → diskView db1 b = diskView db b)
      ∧ db1.pcache = db.pcache ∧ db1.dpcache = db.dpcache ∧ dataOf db1 = dataOf db := by
  obtain ⟨hpos, hpages, hmt⟩ := hs
  have hal := OFFALIGNED_PAGESIZE_pos { p with magic := PAGEMAGIC, oid := db.oid }
  have hnn := natFOFF_notnull hpos
  simp only [writeBucketPage, hv, _vio_apnd2_writepage, cdb_genoid, hm]
  refine ⟨_, _, _, rfl, rfl, rfl, ?_, ?_, ?_, rfl, rfl, ?_⟩
  · refine ⟨?_, ?_, ?_⟩
    · simp only; omega
    · intro e he
      simp only [List.mem_cons] at he
      rcases he with he | he
      · subst he
        refine ⟨⟨vio.inext, by simp only; omega, rfl⟩, rfl, ?_⟩
        simp only [List.length_take]
        omega
      · obtain ⟨⟨n, hn, hen⟩, h2, h3⟩ := hpages e he
        exact ⟨⟨n, by simp only; omega, hen⟩, h2, h3⟩
    · intro e he hnn
      simp only [mtSet, List.mem_cons] at he
      rcases he with he | he
      · subst he
        simp [storeAt]
      · obtain ⟨img, himg⟩ := hmt e he hnn
        by_cases ho : natFOFF vio.inext = e.2
        · simp [storeAt, ho]
        · simp [storeAt, ho, himg]
  · simp [diskView, mtSet, mtGet, hnn, _vio_apnd2_readpage, storeAt, CDBPAGE.view,
      List.take_take]
  · intro b hb
    have hbb : ¬ bid = b := fun h => hb h.symm
    simp only [diskView, hv, hm, mtSet, mtGet, hbb, ↓reduceIte]
    by_cases hn : OFFNOTNULL (mtGet mt b) = true
    · simp only [hn, ↓reduceIte]
      obtain ⟨img, himg⟩ := hmt _ (mtGet_mem mt b hn) hn
      obtain ⟨⟨n, hnlt, hen⟩, _, _⟩ := hpages _ (storeAt_mem _ _ _ himg)
      simp only at hen
      have hne : ¬ natFOFF vio.inext = mtGet mt b := by
        intro h
        rw [hen] at h
        have := natFOFF_inj h
        omega
      simp [_vio_apnd2_readpage, storeAt, hne]
    · simp [hn]
  · simp [dataOf, hv, vioData]

/-! ## Eviction of index pages keeps the index as it is -/

theorem pcFind_append_single (l : List (CDBHTITEM Nat CDBPAGE)) (x : CDBHTITEM Nat CDBPAGE)
    (b : Nat) :
    pcFind (l ++ [x]) b
      = match pcFind l b with
        | some it => some it
        | none => if x.key = b then some x else none := by
  simp only [pcFind, List.find?_append]
  cases h : List.find? (fun it => it.key == b) l with
  | some it => simp
  | none =>
      by_cases hx : x.key = b
      · simp [hx]
      · simp [hx]

theorem pcFind_none_of_not_mem (l : List (CDBHTITEM Nat CDBPAGE)) (b : Nat)
    (h : b ∉ l.map (·.key)) : pcFind l b = none := by
  simp only [pcFind, List.find?_eq_none]
  intro x hx hxb
  apply h
  simp only [beq_iff_eq] at hxb
  rw [← hxb]
  exact List.mem_map_of_mem _ hx

theorem pcFind_some_mem (l : List (CDBHTITEM Nat CDBPAGE)) (b : Nat) (it : CDBHTITEM Nat CDBPAGE)
    (h : pcFind l b = some it) : it ∈ l ∧ it.key = b := by
  simp only [pcFind] at h
  exact ⟨List.mem_of_find?_eq_some h, by simpa using List.find?_some h⟩

theorem pageout_clean_step (db : CDB) (pc pc1 : CDBHASHTABLE Nat CDBPAGE)
    (last : CDBHTITEM Nat CDBPAGE) (hinv : PageInv db) (hpc : db.pcache = some pc)
    (hsplit : pc.items = pc1.items ++ [last]) (hok1 : HtOK pc1) :
    PageInv { db with pcache := some pc1 }
    ∧ (∀ b, curView { db with pcache := some pc1 } b = curView db b)
    ∧ dataOf { db with pcache := some pc1 } = dataOf db := by
  have hci : cacheItems db.pcache = pc1.items ++ [last] := by simp [cacheItems, hpc, hsplit]
  have hsub : ∀ it ∈ pc1.items, it ∈ cacheItems db.pcache := by
    intro it hit; rw [hci]; exact List.mem_append_left _ hit
  refine ⟨?_, ?_, rfl⟩
  · refine
      { hsize_pos := hinv.hsize_pos
        both := by have := hinv.both; simp [hpc] at this ⊢; exact this
        pc_ok := fun it hit => hinv.pc_ok it (hsub it hit)
        dpc_ok := hinv.dpc_ok
        pc_nodup := ?_
        dpc_nodup := hinv.dpc_nodup
        disj := fun it hit => hinv.disj it (hsub it hit)
        coh := fun it hit => hinv.coh it (hsub it hit)
        pc_book := ?_
        dpc_book := hinv.dpc_book
        store := hinv.store
        bf_ok := hinv.bf_ok }
    · have := hinv.pc_nodup
      rw [hci, List.map_append] at this
      exact (List.nodup_append.mp this).1
    · intro pc2 h2
      simp only [Option.some.injEq] at h2
      subst h2
      exact hok1
  · intro b
    have hlast : last ∈ cacheItems db.pcache := by rw [hci]; simp
    simp only [curView, cacheItems, hpc, hsplit, pcFind_append_single]
    cases hf : pcFind pc1.items b with
    | some it => rfl
    | none =>
        by_cases hx : last.key = b
        · simp only [hx, ↓reduceIte]
          have h1 := hinv.disj last hlast
          have h2 := hinv.coh last hlast
          rw [hx] at h1 h2
          simp only [cacheItems] at h1
          simp only [h1]
          exact h2
        · simp only [hx, ↓reduceIte]
          rfl

theorem pageout_dirty_step (db db2 : CDB) (pc dpc dpc1 : CDBHASHTABLE Nat CDBPAGE)
    (item : CDBHTITEM Nat CDBPAGE) (hinv : PageInv db) (hpc : db.pcache = some pc)
    (hpce : pc.items = []) (hdpc : db.dpcache = some dpc)
    (hsplit : dpc.items = dpc1.items ++ [item]) (hok1 : HtOK dpc1)
    (hw : writeBucketPage { db with dpcache := some dpc1 } item.key item.val = some db2) :
    PageInv db2 ∧ (∀ b, curView db2 b = curView db b) ∧ dataOf db2 = dataOf db := by
  obtain ⟨vio, mt, hv, hm, hs⟩ := hinv.store
  have hci : cacheItems db.dpcache = dpc1.items ++ [item] := by simp [cacheItems, hdpc, hsplit]
  have hsub : ∀ it ∈ dpc1.items, it ∈ cacheItems db.dpcache := by
    intro it hit; rw [hci]; exact List.mem_append_left _ hit
  have hitem : item ∈ cacheItems db.dpcache := by rw [hci]; simp
  have hio := hinv.dpc_ok item hitem
  obtain ⟨db3, vio1, mt1, hw3, hv1, hm1, hs1, hdv, hdo, hpc3, hdpc3, hdata⟩ :=
    writeBucketPage_spec { db with dpcache := some dpc1 } vio mt item.key item.val hv hm hs hio.2.2
  rw [hw] at hw3
  simp only [Option.some.injEq] at hw3
  subst hw3
  have hpc2 : db2.pcache = some pc := by rw [hpc3]; exact hpc
  have hdpc2 : db2.dpcache = some dpc1 := hdpc3
  have hpci : cacheItems db2.pcache = [] := by simp [cacheItems, hpc2, hpce]
  have hhs : db2.hsize = db.hsize := by
    have := congrArg (fun d => d.2.2.2.1) hdata
    simpa [dataOf] using this
  have hnd := hinv.dpc_nodup
  rw [hci, List.map_append] at hnd
  refine ⟨?_, ?_, hdata⟩
  · refine
      { hsize_pos := by rw [hhs]; exact hinv.hsize_pos
        both := by simp [hpc2, hdpc2]
        pc_ok := by rw [hpci]; intro it hit; simp at hit
        dpc_ok := ?_
        pc_nodup := by rw [hpci]; simp
        dpc_nodup := ?_
        disj := by rw [hpci]; intro it hit; simp at hit
        coh := by rw [hpci]; intro it hit; simp at hit
        pc_book := ?_
        dpc_book := ?_
        store := ⟨vio1, mt1, hv1, hm1, hs1⟩
        bf_ok := by
          have e := congrArg (fun d => d.2.2.1) hdata
          simp only [dataOf] at e
          rw [e]; exact hinv.bf_ok }
    · intro it hit
      simp only [cacheItems, hdpc2] at hit
      rw [hhs]
      exact hinv.dpc_ok it (hsub it hit)
    · simp only [cacheItems, hdpc2]
      exact (List.nodup_append.mp hnd).1
    · intro pc2 h2
      rw [hpc2] at h2
      simp only [Option.some.injEq] at h2
      subst h2
      exact hinv.pc_book pc hpc
    · intro d2 h2
      rw [hdpc2] at h2
      simp only [Option.some.injEq] at h2
      subst h2
      exact hok1
  · intro b
    have hpcf : ∀ b, pcFind (cacheItems db.pcache) b = none := by
      intro b; simp [cacheItems, hpc, hpce, pcFind]
    simp only [curView, hpci, hpcf]
    simp only [pcFind, List.find?_nil]
    simp only [cacheItems, hdpc2, hdpc, hsplit]
    have := pcFind_append_single dpc1.items item b
    simp only [pcFind] at this
    rw [this]
    cases hf : List.find? (fun it => it.key == b) dpc1.items with
    | some it => rfl
    | none =>
        by_cases hx : item.key = b
        · simp only [hx, ↓reduceIte]
          rw [← hx]
          exact hdv
        · simp only [hx, ↓reduceIte]
          exact hdo b (fun h => hx h.symm)

theorem PCOVERFLOW_some (db : CDB) (pc dpc : CDBHASHTABLE Nat CDBPAGE) (hpc : db.pcache = some pc)
    (hdpc : db.dpcache = some dpc) :
    PCOVERFLOW db = some (decide (dpc.size + pc.size > db.pclimit)) := by
  simp [PCOVERFLOW, hpc, hdpc]

/-- One round of the page eviction loop on a sound index: either both caches
are empty and the loop spins, or one page leaves a cache and the index shows
the same pages as before. -/
theorem pageoutLoop_step (fuel : Nat) (db : CDB) (hinv : PageInv db)
    (hov : PCOVERFLOW db = some true) :
    ∃ pc dpc, db.pcache = some pc ∧ db.dpcache = some dpc ∧
      ((pc.items = [] ∧ dpc.items = [] ∧ pageoutLoop (fuel + 1) db = none)
       ∨ ∃ db1, pageoutLoop (fuel + 1) db = pageoutLoop fuel db1 ∧ PageInv db1
           ∧ (∀ b, curView db1 b = curView db b) ∧ dataOf db1 = dataOf db
           ∧ ∃ pc1 dpc1, db1.pcache = some pc1 ∧ db1.dpcache = some dpc1
               ∧ pc1.items.length + dpc1.items.length + 1 = pc.items.length + dpc.items.length
               ∧ htOverhead pc1 + htOverhead dpc1 = htOverhead pc + htOverhead dpc) := by
  have hboth := hinv.both
  cases hdpc : db.dpcache with
  | none => simp [PCOVERFLOW, hdpc] at hov
  | some dpc =>
    cases hpc : db.pcache with
    | none => simp [hpc, hdpc] at hboth
    | some pc =>
      refine ⟨pc, dpc, rfl, rfl, ?_⟩
      have hokp := hinv.pc_book pc hpc
      have hokd := hinv.dpc_book dpc hdpc
      by_cases hpe : pc.items = []
      · have hpn : (pc.num != 0) = false := by
          have := hokp.2.1
          simp [this, hpe]
        by_cases hde : dpc.items = []
        · left
          have hdn : (dpc.num != 0) = false := by
            have := hokd.2.1
            simp [this, hde]
          refine ⟨hpe, hde, ?_⟩
          rw [pageoutLoop]
          simp [hov, hpc, hdpc, hpn, hdn]
        · right
          have hdn : (dpc.num != 0) = true := by
            have := hokd.2.1
            have : dpc.items.length ≠ 0 := by simpa using hde
            simp; omega
          obtain ⟨item, dpc1, hp, hsplit, hok1, hovh, _, _⟩ := cdb_ht_poptail_spec dpc hokd hde
          have hgt : cdb_ht_gettail dpc = some item := by
            simp [cdb_ht_gettail, hokd.1, hsplit]
          have hitem : item ∈ cacheItems db.dpcache := by simp [cacheItems, hdpc, hsplit]
          have hio := hinv.dpc_ok item hitem
          obtain ⟨vio, mt, hv, hm, hs⟩ := hinv.store
          obtain ⟨db2, vio1, mt1, hw, hv1, hm1, hs1, hdv, hdo, hpc2, hdpc2, hdata⟩ :=
            writeBucketPage_spec { db with dpcache := some dpc1 } vio mt item.key item.val hv hm hs
              hio.2.2
          obtain ⟨hinv2, hcv2, hd2⟩ :=
            pageout_dirty_step db db2 pc dpc dpc1 item hinv hpc hpe hdpc hsplit hok1 hw
          refine ⟨db2, ?_, hinv2, hcv2, hd2, pc, dpc1, by rw [hpc2]; exact hpc, hdpc2, ?_, ?_⟩
          · rw [pageoutLoop]
            have hw1 := hw
            simp only [hpc] at hw1
            simp only [hov, hpc, hdpc, hpn, hdn, hgt, hp, Bool.false_eq_true, ↓reduceIte]
            have hlt : item.key < db.hsize := hio.2.1
            simp only [hlt, ↓reduceIte, hw1]
          · simp [hsplit]; omega
          · rw [hovh]
      · right
        have hpn : (pc.num != 0) = true := by
          have := hokp.2.1
          have : pc.items.length ≠ 0 := by simpa using hpe
          simp; omega
        obtain ⟨last, pc1, hp, hsplit, hok1, hovh, _, _⟩ := cdb_ht_poptail_spec pc hokp hpe
        obtain ⟨hinv1, hcv1, hd1⟩ := pageout_clean_step db pc pc1 last hinv hpc hsplit hok1
        refine ⟨{ db with pcache := some pc1 }, ?_, hinv1, hcv1, hd1, pc1, dpc, rfl, hdpc, ?_, ?_⟩
        · rw [pageoutLoop]
          simp only [hov, hpc, hdpc, hpn, hp, ↓reduceIte]
        · simp [hsplit]; omega
        · rw [hovh]

/-- Page eviction keeps the index invariant and shows the same page for every
bucket. -/
theorem pageoutLoop_spec : ∀ (fuel : Nat) (db db1 : CDB), PageInv db →
    pageoutLoop fuel db = some db1 →
    PageInv db1 ∧ (∀ b, curView db1 b = curView db b) ∧ dataOf db1 = dataOf db
  | 0, db, db1, hinv, h => by
      rw [pageoutLoop] at h
      split at h
      · simp only [Option.some.injEq] at h
        subst h
        exact ⟨hinv, fun _ => rfl, rfl⟩
      · simp at h
  | fuel + 1, db, db1, hinv, h => by
      cases hov : PCOVERFLOW db with
      | none => rw [pageoutLoop] at h; simp [hov] at h
      | some ov =>
        cases ov with
        | false =>
            rw [pageoutLoop] at h
            simp only [hov, Option.some.injEq] at h
            subst h
            exact ⟨hinv, fun _ => rfl, rfl⟩
        | true =>
            obtain ⟨pc, dpc, hpc, hdpc, hcase⟩ := pageoutLoop_step fuel db hinv hov
            rcases hcase with ⟨_, _, hnone⟩ | ⟨db2, hstep, hinv2, hcv2, hd2, _⟩
            · rw [hnone] at h; simp at h
            · rw [hstep] at h
              obtain ⟨hinv3, hcv3, hd3⟩ := pageoutLoop_spec fuel db2 db1 hinv2 h
              exact ⟨hinv3, fun b => by rw [hcv3 b, hcv2 b], by rw [hd3, hd2]⟩

/-- Page eviction comes to an end when the two empty tables fit the limit. -/
theorem pageoutLoop_returns : ∀ (fuel : Nat) (db : CDB) (pc dpc : CDBHASHTABLE Nat CDBPAGE),
    PageInv db → db.pcache = some pc → db.dpcache = some dpc →
    pc.items.length + dpc.items.length < fuel →
    htOverhead pc + htOverhead dpc ≤ db.pclimit →
    ∃ db1, pageoutLoop fuel db = some db1
  | 0, _, _, _, _, _, _, hlen, _ => by omega
  | fuel + 1, db, pc, dpc, hinv, hpc, hdpc, hlen, hfit => by
      have hov := PCOVERFLOW_some db pc dpc hpc hdpc
      by_cases hgt : dpc.size + pc.size > db.pclimit
      · simp only [hgt, decide_True] at hov
        obtain ⟨pc', dpc', hpc', hdpc', hcase⟩ := pageoutLoop_step fuel db hinv hov
        rw [hpc] at hpc'; rw [hdpc] at hdpc'
        simp only [Option.some.injEq] at hpc' hdpc'
        subst hpc'; subst hdpc'
        rcases hcase with ⟨hpe, hde, _⟩ | ⟨db2, hstep, hinv2, _, hd2, pc1, dpc1, hpc1, hdpc1, hl, ho⟩
        · exfalso
          have h1 : htOverhead pc = pc.size := by simp [htOverhead, htItemsBytes, hpe]
          have h2 : htOverhead dpc = dpc.size := by simp [htOverhead, htItemsBytes, hde]
          omega
        · rw [hstep]
          have hlim : db2.pclimit = db.pclimit := by
            have := congrArg (fun d => d.2.2.2.2.2.1) hd2
            simpa [dataOf] using this
          exact pageoutLoop_returns fuel db2 pc1 dpc1 hinv2 hpc1 hdpc1 (by omega)
            (by rw [hlim, ho]; exact hfit)
      · simp only [hgt, decide_False] at hov
        refine ⟨db, ?_⟩
        rw [pageoutLoop]
        simp [hov]

theorem checkPageOverflow_spec (db db1 : CDB) (hinv : PageInv db)
    (h : checkPageOverflow db = some db1) :
    PageInv db1 ∧ (∀ b, curView db1 b = curView db b) ∧ dataOf db1 = dataOf db := by
  unfold checkPageOverflow at h
  split at h
  · simp at h
  · exact pageoutLoop_spec _ db db1 hinv h
  · simp only [Option.some.injEq] at h
    subst h
    exact ⟨hinv, fun _ => rfl, rfl⟩

theorem checkPageOverflow_returns (db : CDB) (hinv : PageInv db)
    (hfit : ∀ pc dpc, db.pcache = some pc → db.dpcache = some dpc →
      htOverhead pc + htOverhead dpc ≤ db.pclimit) :
    ∃ db1, checkPageOverflow db = some db1 := by
  have hboth := hinv.both
  cases hdpc : db.dpcache with
  | none => exact ⟨db, by simp [checkPageOverflow, PCOVERFLOW, hdpc]⟩
  | some dpc =>
    cases hpc : db.pcache with
    | none => simp [hpc, hdpc] at hboth
    | some pc =>
      have hov := PCOVERFLOW_some db pc dpc hpc hdpc
      by_cases hgt : dpc.size + pc.size > db.pclimit
      · simp only [hgt, decide_True] at hov
        have h1 := (hinv.pc_book pc hpc).2.1
        have h2 := (hinv.dpc_book dpc hdpc).2.1
        obtain ⟨db1, hdb1⟩ := pageoutLoop_returns (pc.num + dpc.num + 1) db pc dpc hinv hpc hdpc
          (by omega) (hfit pc dpc hpc hdpc)
        exact ⟨db1, by simp only [checkPageOverflow, hov, _cdb_pageout, hpc, hdpc]; exact hdb1⟩
      · simp only [hgt, decide_False] at hov
        exact ⟨db, by simp [checkPageOverflow, hov]⟩

theorem getoffLoop_eq (phash : PHASH) : ∀ (n : Nat) (items : List PITEM),
    getoffLoop phash n items = candOffs phash (items.take n)
  | 0, items => by simp [getoffLoop, candOffs]
  | n + 1, [] => by simp [getoffLoop, candOffs]
  | n + 1, it :: its => by
      have ih := getoffLoop_eq phash n its
      by_cases h : PHASHEQ it.hash phash = true
      · simp only [getoffLoop, h, ↓reduceIte, ih, candOffs, List.take_succ_cons,
          List.filter_cons_of_pos, List.map_cons]
      · simp only [getoffLoop, h, Bool.false_eq_true, ↓reduceIte, ih, candOffs,
          List.take_succ_cons]
        simp [List.filter_cons, h]

theorem perm_cons_eraseP_of_find {α : Type} (p : α → Bool) :
    ∀ (l : List α) (a : α), l.find? p = some a → List.Perm (a :: l.eraseP p) l
  | [], a, h => by simp at h
  | x :: xs, a, h => by
      by_cases hx : p x = true
      · simp only [List.find?_cons, hx, Option.some.injEq] at h
        subst h
        simp [List.eraseP_cons, hx]
      · simp only [List.find?_cons, hx] at h
        have ih := perm_cons_eraseP_of_find p xs a h
        simp only [List.eraseP_cons, hx, Bool.false_eq_true, cond_false]
        exact (List.Perm.swap x a _).trans (List.Perm.cons x ih)

theorem pcFind_cons (it : CDBHTITEM Nat CDBPAGE) (l : List (CDBHTITEM Nat CDBPAGE)) (b : Nat) :
    pcFind (it :: l) b = if it.key = b then some it else pcFind l b := by
  by_cases h : it.key = b <;> simp [pcFind, List.find?_cons, h]

/-- Looking a bucket up in a page cache with move-to-front: the result is the
first page filed under the bucket, the table holds the same items. -/
theorem pc_get2_spec (pc : CDBHASHTABLE Nat CDBPAGE) (bid : Nat) (hok : HtOK pc)
    (hitems : ∀ it ∈ pc.items, PcItemOK it) :
    (cdb_ht_get2 _pagehash pc bid SI4 true).1 = (pcFind pc.items bid).map (·.val)
    ∧ HtOK (cdb_ht_get2 _pagehash pc bid SI4 true).2
    ∧ htOverhead (cdb_ht_get2 _pagehash pc bid SI4 true).2 = htOverhead pc
    ∧ htMaxBnum (cdb_ht_get2 _pagehash pc bid SI4 true).2 = htMaxBnum pc
    ∧ List.Perm (cdb_ht_get2 _pagehash pc bid SI4 true).2.items pc.items
    ∧ (∀ b, pcFind (cdb_ht_get2 _pagehash pc bid SI4 true).2.items b = pcFind pc.items b) := by
  obtain ⟨h1, h2, h3, h4, h5⟩ := cdb_ht_get3_spec _pagehash pc bid SI4 true hok
  have hu := htUnlink_pc bid pc.items hitems
  have e : cdb_ht_get2 _pagehash pc bid SI4 true
      = ((cdb_ht_get3 _pagehash pc bid SI4 true).1.map (·.val),
         (cdb_ht_get3 _pagehash pc bid SI4 true).2) := by
    unfold cdb_ht_get2
    rcases cdb_ht_get3 _pagehash pc bid SI4 true with ⟨r, t⟩
    cases r <;> rfl
  rw [e]
  simp only
  rw [hu] at h1 h5
  simp only at h1 h5
  refine ⟨by rw [h1], h2, h3, by simp only [htMaxBnum, h4], ?_, ?_⟩
  · rcases h5 with h5 | ⟨cur, hc, h5⟩
    · rw [h5]
    · rw [h5]
      exact perm_cons_eraseP_of_find _ _ _ hc
  · intro b
    rcases h5 with h5 | ⟨cur, hc, h5⟩
    · rw [h5]
    · rw [h5, pcFind_cons]
      have hk := (pcFind_some_mem _ _ _ hc).2
      by_cases hb : b = bid
      · subst hb
        simp [hk, hc]
      · have : ¬ cur.key = b := by rw [hk]; exact fun h => hb h.symm
        simp only [this, ↓reduceIte]
        exact pcFind_eraseP_other bid b pc.items hb

theorem diskView_congr (db db1 : CDB) (hv : db1.vio = db.vio) (hm : db1.mtable = db.mtable)
    (b : Nat) : diskView db1 b = diskView db b := by
  simp only [diskView, hv, hm]

/-- Reordering the clean page cache changes nothing the index shows. -/
theorem PageInv_touch_pc (db : CDB) (pc pc1 : CDBHASHTABLE Nat CDBPAGE) (hinv : PageInv db)
    (hpc : db.pcache = some pc) (hperm : List.Perm pc1.items pc.items)
    (hfind : ∀ b, pcFind pc1.items b = pcFind pc.items b) (hok : HtOK pc1) :
    PageInv { db with pcache := some pc1 }
    ∧ (∀ b, curView { db with pcache := some pc1 } b = curView db b) := by
  have hci : cacheItems db.pcache = pc.items := by simp [cacheItems, hpc]
  have hmem : ∀ it ∈ pc1.items, it ∈ cacheItems db.pcache := by
    intro it hit; rw [hci]; exact hperm.mem_iff.mp hit
  refine ⟨?_, ?_⟩
  · exact
      { hsize_pos := hinv.hsize_pos
        both := by have := hinv.both; simp [hpc] at this ⊢; exact this
        pc_ok := fun it hit => hinv.pc_ok it (hmem it hit)
        dpc_ok := hinv.dpc_ok
        pc_nodup := by
          have := hinv.pc_nodup
          rw [hci] at this
          exact (List.Perm.nodup_iff (List.Perm.map _ hperm)).mpr this
        dpc_nodup := hinv.dpc_nodup
        disj := fun it hit => hinv.disj it (hmem it hit)
        coh := fun it hit => hinv.coh it (hmem it hit)
        pc_book := by
          intro pc2 h2
          simp only [Option.some.injEq] at h2
          subst h2
          exact hok
        dpc_book := hinv.dpc_book
        store := hinv.store
        bf_ok := hinv.bf_ok }
  · intro b
    simp only [curView, cacheItems, hpc, hfind]
    rfl

/-- Reordering the dirty page cache changes nothing the index shows. -/
theorem PageInv_touch_dpc (db : CDB) (dpc dpc1 : CDBHASHTABLE Nat CDBPAGE) (hinv : PageInv db)
    (hdpc : db.dpcache = some dpc) (hperm : List.Perm dpc1.items dpc.items)
    (hfind : ∀ b, pcFind dpc1.items b = pcFind dpc.items b) (hok : HtOK dpc1) :
    PageInv { db with dpcache := some dpc1 }
    ∧ (∀ b, curView { db with dpcache := some dpc1 } b = curView db b) := by
  have hci : cacheItems db.dpcache = dpc.items := by simp [cacheItems, hdpc]
  have hmem : ∀ it ∈ dpc1.items, it ∈ cacheItems db.dpcache := by
    intro it hit; rw [hci]; exact hperm.mem_iff.mp hit
  refine ⟨?_, ?_⟩
  · exact
      { hsize_pos := hinv.hsize_pos
        both := by have := hinv.both; simp [hdpc] at this ⊢; exact this
        pc_ok := hinv.pc_ok
        dpc_ok := fun it hit => hinv.dpc_ok it (hmem it hit)
        pc_nodup := hinv.pc_nodup
        dpc_nodup := by
          have := hinv.dpc_nodup
          rw [hci] at this
          exact (List.Perm.nodup_iff (List.Perm.map _ hperm)).mpr this
        disj := by
          intro it hit
          have := hinv.disj it hit
          rw [hci] at this
          simp only [cacheItems, hfind]
          exact this
        coh := hinv.coh
        pc_book := hinv.pc_book
        dpc_book := by
          intro pc2 h2
          simp only [Option.some.injEq] at h2
          subst h2
          exact hok
        store := hinv.store
        bf_ok := hinv.bf_ok }
  · intro b
    simp only [curView, cacheItems, hdpc, hfind]
    rfl

theorem pcFind_none_iff (l : List (CDBHTITEM Nat CDBPAGE)) (b : Nat) :
    pcFind l b = none ↔ b ∉ l.map (·.key) := by
  constructor
  · intro h hm
    simp only [List.mem_map] at hm
    obtain ⟨it, hit, hk⟩ := hm
    simp only [pcFind, List.find?_eq_none] at h
    exact h it hit (by simp [hk])
  · exact pcFind_none_of_not_mem l b

theorem eraseP_of_pcFind_none (l : List (CDBHTITEM Nat CDBPAGE)) (b : Nat)
    (h : pcFind l b = none) : l.eraseP (fun it => it.key == b) = l := by
  apply List.eraseP_of_forall_not
  intro a ha
  simp only [pcFind, List.find?_eq_none] at h
  exact h a ha

/-- Filing the page just read from disk in the clean page cache changes
nothing the index shows. -/
theorem PageInv_insert_clean (db : CDB) (pc : CDBHASHTABLE Nat CDBPAGE) (bid : Nat) (p : CDBPAGE)
    (hinv : PageInv db) (hpc : db.pcache = some pc) (hn1 : pcFind pc.items bid = none)
    (hn2 : pcFind (cacheItems db.dpcache) bid = none) (hdv : diskView db bid = some p.view)
    (hwf : p.num ≤ p.items.length) (hlt : bid < db.hsize) :
    PageInv { db with pcache := some (cdb_ht_insert2 _pagehash pc bid SI4 p (MPAGESIZE p)) }
    ∧ (∀ b, curView { db with
              pcache := some (cdb_ht_insert2 _pagehash pc bid SI4 p (MPAGESIZE p)) } b
            = curView db b)
    ∧ htOverhead (cdb_ht_insert2 _pagehash pc bid SI4 p (MPAGESIZE p))
        ≤ htOverhead pc + htGrowth pc := by
  have hci : cacheItems db.pcache = pc.items := by simp [cacheItems, hpc]
  have hokp := hinv.pc_book pc hpc
  have hitems : ∀ it ∈ pc.items, PcItemOK it := by
    intro it hit
    exact (hinv.pc_ok it (by rw [hci]; exact hit)).1
  obtain ⟨hi, hok1, hov1⟩ :=
    cdb_ht_insert_spec _pagehash pc (cdb_ht_newitem SI4 (MPAGESIZE p) bid p) hokp
  have hu := htUnlink_pc bid pc.items hitems
  simp only [cdb_ht_newitem] at hi hu
  rw [hu, eraseP_of_pcFind_none _ _ hn1] at hi
  simp only at hi
  have hi2 : (cdb_ht_insert2 _pagehash pc bid SI4 p (MPAGESIZE p)).items
      = { ksize := SI4, vsize := MPAGESIZE p, hash := _pagehash bid, key := bid, val := p }
          :: pc.items := hi
  refine ⟨?_, ?_, hov1⟩
  · refine
      { hsize_pos := hinv.hsize_pos
        both := by have := hinv.both; simp [hpc] at this ⊢; exact this
        pc_ok := ?_
        dpc_ok := hinv.dpc_ok
        pc_nodup := ?_
        dpc_nodup := hinv.dpc_nodup
        disj := ?_
        coh := ?_
        pc_book := ?_
        dpc_book := hinv.dpc_book
        store := hinv.store
        bf_ok := hinv.bf_ok }
    · intro it hit
      simp only [cacheItems, hi2, List.mem_cons] at hit
      rcases hit with hit | hit
      · subst hit
        exact ⟨⟨rfl, rfl⟩, hlt, hwf⟩
      · exact hinv.pc_ok it (by rw [hci]; exact hit)
    · simp only [cacheItems, hi2, List.map_cons, List.nodup_cons]
      refine ⟨(pcFind_none_iff _ _).mp hn1, ?_⟩
      have := hinv.pc_nodup
      rw [hci] at this
      exact this
    · intro it hit
      simp only [cacheItems, hi2, List.mem_cons] at hit
      rcases hit with hit | hit
      · subst hit
        exact hn2
      · exact hinv.disj it (by rw [hci]; exact hit)
    · intro it hit
      simp only [cacheItems, hi2, List.mem_cons] at hit
      rcases hit with hit | hit
      · subst hit
        exact hdv
      · exact hinv.coh it (by rw [hci]; exact hit)
    · intro pc2 h2
      simp only [Option.some.injEq] at h2
      subst h2
      exact hok1
  · intro b
    simp only [curView, cacheItems, hpc, hi2, pcFind_cons]
    by_cases hb : bid = b
    · subst hb
      simp only [↓reduceIte, hn1]
      simp only [cacheItems] at hn2
      simp only [hn2]
      exact hdv.symm
    · simp only [hb, ↓reduceIte]
      rfl

/-! ## cdb_getoff -/

/-- The empty page caches fit the limit. -/
theorem PFit_weaken (db : CDB) (h : PFit db) :
    ∀ pc dpc, db.pcache = some pc → db.dpcache = some dpc →
      htOverhead pc + htOverhead dpc ≤ db.pclimit := by
  intro pc dpc h1 h2
  have := h pc dpc h1 h2
  omega

theorem getoffProbe_spec (db : CDB) (bid : Nat) (hinv : PageInv db) :
    PageInv (getoffProbe db bid).2
    ∧ (∀ b, curView (getoffProbe db bid).2 b = curView db b)
    ∧ dataOf (getoffProbe db bid).2 = dataOf db
    ∧ (getoffProbe db bid).2.vio = db.vio ∧ (getoffProbe db bid).2.mtable = db.mtable
    ∧ (∀ page, (getoffProbe db bid).1 = some page → curView db bid = some page.view)
    ∧ ((getoffProbe db bid).1 = none →
        pcFind (cacheItems (getoffProbe db bid).2.pcache) bid = none
        ∧ pcFind (cacheItems (getoffProbe db bid).2.dpcache) bid = none)
    ∧ (PFit db → PFit (getoffProbe db bid).2) := by
  have hboth := hinv.both
  cases hpc : db.pcache with
  | none =>
      have hdpc : db.dpcache = none := by
        cases h : db.dpcache with
        | none => rfl
        | some d => simp [hpc, h] at hboth
      have e : getoffProbe db bid = (none, db) := by
        simp [getoffProbe, hpc, hdpc]
      rw [e]
      refine ⟨hinv, fun _ => rfl, rfl, rfl, rfl, ?_, ?_, fun h => h⟩
      · intro page h; simp at h
      · intro _; simp [cacheItems, hpc, hdpc, pcFind]
  | some pc =>
      cases hdpc : db.dpcache with
      | none => simp [hpc, hdpc] at hboth
      | some dpc =>
        have hokp := hinv.pc_book pc hpc
        have hokd := hinv.dpc_book dpc hdpc
        have hip : ∀ it ∈ pc.items, PcItemOK it := fun it hit =>
          (hinv.pc_ok it (by simp [cacheItems, hpc]; exact hit)).1
        have hid : ∀ it ∈ dpc.items, PcItemOK it := fun it hit =>
          (hinv.dpc_ok it (by simp [cacheItems, hdpc]; exact hit)).1
        obtain ⟨g1, g2, g3, g4, g5, g6⟩ := pc_get2_spec pc bid hokp hip
        obtain ⟨t1, t2⟩ := PageInv_touch_pc db pc _ hinv hpc g5 g6 g2
        cases hf : pcFind pc.items bid with
        | some it =>
            rw [hf] at g1
            have e : getoffProbe db bid
                = (some it.val, { db with pcache := some (cdb_ht_get2 _pagehash pc bid SI4 true).2 }) := by
              simp only [getoffProbe, hpc, g1, Option.map_some']
            rw [e]
            refine ⟨t1, t2, rfl, rfl, rfl, ?_, ?_, ?_⟩
            · intro page h
              simp only [Option.some.injEq] at h
              subst h
              simp [curView, cacheItems, hpc, hf]
            · intro h; simp at h
            · intro hfit pc' dpc' h1 h2
              simp only [Option.some.injEq] at h1
              subst h1
              have := hfit pc dpc' hpc (by rw [← h2])
              simp only [htGrowth, g3, g4] at this ⊢
              exact this
        | none =>
            rw [hf] at g1
            obtain ⟨d1, d2, d3, d4, d5, d6⟩ := pc_get2_spec dpc bid hokd hid
            obtain ⟨u1, u2⟩ := PageInv_touch_dpc
              { db with pcache := some (cdb_ht_get2 _pagehash pc bid SI4 true).2 } dpc _ t1 hdpc
              d5 d6 d2
            have e : getoffProbe db bid
                = ((pcFind dpc.items bid).map (·.val),
                   { db with pcache := some (cdb_ht_get2 _pagehash pc bid SI4 true).2
                             dpcache := some (cdb_ht_get2 _pagehash dpc bid SI4 true).2 }) := by
              simp only [getoffProbe, hpc, g1, Option.map_none', hdpc, d1]
            rw [e]
            refine ⟨u1, fun b => by rw [← t2 b]; exact u2 b, rfl, rfl, rfl, ?_, ?_, ?_⟩
            · intro page h
              simp only [Option.map_eq_some'] at h
              obtain ⟨it, hit, hv⟩ := h
              subst hv
              simp [curView, cacheItems, hpc, hdpc, hf, hit]
            · intro h
              simp only [Option.map_eq_none'] at h
              simp only [cacheItems, g6, d6, hf, h, and_self]
            · intro hfit pc' dpc' h1 h2
              simp only [Option.some.injEq] at h1 h2
              subst h1; subst h2
              have := hfit pc dpc hpc hdpc
              simp only [htGrowth, g3, g4, d3] at this ⊢
              exact this

theorem dataOf_hsize {db db1 : CDB} (h : dataOf db1 = dataOf db) : db1.hsize = db.hsize := by
  have := congrArg (fun d => d.2.2.2.1) h
  simpa [dataOf] using this

theorem dataOf_bf {db db1 : CDB} (h : dataOf db1 = dataOf db) : db1.bf = db.bf := by
  have := congrArg (fun d => d.2.2.1) h
  simpa [dataOf] using this

theorem dataOf_pclimit {db db1 : CDB} (h : dataOf db1 = dataOf db) : db1.pclimit = db.pclimit := by
  have := congrArg (fun d => d.2.2.2.2.2.1) h
  simpa [dataOf] using this

/-- The probe of the bloom filter that opens `cdb_getoff`, when the filter
does not trap. -/
theorem bfProbe_eq (db : CDB) (hbf : ∀ bf, db.bf = some bf → bfTraps bf = false) (hash : Nat) :
    (match db.bf with
      | some bf => cdb_bf_exist bf (leBytes SI8 (bfkeyGetoff ((hash / 16777216) % db.hsize) hash))
      | none => some true) = some (!bloomMiss db hash) := by
  cases hb : db.bf with
  | none => simp [bloomMiss, hb]
  | some bf =>
      simp only [bloomMiss, hb, bucketOf, cdb_bf_exist, hbf bf hb, Bool.false_eq_true, ↓reduceIte,
        Bool.not_not]

/-- What `cdb_getoff` does on a sound index: it returns the offsets named by
`getoffSpec` and their number, and the index shows the same pages as
before. -/
theorem cdb_getoff_spec (db : CDB) (hash : Nat) (sbuf : CDBPAGE) (r : Int × List FOFF × CDB)
    (hinv : PageInv db) (h : cdb_getoff db hash sbuf = some r) :
    PageInv r.2.2 ∧ (∀ b, curView r.2.2 b = curView db b) ∧ dataOf r.2.2 = dataOf db
    ∧ getoffSpec db hash = some r.2.1 ∧ r.1 = (r.2.1.length : Int) := by
  have hpos := hinv.hsize_pos
  have hne : ¬ db.hsize = 0 := by omega
  unfold cdb_getoff at h
  simp only [hne, ↓reduceIte] at h
  rw [bfProbe_eq db hinv.bf_ok hash] at h
  by_cases hbm : bloomMiss db hash = true
  · simp only [hbm, Bool.not_true, Option.some.injEq] at h
    subst h
    exact ⟨hinv, fun _ => rfl, rfl, by simp [getoffSpec, hbm], rfl⟩
  · simp only [Bool.not_eq_true] at hbm
    simp only [hbm, Bool.not_false] at h
    obtain ⟨p1, p2, p3, p4, p5, p6, p7, _⟩ := getoffProbe_spec db ((hash / 16777216) % db.hsize) hinv
    cases hpr : (getoffProbe db ((hash / 16777216) % db.hsize)).1 with
    | some page =>
        simp only [hpr] at h
        cases h3 : checkPageOverflow (getoffProbe db ((hash / 16777216) % db.hsize)).2 with
        | none => simp [h3] at h
        | some db3 =>
        simp only [h3, Option.map_some', Option.some.injEq] at h
        subst h
        obtain ⟨c1, c2, c3⟩ := checkPageOverflow_spec _ db3 p1 h3
        refine ⟨c1, fun b => by rw [c2 b, p2 b], by rw [c3, p3], ?_, rfl⟩
        simp only [getoffSpec, hbm, Bool.false_eq_true, ↓reduceIte, bucketOf, p6 page hpr,
          Option.map_some', getoffLoop_eq, CDBPAGE.view]
    | none =>
        simp only [hpr] at h
        obtain ⟨vio, mt, hv, hm, hs⟩ := p1.store
        obtain ⟨p, hrd, hdv, hwf⟩ := readBucketPage_ok _ vio mt hv hm hs
          ((hash / 16777216) % db.hsize) sbuf
        simp only [hrd] at h
        obtain ⟨n1, n2⟩ := p7 hpr
        have hlt : (hash / 16777216) % db.hsize < (getoffProbe db ((hash / 16777216) % db.hsize)).2.hsize := by
          rw [dataOf_hsize p3]
          exact Nat.mod_lt _ hpos
        have hcur : curView db ((hash / 16777216) % db.hsize) = some p.view := by
          rw [← p2]
          simp only [curView, n1, n2]
          exact hdv
        cases hpc2 : (getoffProbe db ((hash / 16777216) % db.hsize)).2.pcache with
        | none =>
            simp only [hpc2] at h
            cases h4 : checkPageOverflow (getoffProbe db ((hash / 16777216) % db.hsize)).2 with
            | none => simp [h4] at h
            | some db4 =>
            simp only [h4, Option.map_some', Option.some.injEq] at h
            subst h
            obtain ⟨c1, c2, c3⟩ := checkPageOverflow_spec _ db4 p1 h4
            refine ⟨c1, fun b => by rw [c2 b, p2 b], by rw [c3, p3], ?_, rfl⟩
            simp only [getoffSpec, hbm, Bool.false_eq_true, ↓reduceIte, bucketOf, hcur,
              Option.map_some', getoffLoop_eq, CDBPAGE.view]
        | some pc2 =>
            simp only [hpc2] at h
            have hn1 : pcFind pc2.items ((hash / 16777216) % db.hsize) = none := by
              simpa [cacheItems, hpc2] using n1
            obtain ⟨i1, i2, _⟩ := PageInv_insert_clean _ pc2 _ p p1 hpc2 hn1 n2 hdv hwf hlt
            cases h4 : checkPageOverflow { (getoffProbe db ((hash / 16777216) % db.hsize)).2 with
                pcache := some (cdb_ht_insert2 _pagehash pc2 ((hash / 16777216) % db.hsize) SI4 p
                  (MPAGESIZE p)) } with
            | none => simp [h4] at h
            | some db4 =>
            simp only [h4, Option.map_some', Option.some.injEq] at h
            subst h
            obtain ⟨c1, c2, c3⟩ := checkPageOverflow_spec _ db4 i1 h4
            refine ⟨c1, fun b => by rw [c2 b, i2 b, p2 b], by rw [c3]; exact p3, ?_, rfl⟩
            simp only [getoffSpec, hbm, Bool.false_eq_true, ↓reduceIte, bucketOf, hcur,
              Option.map_some', getoffLoop_eq, CDBPAGE.view]

/-- On a sound index whose empty page caches fit the limit, `cdb_getoff`
returns. -/
theorem cdb_getoff_returns (db : CDB) (hash : Nat) (sbuf : CDBPAGE) (hinv : PageInv db)
    (hfit : PFit db) : ∃ r, cdb_getoff db hash sbuf = some r := by
  have hpos := hinv.hsize_pos
  have hne : ¬ db.hsize = 0 := by omega
  unfold cdb_getoff
  simp only [hne, ↓reduceIte]
  rw [bfProbe_eq db hinv.bf_ok hash]
  cases hbm : bloomMiss db hash with
  | true => exact ⟨_, rfl⟩
  | false =>
    simp only [Bool.not_false]
    obtain ⟨p1, p2, p3, p4, p5, p6, p7, p8⟩ := getoffProbe_spec db ((hash / 16777216) % db.hsize) hinv
    have hfit2 := p8 hfit
    cases hpr : (getoffProbe db ((hash / 16777216) % db.hsize)).1 with
    | some page =>
        obtain ⟨db3, h3⟩ := checkPageOverflow_returns _ p1 (PFit_weaken _ hfit2)
        simp only [hpr, h3, Option.map_some']
        exact ⟨_, rfl⟩
    | none =>
        obtain ⟨vio, mt, hv, hm, hs⟩ := p1.store
        obtain ⟨p, hrd, hdv, hwf⟩ := readBucketPage_ok _ vio mt hv hm hs
          ((hash / 16777216) % db.hsize) sbuf
        obtain ⟨n1, n2⟩ := p7 hpr
        have hlt : (hash / 16777216) % db.hsize < (getoffProbe db ((hash / 16777216) % db.hsize)).2.hsize := by
          rw [dataOf_hsize p3]
          exact Nat.mod_lt _ hpos
        cases hpc2 : (getoffProbe db ((hash / 16777216) % db.hsize)).2.pcache with
        | none =>
            obtain ⟨db4, h4⟩ := checkPageOverflow_returns _ p1 (PFit_weaken _ hfit2)
            simp only [hpr, hrd, hpc2, h4, Option.map_some']
            exact ⟨_, rfl⟩
        | some pc2 =>
            have hn1 : pcFind pc2.items ((hash / 16777216) % db.hsize) = none := by
              simpa [cacheItems, hpc2] using n1
            obtain ⟨i1, i2, i3⟩ := PageInv_insert_clean _ pc2 _ p p1 hpc2 hn1 n2 hdv hwf hlt
            obtain ⟨db4, h4⟩ := checkPageOverflow_returns _ i1 (by
              intro pc dpc h1 h2
              simp only [Option.some.injEq] at h1
              subst h1
              have := hfit2 pc2 dpc hpc2 h2
              have hl : ({ (getoffProbe db ((hash / 16777216) % db.hsize)).2 with
                  pcache := some (cdb_ht_insert2 _pagehash pc2 ((hash / 16777216) % db.hsize) SI4 p
                    (MPAGESIZE p)) } : CDB).pclimit
                  = (getoffProbe db ((hash / 16777216) % db.hsize)).2.pclimit := rfl
              rw [hl]
              omega)
            simp only [hpr, hrd, hpc2, h4, Option.map_some']
            exact ⟨_, rfl⟩

/-! ## Taking a page out of a cache and putting one in -/

theorem curView_some (db : CDB) (hinv : PageInv db) (b : Nat) : ∃ v, curView db b = some v := by
  simp only [curView]
  cases pcFind (cacheItems db.pcache) b with
  | some it => exact ⟨_, rfl⟩
  | none =>
      cases pcFind (cacheItems db.dpcache) b with
      | some it => exact ⟨_, rfl⟩
      | none =>
          obtain ⟨vio, mt, hv, hm, hs⟩ := hinv.store
          obtain ⟨p, _, hdv, _⟩ := readBucketPage_ok db vio mt hv hm hs b
            { ooff := OFFZERO, osize := 0, cap := 0, magic := 0, bid := 0, num := 0, oid := 0, items := [] }
          exact ⟨_, hdv⟩

theorem curView_congr (db db1 : CDB) (b : Nat) (hv : db1.vio = db.vio) (hm : db1.mtable = db.mtable)
    (hp : pcFind (cacheItems db1.pcache) b = pcFind (cacheItems db.pcache) b)
    (hd : pcFind (cacheItems db1.dpcache) b = pcFind (cacheItems db.dpcache) b) :
    curView db1 b = curView db b := by
  simp only [curView, hp, hd, diskView_congr db db1 hv hm]

theorem eraseP_mem {α : Type} (p : α → Bool) (l : List α) (a : α) (h : a ∈ l.eraseP p) : a ∈ l :=
  List.mem_of_mem_eraseP h

theorem nodup_keys_eraseP (l : List (CDBHTITEM Nat CDBPAGE)) (p : CDBHTITEM Nat CDBPAGE → Bool)
    (h : (l.map (·.key)).Nodup) : ((l.eraseP p).map (·.key)).Nodup :=
  List.Nodup.sublist (List.Sublist.map _ (List.eraseP_sublist l)) h

/-- Taking the page of a bucket out of the clean page cache: the index shows
the same pages as before, because a clean page is a copy of what lies
below it. -/
theorem PageInv_del_pc (db : CDB) (pc : CDBHASHTABLE Nat CDBPAGE) (bid : Nat) (hinv : PageInv db)
    (hpc : db.pcache = some pc) :
    (cdb_ht_del _pagehash pc bid SI4).1 = pcFind pc.items bid
    ∧ PageInv { db with pcache := some (cdb_ht_del _pagehash pc bid SI4).2 }
    ∧ pcFind (cdb_ht_del _pagehash pc bid SI4).2.items bid = none
    ∧ (∀ b, curView { db with pcache := some (cdb_ht_del _pagehash pc bid SI4).2 } b
          = curView db b)
    ∧ (∀ it, pcFind pc.items bid = some it →
          PcEntryOK db.hsize it ∧ it.key = bid ∧ curView db bid = some it.val.view
          ∧ diskView db bid = some it.val.view
          ∧ pcFind (cacheItems db.dpcache) bid = none) := by
  have hci : cacheItems db.pcache = pc.items := by simp [cacheItems, hpc]
  have hokp := hinv.pc_book pc hpc
  have hip : ∀ it ∈ pc.items, PcItemOK it := fun it hit =>
    (hinv.pc_ok it (by rw [hci]; exact hit)).1
  obtain ⟨d1, d2, d3, _, _⟩ := cdb_ht_del_spec _pagehash pc bid SI4 hokp
  have hu := htUnlink_pc bid pc.items hip
  simp only [_pagehash] at hu d1 d2
  rw [hu] at d1 d2
  simp only at d1 d2
  have hnd := hinv.pc_nodup
  rw [hci] at hnd
  have hfacts : ∀ it, pcFind pc.items bid = some it →
      PcEntryOK db.hsize it ∧ it.key = bid ∧ curView db bid = some it.val.view
      ∧ diskView db bid = some it.val.view
      ∧ pcFind (cacheItems db.dpcache) bid = none := by
    intro it hit
    obtain ⟨hmem, hk⟩ := pcFind_some_mem _ _ _ hit
    have hmem' : it ∈ cacheItems db.pcache := by rw [hci]; exact hmem
    have h1 := hinv.coh it hmem'
    have h2 := hinv.disj it hmem'
    rw [hk] at h1 h2
    refine ⟨hinv.pc_ok it hmem', hk, ?_, h1, h2⟩
    simp [curView, hci, hit]
  have hmem2 : ∀ it ∈ (cdb_ht_del _pagehash pc bid SI4).2.items, it ∈ cacheItems db.pcache := by
    intro it hit
    rw [d2] at hit
    rw [hci]
    exact eraseP_mem _ _ _ hit
  have hnone : pcFind (cdb_ht_del _pagehash pc bid SI4).2.items bid = none := by
    rw [d2]
    exact pcFind_eraseP_self bid pc.items hnd
  refine ⟨d1, ?_, hnone, ?_, hfacts⟩
  · exact
      { hsize_pos := hinv.hsize_pos
        both := by have := hinv.both; simp [hpc] at this ⊢; exact this
        pc_ok := fun it hit => hinv.pc_ok it (hmem2 it hit)
        dpc_ok := hinv.dpc_ok
        pc_nodup := by
          simp only [cacheItems]
          rw [d2]
          exact nodup_keys_eraseP _ _ hnd
        dpc_nodup := hinv.dpc_nodup
        disj := fun it hit => hinv.disj it (hmem2 it hit)
        coh := fun it hit => hinv.coh it (hmem2 it hit)
        pc_book := by
          intro pc2 h2
          simp only [Option.some.injEq] at h2
          subst h2
          exact d3
        dpc_book := hinv.dpc_book
        store := hinv.store
        bf_ok := hinv.bf_ok }
  · intro b
    by_cases hb : b = bid
    · subst hb
      cases hf : pcFind pc.items b with
      | none =>
          refine curView_congr db _ _ ?_ ?_ ?_ ?_ <;> try rfl
          simp only [cacheItems, hpc]
          rw [d2, eraseP_of_pcFind_none _ _ hf]
      | some it =>
          obtain ⟨_, _, h3, h4, h5⟩ := hfacts it hf
          rw [h3, ← h4]
          simp only [curView, cacheItems, hnone]
          simp only [cacheItems] at h5
          simp only [h5]
          exact diskView_congr _ _ rfl rfl _
    · refine curView_congr db _ _ ?_ ?_ ?_ ?_ <;> try rfl
      simp only [cacheItems, hpc]
      rw [d2, pcFind_eraseP_other bid b pc.items hb]

/-- Taking the page of a bucket out of the dirty page cache. -/
theorem PageInv_del_dpc (db : CDB) (dpc : CDBHASHTABLE Nat CDBPAGE) (bid : Nat)
    (hinv : PageInv db) (hdpc : db.dpcache = some dpc)
    (hn : pcFind (cacheItems db.pcache) bid = none) :
    (cdb_ht_del _pagehash dpc bid SI4).1 = pcFind dpc.items bid
    ∧ PageInv { db with dpcache := some (cdb_ht_del _pagehash dpc bid SI4).2 }
    ∧ pcFind (cdb_ht_del _pagehash dpc bid SI4).2.items bid = none
    ∧ (∀ b, b ≠ bid → curView { db with dpcache := some (cdb_ht_del _pagehash dpc bid SI4).2 } b
          = curView db b)
    ∧ (pcFind dpc.items bid = none →
          curView { db with dpcache := some (cdb_ht_del _pagehash dpc bid SI4).2 } bid
            = curView db bid)
    ∧ (∀ it, pcFind dpc.items bid = some it →
          PcEntryOK db.hsize it ∧ it.key = bid ∧ curView db bid = some it.val.view) := by
  have hci : cacheItems db.dpcache = dpc.items := by simp [cacheItems, hdpc]
  have hokd := hinv.dpc_book dpc hdpc
  have hid : ∀ it ∈ dpc.items, PcItemOK it := fun it hit =>
    (hinv.dpc_ok it (by rw [hci]; exact hit)).1
  obtain ⟨d1, d2, d3, _, _⟩ := cdb_ht_del_spec _pagehash dpc bid SI4 hokd
  have hu := htUnlink_pc bid dpc.items hid
  simp only [_pagehash] at hu d1 d2
  rw [hu] at d1 d2
  simp only at d1 d2
  have hnd := hinv.dpc_nodup
  rw [hci] at hnd
  have hmem2 : ∀ it ∈ (cdb_ht_del _pagehash dpc bid SI4).2.items, it ∈ cacheItems db.dpcache := by
    intro it hit
    rw [d2] at hit
    rw [hci]
    exact eraseP_mem _ _ _ hit
  have hnone : pcFind (cdb_ht_del _pagehash dpc bid SI4).2.items bid = none := by
    rw [d2]
    exact pcFind_eraseP_self bid dpc.items hnd
  have hother : ∀ b, b ≠ bid →
      pcFind (cdb_ht_del _pagehash dpc bid SI4).2.items b = pcFind dpc.items b := by
    intro b hb
    rw [d2, pcFind_eraseP_other bid b dpc.items hb]
  refine ⟨d1, ?_, hnone, ?_, ?_, ?_⟩
  · exact
      { hsize_pos := hinv.hsize_pos
        both := by have := hinv.both; simp [hdpc] at this ⊢; exact this
        pc_ok := hinv.pc_ok
        dpc_ok := fun it hit => hinv.dpc_ok it (hmem2 it hit)
        pc_nodup := hinv.pc_nodup
        dpc_nodup := by
          simp only [cacheItems]
          rw [d2]
          exact nodup_keys_eraseP _ _ hnd
        disj := by
          intro it hit
          have h1 := hinv.disj it hit
          rw [hci] at h1
          simp only [cacheItems]
          by_cases hk : it.key = bid
          · rw [hk]; exact hnone
          · rw [hother _ hk]; exact h1
        coh := hinv.coh
        pc_book := hinv.pc_book
        dpc_book := by
          intro pc2 h2
          simp only [Option.some.injEq] at h2
          subst h2
          exact d3
        store := hinv.store
        bf_ok := hinv.bf_ok }
  · intro b hb
    refine curView_congr db _ _ ?_ ?_ ?_ ?_ <;> try rfl
    simp only [cacheItems, hdpc]
    exact hother b hb
  · intro hf
    refine curView_congr db _ _ ?_ ?_ ?_ ?_ <;> try rfl
    simp only [cacheItems, hdpc]
    rw [d2, eraseP_of_pcFind_none _ _ hf]
  · intro it hit
    obtain ⟨hmem, hk⟩ := pcFind_some_mem _ _ _ hit
    refine ⟨hinv.dpc_ok it (by rw [hci]; exact hmem), hk, ?_⟩
    simp only [curView, hn, hci, hit]

theorem PageInv_congr (db db1 : CDB) (hh : db1.hsize = db.hsize) (hp : db1.pcache = db.pcache)
    (hd : db1.dpcache = db.dpcache) (hm : db1.mtable = db.mtable) (hv : db1.vio = db.vio)
    (hb : ∀ bf, db1.bf = some bf → bfTraps bf = false) (h : PageInv db) : PageInv db1 :=
  { hsize_pos := by rw [hh]; exact h.hsize_pos
    both := by rw [hp, hd]; exact h.both
    pc_ok := by rw [hp, hh]; exact h.pc_ok
    dpc_ok := by rw [hd, hh]; exact h.dpc_ok
    pc_nodup := by rw [hp]; exact h.pc_nodup
    dpc_nodup := by rw [hd]; exact h.dpc_nodup
    disj := by rw [hp, hd]; exact h.disj
    coh := by
      intro it hit
      rw [diskView_congr db db1 hv hm]
      rw [hp] at hit
      exact h.coh it hit
    pc_book := by rw [hp]; exact h.pc_book
    dpc_book := by rw [hd]; exact h.dpc_book
    store := by rw [hv, hm]; exact h.store
    bf_ok := hb }

theorem pc_insert_items (c : CDBHASHTABLE Nat CDBPAGE) (it : CDBHTITEM Nat CDBPAGE)
    (hok : HtOK c) (hitems : ∀ x ∈ c.items, PcItemOK x) (hks : it.ksize = SI4)
    (hn : pcFind c.items it.key = none) :
    (cdb_ht_insert _pagehash c it).items = { it with hash := it.key } :: c.items
    ∧ HtOK (cdb_ht_insert _pagehash c it)
    ∧ htOverhead (cdb_ht_insert _pagehash c it) ≤ htOverhead c + htGrowth c := by
  obtain ⟨hi, hok1, hov1⟩ := cdb_ht_insert_spec _pagehash c it hok
  have hu : htUnlink (_pagehash it.key) it.ksize it.key c.items
      = (pcFind c.items it.key, c.items) := by
    rw [hks, htUnlink_pc it.key c.items hitems, eraseP_of_pcFind_none _ _ hn]
  rw [hu] at hi
  exact ⟨hi, hok1, hov1⟩

/-- Taking the page of a bucket out of the clean page cache, as
`cdb_replaceoff` and `cdb_updatepage` do first. -/
theorem pcTake_spec (db : CDB) (bid : Nat) (hinv : PageInv db) :
    PageInv (pcTake db bid).2
    ∧ restOf (pcTake db bid).2 = restOf db
    ∧ (pcTake db bid).2.dpcache = db.dpcache
    ∧ (∀ b, curView (pcTake db bid).2 b = curView db b)
    ∧ pcFind (cacheItems (pcTake db bid).2.pcache) bid = none
    ∧ (∀ it, (pcTake db bid).1 = some it →
          PcEntryOK db.hsize it ∧ it.key = bid ∧ curView db bid = some it.val.view
          ∧ diskView db bid = some it.val.view
          ∧ pcFind (cacheItems db.dpcache) bid = none) := by
  cases hpc : db.pcache with
  | none =>
      have e : pcTake db bid = (none, db) := by simp only [pcTake, hpc]
      rw [e]
      refine ⟨hinv, rfl, rfl, fun _ => rfl, ?_, ?_⟩
      · simp [hpc, cacheItems, pcFind]
      · intro it h; cases h
  | some pc =>
      have e : pcTake db bid
          = ((cdb_ht_del _pagehash pc bid SI4).1,
              { db with pcache := some (cdb_ht_del _pagehash pc bid SI4).2 }) := by
        simp only [pcTake, hpc]
      obtain ⟨h1, h2, h3, h4, h5⟩ := PageInv_del_pc db pc bid hinv hpc
      rw [e]
      refine ⟨h2, rfl, rfl, h4, h3, ?_⟩
      intro it hit
      simp only at hit
      rw [h1] at hit
      exact h5 it hit

/-- Taking the page of a bucket out of the dirty page cache, as
`cdb_updatepage` does when the clean cache does not hold it. -/
theorem dpcTake_spec (db : CDB) (bid : Nat) (hinv : PageInv db)
    (hn : pcFind (cacheItems db.pcache) bid = none) :
    PageInv (dpcTake db bid).2
    ∧ restOf (dpcTake db bid).2 = restOf db
    ∧ (dpcTake db bid).2.pcache = db.pcache
    ∧ (∀ b, b ≠ bid → curView (dpcTake db bid).2 b = curView db b)
    ∧ pcFind (cacheItems (dpcTake db bid).2.dpcache) bid = none
    ∧ (∀ it, (dpcTake db bid).1 = some it →
          PcEntryOK db.hsize it ∧ it.key = bid ∧ curView db bid = some it.val.view)
    ∧ ((dpcTake db bid).1 = none → curView (dpcTake db bid).2 bid = curView db bid) := by
  cases hdpc : db.dpcache with
  | none =>
      have e : dpcTake db bid = (none, db) := by simp only [dpcTake, hdpc]
      rw [e]
      refine ⟨hinv, rfl, rfl, fun _ _ => rfl, ?_, ?_, fun _ => rfl⟩
      · simp [hdpc, cacheItems, pcFind]
      · intro it h; cases h
  | some dpc =>
      have e : dpcTake db bid
          = ((cdb_ht_del _pagehash dpc bid SI4).1,
              { db with dpcache := some (cdb_ht_del _pagehash dpc bid SI4).2 }) := by
        simp only [dpcTake, hdpc]
      obtain ⟨h1, h2, h3, h4, h5, h6⟩ := PageInv_del_dpc db dpc bid hinv hdpc hn
      rw [e]
      refine ⟨h2, rfl, rfl, h4, h3, ?_, ?_⟩
      · intro it hit
        simp only at hit
        rw [h1] at hit
        exact h6 it hit
      · intro hnone
        simp only at hnone
        rw [h1] at hnone
        exact h5 hnone

/-- Looking the page of a bucket up in the dirty page cache, as
`cdb_replaceoff` does when the clean cache does not hold it. -/
theorem dpcPeek_spec (db : CDB) (bid : Nat) (hinv : PageInv db) :
    PageInv (dpcPeek db bid).2
    ∧ restOf (dpcPeek db bid).2 = restOf db
    ∧ (dpcPeek db bid).2.pcache = db.pcache
    ∧ (∀ b, curView (dpcPeek db bid).2 b = curView db b)
    ∧ (∀ b, pcFind (cacheItems (dpcPeek db bid).2.dpcache) b = pcFind (cacheItems db.dpcache) b)
    ∧ (dpcPeek db bid).2.dpcache.isSome = db.dpcache.isSome
    ∧ (dpcPeek db bid).1 = (pcFind (cacheItems db.dpcache) bid).map (·.val) := by
  cases hdpc : db.dpcache with
  | none =>
      have e : dpcPeek db bid = (none, db) := by simp only [dpcPeek, hdpc]
      rw [e]
      refine ⟨hinv, rfl, rfl, fun _ => rfl, fun _ => by simp [hdpc], by simp [hdpc], ?_⟩
      simp [cacheItems, pcFind]
  | some dpc =>
      have e : dpcPeek db bid
          = ((cdb_ht_get2 _pagehash dpc bid SI4 true).1,
              { db with dpcache := some (cdb_ht_get2 _pagehash dpc bid SI4 true).2 }) := by
        simp only [dpcPeek, hdpc]
      have hci : cacheItems db.dpcache = dpc.items := by simp [cacheItems, hdpc]
      have hid : ∀ it ∈ dpc.items, PcItemOK it := fun it hit =>
        (hinv.dpc_ok it (by rw [hci]; exact hit)).1
      obtain ⟨g1, g2, _, _, g5, g6⟩ := pc_get2_spec dpc bid (hinv.dpc_book dpc hdpc) hid
      obtain ⟨t1, t2⟩ := PageInv_touch_dpc db dpc _ hinv hdpc g5 g6 g2
      rw [e]
      refine ⟨t1, rfl, rfl, t2, ?_, rfl, ?_⟩
      · intro b
        simp only [cacheItems]
        exact g6 b
      · simp only [cacheItems]
        exact g1

/-- Filing a page in the dirty page cache under a bucket that is in neither
cache: from then on the index shows that page for the bucket. -/
theorem dpcPut_spec (db db1 : CDB) (it : CDBHTITEM Nat CDBPAGE) (hinv : PageInv db)
    (hks : it.ksize = SI4) (hlt : it.key < db.hsize) (hwf : it.val.num ≤ it.val.items.length)
    (hn1 : pcFind (cacheItems db.pcache) it.key = none)
    (hn2 : pcFind (cacheItems db.dpcache) it.key = none)
    (h : dpcPut db it = some db1) :
    PageInv db1 ∧ restOf db1 = restOf db ∧ db1.pcache = db.pcache
    ∧ curView db1 it.key = some it.val.view
    ∧ (∀ b, b ≠ it.key → curView db1 b = curView db b) := by
  cases hdpc : db.dpcache with
  | none => simp [dpcPut, hdpc] at h
  | some dpc =>
      simp only [dpcPut, hdpc, Option.some.injEq] at h
      have hci : cacheItems db.dpcache = dpc.items := by simp [cacheItems, hdpc]
      have hid : ∀ x ∈ dpc.items, PcItemOK x := fun x hx =>
        (hinv.dpc_ok x (by rw [hci]; exact hx)).1
      rw [hci] at hn2
      obtain ⟨hi, hok1, _⟩ := pc_insert_items dpc it (hinv.dpc_book dpc hdpc) hid hks hn2
      have hci1 : cacheItems db1.dpcache = { it with hash := it.key } :: dpc.items := by
        rw [← h]; simp only [cacheItems]; exact hi
      have hpc1 : db1.pcache = db.pcache := by rw [← h]
      have hh1 : db1.hsize = db.hsize := by rw [← h]
      have hdv : ∀ b, diskView db1 b = diskView db b := by
        intro b; rw [← h]; exact diskView_congr _ _ rfl rfl b
      refine ⟨?_, by rw [← h]; rfl, hpc1, ?_, ?_⟩
      · refine
          { hsize_pos := by rw [hh1]; exact hinv.hsize_pos
            both := by have := hinv.both; rw [← h]; simp [hdpc] at this ⊢; exact this
            pc_ok := by rw [hpc1, hh1]; exact hinv.pc_ok
            dpc_ok := ?_
            pc_nodup := by rw [hpc1]; exact hinv.pc_nodup
            dpc_nodup := ?_
            disj := ?_
            coh := ?_
            pc_book := by rw [hpc1]; exact hinv.pc_book
            dpc_book := ?_
            store := by rw [← h]; exact hinv.store
            bf_ok := by rw [← h]; exact hinv.bf_ok }
        · intro x hx
          rw [hci1, List.mem_cons] at hx
          rw [hh1]
          rcases hx with hx | hx
          · subst hx
            exact ⟨⟨rfl, hks⟩, hlt, hwf⟩
          · exact hinv.dpc_ok x (by rw [hci]; exact hx)
        · rw [hci1]
          simp only [List.map_cons, List.nodup_cons]
          refine ⟨(pcFind_none_iff _ _).mp hn2, ?_⟩
          have := hinv.dpc_nodup
          rw [hci] at this
          exact this
        · intro x hx
          rw [hpc1] at hx
          rw [hci1, pcFind_cons]
          have hne : ¬ it.key = x.key := by
            intro heq
            have := pcFind_some_mem
            have hx2 : pcFind (cacheItems db.pcache) x.key ≠ none := by
              intro hc
              exact (pcFind_none_iff _ _).mp hc (List.mem_map_of_mem _ hx)
            rw [← heq] at hx2
            exact hx2 hn1
          simp only [hne, ↓reduceIte]
          have := hinv.disj x hx
          rw [hci] at this
          exact this
        · intro x hx
          rw [hpc1] at hx
          rw [hdv]
          exact hinv.coh x hx
        · intro c hc
          rw [← h] at hc
          simp only [Option.some.injEq] at hc
          subst hc
          exact hok1
      · simp only [curView, hpc1, hn1, hci1, pcFind_cons, ↓reduceIte]
      · intro b hb
        have hne : ¬ it.key = b := fun e => hb e.symm
        simp only [curView, hpc1, hci1, pcFind_cons, hne, ↓reduceIte, hdv, hci]

/-- Filing an unchanged page in the clean page cache again: the index shows
the same pages as before. -/
theorem pcPut_spec (db db1 : CDB) (it : CDBHTITEM Nat CDBPAGE) (hinv : PageInv db)
    (hks : it.ksize = SI4) (hlt : it.key < db.hsize) (hwf : it.val.num ≤ it.val.items.length)
    (hn1 : pcFind (cacheItems db.pcache) it.key = none)
    (hn2 : pcFind (cacheItems db.dpcache) it.key = none)
    (hdv : diskView db it.key = some it.val.view)
    (h : pcPut db it = some db1) :
    PageInv db1 ∧ restOf db1 = restOf db ∧ db1.dpcache = db.dpcache
    ∧ (∀ b, curView db1 b = curView db b) := by
  cases hpc : db.pcache with
  | none => simp [pcPut, hpc] at h
  | some pc =>
      simp only [pcPut, hpc, Option.some.injEq] at h
      have hci : cacheItems db.pcache = pc.items := by simp [cacheItems, hpc]
      have hip : ∀ x ∈ pc.items, PcItemOK x := fun x hx =>
        (hinv.pc_ok x (by rw [hci]; exact hx)).1
      rw [hci] at hn1
      obtain ⟨hi, hok1, _⟩ := pc_insert_items pc it (hinv.pc_book pc hpc) hip hks hn1
      have hci1 : cacheItems db1.pcache = { it with hash := it.key } :: pc.items := by
        rw [← h]; simp only [cacheItems]; exact hi
      have hdpc1 : db1.dpcache = db.dpcache := by rw [← h]
      have hh1 : db1.hsize = db.hsize := by rw [← h]
      have hdv1 : ∀ b, diskView db1 b = diskView db b := by
        intro b; rw [← h]; exact diskView_congr _ _ rfl rfl b
      refine ⟨?_, by rw [← h]; rfl, hdpc1, ?_⟩
      · refine
          { hsize_pos := by rw [hh1]; exact hinv.hsize_pos
            both := by have := hinv.both; rw [← h]; simp [hpc] at this ⊢; exact this
            pc_ok := ?_
            dpc_ok := by rw [hdpc1, hh1]; exact hinv.dpc_ok
            pc_nodup := ?_
            dpc_nodup := by rw [hdpc1]; exact hinv.dpc_nodup
            disj := ?_
            coh := ?_
            pc_book := ?_
            dpc_book := by rw [hdpc1]; exact hinv.dpc_book
            store := by rw [← h]; exact hinv.store
            bf_ok := by rw [← h]; exact hinv.bf_ok }
        · intro x hx
          rw [hci1, List.mem_cons] at hx
          rw [hh1]
          rcases hx with hx | hx
          · subst hx
            exact ⟨⟨rfl, hks⟩, hlt, hwf⟩
          · exact hinv.pc_ok x (by rw [hci]; exact hx)
        · rw [hci1]
          simp only [List.map_cons, List.nodup_cons]
          refine ⟨(pcFind_none_iff _ _).mp hn1, ?_⟩
          have := hinv.pc_nodup
          rw [hci] at this
          exact this
        · intro x hx
          rw [hci1, List.mem_cons] at hx
          rw [hdpc1]
          rcases hx with hx | hx
          · subst hx
            exact hn2
          · exact hinv.disj x (by rw [hci]; exact hx)
        · intro x hx
          rw [hci1, List.mem_cons] at hx
          rw [hdv1]
          rcases hx with hx | hx
          · subst hx
            exact hdv
          · exact hinv.coh x (by rw [hci]; exact hx)
        · intro c hc
          rw [← h] at hc
          simp only [Option.some.injEq] at hc
          subst hc
          exact hok1
      · intro b
        simp only [curView, hci1, hci, pcFind_cons, hdpc1, hdv1]
        by_cases hb : it.key = b
        · subst hb
          simp only [↓reduceIte, hn1, hn2]
          exact hdv.symm
        · simp only [hb, ↓reduceIte]

theorem htPoke_map {β : Type} (f : CDBHTITEM Nat CDBPAGE → β)
    (hf : ∀ c v, f { c with val := v } = f c) (h ks bid : Nat) (page : CDBPAGE) :
    ∀ items : List (CDBHTITEM Nat CDBPAGE), (htPoke h ks bid page items).map f = items.map f
  | [] => by simp [htPoke]
  | c :: rest => by
      simp only [htPoke]
      split
      · simp [hf]
      · simp [htPoke_map f hf h ks bid page rest]

theorem htPoke_find (bid : Nat) (page : CDBPAGE) (b : Nat) :
    ∀ items : List (CDBHTITEM Nat CDBPAGE), (∀ x ∈ items, PcItemOK x) →
      pcFind (htPoke (_pagehash bid) SI4 bid page items) b
        = if b = bid then (pcFind items bid).map (fun c => { c with val := page })
          else pcFind items b
  | [], _ => by simp [htPoke, pcFind]
  | c :: rest, h => by
      have hc := htMatch_pc (h c (List.mem_cons_self _ _)) bid
      have ih := htPoke_find bid page b rest (fun x hx => h x (List.mem_cons_of_mem _ hx))
      simp only [htPoke, hc]
      by_cases hk : c.key = bid
      · simp only [hk, beq_self_eq_true, ↓reduceIte, pcFind_cons]
        by_cases hb : b = bid
        · simp [hb, hk]
        · have hb2 : ¬ bid = b := fun e => hb e.symm
          simp [hb, hb2]
      · have hk2 : (c.key == bid) = false := by simp [hk]
        simp only [hk2, Bool.false_eq_true, ↓reduceIte, pcFind_cons, ih, hk]
        by_cases hb : b = bid
        · subst hb
          simp [hk]
        · simp only [hb, ↓reduceIte]

theorem htPoke_mem (bid : Nat) (page : CDBPAGE) :
    ∀ items : List (CDBHTITEM Nat CDBPAGE), ∀ x ∈ htPoke (_pagehash bid) SI4 bid page items,
      x ∈ items ∨ ∃ c ∈ items, c.key = bid ∧ x = { c with val := page }
  | [], x, hx => by simp [htPoke] at hx
  | c :: rest, x, hx => by
      simp only [htPoke] at hx
      split at hx
      · rename_i hm
        rw [List.mem_cons] at hx
        rcases hx with hx | hx
        · right
          refine ⟨c, List.mem_cons_self _ _, ?_, hx⟩
          simp only [htMatch, _pagehash, Bool.and_eq_true, decide_eq_true_eq] at hm
          exact hm.2
        · left; exact List.mem_cons_of_mem _ hx
      · rw [List.mem_cons] at hx
        rcases hx with hx | hx
        · left; rw [hx]; exact List.mem_cons_self _ _
        · rcases htPoke_mem bid page rest x hx with h1 | ⟨d, hd, h2, h3⟩
          · left; exact List.mem_cons_of_mem _ h1
          · right; exact ⟨d, List.mem_cons_of_mem _ hd, h2, h3⟩

/-- Changing the page of a bucket in place in the dirty page cache: from then
on the index shows the changed page for the bucket. -/
theorem dpcPoke_spec (db db1 : CDB) (bid : Nat) (page : CDBPAGE) (hinv : PageInv db)
    (hwf : page.num ≤ page.items.length)
    (hn1 : pcFind (cacheItems db.pcache) bid = none)
    (hin : (pcFind (cacheItems db.dpcache) bid).isSome = true)
    (h : dpcPoke db bid page = some db1) :
    PageInv db1 ∧ restOf db1 = restOf db ∧ db1.pcache = db.pcache
    ∧ curView db1 bid = some page.view
    ∧ (∀ b, b ≠ bid → curView db1 b = curView db b) := by
  cases hdpc : db.dpcache with
  | none => simp [dpcPoke, hdpc] at h
  | some dpc =>
      simp only [dpcPoke, hdpc, Option.some.injEq] at h
      have hci : cacheItems db.dpcache = dpc.items := by simp [cacheItems, hdpc]
      have hid : ∀ x ∈ dpc.items, PcItemOK x := fun x hx =>
        (hinv.dpc_ok x (by rw [hci]; exact hx)).1
      rw [hci] at hin
      have hci1 : cacheItems db1.dpcache = htPoke (_pagehash bid) SI4 bid page dpc.items := by
        rw [← h]; simp only [cacheItems]
      have hpc1 : db1.pcache = db.pcache := by rw [← h]
      have hh1 : db1.hsize = db.hsize := by rw [← h]
      have hdv : ∀ b, diskView db1 b = diskView db b := by
        intro b; rw [← h]; exact diskView_congr _ _ rfl rfl b
      have hfind := fun b => htPoke_find bid page b dpc.items hid
      obtain ⟨hl, hnum, hsz⟩ := hinv.dpc_book dpc hdpc
      refine ⟨?_, by rw [← h]; rfl, hpc1, ?_, ?_⟩
      · refine
          { hsize_pos := by rw [hh1]; exact hinv.hsize_pos
            both := by have := hinv.both; rw [← h]; simp [hdpc] at this ⊢; exact this
            pc_ok := by rw [hpc1, hh1]; exact hinv.pc_ok
            dpc_ok := ?_
            pc_nodup := by rw [hpc1]; exact hinv.pc_nodup
            dpc_nodup := ?_
            disj := ?_
            coh := ?_
            pc_book := by rw [hpc1]; exact hinv.pc_book
            dpc_book := ?_
            store := by rw [← h]; exact hinv.store
            bf_ok := by rw [← h]; exact hinv.bf_ok }
        · intro x hx
          rw [hci1] at hx
          rw [hh1]
          rcases htPoke_mem bid page dpc.items x hx with h1 | ⟨c, hc, h2, h3⟩
          · exact hinv.dpc_ok x (by rw [hci]; exact h1)
          · obtain ⟨⟨q1, q2⟩, q3, _⟩ := hinv.dpc_ok c (by rw [hci]; exact hc)
            subst h3
            exact ⟨⟨q1, q2⟩, q3, hwf⟩
        · rw [hci1, htPoke_map (·.key) (fun _ _ => rfl)]
          have := hinv.dpc_nodup
          rw [hci] at this
          exact this
        · intro x hx
          rw [hpc1] at hx
          rw [hci1, hfind]
          have hd := hinv.disj x hx
          rw [hci] at hd
          by_cases hb : x.key = bid
          · exfalso
            exact (pcFind_none_iff _ _).mp hn1 (by rw [← hb]; exact List.mem_map_of_mem _ hx)
          · simp only [hb, ↓reduceIte]
            exact hd
        · intro x hx
          rw [hpc1] at hx
          rw [hdv]
          exact hinv.coh x hx
        · intro c hc
          rw [← h] at hc
          simp only [Option.some.injEq] at hc
          subst hc
          refine ⟨hl, ?_, ?_⟩
          · simp only
            rw [hnum]
            have := congrArg List.length (htPoke_map (fun _ => ()) (fun _ _ => rfl)
              (_pagehash bid) SI4 bid page dpc.items)
            simpa using this.symm
          · simp only [htItemsBytes]
            rw [htPoke_map (htItemBytes dpc.lru) (fun _ _ => rfl)]
            exact hsz
      · simp only [curView, hpc1, hn1, hci1, hfind, ↓reduceIte]
        cases hf : pcFind dpc.items bid with
        | none => rw [hf] at hin; simp at hin
        | some c => rfl
      · intro b hb
        simp only [curView, hpc1, hci1, hfind, hb, ↓reduceIte, hdv, hci]

/-! ## The loops of cdb_replaceoff and cdb_updatepage on the live items -/

theorem replaceLoop_spec (phash : PHASH) (off noff : FOFF) :
    ∀ (n : Nat) (items : List PITEM),
      (replaceLoop phash off noff n items).1.take n = replFirst phash off noff (items.take n)
      ∧ (replaceLoop phash off noff n items).1.length = items.length
      ∧ (replaceLoop phash off noff n items).2 = (items.take n).any (itemIs phash off)
  | 0, items => by simp [replaceLoop, replFirst]
  | n + 1, [] => by simp [replaceLoop, replFirst]
  | n + 1, it :: its => by
      obtain ⟨h1, h2, h3⟩ := replaceLoop_spec phash off noff n its
      by_cases h : itemIs phash off it = true
      · have h' : (PHASHEQ it.hash phash && OFFEQ it.off off) = true := h
        simp [replaceLoop, replFirst, h, h']
      · have h' : ¬ (PHASHEQ it.hash phash && OFFEQ it.off off) = true := h
        have hf : itemIs phash off it = false := by simpa using h
        have e : replaceLoop phash off noff (n + 1) (it :: its)
            = (it :: (replaceLoop phash off noff n its).1, (replaceLoop phash off noff n its).2) := by
          simp only [replaceLoop, h', Bool.false_eq_true, ↓reduceIte]
        rw [e]
        simp [replFirst, hf, h1, h2, h3]

theorem replFirst_length (phash : PHASH) (off noff : FOFF) :
    ∀ l : List PITEM, (replFirst phash off noff l).length = l.length
  | [] => rfl
  | it :: its => by
      simp only [replFirst]
      split
      · rfl
      · simp [replFirst_length phash off noff its]

theorem shiftLeft_spec : ∀ (n : Nat) (a : PITEM) (its : List PITEM), n ≤ its.length →
    (shiftLeft (n + 1) (a :: its)).take n = its.take n
    ∧ (shiftLeft (n + 1) (a :: its)).length = its.length + 1
  | 0, a, its, _ => by simp [shiftLeft]
  | n + 1, a, [], h => by simp at h
  | n + 1, a, b :: rest, h => by
      have hn : n ≤ rest.length := by simpa using h
      obtain ⟨h1, h2⟩ := shiftLeft_spec n b rest hn
      simp only [shiftLeft, List.take_succ_cons, h1, List.length_cons, h2, and_self]

theorem deleteLoop_spec (phash : PHASH) (off : FOFF) :
    ∀ (n : Nat) (items : List PITEM), n ≤ items.length →
      (deleteLoop phash off n items).2 = (items.take n).any (itemIs phash off)
      ∧ (deleteLoop phash off n items).1.length = items.length
      ∧ ((deleteLoop phash off n items).2 = true →
          (deleteLoop phash off n items).1.take (n - 1)
            = (items.take n).eraseP (itemIs phash off))
      ∧ ((deleteLoop phash off n items).2 = false → (deleteLoop phash off n items).1 = items)
  | 0, items, _ => by simp [deleteLoop]
  | n + 1, [], h => by simp at h
  | n + 1, it :: its, h => by
      have hn : n ≤ its.length := by simpa using h
      obtain ⟨h1, h2, h3, h4⟩ := deleteLoop_spec phash off n its hn
      by_cases hm : itemIs phash off it = true
      · have h' : (PHASHEQ it.hash phash && OFFEQ it.off off) = true := hm
        obtain ⟨s1, s2⟩ := shiftLeft_spec n it its hn
        simp only [deleteLoop, h', ↓reduceIte, List.take_succ_cons, List.any_cons, hm,
          Bool.true_or, s2, List.length_cons, Nat.add_sub_cancel, s1, true_and,
          List.eraseP_cons_of_pos, forall_const, Bool.true_eq_false, false_implies, and_self]
      · have h' : ¬ (PHASHEQ it.hash phash && OFFEQ it.off off) = true := hm
        have hmf : itemIs phash off it = false := by simpa using hm
        have e : deleteLoop phash off (n + 1) (it :: its)
            = (it :: (deleteLoop phash off n its).1, (deleteLoop phash off n its).2) := by
          simp only [deleteLoop, h', Bool.false_eq_true, ↓reduceIte]
        rw [e]
        simp only [List.take_succ_cons, List.any_cons, hmf, Bool.false_or, List.length_cons, h2,
          Nat.add_sub_cancel, true_and]
        refine ⟨h1, ?_, ?_⟩
        · intro hf
          have h3' := h3 hf
          have hpos : 0 < n := by
            cases n with
            | zero => simp [deleteLoop] at hf
            | succ m => omega
          obtain ⟨m, rfl⟩ : ∃ m, n = m + 1 := ⟨n - 1, by omega⟩
          simp only [Nat.add_sub_cancel] at h3'
          rw [List.take_succ_cons, h3']
          simp [List.eraseP_cons, hmf]
        · intro hf
          rw [h4 hf]

theorem insertFound_spec (phash : PHASH) (off : FOFF) :
    ∀ (n : Nat) (items : List PITEM),
      insertFound phash off n items = (items.take n).any (itemIs phash off)
  | 0, items => by simp [insertFound]
  | n + 1, [] => by simp [insertFound]
  | n + 1, it :: its => by
      have ih := insertFound_spec phash off n its
      by_cases hm : itemIs phash off it = true
      · have h' : (PHASHEQ it.hash phash && OFFEQ it.off off) = true := hm
        simp [insertFound, h', hm]
      · have h' : ¬ (PHASHEQ it.hash phash && OFFEQ it.off off) = true := hm
        have hmf : itemIs phash off it = false := by simpa using hm
        simp [insertFound, h', hmf, ih]

theorem take_set_append (l : List PITEM) (n : Nat) (x : PITEM) (h : n < l.length) :
    (l.set n x).take (n + 1) = l.take n ++ [x] := by
  induction l generalizing n with
  | nil => simp at h
  | cons a rest ih =>
      cases n with
      | zero => simp
      | succ m =>
          have hm : m < rest.length := by simpa using h
          simp [List.set_cons_succ, ih m hm]

theorem growPage_view (page0 : CDBPAGE) (bid oid now : Nat) (h : page0.num ≤ page0.items.length) :
    (growPage page0 bid oid now).view = page0.view
    ∧ (page0.num ≤ page0.cap →
        (growPage page0 bid oid now).num < (growPage page0 bid oid now).items.length)
    ∧ (growPage page0 bid oid now).bid = bid
    ∧ (growPage page0 bid oid now).cap = page0.cap + CDB_PAGEINCR := by
  have hl : (page0.items.take page0.num).length = page0.num := by
    simp [List.length_take, h]
  refine ⟨?_, ?_, rfl, rfl⟩
  · simp only [CDBPAGE.view, growPage]
    rw [List.take_append_of_le_length (by rw [hl])]
    rw [List.take_take, Nat.min_self]
  · intro hc
    simp only [growPage, List.length_append, hl, List.length_replicate, CDB_PAGEINCR]
    omega

theorem view_wf_length (p : CDBPAGE) (h : p.num ≤ p.items.length) : p.view.2.length = p.view.1 := by
  simp [CDBPAGE.view, List.length_take, h]

theorem any_take_pos (p : PITEM → Bool) (n : Nat) (l : List PITEM)
    (h : (l.take n).any p = true) : 0 < n := by
  cases n with
  | zero => simp at h
  | succ m => omega

/-- The deletion and insertion branches of `cdb_updatepage`, on the view of
the page. -/
theorem updBf_ok (db : CDB) (hash : Nat) (off : FOFF) (opt : Nat) (v : Nat × List PITEM)
    (h : ∀ bf, db.bf = some bf → bfTraps bf = false) :
    ∀ bf, updBf db hash off opt v = some bf → bfTraps bf = false := by
  intro bf hb
  simp only [updBf] at hb
  split at hb
  · cases h0 : db.bf with
    | none => rw [h0] at hb; simp at hb
    | some bf0 =>
        rw [h0] at hb
        simp only [Option.map_some', Option.some.injEq] at hb
        rw [← hb]
        exact h bf0 h0
  · exact h bf hb

theorem updateApply_spec (db db6 : CDB) (hash : Nat) (off : FOFF) (opt : Nat)
    (page1 page : CDBPAGE) (hwf : page1.num ≤ page1.items.length)
    (h : updateApply db hash off opt page1 = some (page, db6)) :
    page.view = updView (mkPHASH hash) off opt page1.view
    ∧ page.num ≤ page.items.length
    ∧ (page.num == page1.num) = !updChanges (mkPHASH hash) off opt page1.view
    ∧ db6 = { db with rnum := updRnum (mkPHASH hash) off opt page1.view db.rnum
                      bf := updBf db hash off opt page1.view }
    ∧ page.bid = page1.bid ∧ page.cap = page1.cap := by
  by_cases hd : opt = CDB_PAGEDELETEOFF
  · subst hd
    obtain ⟨d1, d2, d3, d4⟩ := deleteLoop_spec (mkPHASH hash) off page1.num page1.items hwf
    cases hf : (deleteLoop (mkPHASH hash) off page1.num page1.items).2 with
    | true =>
        have hany : (page1.items.take page1.num).any (itemIs (mkPHASH hash) off) = true := by
          rw [← d1]; exact hf
        have hpos := any_take_pos _ _ _ hany
        simp only [updateApply, beq_self_eq_true, ↓reduceIte, hf, Option.some.injEq,
          Prod.mk.injEq] at h
        obtain ⟨hp, hdb⟩ := h
        subst hp; subst hdb
        have hch : updChanges (mkPHASH hash) off CDB_PAGEDELETEOFF page1.view = true := by
          simp [updChanges, CDBPAGE.view, hany]
        refine ⟨?_, ?_, ?_, ?_, rfl, rfl⟩
        · rw [updView, if_pos hch]
          simp only [beq_self_eq_true, ↓reduceIte, CDBPAGE.view]
          rw [d3 hf]
        · simp only [d2]; omega
        · simp only [hch, Bool.not_true, beq_eq_false_iff_ne, ne_eq]
          omega
        · simp [updRnum, updBf, hch]
    | false =>
        have hany : (page1.items.take page1.num).any (itemIs (mkPHASH hash) off) = false := by
          rw [← d1]; exact hf
        simp only [updateApply, beq_self_eq_true, ↓reduceIte, hf, Bool.false_eq_true,
          Option.some.injEq, Prod.mk.injEq] at h
        obtain ⟨hp, hdb⟩ := h
        subst hp; subst hdb
        have hch : updChanges (mkPHASH hash) off CDB_PAGEDELETEOFF page1.view = false := by
          simp [updChanges, CDBPAGE.view, hany]
        rw [d4 hf]
        refine ⟨?_, hwf, ?_, ?_, rfl, rfl⟩
        · simp only [updView, hch, Bool.false_eq_true, ↓reduceIte]
        · simp [hch]
        · simp [updRnum, updBf, hch]
  · have hd' : (opt == CDB_PAGEDELETEOFF) = false := by simpa using hd
    by_cases hi : opt = CDB_PAGEINSERTOFF
    · subst hi
      have hs := insertFound_spec (mkPHASH hash) off page1.num page1.items
      cases hf : insertFound (mkPHASH hash) off page1.num page1.items with
      | true =>
          rw [hf] at hs
          simp only [updateApply, hd', Bool.false_eq_true, ↓reduceIte, beq_self_eq_true, hf,
            Option.some.injEq, Prod.mk.injEq] at h
          obtain ⟨hp, hdb⟩ := h
          subst hp; subst hdb
          have hch : updChanges (mkPHASH hash) off CDB_PAGEINSERTOFF page1.view = false := by
            simp [updChanges, CDBPAGE.view, ← hs, hd]
          refine ⟨?_, hwf, ?_, ?_, rfl, rfl⟩
          · simp only [updView, hch, Bool.false_eq_true, ↓reduceIte]
          · simp [hch]
          · simp [updRnum, updBf, hch]
      | false =>
          rw [hf] at hs
          by_cases hroom : page1.num < page1.items.length
          · have hch : updChanges (mkPHASH hash) off CDB_PAGEINSERTOFF page1.view = true := by
              simp [updChanges, CDBPAGE.view, ← hs, CDB_PAGEINSERTOFF, CDB_PAGEDELETEOFF]
            have hset : ∃ d5,
                (match (({ db with rnum := (db.rnum + 1) % U64 } : CDB)).bf with
                  | some bf =>
                      (cdb_bf_set bf (leBytes SI8 (bfkeyUpdate
                        (({ db with rnum := (db.rnum + 1) % U64 } : CDB)).hsize hash))).map
                        fun bf1 => ({ ({ db with rnum := (db.rnum + 1) % U64 } : CDB) with
                          bf := some bf1 } : CDB)
                  | none => some ({ db with rnum := (db.rnum + 1) % U64 } : CDB)) = some d5
                ∧ db6 = d5
                ∧ page = { page1 with
                    items := page1.items.set page1.num { off := off, hash := mkPHASH hash }
                    num := page1.num + 1 } := by
              simp only [updateApply, hd', Bool.false_eq_true, ↓reduceIte, beq_self_eq_true, hf,
                hroom] at h
              cases hm : (match (({ db with rnum := (db.rnum + 1) % U64 } : CDB)).bf with
                  | some bf =>
                      (cdb_bf_set bf (leBytes SI8 (bfkeyUpdate
                        (({ db with rnum := (db.rnum + 1) % U64 } : CDB)).hsize hash))).map
                        fun bf1 => ({ ({ db with rnum := (db.rnum + 1) % U64 } : CDB) with
                          bf := some bf1 } : CDB)
                  | none => some ({ db with rnum := (db.rnum + 1) % U64 } : CDB)) with
              | none => rw [hm] at h; simp at h
              | some d5 =>
                  rw [hm] at h
                  simp only [Option.map_some', Option.some.injEq, Prod.mk.injEq] at h
                  exact ⟨d5, rfl, h.2.symm, h.1.symm⟩
            obtain ⟨d5, hd5, hdb, hp⟩ := hset
            subst hp; subst hdb
            have hd6 : db6 = { db with rnum := (db.rnum + 1) % U64
                                       bf := db.bf.map fun bf =>
                                         bfSetBits bf (leBytes SI8 (bfkeyUpdate db.hsize hash)) } := by
              rcases db with ⟨a1, a2, a3, a4, a5, a6, a7, a8, a9, a10, a11, bfo, a13, a14, a15⟩
              cases bfo with
              | none =>
                  simp only [Option.some.injEq] at hd5
                  rw [← hd5]; rfl
              | some bf =>
                  simp only [cdb_bf_set] at hd5
                  cases ht : bfTraps bf with
                  | true => simp [ht] at hd5
                  | false =>
                      simp only [ht, Bool.false_eq_true, ↓reduceIte, Option.map_some',
                        Option.some.injEq] at hd5
                      rw [← hd5]; rfl
            refine ⟨?_, ?_, ?_, ?_, rfl, rfl⟩
            · rw [updView, if_pos hch]
              simp only [hd', Bool.false_eq_true, ↓reduceIte, CDBPAGE.view]
              rw [take_set_append _ _ _ hroom]
            · simp only [List.length_set]; omega
            · simp [hch]
            · rw [hd6]
              simp only [updRnum, updBf, hch, ↓reduceIte, hd', Bool.false_eq_true, Bool.not_false,
                Bool.and_self]
              rfl
          · simp [updateApply, hd', hf, hroom] at h
    · have hi' : (opt == CDB_PAGEINSERTOFF) = false := by simpa using hi
      simp only [updateApply, hd', Bool.false_eq_true, ↓reduceIte, hi', Option.some.injEq,
        Prod.mk.injEq] at h
      obtain ⟨hp, hdb⟩ := h
      subst hp; subst hdb
      have hch : updChanges (mkPHASH hash) off opt page1.view = false := by
        simp [updChanges, hd', hi']
      refine ⟨?_, hwf, ?_, ?_, rfl, rfl⟩
      · simp only [updView, hch, Bool.false_eq_true, ↓reduceIte]
      · simp [hch]
      · simp [updRnum, updBf, hch]

theorem curView_of_none (db : CDB) (bid : Nat)
    (hn1 : pcFind (cacheItems db.pcache) bid = none)
    (hn2 : pcFind (cacheItems db.dpcache) bid = none) : curView db bid = diskView db bid := by
  simp only [curView, hn1, hn2]

theorem dataOf_hsize_eq (db db1 : CDB) (h : dataOf db1 = dataOf db) : db1.hsize = db.hsize := by
  simp only [dataOf, Prod.mk.injEq] at h
  exact h.2.2.2.1

/-- Writing the page of a bucket that is in neither cache to disk and
pointing the main table to it: from then on the index shows that page. -/
theorem PageInv_write (db db1 : CDB) (bid : Nat) (page : CDBPAGE) (hinv : PageInv db)
    (hn1 : pcFind (cacheItems db.pcache) bid = none)
    (hn2 : pcFind (cacheItems db.dpcache) bid = none)
    (hwf : page.num ≤ page.items.length)
    (h : writeBucketPage db bid page = some db1) :
    PageInv db1 ∧ curView db1 bid = some page.view
    ∧ (∀ b, b ≠ bid → curView db1 b = curView db b)
    ∧ dataOf db1 = dataOf db ∧ db1.pcache = db.pcache ∧ db1.dpcache = db.dpcache := by
  obtain ⟨vio, mt, hv, hm, hs⟩ := hinv.store
  obtain ⟨d, vio1, mt1, hw, hv1, hm1, hs1, hdv, hdo, hpc, hdpc, hdata⟩ :=
    writeBucketPage_spec db vio mt bid page hv hm hs hwf
  rw [hw, Option.some.injEq] at h
  subst h
  have hh := dataOf_hsize_eq db d hdata
  refine ⟨?_, ?_, ?_, hdata, hpc, hdpc⟩
  · exact
      { hsize_pos := by rw [hh]; exact hinv.hsize_pos
        both := by rw [hpc, hdpc]; exact hinv.both
        pc_ok := by rw [hpc, hh]; exact hinv.pc_ok
        dpc_ok := by rw [hdpc, hh]; exact hinv.dpc_ok
        pc_nodup := by rw [hpc]; exact hinv.pc_nodup
        dpc_nodup := by rw [hdpc]; exact hinv.dpc_nodup
        disj := by rw [hpc, hdpc]; exact hinv.disj
        coh := by
          intro it hit
          rw [hpc] at hit
          have hne : it.key ≠ bid := by
            intro e
            exact (pcFind_none_iff _ _).mp hn1 (by rw [← e]; exact List.mem_map_of_mem _ hit)
          rw [hdo _ hne]
          exact hinv.coh it hit
        pc_book := by rw [hpc]; exact hinv.pc_book
        dpc_book := by rw [hdpc]; exact hinv.dpc_book
        store := ⟨vio1, mt1, hv1, hm1, hs1⟩
        bf_ok := by
          have e := congrArg (fun d => d.2.2.1) hdata
          simp only [dataOf] at e
          rw [e]; exact hinv.bf_ok }
  · rw [curView_of_none d bid (by rw [hpc]; exact hn1) (by rw [hdpc]; exact hn2)]
    exact hdv
  · intro b hb
    simp only [curView, hpc, hdpc, hdo b hb]

/-- The two cache blocks that open `cdb_updatepage`: the page of the bucket
is out of both caches afterwards. -/
theorem updateTake_spec (db : CDB) (bid : Nat) (hinv : PageInv db) :
    PageInv (updateTake db bid).2.2
    ∧ restOf (updateTake db bid).2.2 = restOf db
    ∧ (∀ b, b ≠ bid → curView (updateTake db bid).2.2 b = curView db b)
    ∧ pcFind (cacheItems (updateTake db bid).2.2.pcache) bid = none
    ∧ pcFind (cacheItems (updateTake db bid).2.2.dpcache) bid = none
    ∧ (∀ it, (updateTake db bid).1 = some it →
          it.ksize = SI4 ∧ it.key = bid ∧ it.val.num ≤ it.val.items.length
          ∧ curView db bid = some it.val.view
          ∧ (((updateTake db bid).2.1 = some TmpCache.pcache
                ∧ diskView (updateTake db bid).2.2 bid = some it.val.view)
              ∨ (updateTake db bid).2.1 = some TmpCache.dpcache))
    ∧ ((updateTake db bid).1 = none →
          (updateTake db bid).2.1 = none
          ∧ diskView (updateTake db bid).2.2 bid = curView db bid)
    ∧ (db.dpcache = none → (updateTake db bid).1 = none)
    ∧ (updateTake db bid).2.2.dpcache.isSome = db.dpcache.isSome := by
  obtain ⟨p1, p2, p3, p4, p5, p6⟩ := pcTake_spec db bid hinv
  cases ht : (pcTake db bid).1 with
  | some it =>
      have e : updateTake db bid = (some it, some TmpCache.pcache, (pcTake db bid).2) := by
        simp only [updateTake, ht]
      obtain ⟨⟨⟨_, q1⟩, _, q2⟩, q3, q4, q5, q6⟩ := p6 it ht
      rw [e]
      refine ⟨p1, p2, fun b _ => p4 b, p5, by simp only; rw [p3]; exact q6, ?_, ?_, ?_,
        by simp only; rw [p3]⟩
      · intro it2 h2
        simp only [Option.some.injEq] at h2
        subst h2
        refine ⟨q1, q3, q2, q4, Or.inl ⟨rfl, ?_⟩⟩
        have hr := p2
        simp only [restOf, Prod.mk.injEq] at hr
        rw [diskView_congr db (pcTake db bid).2 hr.2.2.2.2.2.2.2.2.2.2.2.1
          hr.2.2.2.2.2.2.2.2.2.2.1]
        exact q5
      · intro h2; cases h2
      · intro hd
        exfalso
        have hb := hinv.both
        rw [hd] at hb
        have hpn : db.pcache = none := by
          cases hpc : db.pcache with
          | none => rfl
          | some c => rw [hpc] at hb; simp at hb
        simp [pcTake, hpn] at ht
  | none =>
      have e : updateTake db bid
          = ((dpcTake (pcTake db bid).2 bid).1,
              (if (dpcTake (pcTake db bid).2 bid).1.isSome then some TmpCache.dpcache else none),
              (dpcTake (pcTake db bid).2 bid).2) := by
        simp only [updateTake, ht]
      obtain ⟨t1, t2, t3, t4, t5, t6, t7⟩ := dpcTake_spec (pcTake db bid).2 bid p1 p5
      rw [e]
      refine ⟨t1, t2.trans p2, fun b hb => (t4 b hb).trans (p4 b), by simp only; rw [t3]; exact p5,
        t5, ?_, ?_, ?_, ?_⟩
      · intro it h2
        simp only at h2
        obtain ⟨⟨⟨_, q1⟩, _, q2⟩, q3, q4⟩ := t6 it h2
        refine ⟨q1, q3, q2, by rw [← p4]; exact q4, Or.inr ?_⟩
        simp [h2]
      · intro h2
        simp only at h2
        refine ⟨by simp [h2], ?_⟩
        simp only
        rw [← curView_of_none _ bid (by rw [t3]; exact p5) t5, t7 h2, p4]
      · intro hd
        simp only
        have : (pcTake db bid).2.dpcache = none := by rw [p3]; exact hd
        simp [dpcTake, this]
      · simp only
        rw [← p3]
        cases hdd : (pcTake db bid).2.dpcache <;> simp [dpcTake, hdd]

theorem kvOf_of_restOf (db db1 : CDB) (h : restOf db1 = restOf db) :
    kvOf db1 = kvOf db ∧ db1.rnum = db.rnum ∧ db1.bf = db.bf ∧ db1.hsize = db.hsize
    ∧ db1.vio = db.vio ∧ db1.mtable = db.mtable ∧ db1.oid = db.oid := by
  simp only [restOf, Prod.mk.injEq] at h
  obtain ⟨h1, h2, h3, h4, h5, h6, h7, h8, h9, h10, h11, h12, h13⟩ := h
  simp only [kvOf, h9, h7, h1, h2, h13, h12, h4, h10, h11, h5, and_self]

theorem kvOf_of_dataOf (db db1 : CDB) (h : dataOf db1 = dataOf db) :
    kvOf db1 = kvOf db ∧ db1.rnum = db.rnum ∧ db1.bf = db.bf ∧ db1.hsize = db.hsize := by
  simp only [dataOf, Prod.mk.injEq] at h
  obtain ⟨h1, h2, h3, h4, h5, h6, h7, h8⟩ := h
  simp only [kvOf, h1, h4, h5, h6, h7, h8, h2, h3, and_self]

/-- The last part of `cdb_updatepage`: the page at hand is updated and filed,
the record count follows. -/
theorem updateFile_spec (db3 : CDB) (bid hash : Nat) (off : FOFF) (opt : Nat)
    (pitem1 : Option (CDBHTITEM Nat CDBPAGE)) (tmpcache : Option TmpCache) (page1 : CDBPAGE)
    (r : Int × CDB) (hinv : PageInv db3) (hbid : bid < db3.hsize)
    (hn1 : pcFind (cacheItems db3.pcache) bid = none)
    (hn2 : pcFind (cacheItems db3.dpcache) bid = none)
    (hwf : page1.num ≤ page1.items.length)
    (hit : ∀ it, pitem1 = some it → it.ksize = SI4 ∧ it.key = bid)
    (htmp : tmpcache = some TmpCache.pcache → diskView db3 bid = some page1.view)
    (hnone : pitem1 = none → diskView db3 bid = some page1.view)
    (h : updateFile db3 bid hash off opt pitem1 tmpcache page1 = some r) :
    PageInv r.2
    ∧ curView r.2 bid = some (updView (mkPHASH hash) off opt page1.view)
    ∧ (∀ b, b ≠ bid → curView r.2 b = curView db3 b)
    ∧ r.2.rnum = updRnum (mkPHASH hash) off opt page1.view db3.rnum
    ∧ r.2.bf = updBf db3 hash off opt page1.view
    ∧ kvOf r.2 = kvOf db3
    ∧ r.1 = (if updChanges (mkPHASH hash) off opt page1.view then 0 else -1) := by
  simp only [updateFile] at h
  cases hap : updateApply db3 hash off opt page1 with
  | none => simp [hap] at h
  | some pr =>
      obtain ⟨page, db6⟩ := pr
      simp only [hap] at h
      obtain ⟨a1, a2, a3, a4, _, _⟩ := updateApply_spec db3 db6 hash off opt page1 page hwf hap
      have hinv6 : PageInv db6 := by
        rw [a4]; exact PageInv_congr db3 _ rfl rfl rfl rfl rfl (updBf_ok db3 hash off opt _ hinv.bf_ok) hinv
      have hpc6 : db6.pcache = db3.pcache := by rw [a4]
      have hdpc6 : db6.dpcache = db3.dpcache := by rw [a4]
      have hh6 : db6.hsize = db3.hsize := by rw [a4]
      have hrn6 : db6.rnum = updRnum (mkPHASH hash) off opt page1.view db3.rnum := by rw [a4]
      have hbf6 : db6.bf = updBf db3 hash off opt page1.view := by rw [a4]
      have hkv6 : kvOf db6 = kvOf db3 := by rw [a4]; rfl
      have hdv6 : ∀ b, diskView db6 b = diskView db3 b := by
        intro b; rw [a4]; exact diskView_congr _ _ rfl rfl b
      have hcv6 : ∀ b, curView db6 b = curView db3 b := by
        intro b; simp only [curView, hpc6, hdpc6, hdv6]
      have hn1' : pcFind (cacheItems db6.pcache) bid = none := by rw [hpc6]; exact hn1
      have hn2' : pcFind (cacheItems db6.dpcache) bid = none := by rw [hdpc6]; exact hn2
      cases hch : updChanges (mkPHASH hash) off opt page1.view with
      | false =>
          rw [hch] at a3
          simp only [Bool.not_false] at a3
          have hview : page.view = page1.view := by
            rw [a1]; simp only [updView, hch, Bool.false_eq_true, ↓reduceIte]
          have huv : updView (mkPHASH hash) off opt page1.view = page1.view := by
            simp only [updView, hch, Bool.false_eq_true, ↓reduceIte]
          simp only [a3, ↓reduceIte] at h
          rw [huv]
          cases hp : pitem1 with
          | none =>
              simp only [hp, Option.some.injEq] at h
              subst h
              refine ⟨hinv6, ?_, fun b _ => hcv6 b, hrn6, hbf6, hkv6, by simp⟩
              rw [curView_of_none db6 bid hn1' hn2', hdv6]
              exact hnone hp
          | some it =>
              obtain ⟨k1, k2⟩ := hit it hp
              simp only [hp] at h
              cases htc : tmpcache with
              | none => simp [htc] at h
              | some tc =>
                  cases tc with
                  | pcache =>
                      simp only [htc] at h
                      cases hput : pcPut db6 { it with val := page } with
                      | none => simp [hput] at h
                      | some d =>
                          simp only [hput, Option.map_some', Option.some.injEq] at h
                          subst h
                          obtain ⟨q1, q2, _, q4⟩ := pcPut_spec db6 d { it with val := page } hinv6
                            k1 (by simp only [k2, hh6]; exact hbid) a2
                            (by simp only [k2]; exact hn1') (by simp only [k2]; exact hn2')
                            (by simp only [k2, hdv6, hview]; exact htmp htc) hput
                          obtain ⟨r1, r2, r3, _⟩ := kvOf_of_restOf db6 d q2
                          refine ⟨q1, ?_, fun b _ => (q4 b).trans (hcv6 b), r2.trans hrn6,
                            r3.trans hbf6, r1.trans hkv6, by simp⟩
                          simp only
                          rw [q4, hcv6, curView_of_none db3 bid hn1 hn2]
                          exact htmp htc
                  | dpcache =>
                      simp only [htc] at h
                      cases hput : dpcPut db6 { it with val := page } with
                      | none => simp [hput] at h
                      | some d =>
                          simp only [hput, Option.map_some', Option.some.injEq] at h
                          subst h
                          obtain ⟨q1, q2, _, q4, q5⟩ := dpcPut_spec db6 d { it with val := page }
                            hinv6 k1 (by simp only [k2, hh6]; exact hbid) a2
                            (by simp only [k2]; exact hn1') (by simp only [k2]; exact hn2') hput
                          obtain ⟨r1, r2, r3, _⟩ := kvOf_of_restOf db6 d q2
                          simp only [k2] at q4 q5
                          refine ⟨q1, ?_, fun b hb => (q5 b hb).trans (hcv6 b), r2.trans hrn6,
                            r3.trans hbf6, r1.trans hkv6, by simp⟩
                          simp only
                          rw [q4, hview]
      | true =>
          rw [hch] at a3
          simp only [Bool.not_true] at a3
          simp only [a3, Bool.false_eq_true, ↓reduceIte] at h
          have key : ∀ db8, PageInv db8 → curView db8 bid = some page.view →
              (∀ b, b ≠ bid → curView db8 b = curView db6 b) → kvOf db8 = kvOf db6 →
              db8.rnum = db6.rnum → db8.bf = db6.bf →
              (checkPageOverflow db8).map (fun db9 => ((0 : Int), db9)) = some r →
              PageInv r.2
              ∧ curView r.2 bid = some (updView (mkPHASH hash) off opt page1.view)
              ∧ (∀ b, b ≠ bid → curView r.2 b = curView db3 b)
              ∧ r.2.rnum = updRnum (mkPHASH hash) off opt page1.view db3.rnum
              ∧ r.2.bf = updBf db3 hash off opt page1.view
              ∧ kvOf r.2 = kvOf db3
              ∧ r.1 = (if true = true then 0 else -1) := by
            intro db8 i8 c8 o8 k8 n8 b8 hco
            cases hc : checkPageOverflow db8 with
            | none => simp [hc] at hco
            | some db9 =>
                simp only [hc, Option.map_some', Option.some.injEq] at hco
                subst hco
                obtain ⟨e1, e2, e3⟩ := checkPageOverflow_spec db8 db9 i8 hc
                obtain ⟨f1, f2, f3, _⟩ := kvOf_of_dataOf db8 db9 e3
                refine ⟨e1, ?_, ?_, (f2.trans n8).trans hrn6, (f3.trans b8).trans hbf6,
                  (f1.trans k8).trans hkv6, by simp⟩
                · simp only
                  rw [e2, c8, a1]
                · intro b hb
                  simp only
                  rw [e2, o8 b hb, hcv6]
          cases hp : pitem1 with
          | none =>
              simp only [hp] at h
              cases hw : writeBucketPage db6 bid page with
              | none => simp [hw] at h
              | some db8 =>
                  simp only [hw] at h
                  obtain ⟨w1, w2, w3, w4, _, _⟩ := PageInv_write db6 db8 bid page hinv6 hn1' hn2' a2 hw
                  obtain ⟨f1, f2, f3, _⟩ := kvOf_of_dataOf db6 db8 w4
                  exact key db8 w1 w2 w3 f1 f2 f3 h
          | some it =>
              obtain ⟨k1, k2⟩ := hit it hp
              simp only [hp] at h
              cases hput : dpcPut db6 { it with val := page } with
              | none => simp [hput] at h
              | some db8 =>
                  simp only [hput] at h
                  obtain ⟨q1, q2, _, q4, q5⟩ := dpcPut_spec db6 db8 { it with val := page }
                    hinv6 k1 (by simp only [k2, hh6]; exact hbid) a2
                    (by simp only [k2]; exact hn1') (by simp only [k2]; exact hn2') hput
                  obtain ⟨r1, r2, r3, _⟩ := kvOf_of_restOf db6 db8 q2
                  simp only [k2] at q4 q5
                  exact key db8 q1 q4 q5 r1 r2 r3 h

/-- The second half of `cdb_updatepage`: whether or not the page is copied
into a larger one first, the page is updated and filed. -/
theorem updateFinish_spec (db2 : CDB) (bid hash : Nat) (off : FOFF) (opt now : Nat)
    (pitem0 : Option (CDBHTITEM Nat CDBPAGE)) (tmpcache : Option TmpCache) (page0 : CDBPAGE)
    (r : Int × CDB) (hinv : PageInv db2) (hbid : bid < db2.hsize)
    (hn1 : pcFind (cacheItems db2.pcache) bid = none)
    (hn2 : pcFind (cacheItems db2.dpcache) bid = none)
    (hwf : page0.num ≤ page0.items.length)
    (hit : ∀ it, pitem0 = some it → it.ksize = SI4 ∧ it.key = bid)
    (htmp : tmpcache = some TmpCache.pcache → diskView db2 bid = some page0.view)
    (hnone : pitem0 = none → diskView db2 bid = some page0.view)
    (hnd : db2.dpcache = none → pitem0 = none)
    (h : updateFinish db2 bid hash off opt now pitem0 tmpcache page0 = some r) :
    PageInv r.2
    ∧ curView r.2 bid = some (updView (mkPHASH hash) off opt page0.view)
    ∧ (∀ b, b ≠ bid → curView r.2 b = curView db2 b)
    ∧ r.2.rnum = updRnum (mkPHASH hash) off opt page0.view db2.rnum
    ∧ r.2.bf = updBf db2 hash off opt page0.view
    ∧ kvOf r.2 = kvOf db2
    ∧ r.1 = (if updChanges (mkPHASH hash) off opt page0.view then 0 else -1) := by
  simp only [updateFinish] at h
  split at h
  · rename_i hg
    simp only [Bool.and_eq_true, beq_iff_eq] at hg
    obtain ⟨g1, g2, _, _⟩ := growPage_view page0 bid (cdb_genoid db2).1 now hwf
    have g2' := g2 (by omega)
    have hinv3 : PageInv (cdb_genoid db2).2 := PageInv_congr db2 _ rfl rfl rfl rfl rfl hinv.bf_ok hinv
    have hdv3 : ∀ b, diskView (cdb_genoid db2).2 b = diskView db2 b :=
      fun b => diskView_congr _ _ rfl rfl b
    have hcv3 : ∀ b, curView (cdb_genoid db2).2 b = curView db2 b := by
      intro b; simp only [curView, hdv3]; rfl
    have hs := updateFile_spec (cdb_genoid db2).2 bid hash off opt
      (if db2.dpcache.isSome then
        some (cdb_ht_newitem SI4 (MPAGESIZE page0 + CDB_PAGEINCR * SIZEOF_PITEM) bid
          (growPage page0 bid (cdb_genoid db2).1 now))
       else none)
      tmpcache (growPage page0 bid (cdb_genoid db2).1 now) r hinv3 hbid hn1 hn2
      (Nat.le_of_lt g2')
      (by
        intro it hi
        split at hi
        · simp only [Option.some.injEq] at hi
          subst hi
          exact ⟨rfl, rfl⟩
        · cases hi)
      (by intro ht; rw [hdv3, g1]; exact htmp ht)
      (by
        intro hi
        split at hi
        · cases hi
        · rename_i hds
          have hdn : db2.dpcache = none := by
            cases hd : db2.dpcache with
            | none => rfl
            | some c => rw [hd] at hds; simp at hds
          rw [hdv3, g1]
          exact hnone (hnd hdn))
      h
    rw [g1] at hs
    obtain ⟨s1, s2, s3, s4, s5, s6, s7⟩ := hs
    exact ⟨s1, s2, fun b hb => (s3 b hb).trans (hcv3 b), s4, s5, s6, s7⟩
  · exact updateFile_spec db2 bid hash off opt pitem0 tmpcache page0 r hinv hbid hn1 hn2 hwf
      hit htmp hnone h

/-- Function `cdb_updatepage`, on the views of the index pages: the page of
the bucket of `hash` is updated, every other bucket shows what it showed, and
the record count follows the page. -/
theorem cdb_updatepage_spec (db : CDB) (hash : Nat) (off : FOFF) (opt now : Nat)
    (sbuf : CDBPAGE) (r : Int × CDB) (hinv : PageInv db)
    (h : cdb_updatepage db hash off opt now sbuf = some r) :
    ∃ v, curView db (bucketOf db hash) = some v ∧ v.2.length = v.1
      ∧ PageInv r.2
      ∧ curView r.2 (bucketOf db hash) = some (updView (mkPHASH hash) off opt v)
      ∧ (∀ b, b ≠ bucketOf db hash → curView r.2 b = curView db b)
      ∧ r.2.rnum = updRnum (mkPHASH hash) off opt v db.rnum
      ∧ r.2.bf = updBf db hash off opt v
      ∧ kvOf r.2 = kvOf db
      ∧ r.1 = (if updChanges (mkPHASH hash) off opt v then 0 else -1) := by
  have hpos := hinv.hsize_pos
  have hne : ¬ db.hsize = 0 := by omega
  have hbid : bucketOf db hash < db.hsize := Nat.mod_lt _ hpos
  simp only [cdb_updatepage, hne, ↓reduceIte] at h
  change (match (updateTake db (bucketOf db hash)).1 with
    | some it => updateFinish (updateTake db (bucketOf db hash)).2.2 (bucketOf db hash) hash off
        opt now (some it) (updateTake db (bucketOf db hash)).2.1 it.val
    | none =>
        match readBucketPage (updateTake db (bucketOf db hash)).2.2 (bucketOf db hash) sbuf with
        | none => none
        | some none => some (-1, (updateTake db (bucketOf db hash)).2.2)
        | some (some page0) =>
            updateFinish (updateTake db (bucketOf db hash)).2.2 (bucketOf db hash) hash off opt
              now none (updateTake db (bucketOf db hash)).2.1 page0) = some r at h
  obtain ⟨u1, u2, u3, u4, u5, u6, u7, u8, u9⟩ := updateTake_spec db (bucketOf db hash) hinv
  obtain ⟨k1, k2, k3, k4, _, _, _⟩ := kvOf_of_restOf db _ u2
  have hbid2 : bucketOf db hash < (updateTake db (bucketOf db hash)).2.2.hsize := by
    rw [k4]; exact hbid
  have hnd : ∀ p, (updateTake db (bucketOf db hash)).2.2.dpcache = none →
      (updateTake db (bucketOf db hash)).1 = p → p = none := by
    intro p hd hp
    rw [← hp]
    apply u8
    cases hdd : db.dpcache with
    | none => rfl
    | some c => rw [hd, hdd] at u9; simp at u9
  have hupd : ∀ v, updBf (updateTake db (bucketOf db hash)).2.2 hash off opt v
      = updBf db hash off opt v := by
    intro v; simp only [updBf, k3, k4]
  cases hp : (updateTake db (bucketOf db hash)).1 with
  | some it =>
      simp only [hp] at h
      obtain ⟨q1, q2, q3, q4, q5⟩ := u6 it hp
      obtain ⟨s1, s2, s3, s4, s5, s6, s7⟩ := updateFinish_spec _ _ hash off opt now (some it) _
        it.val r u1 hbid2 u4 u5 q3
        (by intro it2 h2; simp only [Option.some.injEq] at h2; subst h2; exact ⟨q1, q2⟩)
        (by
          intro ht
          rcases q5 with ⟨_, q6⟩ | q6
          · exact q6
          · rw [q6] at ht; cases ht)
        (by intro h2; cases h2)
        (by intro hd; exact hnd _ hd hp)
        h
      refine ⟨it.val.view, q4, view_wf_length _ q3, s1, s2,
        fun b hb => (s3 b hb).trans (u3 b hb), ?_, ?_, s6.trans k1, s7⟩
      · rw [s4, k2]
      · rw [s5, hupd]
  | none =>
      simp only [hp] at h
      obtain ⟨t1, t2⟩ := u7 hp
      obtain ⟨vio, mt, hv, hm, hs⟩ := u1.store
      obtain ⟨p, hr, hdv, hwf⟩ := readBucketPage_ok _ vio mt hv hm hs (bucketOf db hash) sbuf
      simp only [hr] at h
      obtain ⟨s1, s2, s3, s4, s5, s6, s7⟩ := updateFinish_spec _ _ hash off opt now none _
        p r u1 hbid2 u4 u5 hwf
        (by intro it2 h2; cases h2)
        (by intro _; exact hdv)
        (by intro _; exact hdv)
        (by intro _; rfl)
        h
      refine ⟨p.view, by rw [← t2]; exact hdv, view_wf_length _ hwf, s1, s2,
        fun b hb => (s3 b hb).trans (u3 b hb), ?_, ?_, s6.trans k1, s7⟩
      · rw [s4, k2]
      · rw [s5, hupd]

theorem replFirst_none (phash : PHASH) (off noff : FOFF) :
    ∀ l : List PITEM, l.any (itemIs phash off) = false → replFirst phash off noff l = l
  | [], _ => rfl
  | it :: its, h => by
      simp only [List.any_cons, Bool.or_eq_false_iff] at h
      simp only [replFirst, h.1, Bool.false_eq_true, ↓reduceIte,
        replFirst_none phash off noff its h.2]

/-- The second half of `cdb_replaceoff`: the page at hand gets the new offset
and is filed; the record count and the bloom filter stay. -/
theorem replaceFinish_spec (db2 : CDB) (bid : Nat) (phash : PHASH) (off noff : FOFF)
    (pitem : Option (CDBHTITEM Nat CDBPAGE)) (indpcache : Bool) (page0 : CDBPAGE)
    (r : Int × CDB) (hinv : PageInv db2) (hbid : bid < db2.hsize)
    (hwf : page0.num ≤ page0.items.length)
    (hn1 : pcFind (cacheItems db2.pcache) bid = none)
    (hB : indpcache = true → (pcFind (cacheItems db2.dpcache) bid).isSome = true)
    (hnB : indpcache = false → pcFind (cacheItems db2.dpcache) bid = none)
    (hA : ∀ it, pitem = some it →
      it.ksize = SI4 ∧ it.key = bid ∧ diskView db2 bid = some page0.view)
    (h : replaceFinish db2 bid phash off noff pitem indpcache page0 = some r) :
    PageInv r.2
    ∧ curView r.2 bid = some (page0.view.1, replFirst phash off noff page0.view.2)
    ∧ (∀ b, b ≠ bid → curView r.2 b = curView db2 b)
    ∧ r.2.rnum = db2.rnum ∧ r.2.bf = db2.bf ∧ kvOf r.2 = kvOf db2 ∧ r.1 = 0 := by
  obtain ⟨l1, l2, l3⟩ := replaceLoop_spec phash off noff page0.num page0.items
  have hwf1 : ({ page0 with items := (replaceLoop phash off noff page0.num page0.items).1 }
      : CDBPAGE).num
      ≤ ({ page0 with items := (replaceLoop phash off noff page0.num page0.items).1 }
      : CDBPAGE).items.length := by
    simp only [l2]; exact hwf
  have hview : ({ page0 with items := (replaceLoop phash off noff page0.num page0.items).1 }
      : CDBPAGE).view = (page0.view.1, replFirst phash off noff page0.view.2) := by
    simp only [CDBPAGE.view, l1]
  simp only [replaceFinish] at h
  have key : ∀ db4, PageInv db4 →
      curView db4 bid = some (page0.view.1, replFirst phash off noff page0.view.2) →
      (∀ b, b ≠ bid → curView db4 b = curView db2 b) → kvOf db4 = kvOf db2 →
      db4.rnum = db2.rnum → db4.bf = db2.bf →
      (checkPageOverflow db4).map (fun db5 => ((0 : Int), db5)) = some r →
      PageInv r.2
      ∧ curView r.2 bid = some (page0.view.1, replFirst phash off noff page0.view.2)
      ∧ (∀ b, b ≠ bid → curView r.2 b = curView db2 b)
      ∧ r.2.rnum = db2.rnum ∧ r.2.bf = db2.bf ∧ kvOf r.2 = kvOf db2 ∧ r.1 = 0 := by
    intro db4 i4 c4 o4 k4 n4 b4 hco
    cases hc : checkPageOverflow db4 with
    | none => simp [hc] at hco
    | some db5 =>
        simp only [hc, Option.map_some', Option.some.injEq] at hco
        subst hco
        obtain ⟨e1, e2, e3⟩ := checkPageOverflow_spec db4 db5 i4 hc
        obtain ⟨f1, f2, f3, _⟩ := kvOf_of_dataOf db4 db5 e3
        refine ⟨e1, ?_, ?_, f2.trans n4, f3.trans b4, f1.trans k4, rfl⟩
        · simp only; rw [e2, c4]
        · intro b hb; simp only; rw [e2, o4 b hb]
  have viaDpcPut : ∀ (it : CDBHTITEM Nat CDBPAGE), it.ksize = SI4 → it.key = bid →
      it.val = { page0 with items := (replaceLoop phash off noff page0.num page0.items).1 } →
      pcFind (cacheItems db2.dpcache) bid = none →
      (match dpcPut db2 it with
        | none => none
        | some db4 => (checkPageOverflow db4).map fun db5 => ((0 : Int), db5)) = some r →
      PageInv r.2
      ∧ curView r.2 bid = some (page0.view.1, replFirst phash off noff page0.view.2)
      ∧ (∀ b, b ≠ bid → curView r.2 b = curView db2 b)
      ∧ r.2.rnum = db2.rnum ∧ r.2.bf = db2.bf ∧ kvOf r.2 = kvOf db2 ∧ r.1 = 0 := by
    intro it k1 k2 k3 hn2 hh
    cases hput : dpcPut db2 it with
    | none => simp [hput] at hh
    | some db4 =>
        simp only [hput] at hh
        obtain ⟨q1, q2, _, q4, q5⟩ := dpcPut_spec db2 db4 it hinv k1 (by rw [k2]; exact hbid)
          (by rw [k3]; exact hwf1) (by rw [k2]; exact hn1) (by rw [k2]; exact hn2) hput
        obtain ⟨r1, r2, r3, _⟩ := kvOf_of_restOf db2 db4 q2
        rw [k2] at q4 q5
        rw [k3, hview] at q4
        exact key db4 q1 q4 q5 r1 r2 r3 hh
  cases hds : db2.dpcache.isSome with
  | false =>
      simp only [hds, Bool.false_eq_true, ↓reduceIte] at h
      have hdn : db2.dpcache = none := by
        cases hd : db2.dpcache with
        | none => rfl
        | some c => rw [hd] at hds; simp at hds
      have hn2 : pcFind (cacheItems db2.dpcache) bid = none := by
        simp [hdn, cacheItems, pcFind]
      cases hw : writeBucketPage db2 bid
          { page0 with items := (replaceLoop phash off noff page0.num page0.items).1 } with
      | none => simp [hw] at h
      | some db4 =>
          simp only [hw] at h
          obtain ⟨w1, w2, w3, w4, _, _⟩ := PageInv_write db2 db4 bid _ hinv hn1 hn2 hwf1 hw
          obtain ⟨f1, f2, f3, _⟩ := kvOf_of_dataOf db2 db4 w4
          rw [hview] at w2
          exact key db4 w1 w2 w3 f1 f2 f3 h
  | true =>
      simp only [hds, ↓reduceIte] at h
      cases hind : indpcache with
      | true =>
          simp only [hind, ↓reduceIte] at h
          cases hpk : dpcPoke db2 bid
              { page0 with items := (replaceLoop phash off noff page0.num page0.items).1 } with
          | none => simp [hpk] at h
          | some db4 =>
              simp only [hpk] at h
              obtain ⟨q1, q2, _, q4, q5⟩ := dpcPoke_spec db2 db4 bid _ hinv hwf1 hn1 (hB hind) hpk
              obtain ⟨r1, r2, r3, _⟩ := kvOf_of_restOf db2 db4 q2
              rw [hview] at q4
              exact key db4 q1 q4 q5 r1 r2 r3 h
      | false =>
          simp only [hind, Bool.false_eq_true, ↓reduceIte] at h
          have hn2 := hnB hind
          cases hp : pitem with
          | none =>
              simp only [hp] at h
              exact viaDpcPut _ rfl rfl rfl hn2 h
          | some it =>
              obtain ⟨k1, k2, k3⟩ := hA it hp
              simp only [hp] at h
              cases hf : (replaceLoop phash off noff page0.num page0.items).2 with
              | true =>
                  simp only [hf, ↓reduceIte] at h
                  exact viaDpcPut { it with val := { page0 with items := (replaceLoop phash off noff page0.num page0.items).1 } } k1 k2 rfl hn2 h
              | false =>
                  simp only [hf, Bool.false_eq_true, ↓reduceIte] at h
                  have hsame : replFirst phash off noff page0.view.2 = page0.view.2 := by
                    apply replFirst_none
                    show (List.take page0.num page0.items).any (itemIs phash off) = false
                    rw [← l3]; exact hf
                  cases hput : pcPut db2 { it with val :=
                      { page0 with items := (replaceLoop phash off noff page0.num page0.items).1 } } with
                  | none => simp [hput] at h
                  | some db4 =>
                      simp only [hput] at h
                      obtain ⟨q1, q2, _, q4⟩ := pcPut_spec db2 db4
                        { it with val := { page0 with items := (replaceLoop phash off noff page0.num page0.items).1 } } hinv k1
                        (by simp only [k2]; exact hbid) hwf1
                        (by simp only [k2]; exact hn1) (by simp only [k2]; exact hn2)
                        (by simp only [k2, hview, hsame]; exact k3) hput
                      obtain ⟨r1, r2, r3, _⟩ := kvOf_of_restOf db2 db4 q2
                      refine key db4 q1 ?_ (fun b _ => q4 b) r1 r2 r3 h
                      rw [q4, curView_of_none db2 bid hn1 hn2, k3, hsame]

/-- Function `cdb_replaceoff`, on the views of the index pages: in the page
of the bucket of `hash` the first item `(hash, off)` gets offset `noff`,
every other bucket shows what it showed, the record count and the bloom
filter stay, and the function returns 0. -/
theorem cdb_replaceoff_spec (db : CDB) (hash : Nat) (off noff : FOFF) (sbuf : CDBPAGE)
    (r : Int × CDB) (hinv : PageInv db)
    (h : cdb_replaceoff db hash off noff sbuf = some r) :
    ∃ v, curView db (bucketOf db hash) = some v ∧ v.2.length = v.1
      ∧ PageInv r.2
      ∧ curView r.2 (bucketOf db hash) = some (v.1, replFirst (mkPHASH hash) off noff v.2)
      ∧ (∀ b, b ≠ bucketOf db hash → curView r.2 b = curView db b)
      ∧ r.2.rnum = db.rnum ∧ r.2.bf = db.bf ∧ kvOf r.2 = kvOf db ∧ r.1 = 0 := by
  have hpos := hinv.hsize_pos
  have hne : ¬ db.hsize = 0 := by omega
  have hbid : bucketOf db hash < db.hsize := Nat.mod_lt _ hpos
  simp only [cdb_replaceoff, hne, ↓reduceIte] at h
  change (match (pcTake db (bucketOf db hash)).1 with
    | some it => replaceFinish (pcTake db (bucketOf db hash)).2 (bucketOf db hash) (mkPHASH hash)
        off noff (some it) false it.val
    | none =>
        match (dpcPeek (pcTake db (bucketOf db hash)).2 (bucketOf db hash)).1 with
        | some page => replaceFinish (dpcPeek (pcTake db (bucketOf db hash)).2 (bucketOf db hash)).2
            (bucketOf db hash) (mkPHASH hash) off noff none true page
        | none =>
            match readBucketPage (dpcPeek (pcTake db (bucketOf db hash)).2 (bucketOf db hash)).2
                (bucketOf db hash) sbuf with
            | none => none
            | some none => some (-1, (dpcPeek (pcTake db (bucketOf db hash)).2 (bucketOf db hash)).2)
            | some (some page0) =>
                replaceFinish (dpcPeek (pcTake db (bucketOf db hash)).2 (bucketOf db hash)).2
                  (bucketOf db hash) (mkPHASH hash) off noff none false page0) = some r at h
  obtain ⟨p1, p2, p3, p4, p5, p6⟩ := pcTake_spec db (bucketOf db hash) hinv
  obtain ⟨k1, k2, k3, k4, k5, k6, _⟩ := kvOf_of_restOf db _ p2
  cases hp : (pcTake db (bucketOf db hash)).1 with
  | some it =>
      simp only [hp] at h
      obtain ⟨⟨⟨_, q1⟩, _, q2⟩, q3, q4, q5, q6⟩ := p6 it hp
      obtain ⟨s1, s2, s3, s4, s5, s6, s7⟩ := replaceFinish_spec _ _ (mkPHASH hash) off noff
        (some it) false it.val r p1 (by rw [k4]; exact hbid) q2 p5
        (by intro hc; cases hc)
        (by intro _; rw [p3]; exact q6)
        (by
          intro it2 h2
          simp only [Option.some.injEq] at h2
          subst h2
          refine ⟨q1, q3, ?_⟩
          rw [diskView_congr db _ k5 k6]
          exact q5)
        h
      exact ⟨it.val.view, q4, view_wf_length _ q2, s1, s2, fun b hb => (s3 b hb).trans (p4 b),
        s4.trans k2, s5.trans k3, s6.trans k1, s7⟩
  | none =>
      simp only [hp] at h
      obtain ⟨d1, d2, d3, d4, d5, d6, d7⟩ := dpcPeek_spec (pcTake db (bucketOf db hash)).2
        (bucketOf db hash) p1
      obtain ⟨j1, j2, j3, j4, j5, j6, _⟩ := kvOf_of_restOf _ _ d2
      have hn1 : pcFind (cacheItems (dpcPeek (pcTake db (bucketOf db hash)).2
          (bucketOf db hash)).2.pcache) (bucketOf db hash) = none := by
        rw [d3]; exact p5
      cases hq : (dpcPeek (pcTake db (bucketOf db hash)).2 (bucketOf db hash)).1 with
      | some page =>
          simp only [hq] at h
          rw [hq] at d7
          cases hf : pcFind (cacheItems (pcTake db (bucketOf db hash)).2.dpcache)
              (bucketOf db hash) with
          | none => rw [hf] at d7; simp at d7
          | some it2 =>
              rw [hf] at d7
              simp only [Option.map_some', Option.some.injEq] at d7
              obtain ⟨hmem, _⟩ := pcFind_some_mem _ _ _ hf
              obtain ⟨_, _, hwf2⟩ := p1.dpc_ok it2 hmem
              rw [← d7] at hwf2
              have hcv : curView db (bucketOf db hash) = some page.view := by
                rw [← p4]
                simp only [curView, p5, hf, d7]
              obtain ⟨s1, s2, s3, s4, s5, s6, s7⟩ := replaceFinish_spec _ _ (mkPHASH hash) off
                noff none true page r d1 (by rw [j4, k4]; exact hbid) hwf2 hn1
                (by intro _; rw [d5, hf]; rfl)
                (by intro hc; cases hc)
                (by intro it3 h3; cases h3)
                h
              exact ⟨page.view, hcv, view_wf_length _ hwf2, s1, s2,
                fun b hb => ((s3 b hb).trans (d4 b)).trans (p4 b),
                (s4.trans j2).trans k2, (s5.trans j3).trans k3, (s6.trans j1).trans k1, s7⟩
      | none =>
          simp only [hq] at h
          rw [hq] at d7
          have hf : pcFind (cacheItems (pcTake db (bucketOf db hash)).2.dpcache)
              (bucketOf db hash) = none := by
            cases hf : pcFind (cacheItems (pcTake db (bucketOf db hash)).2.dpcache)
                (bucketOf db hash) with
            | none => rfl
            | some it2 => rw [hf] at d7; simp at d7
          have hn2 : pcFind (cacheItems (dpcPeek (pcTake db (bucketOf db hash)).2
              (bucketOf db hash)).2.dpcache) (bucketOf db hash) = none := by
            rw [d5]; exact hf
          obtain ⟨vio, mt, hv, hm, hs⟩ := d1.store
          obtain ⟨p, hr, hdv, hwf⟩ := readBucketPage_ok _ vio mt hv hm hs (bucketOf db hash) sbuf
          simp only [hr] at h
          have hcv : curView db (bucketOf db hash) = some p.view := by
            rw [← p4, ← d4, curView_of_none _ _ hn1 hn2]
            exact hdv
          obtain ⟨s1, s2, s3, s4, s5, s6, s7⟩ := replaceFinish_spec _ _ (mkPHASH hash) off
            noff none false p r d1 (by rw [j4, k4]; exact hbid) hwf hn1
            (by intro hc; cases hc)
            (by intro _; exact hn2)
            (by intro it3 h3; cases h3)
            h
          exact ⟨p.view, hcv, view_wf_length _ hwf, s1, s2,
            fun b hb => ((s3 b hb).trans (d4 b)).trans (p4 b),
            (s4.trans j2).trans k2, (s5.trans j3).trans k3, (s6.trans j1).trans k1, s7⟩

/-! ## The record count -/

theorem sum_range_update (f g : Nat → Nat) (bid : Nat) :
    ∀ n, bid < n → (∀ b, b ≠ bid → b < n → g b = f b) →
      ((List.range n).map g).sum + f bid = ((List.range n).map f).sum + g bid
  | 0, h, _ => by omega
  | n + 1, h, hfg => by
      simp only [List.range_succ, List.map_append, List.sum_append, List.map_cons, List.map_nil,
        List.sum_cons, List.sum_nil, Nat.add_zero]
      by_cases hb : bid = n
      · subst hb
        have : (List.range bid).map g = (List.range bid).map f := by
          apply List.map_congr_left
          intro b hbm
          have hlt : b < bid := List.mem_range.mp hbm
          exact hfg b (by omega) (by omega)
        rw [this]
        omega
      · have ih := sum_range_update f g bid n (by omega) (fun b h1 h2 => hfg b h1 (by omega))
        have hn : g n = f n := hfg n (fun e => hb e.symm) (by omega)
        omega

/-- What one call does to the record count and to the sum of the page
counts. -/
theorem runCall_count (db d : CDB) (c : IndexCall) (hinv : PageInv db)
    (hsum : db.rnum = indexNumSum db % U64) (h : runCall db c = some d) :
    PageInv d ∧ d.rnum = indexNumSum d % U64 ∧ indexNumSum d ≤ indexNumSum db + 1 := by
  have upd : ∀ (hash : Nat) (off : FOFF) (opt now : Nat) (sbuf : CDBPAGE),
      (cdb_updatepage db hash off opt now sbuf).map (·.2) = some d →
      PageInv d ∧ d.rnum = indexNumSum d % U64 ∧ indexNumSum d ≤ indexNumSum db + 1 := by
    intro hash off opt now sbuf hc
    cases hr : cdb_updatepage db hash off opt now sbuf with
    | none => simp [hr] at hc
    | some r =>
        simp only [hr, Option.map_some', Option.some.injEq] at hc
        subst hc
        obtain ⟨v, c1, c2, c3, c4, c5, c6, _, c8, _⟩ :=
          cdb_updatepage_spec db hash off opt now sbuf r hinv hr
        have e1 : r.2.hsize = db.hsize := by
          have e := c8
          simp only [kvOf, Prod.mk.injEq] at e
          exact e.2.1
        have hbid : bucketOf db hash < db.hsize := Nat.mod_lt _ hinv.hsize_pos
        have hs := sum_range_update (pageNum db) (pageNum r.2) (bucketOf db hash) db.hsize hbid
          (by intro b hb _; simp only [pageNum, c5 b hb])
        have hn0 : pageNum db (bucketOf db hash) = v.1 := by simp only [pageNum, c1]
        have hn1 : pageNum r.2 (bucketOf db hash) = (updView (mkPHASH hash) off opt v).1 := by
          simp only [pageNum, c4]
        have hsum1 : indexNumSum r.2 = ((List.range db.hsize).map (pageNum r.2)).sum := by
          simp only [indexNumSum, e1]
        have hsum0 : indexNumSum db = ((List.range db.hsize).map (pageNum db)).sum := rfl
        rw [← hsum1, ← hsum0, hn0, hn1] at hs
        refine ⟨c3, ?_⟩
        rw [c6]
        cases hch : updChanges (mkPHASH hash) off opt v with
        | false =>
            simp only [updView, updRnum, hch, Bool.false_eq_true, ↓reduceIte] at hs ⊢
            rw [hsum]
            have : indexNumSum r.2 = indexNumSum db := by omega
            rw [this]
            exact ⟨rfl, by omega⟩
        | true =>
            by_cases hd : opt = CDB_PAGEDELETEOFF
            · subst hd
              have hany : v.2.any (itemIs (mkPHASH hash) off) = true := by
                simp only [updChanges, beq_self_eq_true, Bool.true_and, bne_self_eq_false,
                  Bool.false_and, Bool.or_false] at hch
                exact hch
              have hpos : 0 < v.1 := by
                rw [← c2]
                cases hv : v.2 with
                | nil => rw [hv] at hany; simp at hany
                | cons a l => simp
              simp only [updView, updRnum, hch, beq_self_eq_true, ↓reduceIte] at hs ⊢
              rw [hsum]
              simp only [U64]
              omega
            · have hd' : (opt == CDB_PAGEDELETEOFF) = false := by simpa using hd
              simp only [updView, updRnum, hch, hd', Bool.false_eq_true, ↓reduceIte] at hs ⊢
              rw [hsum]
              simp only [U64]
              omega
  cases c with
  | insert hash off now sbuf => exact upd hash off _ now sbuf h
  | delete hash off now sbuf => exact upd hash off _ now sbuf h
  | replace hash off noff sbuf =>
      simp only [runCall] at h
      cases hr : cdb_replaceoff db hash off noff sbuf with
      | none => simp [hr] at h
      | some r =>
          simp only [hr, Option.map_some', Option.some.injEq] at h
          subst h
          obtain ⟨v, c1, c2, c3, c4, c5, c6, _, c8, _⟩ :=
            cdb_replaceoff_spec db hash off noff sbuf r hinv hr
          have e1 : r.2.hsize = db.hsize := by
            have e := c8
            simp only [kvOf, Prod.mk.injEq] at e
            exact e.2.1
          have hbid : bucketOf db hash < db.hsize := Nat.mod_lt _ hinv.hsize_pos
          have hs := sum_range_update (pageNum db) (pageNum r.2) (bucketOf db hash) db.hsize hbid
            (by intro b hb _; simp only [pageNum, c5 b hb])
          have hn0 : pageNum db (bucketOf db hash) = v.1 := by simp only [pageNum, c1]
          have hn1 : pageNum r.2 (bucketOf db hash) = v.1 := by simp only [pageNum, c4]
          have hsum1 : indexNumSum r.2 = ((List.range db.hsize).map (pageNum r.2)).sum := by
            simp only [indexNumSum, e1]
          have hsum0 : indexNumSum db = ((List.range db.hsize).map (pageNum db)).sum := rfl
          rw [← hsum1, ← hsum0, hn0, hn1] at hs
          have hsame : indexNumSum r.2 = indexNumSum db := by omega
          refine ⟨c3, ?_, by omega⟩
          rw [c6, hsum, hsame]

theorem runCalls_count : ∀ (calls : List IndexCall) (db d : CDB), PageInv db →
    db.rnum = indexNumSum db % U64 → runCalls db calls = some d →
    PageInv d ∧ d.rnum = indexNumSum d % U64 ∧ indexNumSum d ≤ indexNumSum db + calls.length
  | [], db, d, hinv, hsum, h => by
      simp only [runCalls, Option.some.injEq] at h
      subst h
      exact ⟨hinv, hsum, by simp⟩
  | c :: cs, db, d, hinv, hsum, h => by
      simp only [runCalls] at h
      cases hc : runCall db c with
      | none => simp [hc] at h
      | some d1 =>
          simp only [hc] at h
          obtain ⟨i1, s1, b1⟩ := runCall_count db d1 c hinv hsum hc
          obtain ⟨i2, s2, b2⟩ := runCalls_count cs d1 d i1 s1 h
          refine ⟨i2, s2, ?_⟩
          simp only [List.length_cons]
          omega

theorem indexNumSum_empty (db : CDB) (h : ∀ b, b < db.hsize → pageNum db b = 0) :
    indexNumSum db = 0 := by
  simp only [indexNumSum]
  apply List.sum_eq_zero
  intro x hx
  simp only [List.mem_map, List.mem_range] at hx
  obtain ⟨b, hb, rfl⟩ := hx
  exact h b hb

theorem some_getD_of_isSome {α : Type} (o : Option α) (d : α) (h : o.isSome = true) :
    o = some (o.getD d) := by
  cases o with
  | none => simp at h
  | some a => rfl

theorem HtOK_new {K V : Type} : HtOK (cdb_ht_new true : CDBHASHTABLE K V) := by
  simp [HtOK, cdb_ht_new, htItemsBytes]

/-- A database whose page caches are empty and whose main table and index
store are empty satisfies the index invariant and shows the empty page for
every bucket. -/
theorem PageInv_empty (db : CDB) (hh : 0 < db.hsize)
    (hb : db.pcache.isSome = db.dpcache.isSome)
    (hp : cacheItems db.pcache = []) (hd : cacheItems db.dpcache = [])
    (hpb : ∀ pc, db.pcache = some pc → HtOK pc) (hdb : ∀ dpc, db.dpcache = some dpc → HtOK dpc)
    (hm : db.mtable = some []) (vio : VIOAPND2) (hv : db.vio = some vio)
    (hpg : vio.pages = []) (hin : 0 < vio.inext)
    (hbf : ∀ bf, db.bf = some bf → bfTraps bf = false) :
    PageInv db ∧ ∀ b, curView db b = some (0, []) := by
  refine ⟨?_, ?_⟩
  · exact
      { hsize_pos := hh
        both := hb
        pc_ok := by rw [hp]; intro it hit; cases hit
        dpc_ok := by rw [hd]; intro it hit; cases hit
        pc_nodup := by rw [hp]; exact List.nodup_nil
        dpc_nodup := by rw [hd]; exact List.nodup_nil
        disj := by rw [hp]; intro it hit; cases hit
        coh := by rw [hp]; intro it hit; cases hit
        pc_book := hpb
        dpc_book := hdb
        store := ⟨vio, [], hv, hm, hin, (by rw [hpg]; intro e he; cases he),
          (by intro e he; cases he)⟩
        bf_ok := hbf }
  · intro b
    simp [curView, hp, hd, pcFind, diskView, hm, hv, mtGet, OFFNOTNULL, OFFZERO]

set_option maxRecDepth 100000 in
theorem PageInv_freshDB : PageInv freshDB ∧ ∀ b, curView freshDB b = some (0, []) := by
  apply PageInv_empty freshDB (by decide) (by decide) (by decide) (by decide) _ _ (by decide)
    vioNew (by decide) (by decide) (by decide) (fun bf hbf => by
      have e : freshDB.bf = none := by decide
      rw [e] at hbf
      cases hbf)
  · intro pc hpc
    have : pc = cdb_ht_new true := by
      have e : freshDB.pcache = some (cdb_ht_new true) := by decide
      rw [e] at hpc
      exact (Option.some.inj hpc).symm
    rw [this]; exact HtOK_new
  · intro pc hpc
    have : pc = cdb_ht_new true := by
      have e : freshDB.dpcache = some (cdb_ht_new true) := by decide
      rw [e] at hpc
      exact (Option.some.inj hpc).symm
    rw [this]; exact HtOK_new

/-- C8: starting from an empty index (`rnum = 0`, every bucket shows a page
with `num = 0`), after any sequence of fewer than 2^64 calls of
`cdb_updatepage` (insert or delete) and `cdb_replaceoff` that all return,
`rnum` equals the sum of `num` over the current index page of every
bucket. -/
theorem rnum_eq_sum_of_page_nums (db0 db : CDB) (calls : List IndexCall) (hinv : PageInv db0)
    (h0 : db0.rnum = 0) (hempty : ∀ b, b < db0.hsize → pageNum db0 b = 0)
    (hlen : calls.length < U64) (hrun : runCalls db0 calls = some db) :
    db.rnum = indexNumSum db := by
  have hs0 := indexNumSum_empty db0 hempty
  obtain ⟨_, h2, h3⟩ := runCalls_count calls db0 db hinv (by rw [h0, hs0]; rfl) hrun
  rw [h2]
  apply Nat.mod_eq_of_lt
  omega

set_option maxRecDepth 100000 in
/-- C8 at work: the five calls of `countRunCalls` on a freshly opened
database. -/
theorem rnum_eq_sum_of_page_nums_witness :
    runCalls freshDB countRunCalls = some countRunEnd
    ∧ countRunEnd.rnum = indexNumSum countRunEnd :=
  ⟨some_getD_of_isSome _ _ (by decide),
    rnum_eq_sum_of_page_nums freshDB countRunEnd countRunCalls PageInv_freshDB.1 (by decide)
      (fun b _ => by simp only [pageNum, PageInv_freshDB.2 b])
      (by decide) (some_getD_of_isSome _ _ (by decide))⟩

/-! ## Concrete runs -/

set_option maxRecDepth 100000 in
/-- C3, evaluated: after `set(k, [11], CDB_INSERTCACHE)` and
`set(k, [22], CDB_OVERWRITE)`, `cdb_del(k)` returns 0 and the following
`cdb_get(k)` returns 0 with the value `[22]` instead of -3. -/
theorem get_after_del_finds_record :
    run1Set1.map (·.1) = some 0 ∧ run1Set2.map (·.1) = some 0 ∧ run1Del.map (·.1) = some 0
    ∧ run1Get.map (fun r => (r.1, r.2.1, r.2.2.1)) = some (0, some [22], 1) := by
  decide

set_option maxRecDepth 100000 in
/-- C5, evaluated: key `k` has the record `[11]` with stored expire 0, not
held in the record cache; `cdb_set2(k, [22], CDB_INSERTIFNOEXIST, 0)` returns 0
instead of -2, writes a second record, and `cdb_get(k)` returns `[22]`. -/
theorem insertifnoexist_overwrites_unexpiring_record :
    run2Set1.map (·.1) = some 0 ∧ run2SetNoExist.map (·.1) = some 0
    ∧ (dbAfter run2Set1).vio.map (·.recs.length) = some 1
    ∧ (dbAfter run2SetNoExist).vio.map (·.recs.length) = some 2
    ∧ run2Get.map (fun r => (r.1, r.2.1, r.2.2.1)) = some (0, some [22], 1) := by
  decide

set_option maxRecDepth 100000 in
/-- C6, evaluated: key `k` has the record `[11]` with stored expire 0, not
held in the record cache; `cdb_set2(k, [22], CDB_INSERTIFEXIST, 0)` returns -3
with error code `CDB_NOTFOUND` instead of 0, and `cdb_get(k)` still returns
`[11]`. -/
theorem insertifexist_misses_unexpiring_record :
    run2Set1.map (·.1) = some 0 ∧ run3SetExist.map (·.1) = some (-3)
    ∧ (dbAfter run3SetExist).errno = CDB_NOTFOUND
    ∧ run3Get.map (fun r => (r.1, r.2.1, r.2.2.1)) = some (0, some [11], 1) := by
  decide

set_option maxRecDepth 100000 in
/-- C9, evaluated: `cdb_replaceoff` on bucket 3, which has no page yet, files
the stack page in the dirty page cache under bucket 3 with `bid = 7`, the
value the stack happened to hold. -/
theorem replaceoff_files_page_with_stack_bid :
    run4Replace.map (·.1) = some 0 ∧ dirtyBids (dbAfter run4Replace) = [(3, 7)] := by
  decide

/-! ## The record cache -/

theorem rc_get_spec (rc : CDBHASHTABLE Bytes Bytes) (key : Bytes) (ksize : Nat) (mtf : Bool)
    (hok : HtOK rc) :
    (cdb_ht_get MurmurHash1 rc key ksize mtf).1
        = (htUnlink (MurmurHash1 key) ksize key rc.items).1.map (·.val)
    ∧ (cdb_ht_get MurmurHash1 rc key ksize mtf).2.1
        = ((htUnlink (MurmurHash1 key) ksize key rc.items).1.map (·.vsize)).getD 0
    ∧ HtOK (cdb_ht_get MurmurHash1 rc key ksize mtf).2.2
    ∧ htOverhead (cdb_ht_get MurmurHash1 rc key ksize mtf).2.2 = htOverhead rc
    ∧ htGrowth (cdb_ht_get MurmurHash1 rc key ksize mtf).2.2 = htGrowth rc
    ∧ ((htUnlink (MurmurHash1 key) ksize key rc.items).1 = none →
        (cdb_ht_get MurmurHash1 rc key ksize mtf).2.2 = rc) := by
  obtain ⟨g1, g2, g3, g4, _⟩ := cdb_ht_get3_spec MurmurHash1 rc key ksize mtf hok
  have hg : htGrowth (cdb_ht_get3 MurmurHash1 rc key ksize mtf).2 = htGrowth rc := by
    simp only [htGrowth, htMaxBnum, g4]
  have hn : (htUnlink (MurmurHash1 key) ksize key rc.items).1 = none →
      (cdb_ht_get3 MurmurHash1 rc key ksize mtf).2 = rc := by
    intro h
    rcases hu : htUnlink (MurmurHash1 key) ksize key rc.items with ⟨a, b⟩
    rw [hu] at h
    simp only at h
    subst h
    simp only [cdb_ht_get3, hu]
  rcases h3 : cdb_ht_get3 MurmurHash1 rc key ksize mtf with ⟨res, ht1⟩
  rw [h3] at g1 g2 g3 hg hn
  simp only at g1 g2 g3 hg hn
  cases res with
  | none =>
      have e : cdb_ht_get MurmurHash1 rc key ksize mtf = (none, 0, ht1) := by
        simp only [cdb_ht_get, h3]
      rw [e, ← g1]
      exact ⟨rfl, rfl, g2, g3, hg, fun h => hn (g1.symm ▸ h)⟩
  | some it =>
      have e : cdb_ht_get MurmurHash1 rc key ksize mtf = (some it.val, it.vsize, ht1) := by
        simp only [cdb_ht_get, h3]
      rw [e, ← g1]
      exact ⟨rfl, rfl, g2, g3, hg, fun h => hn (g1.symm ▸ h)⟩

/-- The overflow check of the record cache returns when the table alone fits
the limit; it changes nothing but the record cache, whose books stay in
order. -/
theorem checkRecOverflow_returns (db : CDB) (rc : CDBHASHTABLE Bytes Bytes)
    (hrc : db.rcache = some rc) (hok : HtOK rc) (hfit : htOverhead rc ≤ db.rclimit) :
    ∃ rc1, checkRecOverflow db = some { db with rcache := some rc1 }
      ∧ HtOK rc1 ∧ htOverhead rc1 = htOverhead rc ∧ htMaxBnum rc1 = htMaxBnum rc
      ∧ ∃ j, rc1.items = rc.items.take j
          ∧ ∀ n, htOverhead rc + ((rc.items.take n).map (htItemBytes true)).sum ≤ db.rclimit →
              rc.items.take n = rc1.items.take n := by
  by_cases hov : RCOVERFLOW db = true
  · have e : checkRecOverflow db = recoutLoop (rc.num + 1) db := by
      simp only [checkRecOverflow, hov, ↓reduceIte, _cdb_recout, hrc]
    rw [e]
    exact recoutLoop_spec (rc.num + 1) db rc hrc hok (by rw [hok.2.1]; omega) hfit
  · have e : checkRecOverflow db = some db := by
      simp only [checkRecOverflow, hov, Bool.false_eq_true, ↓reduceIte]
    refine ⟨rc, ?_, hok, rfl, rfl, rc.items.length, by simp, fun n _ => rfl⟩
    rw [e, ← hrc]

theorem checkRecOverflow_nocache (db : CDB) (hrc : db.rcache = none) :
    checkRecOverflow db = some db := by
  simp [checkRecOverflow, RCOVERFLOW, hrc]

theorem set_rcache_self (db : CDB) (rc : CDBHASHTABLE Bytes Bytes) (h : db.rcache = some rc) :
    { db with rcache := some rc } = db := by
  cases db
  simp only at h
  simp only [h]

theorem readrec_congr (vio vio1 : VIOAPND2) (h : vio1.recs = vio.recs) (o : FOFF) (rv : Bool) :
    _vio_apnd2_readrec vio1 o rv = _vio_apnd2_readrec vio o rv := by
  simp only [_vio_apnd2_readrec, h]

theorem findRec_congr (vio vio1 : VIOAPND2) (h : vio1.recs = vio.recs) (key : Bytes)
    (rv : Bool) : ∀ offs, findRec vio1 key rv offs = findRec vio key rv offs
  | [] => rfl
  | o :: rest => by
      simp only [findRec, readrec_congr vio vio1 h, findRec_congr vio vio1 h key rv rest]

theorem vio_of_dataOf (db db1 : CDB) (vio : VIOAPND2) (h : dataOf db1 = dataOf db)
    (hv : db.vio = some vio) : ∃ vio1, db1.vio = some vio1 ∧ vio1.recs = vio.recs := by
  simp only [dataOf, Prod.mk.injEq] at h
  have h8 := h.2.2.2.2.2.2.2
  rw [hv] at h8
  cases hv1 : db1.vio with
  | none => rw [hv1] at h8; simp at h8
  | some vio1 =>
      rw [hv1] at h8
      simp only [Option.map_some', Option.some.injEq, vioData, Prod.mk.injEq] at h8
      exact ⟨vio1, rfl, h8.1⟩

/-- The second half of `cdb_get` returns, and what it returns is decided by
the record the index leads to: -3 without a value if there is none or if its
expire time is non-zero and has come, else 0 with the value of the record. -/
theorem getIndexed_spec (crc : Bytes → Nat) (db : CDB) (key : Bytes) (now : Nat)
    (sbuf : CDBPAGE) (hinv : PageInv db) (hfit : PFit db) (hrfit : RFit db) :
    ∃ db1, getIndexed crc db key now sbuf
      = some (match indexedRec crc db key with
          | some rec =>
              if rec.expire != 0 && rec.expire <= now then (-3, none, 0, db1)
              else (0, some (rec.val.take rec.vsize), rec.vsize, db1)
          | none => (-3, none, 0, db1)) := by
  obtain ⟨r, hr⟩ := cdb_getoff_returns db (crc key) sbuf hinv hfit
  obtain ⟨g1, _, g3, g4, g5⟩ := cdb_getoff_spec db (crc key) sbuf r hinv hr
  obtain ⟨vio, mt, hv, _, _⟩ := hinv.store
  obtain ⟨vio1, hv1, hrecs⟩ := vio_of_dataOf db r.2.2 vio g3 hv
  have hnn : ¬ r.1 < 0 := by rw [g5]; omega
  have hidx : indexedRec crc db key = findRec vio key true r.2.1 := by
    simp only [indexedRec, g4, hv]
  have hrc2 : r.2.2.rcache = db.rcache := by
    have := g3; simp only [dataOf, Prod.mk.injEq] at this; exact this.1
  have hlim2 : r.2.2.rclimit = db.rclimit := by
    have := g3; simp only [dataOf, Prod.mk.injEq] at this; exact this.2.2.2.2.1
  have e : getIndexed crc db key now sbuf
      = (match (match findRec vio key true r.2.1 with
            | some rec => if rec.expire != 0 && rec.expire <= now then none else some rec
            | none => none) with
          | some rec =>
              (checkRecOverflow
                (match r.2.2.rcache with
                  | some rc =>
                      { r.2.2 with rcache := some (cdb_ht_insert MurmurHash1 rc
                          (cdb_ht_newitem key.length (rec.vsize + SI4 + SFOFF) key
                            (packRCVal rec.ooff rec.expire (rec.val.take rec.vsize)))) }
                  | none => r.2.2)).map fun db4 =>
                (0, some (rec.val.take rec.vsize), rec.vsize, cdb_seterrno db4 CDB_SUCCESS)
          | none =>
              (checkRecOverflow r.2.2).map fun db4 =>
                (-3, none, 0, cdb_seterrno db4 CDB_NOTFOUND)) := by
    simp only [getIndexed, hr, hnn, ↓reduceIte, hv1, findRec_congr vio vio1 hrecs]
  rw [e, hidx]
  have miss : ∃ db1, (checkRecOverflow r.2.2).map (fun db4 =>
      ((-3 : Int), (none : Option Bytes), (0 : Nat), cdb_seterrno db4 CDB_NOTFOUND))
      = some (-3, none, 0, db1) := by
    cases hrc : db.rcache with
    | none =>
        rw [checkRecOverflow_nocache _ (by rw [hrc2]; exact hrc)]
        exact ⟨_, rfl⟩
    | some rc =>
        obtain ⟨k1, k2⟩ := hrfit rc hrc
        obtain ⟨rc1, c1, _⟩ := checkRecOverflow_returns r.2.2 rc (by rw [hrc2]; exact hrc) k1
          (by rw [hlim2]; omega)
        rw [c1]
        exact ⟨_, rfl⟩
  cases hf : findRec vio key true r.2.1 with
  | none => exact miss
  | some rec =>
      simp only
      cases hx : (rec.expire != 0 && rec.expire <= now) with
      | true => simp only [↓reduceIte]; exact miss
      | false =>
          simp only [Bool.false_eq_true, ↓reduceIte]
          cases hrc : db.rcache with
          | none =>
              have hrc' : r.2.2.rcache = none := by rw [hrc2]; exact hrc
              simp only [hrc']
              rw [checkRecOverflow_nocache _ hrc']
              exact ⟨_, rfl⟩
          | some rc =>
              have hrc' : r.2.2.rcache = some rc := by rw [hrc2]; exact hrc
              simp only [hrc']
              obtain ⟨k1, k2⟩ := hrfit rc hrc
              obtain ⟨_, i2, i3⟩ := cdb_ht_insert_spec MurmurHash1 rc
                (cdb_ht_newitem key.length (rec.vsize + SI4 + SFOFF) key
                  (packRCVal rec.ooff rec.expire (rec.val.take rec.vsize))) k1
              obtain ⟨rc1, c1, _⟩ := checkRecOverflow_returns
                { r.2.2 with rcache := some (cdb_ht_insert MurmurHash1 rc
                    (cdb_ht_newitem key.length (rec.vsize + SI4 + SFOFF) key
                      (packRCVal rec.ooff rec.expire (rec.val.take rec.vsize)))) }
                _ rfl i2 (by simp only [hlim2]; omega)
              rw [c1]
              exact ⟨_, rfl⟩

/-- With no cache entry for the key, `cdb_get` in disk mode is its second
half. -/
theorem cdb_get_miss (crc : Bytes → Nat) (db : CDB) (key : Bytes) (now : Nat) (sbuf : CDBPAGE)
    (hvio : db.vio.isSome = true) (hrc : ∀ rc, db.rcache = some rc → HtOK rc)
    (hmiss : rcFind db key = none) :
    cdb_get crc db key now sbuf = getIndexed crc db key now sbuf := by
  have hvn : db.vio.isNone = false := by
    cases hv : db.vio with
    | none => rw [hv] at hvio; simp at hvio
    | some v => rfl
  cases hc : db.rcache with
  | none => simp only [cdb_get, hc, Option.isSome_none, Bool.false_and, Bool.false_eq_true, ↓reduceIte]
  | some rc =>
      have hm : (htUnlink (MurmurHash1 key) key.length key rc.items).1 = none := by
        simpa [rcFind, hc, cacheItems] using hmiss
      obtain ⟨g1, g2, _, _, _, g6⟩ := rc_get_spec rc key key.length true (hrc rc hc)
      rw [hm] at g1
      simp only [Option.map_none'] at g1
      have g6' := g6 hm
      simp only [cdb_get, hc, g1, g6', Option.map_none', set_rcache_self db rc hc, hvn,
        Bool.and_false, Bool.false_eq_true, ↓reduceIte]

theorem rc_get_fst (rc : CDBHASHTABLE Bytes Bytes) (key : Bytes) (ksize : Nat) (mtf : Bool) :
    (cdb_ht_get MurmurHash1 rc key ksize mtf).1
        = (htUnlink (MurmurHash1 key) ksize key rc.items).1.map (·.val)
    ∧ (cdb_ht_get MurmurHash1 rc key ksize mtf).2.1
        = ((htUnlink (MurmurHash1 key) ksize key rc.items).1.map (·.vsize)).getD 0 := by
  rcases hu : htUnlink (MurmurHash1 key) ksize key rc.items with ⟨a, b⟩
  cases a with
  | none => simp [cdb_ht_get, cdb_ht_get3, hu]
  | some it =>
      cases hm : (rc.lru && mtf) <;> simp [cdb_ht_get, cdb_ht_get3, hu, hm]

theorem readrec_false (vio : VIOAPND2) (o : FOFF) :
    _vio_apnd2_readrec vio o false
      = (_vio_apnd2_readrec vio o true).map fun r => { r with vsize := 0, val := [] } := by
  simp only [_vio_apnd2_readrec]
  cases storeAt o vio.recs with
  | none => rfl
  | some img =>
      simp only
      split <;> simp

theorem readrec_key (vio : VIOAPND2) (o : FOFF) (rv : Bool) (r : CDBREC)
    (h : _vio_apnd2_readrec vio o rv = some r) :
    ∃ img, storeAt o vio.recs = some img ∧ img.magic = RECMAGIC ∧ r.key = img.key
      ∧ r.ksize = img.ksize ∧ r.expire = img.expire ∧ r.ooff = o
      ∧ r.osize = OFFALIGNED (RECHSIZE + img.ksize + img.vsize)
      ∧ (rv = true → r.val = img.val ∧ r.vsize = img.vsize) := by
  simp only [_vio_apnd2_readrec] at h
  cases hs : storeAt o vio.recs with
  | none => simp [hs] at h
  | some img =>
      simp only [hs] at h
      split at h
      · cases h
      · rename_i hm
        simp only [Option.some.injEq] at h
        subst h
        refine ⟨img, rfl, by simpa using hm, rfl, rfl, rfl, rfl, rfl, ?_⟩
        intro hrv
        simp [hrv]

/-- Reading without the value finds the same record as reading with it. -/
theorem findRec_false (vio : VIOAPND2) (key : Bytes) : ∀ offs,
    findRec vio key false offs
      = (findRec vio key true offs).map fun r => { r with vsize := 0, val := [] }
  | [] => rfl
  | o :: rest => by
      have ih := findRec_false vio key rest
      simp only [findRec, readrec_false vio o]
      cases hr : _vio_apnd2_readrec vio o true with
      | none => simp only [Option.map_none', ih]
      | some r =>
          simp only [Option.map_some']
          split
          · rfl
          · exact ih

theorem rc_del_miss (rc : CDBHASHTABLE Bytes Bytes) (key : Bytes) (ksize : Nat)
    (h : (htUnlink (MurmurHash1 key) ksize key rc.items).1 = none) :
    cdb_ht_del MurmurHash1 rc key ksize = (none, rc) := by
  rcases hu : htUnlink (MurmurHash1 key) ksize key rc.items with ⟨a, b⟩
  rw [hu] at h
  simp only at h
  subst h
  simp only [cdb_ht_del, hu]

theorem rcFind_some_cache (db : CDB) (rc : CDBHASHTABLE Bytes Bytes) (key : Bytes)
    (hc : db.rcache = some rc) :
    rcFind db key = (htUnlink (MurmurHash1 key) key.length key rc.items).1 := by
  simp only [rcFind, hc, cacheItems]

/-- `cdb_del` in disk mode on a key that has no record. -/
theorem cdb_del_absent (crc : Bytes → Nat) (db : CDB) (key : Bytes) (now : Nat) (sbuf : CDBPAGE)
    (hinv : PageInv db) (hfit : PFit db) (hc : rcFind db key = none)
    (hi : indexedRec crc db key = none) :
    ∃ db1, cdb_del crc db key now sbuf = some (-3, db1) ∧ db1.errno = CDB_NOTFOUND
      ∧ db1.rnum = db.rnum ∧ db1.rcache = db.rcache ∧ ∀ b, curView db1 b = curView db b := by
  obtain ⟨vio, mt, hv, _, _⟩ := hinv.store
  obtain ⟨r, hr⟩ := cdb_getoff_returns db (crc key) sbuf hinv hfit
  obtain ⟨g1, g2, g3, g4, g5⟩ := cdb_getoff_spec db (crc key) sbuf r hinv hr
  obtain ⟨vio1, hv1, hrecs⟩ := vio_of_dataOf db r.2.2 vio g3 hv
  have hnn : ¬ r.1 < 0 := by rw [g5]; omega
  have hidx : findRec vio key true r.2.1 = none := by
    simpa only [indexedRec, g4, hv] using hi
  have hf : findRec vio1 key false r.2.1 = none := by
    rw [findRec_congr vio vio1 hrecs, findRec_false, hidx]; rfl
  have e : cdb_del crc db key now sbuf = some (-3, cdb_seterrno r.2.2 CDB_NOTFOUND) := by
    cases hrc : db.rcache with
    | none =>
        rcases db with ⟨a1, a2, a3, a4, a5, a6, a7, a8, rcache, pc, dpc, bf, mtable, vio0, er⟩
        simp only at hv hrc
        subst hv; subst hrc
        simp only [cdb_del, OFFNULL, OFFZERO, beq_self_eq_true, Bool.and_self, ↓reduceIte,
          hr, hnn, hv1, hf, OFFNOTNULL, bne_self_eq_false, Bool.or_self, Bool.false_eq_true]
    | some rc =>
        have hm := rcFind_some_cache db rc key hrc
        rw [hc] at hm
        have hdel := rc_del_miss rc key key.length hm.symm
        rcases db with ⟨a1, a2, a3, a4, a5, a6, a7, a8, rcache, pc, dpc, bf, mtable, vio0, er⟩
        simp only at hv hrc
        subst hv; subst hrc
        simp only [cdb_del, hdel, OFFNULL, OFFZERO, beq_self_eq_true, Bool.and_self, ↓reduceIte,
          hr, hnn, hv1, hf, OFFNOTNULL, bne_self_eq_false, Bool.or_self, Bool.false_eq_true]
  have hd := g3
  simp only [dataOf, Prod.mk.injEq] at hd
  refine ⟨_, e, rfl, hd.2.1, hd.1, ?_⟩
  intro b
  rw [← g2 b]
  exact curView_congr _ _ b rfl rfl rfl rfl

/-- `cdb_del` in memory mode returns 0. -/
theorem cdb_del_memdb (crc : Bytes → Nat) (db : CDB) (key : Bytes) (now : Nat) (sbuf : CDBPAGE)
    (rc : CDBHASHTABLE Bytes Bytes) (hv : db.vio = none) (hrc : db.rcache = some rc)
    (hok : HtOK rc) (hfit : htOverhead rc ≤ db.rclimit) :
    ∃ db1, cdb_del crc db key now sbuf = some (0, db1) := by
  obtain ⟨d1, d2, d3, d4, _⟩ := cdb_ht_del_spec MurmurHash1 rc key key.length hok
  have hrc2 : (cdb_ht_del2 MurmurHash1 rc key key.length).2
      = (cdb_ht_del MurmurHash1 rc key key.length).2 := by
    simp only [cdb_ht_del2]
    rcases cdb_ht_del MurmurHash1 rc key key.length with ⟨a, b⟩
    cases a <;> rfl
  rcases db with ⟨a1, a2, a3, a4, a5, a6, a7, a8, rcache, pc, dpc, bf, mtable, vio0, er⟩
  simp only at hv hrc hfit
  subst hv; subst hrc
  obtain ⟨rc1, c1, _⟩ := checkRecOverflow_returns
    { rclimit := a1, pclimit := a2, bfsize := a3, rnum := a4, oid := a5, roid := a6, hsize := a7,
      areadsize := a8, rcache := some (cdb_ht_del MurmurHash1 rc key key.length).2, pcache := pc,
      dpcache := dpc, bf := bf, mtable := mtable, vio := none, errno := er } _ rfl d3
    (by rw [d4]; exact hfit)
  simp only [cdb_del, hrc2, c1, Option.map_some']
  exact ⟨_, rfl⟩

set_option maxRecDepth 100000 in
theorem PFit_freshDB : PFit freshDB := by
  intro pc dpc hp hd
  have e1 : freshDB.pcache = some (cdb_ht_new true) := by decide
  have e2 : freshDB.dpcache = some (cdb_ht_new true) := by decide
  rw [e1] at hp; rw [e2] at hd
  rw [← Option.some.inj hp, ← Option.some.inj hd]
  decide

set_option maxRecDepth 100000 in
/-- C4, evaluated: a freshly opened memory database holds no key.
`cdb_ht_del2` reports with -1 that it found nothing to delete, but the
memory-mode path of `cdb_del(k)` drops that result and returns 0, not -3, and
leaves the error code as it was.  On a freshly opened disk database the same
call returns -3 with the error code `CDB_NOTFOUND`. -/
theorem del_absent_key_memdb_returns_zero :
    rcFind freshMemDB [107] = none
    ∧ (freshMemDB.rcache.map fun rc => (cdb_ht_del2 MurmurHash1 rc [107] 1).1) = some (-1)
    ∧ (cdb_del runCrc freshMemDB [107] 100 runSbuf).map (fun r => (r.1, r.2.errno))
        = some (0, freshMemDB.errno)
    ∧ freshMemDB.errno ≠ CDB_NOTFOUND
    ∧ (cdb_del runCrc freshDB [107] 100 runSbuf).map (fun r => (r.1, r.2.errno))
        = some (-3, CDB_NOTFOUND) := by
  decide

/-- Deletion of an absent key, where it is reported: let `k` be a key without
an entry in the record cache.  In disk mode, if the index invariant holds, the page caches' own overhead fits
their limit and the index leads to no record for `k`, then `cdb_del(k)`
returns -3 with error code `CDB_NOTFOUND` and leaves the record count, the
record cache and the page that the index shows for every bucket unchanged.
In memory mode `cdb_del(k)` returns 0. -/
theorem del_absent_key (crc : Bytes → Nat) (db : CDB) (key : Bytes) (now : Nat) (sbuf : CDBPAGE)
    (hc : rcFind db key = none) :
    (PageInv db → PFit db → indexedRec crc db key = none →
      ∃ db1, cdb_del crc db key now sbuf = some (-3, db1) ∧ db1.errno = CDB_NOTFOUND
        ∧ db1.rnum = db.rnum ∧ db1.rcache = db.rcache ∧ ∀ b, curView db1 b = curView db b)
    ∧ (db.vio = none → ∀ rc, db.rcache = some rc → HtOK rc → htOverhead rc ≤ db.rclimit →
      ∃ db1, cdb_del crc db key now sbuf = some (0, db1)) :=
  ⟨fun hinv hfit hi => cdb_del_absent crc db key now sbuf hinv hfit hc hi,
   fun hv rc hrc hok hfit => cdb_del_memdb crc db key now sbuf rc hv hrc hok hfit⟩

set_option maxRecDepth 100000 in
/-- Deletion of an absent key at work: on a freshly opened disk database
`cdb_del(k)` returns -3. -/
theorem del_absent_key_witness :
    rcFind freshDB [107] = none
    ∧ (cdb_del runCrc freshDB [107] 100 runSbuf).map (·.1) = some (-3) := by
  refine ⟨by decide, ?_⟩
  obtain ⟨db1, h, _⟩ := (del_absent_key runCrc freshDB [107] 100 runSbuf (by decide)).1
    PageInv_freshDB.1 PFit_freshDB (by decide)
  rw [h]
  rfl

/-! ## The value of a record-cache item -/

theorem leBytes_length : ∀ n x, (leBytes n x).length = n
  | 0, _ => rfl
  | n + 1, x => by simp [leBytes, leBytes_length n]

theorem leVal_leBytes : ∀ n x, leVal (leBytes n x) = x % 256 ^ n
  | 0, x => by simp [leBytes, leVal, Nat.mod_one]
  | n + 1, x => by
      simp only [leBytes, leVal, leVal_leBytes n]
      rw [pow_succ, Nat.mul_comm (256 ^ n) 256, Nat.mod_mul]

theorem rcExpire_pack (o : FOFF) (e : Nat) (v : Bytes) :
    rcExpire (packRCVal o e v) = e % 4294967296 := by
  have h1 : (leBytes 4 o.i4 ++ leBytes 2 o.i2).length = 6 := by
    simp [leBytes_length]
  have h2 : (leBytes 4 e).length = 4 := leBytes_length 4 e
  simp only [rcExpire, packRCVal]
  have : (leBytes 4 o.i4 ++ leBytes 2 o.i2 ++ leBytes 4 e ++ v)
      = (leBytes 4 o.i4 ++ leBytes 2 o.i2) ++ (leBytes 4 e ++ v) := by
    simp only [List.append_assoc]
  rw [this, List.drop_left' h1, List.take_left' h2, leVal_leBytes]
  norm_num

theorem packRCVal_value (o : FOFF) (e : Nat) (v : Bytes) :
    ((packRCVal o e v).drop (SI4 + SFOFF)).take (v.length + SI4 + SFOFF - (SI4 + SFOFF)) = v := by
  have h1 : (leBytes 4 o.i4 ++ leBytes 2 o.i2 ++ leBytes 4 e).length = SI4 + SFOFF := by
    simp [leBytes_length, SI4, SFOFF]
  simp only [packRCVal]
  rw [List.drop_left' h1]
  have : v.length + SI4 + SFOFF - (SI4 + SFOFF) = v.length := by omega
  rw [this, List.take_length]

theorem expireAt_lt (now : Nat) (e : Int) : expireAt now e < 4294967296 := by
  simp only [expireAt]
  split
  · have h := Int.emod_lt_of_pos ((now : Int) + e) (by norm_num : (0 : Int) < 4294967296)
    have h0 := Int.emod_nonneg ((now : Int) + e) (by norm_num : (4294967296 : Int) ≠ 0)
    omega
  · norm_num

/-- What `_cdb_recout` leaves when it returns: the record cache no longer
overflows, it holds a front part of the items it held, and nothing else in the
database has changed. -/
theorem recoutLoop_frame : ∀ (fuel : Nat) (db d : CDB), recoutLoop fuel db = some d →
    RCOVERFLOW d = false
    ∧ (∃ j, cacheItems d.rcache = (cacheItems db.rcache).take j)
    ∧ d = { db with rcache := d.rcache }
    ∧ d.rcache.isSome = db.rcache.isSome
  | 0, db, d, h => by
      simp only [recoutLoop] at h
      split at h
      · cases h
      · rename_i hov
        simp only [Option.some.injEq] at h
        subst h
        exact ⟨by simpa using hov, ⟨(cacheItems db.rcache).length, by simp⟩, rfl, rfl⟩
  | fuel + 1, db, d, h => by
      simp only [recoutLoop] at h
      split at h
      · rename_i hov
        cases hrc : db.rcache with
        | none => simp [RCOVERFLOW, hrc] at hov
        | some rc =>
            simp only [hrc] at h
            split at h
            · rcases hp : cdb_ht_poptail rc with ⟨a, rc1⟩
              rw [hp] at h
              cases a with
              | none => simp at h
              | some last =>
                  simp only at h
                  obtain ⟨i1, ⟨j, i2⟩, i3, i4⟩ := recoutLoop_frame fuel _ d h
                  have hitems : rc1.items = rc.items.dropLast := by
                    simp only [cdb_ht_poptail] at hp
                    split at hp
                    · cases hp
                    · split at hp
                      · cases hp
                      · simp only [Prod.mk.injEq] at hp
                        rw [← hp.2]
                  refine ⟨i1, ⟨min j (rc.items.length - 1), ?_⟩, ?_, ?_⟩
                  · rw [i2]
                    simp only [cacheItems, hitems, List.dropLast_eq_take, List.take_take]
                  · rw [i3]
                  · rw [i4]; rfl
            · cases h
      · rename_i hov
        simp only [Option.some.injEq] at h
        subst h
        exact ⟨by simpa using hov, ⟨(cacheItems db.rcache).length, by simp⟩, rfl, rfl⟩

theorem checkRecOverflow_frame (db d : CDB) (h : checkRecOverflow db = some d) :
    RCOVERFLOW d = false
    ∧ (∃ j, cacheItems d.rcache = (cacheItems db.rcache).take j)
    ∧ d = { db with rcache := d.rcache }
    ∧ d.rcache.isSome = db.rcache.isSome := by
  simp only [checkRecOverflow] at h
  split at h
  · exact recoutLoop_frame _ db d h
  · rename_i hov
    simp only [Option.some.injEq] at h
    subst h
    exact ⟨by simpa using hov, ⟨(cacheItems db.rcache).length, by simp⟩, rfl, rfl⟩

theorem htUnlink_fst_find {K V : Type} [DecidableEq K] (hash ksize : Nat) (key : K) :
    ∀ items : List (CDBHTITEM K V),
      (htUnlink hash ksize key items).1 = items.find? (htMatch hash ksize key)
  | [] => rfl
  | c :: rest => by
      by_cases hm : htMatch hash ksize key c = true
      · simp [htUnlink, hm]
      · simp only [htUnlink, hm, Bool.false_eq_true, ↓reduceIte, List.find?_cons]
        exact htUnlink_fst_find hash ksize key rest

theorem find_take_none {α : Type} (p : α → Bool) (l : List α) (j : Nat)
    (h : l.find? p = none) : (l.take j).find? p = none := by
  rw [List.find?_eq_none] at h ⊢
  intro x hx
  exact h x (List.mem_of_mem_take hx)

theorem find_sublist_none {α : Type} (p : α → Bool) (l l1 : List α) (hs : List.Sublist l1 l)
    (h : l.find? p = none) : l1.find? p = none := by
  rw [List.find?_eq_none] at h ⊢
  intro x hx
  exact h x (hs.subset hx)

theorem htUnlink_snd_sublist {K V : Type} [DecidableEq K] (hash ksize : Nat) (key : K) :
    ∀ items : List (CDBHTITEM K V), List.Sublist (htUnlink hash ksize key items).2 items
  | [] => List.Sublist.slnil
  | c :: rest => by
      by_cases hm : htMatch hash ksize key c = true
      · simp only [htUnlink, hm, ↓reduceIte]
        exact List.sublist_cons_self c rest
      · simp only [htUnlink, hm, Bool.false_eq_true, ↓reduceIte]
        exact List.Sublist.cons₂ c (htUnlink_snd_sublist hash ksize key rest)

theorem rcFind_head (db : CDB) (rc : CDBHASHTABLE Bytes Bytes) (key : Bytes)
    (it : CDBHTITEM Bytes Bytes) (rest : List (CDBHTITEM Bytes Bytes))
    (hrc : db.rcache = some rc) (hitems : rc.items = it :: rest)
    (h1 : it.hash = MurmurHash1 key) (h2 : it.ksize = key.length) (h3 : it.key = key) :
    rcFind db key = some it := by
  simp [rcFind, hrc, cacheItems, hitems, htUnlink, htMatch, h1, h2, h3]

theorem rcFind_take_none (db d : CDB) (key : Bytes) (j : Nat)
    (hitems : cacheItems d.rcache = (cacheItems db.rcache).take j)
    (h : rcFind db key = none) : rcFind d key = none := by
  simp only [rcFind, htUnlink_fst_find] at h ⊢
  rw [hitems]
  exact find_take_none _ _ _ h

/-- The record-cache phase of `cdb_set2`.  Afterwards either the record cache
has no item for the key (and had none before), or the item it finds for the
key holds the new value and expire time; the latter is the case when
`CDB_INSERTCACHE` is set and the cache has room. -/
theorem setFill_spec (db5 d : CDB) (key val : Bytes) (opt : Nat) (rec3 : CDBREC)
    (hok : RcOK db5)
    (hH : rcFind db5 key = none
      ∨ (Nat.land opt CDB_INSERTCACHE = CDB_INSERTCACHE
          ∧ RcRoom db5 key.length (val.length + SI4 + SFOFF)))
    (h : checkRecOverflow (setFill db5 key val opt rec3) = some d) :
    d = { db5 with rcache := d.rcache }
    ∧ ((rcFind d key = none ∧ rcFind db5 key = none)
        ∨ ∃ it, rcFind d key = some it ∧ it.val = packRCVal rec3.ooff rec3.expire val
            ∧ it.vsize = val.length + SI4 + SFOFF) := by
  obtain ⟨_, ⟨j, f2⟩, f3, _⟩ := checkRecOverflow_frame _ d h
  have hframe : d = { db5 with rcache := d.rcache } := by
    rw [f3]
    simp only [setFill]
    split
    · split <;> rfl
    · rfl
  refine ⟨hframe, ?_⟩
  cases hrc : db5.rcache with
  | none =>
      left
      have e : setFill db5 key val opt rec3 = db5 := by simp only [setFill, hrc]
      rw [e] at f2
      have hn : rcFind db5 key = none := by simp [rcFind, hrc, cacheItems, htUnlink]
      exact ⟨rcFind_take_none db5 d key j f2 hn, hn⟩
  | some rc =>
      by_cases hflag : Nat.land opt CDB_INSERTCACHE = CDB_INSERTCACHE
      · have hb : (Nat.land opt CDB_INSERTCACHE == CDB_INSERTCACHE) = true := by simp [hflag]
        have e : setFill db5 key val opt rec3
            = { db5 with rcache := some (cdb_ht_insert MurmurHash1 rc
                (cdb_ht_newitem key.length (val.length + SI4 + SFOFF) key
                  (packRCVal rec3.ooff rec3.expire val))) } := by
          simp only [setFill, hrc, hb, ↓reduceIte]
        obtain ⟨i1, i2, i3⟩ := cdb_ht_insert_spec MurmurHash1 rc
          (cdb_ht_newitem key.length (val.length + SI4 + SFOFF) key
            (packRCVal rec3.ooff rec3.expire val)) (hok rc hrc)
        rw [e] at f2 h
        have hci : cacheItems ({ db5 with rcache := some (cdb_ht_insert MurmurHash1 rc
            (cdb_ht_newitem key.length (val.length + SI4 + SFOFF) key
              (packRCVal rec3.ooff rec3.expire val))) } : CDB).rcache
            = _ := i1
        rw [hci] at f2
        cases j with
        | zero =>
            simp only [List.take_zero] at f2
            have hdn : rcFind d key = none := by
              simp [rcFind, f2, htUnlink]
            rcases hH with hH | ⟨_, hroom⟩
            · left; exact ⟨hdn, hH⟩
            · exfalso
              have hr := hroom rc hrc
              obtain ⟨rc1, c1, _, _, _, j2, _, keep⟩ := checkRecOverflow_returns
                { db5 with rcache := some (cdb_ht_insert MurmurHash1 rc
                    (cdb_ht_newitem key.length (val.length + SI4 + SFOFF) key
                      (packRCVal rec3.ooff rec3.expire val))) } _ rfl i2
                (by
                  show htOverhead _ ≤ db5.rclimit
                  omega)
              rw [c1, Option.some.injEq] at h
              have hk := keep 1 (by
                show htOverhead _ + _ ≤ db5.rclimit
                rw [i1]
                simp only [List.take_succ_cons, List.take_zero, List.map_cons, List.map_nil,
                  List.sum_cons, List.sum_nil]
                show htOverhead _ + (SIZEOF_CDBHTITEM + key.length + (val.length + SI4 + SFOFF)
                  + 2 * SIZEOF_PTR + 0) ≤ db5.rclimit
                omega)
              have hd : cacheItems d.rcache = rc1.items := by rw [← h]; rfl
              rw [hd] at f2
              rw [f2, i1] at hk
              simp at hk
        | succ j1 =>
            right
            simp only [List.take_succ_cons] at f2
            cases hdrc : d.rcache with
            | none => rw [hdrc] at f2; simp [cacheItems] at f2
            | some rcd =>
                rw [hdrc] at f2
                have f2' : rcd.items = _ := f2
                exact ⟨_, rcFind_head d rcd key _ _ hdrc f2' rfl rfl rfl, rfl, rfl⟩
      · have hb : (Nat.land opt CDB_INSERTCACHE == CDB_INSERTCACHE) = false := by simp [hflag]
        have e : setFill db5 key val opt rec3 = db5 := by
          simp only [setFill, hrc, hb, Bool.false_eq_true, ↓reduceIte]
        rw [e] at f2
        rcases hH with hH | ⟨hf, _⟩
        · left; exact ⟨rcFind_take_none db5 d key j f2 hH, hH⟩
        · exact absurd hf hflag

/-! ## Writing a record and finding it again -/

theorem OFFEQ_iff (a b : FOFF) : OFFEQ a b = true ↔ a = b := by
  cases a; cases b
  simp [OFFEQ]

theorem PHASHEQ_self (p : PHASH) : PHASHEQ p p = true := by
  simp [PHASHEQ]

theorem diskView_pages (db db1 : CDB) (hm : db1.mtable = db.mtable)
    (hv : db1.vio.map (·.pages) = db.vio.map (·.pages)) (b : Nat) :
    diskView db1 b = diskView db b := by
  simp only [diskView, hm]
  cases h1 : db1.vio with
  | none =>
      cases h0 : db.vio with
      | none => rfl
      | some v0 => rw [h1, h0] at hv; simp at hv
  | some v1 =>
      cases h0 : db.vio with
      | none => rw [h1, h0] at hv; simp at hv
      | some v0 =>
          rw [h1, h0] at hv
          simp only [Option.map_some', Option.some.injEq] at hv
          cases db.mtable <;> simp only [_vio_apnd2_readpage, hv]

/-- Writing a data record changes the data store and the oid generator, and
nothing the index shows. -/
theorem writerec_spec (db2 : CDB) (vio : VIOAPND2) (rec2 : CDBREC) (hv : db2.vio = some vio)
    (hinv : PageInv db2) :
    PageInv (_vio_apnd2_writerec db2 vio rec2).2.2
    ∧ (∀ b, curView (_vio_apnd2_writerec db2 vio rec2).2.2 b = curView db2 b)
    ∧ (_vio_apnd2_writerec db2 vio rec2).2.2.rcache = db2.rcache
    ∧ (_vio_apnd2_writerec db2 vio rec2).2.2.rnum = db2.rnum
    ∧ (_vio_apnd2_writerec db2 vio rec2).2.2.bf = db2.bf
    ∧ (_vio_apnd2_writerec db2 vio rec2).2.2.hsize = db2.hsize
    ∧ (_vio_apnd2_writerec db2 vio rec2).2.2.rclimit = db2.rclimit
    ∧ (_vio_apnd2_writerec db2 vio rec2).2.2.pclimit = db2.pclimit
    ∧ (_vio_apnd2_writerec db2 vio rec2).2.2.pcache = db2.pcache
    ∧ (_vio_apnd2_writerec db2 vio rec2).2.2.dpcache = db2.dpcache
    ∧ (_vio_apnd2_writerec db2 vio rec2).1.expire = rec2.expire
    ∧ ∃ vio1, (_vio_apnd2_writerec db2 vio rec2).2.2.vio = some vio1
        ∧ vio1.recs = ((_vio_apnd2_writerec db2 vio rec2).2.1,
            { rec2 with magic := RECMAGIC, oid := db2.oid }) :: vio.recs := by
  have hw : (_vio_apnd2_writerec db2 vio rec2).2.2
      = { (cdb_genoid db2).2 with
          vio := some { vio with
            recs := (natFOFF vio.dnext, { rec2 with magic := RECMAGIC, oid := db2.oid })
              :: vio.recs
            dnext := vio.dnext + OFFALIGNED (RECHSIZE + rec2.ksize + rec2.vsize) / 16 } } := by
    simp only [_vio_apnd2_writerec, cdb_genoid]
    split <;> rfl
  have hoff : (_vio_apnd2_writerec db2 vio rec2).2.1 = natFOFF vio.dnext := by
    simp only [_vio_apnd2_writerec]
    split <;> rfl
  have hexp : (_vio_apnd2_writerec db2 vio rec2).1.expire = rec2.expire := by
    simp only [_vio_apnd2_writerec]
    split <;> rfl
  rw [hw, hoff]
  have hdv : ∀ b, diskView ({ (cdb_genoid db2).2 with
          vio := some { vio with
            recs := (natFOFF vio.dnext, { rec2 with magic := RECMAGIC, oid := db2.oid })
              :: vio.recs
            dnext := vio.dnext + OFFALIGNED (RECHSIZE + rec2.ksize + rec2.vsize) / 16 } } : CDB) b
      = diskView db2 b := by
    intro b
    apply diskView_pages
    · rfl
    · simp [hv]
  obtain ⟨vio0, mt, hv0, hm, hs⟩ := hinv.store
  rw [hv] at hv0
  have hvv : vio = vio0 := Option.some.inj hv0
  subst hvv
  refine ⟨?_, ?_, rfl, rfl, rfl, rfl, rfl, rfl, rfl, rfl, hexp, _, rfl, rfl⟩
  · exact
      { hsize_pos := hinv.hsize_pos
        both := hinv.both
        pc_ok := hinv.pc_ok
        dpc_ok := hinv.dpc_ok
        pc_nodup := hinv.pc_nodup
        dpc_nodup := hinv.dpc_nodup
        disj := hinv.disj
        coh := by
          intro it hit
          rw [hdv]
          exact hinv.coh it hit
        pc_book := hinv.pc_book
        dpc_book := hinv.dpc_book
        store := ⟨_, mt, rfl, hm, hs⟩
        bf_ok := hinv.bf_ok }
  · intro b
    simp only [curView, hdv]
    rfl

theorem readrec_new (vio1 : VIOAPND2) (noff : FOFF) (recN : CDBREC)
    (rest : List (FOFF × CDBREC)) (hrecs : vio1.recs = (noff, recN) :: rest)
    (hmag : recN.magic = RECMAGIC) :
    _vio_apnd2_readrec vio1 noff true
      = some { recN with osize := OFFALIGNED (RECHSIZE + recN.ksize + recN.vsize), ooff := noff } := by
  simp [_vio_apnd2_readrec, hrecs, storeAt, hmag]

theorem readrec_old (vio vio1 : VIOAPND2) (noff : FOFF) (recN : CDBREC)
    (hrecs : vio1.recs = (noff, recN) :: vio.recs) (o : FOFF) (rv : Bool) (hne : o ≠ noff) :
    _vio_apnd2_readrec vio1 o rv = _vio_apnd2_readrec vio o rv := by
  have : ¬ noff = o := fun e => hne e.symm
  simp [_vio_apnd2_readrec, hrecs, storeAt, this]

/-- After a record with key `key` has been written at `noff`, the candidate
loop of `cdb_get` finds it, provided `noff` is among the candidates and no
candidate before it led to a record with that key. -/
theorem findRec_after_write (vio vio1 : VIOAPND2) (noff : FOFF) (recN : CDBREC) (key : Bytes)
    (hrecs : vio1.recs = (noff, recN) :: vio.recs) (hmag : recN.magic = RECMAGIC)
    (hkey : recN.key = key) (hks : recN.ksize = key.length) (post : List FOFF) :
    ∀ pre : List FOFF, findRec vio key true pre = none →
      findRec vio1 key true (pre ++ noff :: post)
        = some { recN with
                 osize := OFFALIGNED (RECHSIZE + recN.ksize + recN.vsize), ooff := noff }
  | [], _ => by
      simp only [List.nil_append, findRec, readrec_new vio1 noff recN vio.recs hrecs hmag, hks,
        hkey, beq_self_eq_true, Bool.and_self, ↓reduceIte]
  | o :: pre, h => by
      by_cases ho : o = noff
      · subst ho
        simp only [List.cons_append, findRec, readrec_new vio1 o recN vio.recs hrecs hmag, hks,
          hkey, beq_self_eq_true, Bool.and_self, ↓reduceIte]
      · simp only [List.cons_append, findRec, readrec_old vio vio1 noff recN hrecs o true ho]
        simp only [findRec] at h
        cases hr : _vio_apnd2_readrec vio o true with
        | none =>
            rw [hr] at h
            simp only at h ⊢
            exact findRec_after_write vio vio1 noff recN key hrecs hmag hkey hks post pre h
        | some r =>
            rw [hr] at h
            simp only at h ⊢
            split at h
            · cases h
            · rename_i hm
              simp only [hm, Bool.false_eq_true, ↓reduceIte]
              exact findRec_after_write vio vio1 noff recN key hrecs hmag hkey hks post pre h

theorem findRec_none_iff (vio : VIOAPND2) (key : Bytes) (rv : Bool) :
    ∀ offs : List FOFF, findRec vio key rv offs = none ↔ ∀ x ∈ offs, recHit vio key rv x = false
  | [] => by simp [findRec]
  | o :: rest => by
      have ih := findRec_none_iff vio key rv rest
      rw [List.forall_mem_cons]
      cases hr : _vio_apnd2_readrec vio o rv with
      | none =>
          have hh : recHit vio key rv o = false := by simp only [recHit, hr]
          simp only [findRec, hr, hh, true_and]
          exact ih
      | some r =>
          by_cases hm : (key.length == r.ksize && r.key == key) = true
          · have hh : recHit vio key rv o = true := by simp only [recHit, hr]; exact hm
            simp [findRec, hr, hm, hh]
          · have hh : recHit vio key rv o = false := by
              simp only [recHit, hr]; simpa using hm
            simp only [findRec, hr, hm, Bool.false_eq_true, ↓reduceIte, hh, true_and]
            exact ih

theorem findRec_split_hit (vio : VIOAPND2) (key : Bytes) (rv : Bool) :
    ∀ (offs : List FOFF) (r : CDBREC), findRec vio key rv offs = some r →
      ∃ pre post, offs = pre ++ r.ooff :: post ∧ (∀ x ∈ pre, recHit vio key rv x = false)
        ∧ recHit vio key rv r.ooff = true ∧ _vio_apnd2_readrec vio r.ooff rv = some r
  | [], r, h => by simp [findRec] at h
  | o :: rest, r, h => by
      simp only [findRec] at h
      have step : findRec vio key rv rest = some r → recHit vio key rv o = false →
          ∃ pre post, o :: rest = pre ++ r.ooff :: post
            ∧ (∀ x ∈ pre, recHit vio key rv x = false)
            ∧ recHit vio key rv r.ooff = true ∧ _vio_apnd2_readrec vio r.ooff rv = some r := by
        intro h2 hno
        obtain ⟨pre, post, h1, h2, h3, h4⟩ := findRec_split_hit vio key rv rest r h2
        refine ⟨o :: pre, post, by rw [h1]; rfl, ?_, h3, h4⟩
        intro x hx
        rcases List.mem_cons.mp hx with hx | hx
        · rw [hx]; exact hno
        · exact h2 x hx
      cases hr : _vio_apnd2_readrec vio o rv with
      | none =>
          rw [hr] at h
          exact step h (by simp [recHit, hr])
      | some r0 =>
          rw [hr] at h
          simp only at h
          split at h
          · rename_i hm
            simp only [Option.some.injEq] at h
            subst h
            obtain ⟨img, _, _, _, _, _, hi6, _⟩ := readrec_key vio o rv r0 hr
            refine ⟨[], rest, by rw [hi6]; rfl, by simp, ?_, by rw [hi6]; exact hr⟩
            rw [hi6]
            simp only [recHit, hr]
            exact hm
          · rename_i hm
            exact step h (by simp only [recHit, hr]; simpa using hm)

/-- A record found by the candidate loop sits at the first candidate offset
whose record has the key. -/
theorem findRec_split (vio : VIOAPND2) (key : Bytes) (rv : Bool) (offs : List FOFF) (r : CDBREC)
    (h : findRec vio key rv offs = some r) :
    ∃ pre post, offs = pre ++ r.ooff :: post ∧ findRec vio key rv pre = none
      ∧ r.ooff ∉ pre ∧ (∃ img, (r.ooff, img) ∈ vio.recs) := by
  obtain ⟨pre, post, h1, h2, h3, h4⟩ := findRec_split_hit vio key rv offs r h
  refine ⟨pre, post, h1, (findRec_none_iff vio key rv pre).mpr h2, ?_, ?_⟩
  · intro hmem
    rw [h2 _ hmem] at h3
    cases h3
  · obtain ⟨img, hi1, _⟩ := readrec_key vio r.ooff rv r h4
    exact ⟨img, storeAt_mem _ _ _ hi1⟩

theorem candOffs_append_new (ph : PHASH) (off : FOFF) (l : List PITEM) :
    candOffs ph (l ++ [{ off := off, hash := ph }]) = candOffs ph l ++ [off] := by
  simp [candOffs, List.filter_append, PHASHEQ_self]

theorem mem_candOffs_of_any (ph : PHASH) (off : FOFF) (l : List PITEM)
    (h : l.any (itemIs ph off) = true) : off ∈ candOffs ph l := by
  simp only [List.any_eq_true] at h
  obtain ⟨it, hit, hp⟩ := h
  simp only [itemIs, Bool.and_eq_true] at hp
  simp only [candOffs, List.mem_map, List.mem_filter]
  exact ⟨it, ⟨hit, hp.1⟩, (OFFEQ_iff _ _).mp hp.2⟩

theorem candOffs_replFirst (ph : PHASH) (o noff : FOFF) : ∀ l : List PITEM,
    candOffs ph (replFirst ph o noff l) = substFirst o noff (candOffs ph l)
  | [] => rfl
  | it :: its => by
      have ih := candOffs_replFirst ph o noff its
      by_cases hh : PHASHEQ it.hash ph = true
      · by_cases ho : OFFEQ it.off o = true
        · have hi : itemIs ph o it = true := by simp [itemIs, hh, ho]
          simp [replFirst, hi, candOffs, List.filter_cons, hh, substFirst, ho]
        · have hi : itemIs ph o it = false := by simp [itemIs, hh, ho]
          have ho' : OFFEQ it.off o = false := by simpa using ho
          simp only [replFirst, hi, Bool.false_eq_true, ↓reduceIte]
          simp only [candOffs, List.filter_cons, hh, ↓reduceIte, List.map_cons, substFirst, ho',
            Bool.false_eq_true]
          exact congrArg _ ih
      · have hi : itemIs ph o it = false := by simp [itemIs, hh]
        have hh' : PHASHEQ it.hash ph = false := by simpa using hh
        simp only [replFirst, hi, Bool.false_eq_true, ↓reduceIte]
        simp only [candOffs, List.filter_cons, hh', Bool.false_eq_true, ↓reduceIte]
        exact ih

theorem substFirst_split (o n : FOFF) (post : List FOFF) : ∀ pre : List FOFF, o ∉ pre →
    substFirst o n (pre ++ o :: post) = pre ++ n :: post
  | [], _ => by simp [substFirst, (OFFEQ_iff o o).mpr rfl]
  | x :: pre, h => by
      have hx : ¬ x = o := fun e => h (by simp [e])
      have hx' : OFFEQ x o = false := by
        cases hq : OFFEQ x o with
        | true => exact absurd ((OFFEQ_iff _ _).mp hq) hx
        | false => rfl
      have hp : o ∉ pre := fun e => h (List.mem_cons_of_mem _ e)
      have ih := substFirst_split o n post pre hp
      simp only [List.cons_append, substFirst, hx', Bool.false_eq_true, ↓reduceIte]
      exact congrArg _ ih

theorem findRec_prefix_none (vio : VIOAPND2) (key : Bytes) (rv : Bool) (pre rest : List FOFF)
    (h : findRec vio key rv (pre ++ rest) = none) : findRec vio key rv pre = none := by
  rw [findRec_none_iff] at h ⊢
  intro x hx
  exact h x (List.mem_append_left _ hx)

theorem findRec_true_of_false_none (vio : VIOAPND2) (key : Bytes) (offs : List FOFF)
    (h : findRec vio key false offs = none) : findRec vio key true offs = none := by
  rw [findRec_false] at h
  cases hf : findRec vio key true offs with
  | none => rfl
  | some r => rw [hf] at h; simp at h

theorem findRec_true_of_false_some (vio : VIOAPND2) (key : Bytes) (offs : List FOFF) (r : CDBREC)
    (h : findRec vio key false offs = some r) :
    ∃ r1, findRec vio key true offs = some r1 ∧ r1.ooff = r.ooff ∧ r1.expire = r.expire := by
  rw [findRec_false] at h
  cases hf : findRec vio key true offs with
  | none => rw [hf] at h; simp at h
  | some r1 =>
      rw [hf] at h
      simp only [Option.map_some', Option.some.injEq] at h
      exact ⟨r1, rfl, by rw [← h], by rw [← h]⟩

/-! ## cdb_set2 in disk mode -/

/-- The last part of `cdb_set2`: the record is appended to the data store,
the page of the bucket gets its offset (in place of the old one if there is
one, else as a new item), and only the record cache changes after that. -/
theorem setStore_spec (db2 : CDB) (hash : Nat) (key val : Bytes) (opt now : Nat) (rec2 : CDBREC)
    (sbuf : CDBPAGE) (r : Int × CDB) (vio2 : VIOAPND2) (hv : db2.vio = some vio2)
    (hinv : PageInv db2) (h : setStore db2 hash key val opt now rec2 sbuf = some r) :
    ∃ db5 d vio5 v0,
      checkRecOverflow (setFill db5 key val opt (_vio_apnd2_writerec db2 vio2 rec2).1) = some d
      ∧ r = (0, cdb_seterrno d CDB_SUCCESS)
      ∧ PageInv db5 ∧ db5.rcache = db2.rcache ∧ db5.rclimit = db2.rclimit
      ∧ db5.hsize = db2.hsize
      ∧ db5.vio = some vio5
      ∧ vio5.recs = ((_vio_apnd2_writerec db2 vio2 rec2).2.1,
            { rec2 with magic := RECMAGIC, oid := db2.oid }) :: vio2.recs
      ∧ (_vio_apnd2_writerec db2 vio2 rec2).1.expire = rec2.expire
      ∧ curView db2 (bucketOf db2 hash) = some v0
      ∧ (OFFNOTNULL rec2.ooff = true →
          curView db5 (bucketOf db2 hash)
            = some (v0.1, replFirst (mkPHASH hash) rec2.ooff
                (_vio_apnd2_writerec db2 vio2 rec2).2.1 v0.2)
          ∧ db5.rnum = db2.rnum ∧ db5.bf = db2.bf)
      ∧ (OFFNOTNULL rec2.ooff = false →
          curView db5 (bucketOf db2 hash)
            = some (updView (mkPHASH hash) (_vio_apnd2_writerec db2 vio2 rec2).2.1
                CDB_PAGEINSERTOFF v0)
          ∧ db5.rnum = updRnum (mkPHASH hash) (_vio_apnd2_writerec db2 vio2 rec2).2.1
                CDB_PAGEINSERTOFF v0 db2.rnum) := by
  obtain ⟨w1, w2, w3, w4, w5, w6, w7, w8, _, _, w11, vio1, w12, w13⟩ :=
    writerec_spec db2 vio2 rec2 hv hinv
  have hbk : bucketOf (_vio_apnd2_writerec db2 vio2 rec2).2.2 hash = bucketOf db2 hash := by
    simp only [bucketOf, w6]
  simp only [setStore, hv] at h
  by_cases hnn : OFFNOTNULL rec2.ooff = true
  · simp only [hnn, ↓reduceIte] at h
    cases hr4 : cdb_replaceoff (_vio_apnd2_writerec db2 vio2 rec2).2.2 hash rec2.ooff
        (_vio_apnd2_writerec db2 vio2 rec2).2.1 sbuf with
    | none => simp [hr4] at h
    | some r4 =>
        simp only [hr4] at h
        obtain ⟨v0, c1, _, c3, c4, _, c6, c7, c8, _⟩ :=
          cdb_replaceoff_spec _ hash rec2.ooff _ sbuf r4 w1 hr4
        rw [hbk] at c1 c4
        rw [w2] at c1
        have hk := c8
        simp only [kvOf, Prod.mk.injEq] at hk
        obtain ⟨k1, k2, k3, _, _, k6⟩ := hk
        rw [w12] at k6
        cases hv5 : r4.2.vio with
        | none => rw [hv5] at k6; simp at k6
        | some vio5 =>
            rw [hv5] at k6
            simp only [Option.map_some', Option.some.injEq, vioData, Prod.mk.injEq] at k6
            cases hc : checkRecOverflow (setFill r4.2 key val opt
                (_vio_apnd2_writerec db2 vio2 rec2).1) with
            | none => simp [hc] at h
            | some d =>
                simp only [hc, Option.map_some', Option.some.injEq] at h
                refine ⟨r4.2, d, vio5, v0, hc, h.symm, c3, k1.trans w3, k3.trans w7,
                  k2.trans w6, hv5, by rw [k6.1, w13], w11, c1, ?_, ?_⟩
                · intro _
                  exact ⟨c4, c6.trans w4, c7.trans w5⟩
                · intro hc2
                  rw [hnn] at hc2
                  cases hc2
  · have hnn' : OFFNOTNULL rec2.ooff = false := by simpa using hnn
    simp only [hnn', Bool.false_eq_true, ↓reduceIte] at h
    cases hr4 : cdb_updatepage (_vio_apnd2_writerec db2 vio2 rec2).2.2 hash
        (_vio_apnd2_writerec db2 vio2 rec2).2.1 CDB_PAGEINSERTOFF now sbuf with
    | none => simp [hr4] at h
    | some r4 =>
        simp only [hr4] at h
        obtain ⟨v0, c1, _, c3, c4, _, c6, _, c8, _⟩ :=
          cdb_updatepage_spec _ hash _ CDB_PAGEINSERTOFF now sbuf r4 w1 hr4
        rw [hbk] at c1 c4
        rw [w2] at c1
        have hk := c8
        simp only [kvOf, Prod.mk.injEq] at hk
        obtain ⟨k1, k2, k3, _, _, k6⟩ := hk
        rw [w12] at k6
        cases hv5 : r4.2.vio with
        | none => rw [hv5] at k6; simp at k6
        | some vio5 =>
            rw [hv5] at k6
            simp only [Option.map_some', Option.some.injEq, vioData, Prod.mk.injEq] at k6
            cases hc : checkRecOverflow (setFill r4.2 key val opt
                (_vio_apnd2_writerec db2 vio2 rec2).1) with
            | none => simp [hc] at h
            | some d =>
                simp only [hc, Option.map_some', Option.some.injEq] at h
                refine ⟨r4.2, d, vio5, v0, hc, h.symm, c3, k1.trans w3, k3.trans w7,
                  k2.trans w6, hv5, by rw [k6.1, w13], w11, c1, ?_, ?_⟩
                · intro hc2
                  rw [hnn'] at hc2
                  cases hc2
                · intro _
                  exact ⟨c4, by rw [c6, w4]⟩

/-- The block of `cdb_set2` that looks for the old record of the key through
the index: it changes nothing the database shows, and the offset it hands on
is that of the record the candidate loop finds, if the block is entered and
the loop finds one. -/
theorem setPrior_spec (db1 : CDB) (hash : Nat) (key : Bytes) (now : Nat) (rec1 rec2 : CDBREC)
    (expired1 expired : Bool) (sbuf : CDBPAGE) (db2 : CDB) (hinv : PageInv db1)
    (h : setPrior db1 hash key now rec1 expired1 sbuf = some (some (rec2, expired), db2)) :
    PageInv db2 ∧ (∀ b, curView db2 b = curView db1 b) ∧ dataOf db2 = dataOf db1
    ∧ rec2.key = rec1.key ∧ rec2.val = rec1.val ∧ rec2.ksize = rec1.ksize
    ∧ rec2.vsize = rec1.vsize ∧ rec2.expire = rec1.expire
    ∧ (OFFNULL rec1.ooff = false → rec2.ooff = rec1.ooff)
    ∧ (OFFNULL rec1.ooff = true →
        ∃ offs vio, getoffSpec db1 hash = some offs ∧ db1.vio = some vio
          ∧ ((∃ rrec, findRec vio key false offs = some rrec ∧ rec2.ooff = rrec.ooff)
              ∨ (findRec vio key false offs = none ∧ rec2.ooff = rec1.ooff))) := by
  simp only [setPrior] at h
  by_cases hn : OFFNULL rec1.ooff = true
  · simp only [hn, ↓reduceIte] at h
    cases hg : cdb_getoff db1 hash sbuf with
    | none => simp [hg] at h
    | some r =>
        obtain ⟨retnum, offs, d2⟩ := r
        simp only [hg] at h
        obtain ⟨g1, g2, g3, g4, g5⟩ := cdb_getoff_spec db1 hash sbuf _ hinv hg
        simp only at g1 g2 g3 g4 g5
        split at h
        · simp at h
        · obtain ⟨vio, mt, hv, _, _⟩ := hinv.store
          obtain ⟨vio1, hv1, hrecs⟩ := vio_of_dataOf db1 d2 vio g3 hv
          simp only [hv1, findRec_congr vio vio1 hrecs] at h
          cases hf : findRec vio key false offs with
          | none =>
              simp only [hf, Option.some.injEq, Prod.mk.injEq] at h
              obtain ⟨⟨h1, _⟩, h2⟩ := h
              subst h1; subst h2
              refine ⟨g1, g2, g3, rfl, rfl, rfl, rfl, rfl, (fun hc => absurd (hn.symm.trans hc) (by decide)),
                fun _ => ⟨offs, vio, g4, hv, Or.inr ⟨hf, rfl⟩⟩⟩
          | some rrec =>
              simp only [hf, Option.some.injEq, Prod.mk.injEq] at h
              obtain ⟨⟨h1, _⟩, h2⟩ := h
              subst h1; subst h2
              refine ⟨g1, g2, g3, rfl, rfl, rfl, rfl, rfl, (fun hc => absurd (hn.symm.trans hc) (by decide)),
                fun _ => ⟨offs, vio, g4, hv, Or.inl ⟨rrec, hf, rfl⟩⟩⟩
  · have hn' : OFFNULL rec1.ooff = false := by simpa using hn
    simp only [hn', Bool.false_eq_true, ↓reduceIte, Option.some.injEq, Prod.mk.injEq] at h
    obtain ⟨⟨h1, _⟩, h2⟩ := h
    subst h1; subst h2
    exact ⟨hinv, fun _ => rfl, rfl, rfl, rfl, rfl, rfl, rfl, fun _ => rfl,
      (fun hc => absurd (hn'.symm.trans hc) (by decide))⟩

theorem OFFNOTNULL_not (o : FOFF) : OFFNOTNULL o = !OFFNULL o := by
  cases o
  simp only [OFFNOTNULL, OFFNULL, bne, Bool.not_and]

theorem getoffSpec_sound (db : CDB) (hash : Nat) (hinv : PageInv db) (hbs : BloomSound db hash) :
    ∃ v, curView db (bucketOf db hash) = some v
      ∧ getoffSpec db hash = some (candOffs (mkPHASH hash) v.2) := by
  obtain ⟨v, hc⟩ := curView_some db hinv (bucketOf db hash)
  refine ⟨v, hc, ?_⟩
  simp only [getoffSpec, hc, Option.map_some']
  cases hm : bloomMiss db hash with
  | false => simp
  | true => simp [hbs hm v hc]

theorem mem_split_first (x : FOFF) : ∀ l : List FOFF, x ∈ l →
    ∃ pre post, l = pre ++ x :: post ∧ x ∉ pre
  | [], h => by simp at h
  | a :: l, h => by
      by_cases ha : a = x
      · exact ⟨[], l, by rw [ha]; rfl, by simp⟩
      · have hl : x ∈ l := by
          rcases List.mem_cons.mp h with h1 | h1
          · exact absurd h1.symm ha
          · exact h1
        obtain ⟨pre, post, h1, h2⟩ := mem_split_first x l hl
        refine ⟨a :: pre, post, by rw [h1]; rfl, ?_⟩
        intro hm
        rcases List.mem_cons.mp hm with h3 | h3
        · exact ha h3.symm
        · exact h2 h3

/-- The part of `cdb_set2` after the cache lookup, when it returns 0.  The
record has been appended and the index points to it: the candidate loop of
`cdb_get` over the page of the bucket finds the new record, if the offset
handed in was null (no usable cache entry). -/
theorem setFinish_spec (crc : Bytes → Nat) (db1 : CDB) (key val : Bytes) (opt now : Nat)
    (rec1 : CDBREC) (expired1 : Bool) (sbuf : CDBPAGE) (s1 : CDB) (hinv : PageInv db1)
    (hdata : DataOK db1) (hbs : BloomSound db1 (crc key))
    (hk : rec1.key = key) (hks : rec1.ksize = key.length)
    (h : setFinish db1 (crc key) key val opt now rec1 expired1 sbuf = some (0, s1)) :
    ∃ db5 rec3 d,
      checkRecOverflow (setFill db5 key val opt rec3) = some d
      ∧ s1 = cdb_seterrno d CDB_SUCCESS
      ∧ PageInv db5 ∧ db5.rcache = db1.rcache ∧ db5.rclimit = db1.rclimit
      ∧ db5.hsize = db1.hsize ∧ rec3.expire = rec1.expire
      ∧ ((OFFNULL rec1.ooff = false ∨ (indexedRec crc db1 key).isSome = true) →
          db5.rnum = db1.rnum)
      ∧ (OFFNULL rec1.ooff = true →
          ∃ v5 vio5 r, db5.vio = some vio5
            ∧ curView db5 (bucketOf db1 (crc key)) = some v5
            ∧ findRec vio5 key true (candOffs (mkPHASH (crc key)) v5.2) = some r
            ∧ r.val = rec1.val ∧ r.vsize = rec1.vsize ∧ r.expire = rec1.expire) := by
  simp only [setFinish] at h
  cases hp : setPrior db1 (crc key) key now rec1 expired1 sbuf with
  | none => simp [hp] at h
  | some pr =>
      obtain ⟨o2, db2⟩ := pr
      cases o2 with
      | none => simp [hp] at h
      | some re =>
          obtain ⟨rec2, expired⟩ := re
          simp only [hp] at h
          obtain ⟨p1, p2, p3, p4, p5, p6, p7, p8, p9, p10⟩ :=
            setPrior_spec db1 (crc key) key now rec1 rec2 expired1 expired sbuf db2 hinv hp
          split at h
          · simp at h
          · split at h
            · simp at h
            · obtain ⟨vio2, mt2, hv2, _, _⟩ := p1.store
              obtain ⟨vio, mt, hv, _, _⟩ := hinv.store
              obtain ⟨vio2', hv2', hrecs⟩ := vio_of_dataOf db1 db2 vio p3 hv
              rw [hv2] at hv2'
              have hvv : vio2 = vio2' := Option.some.inj hv2'
              subst hvv
              obtain ⟨db5, d, vio5, v0, q1, q2, q3, q4, q5, q6, q7, q8, q9, q10, q11, q12⟩ :=
                setStore_spec db2 (crc key) key val opt now rec2 sbuf _ vio2 hv2 p1 h
              obtain ⟨k1, k2, k3, k4⟩ := kvOf_of_dataOf db1 db2 p3
              have hd := p3
              simp only [dataOf, Prod.mk.injEq] at hd
              have hbk : bucketOf db2 (crc key) = bucketOf db1 (crc key) := by
                simp only [bucketOf, k4]
              rw [hbk] at q10 q11 q12
              rw [p2] at q10
              simp only [Prod.mk.injEq] at q2
              obtain ⟨vs, hcv, hgs⟩ := getoffSpec_sound db1 (crc key) hinv hbs
              rw [q10] at hcv
              simp only [Option.some.injEq] at hcv
              subst hcv
              -- the new record, as the store holds it
              have hmag : ({ rec2 with magic := RECMAGIC, oid := db2.oid } : CDBREC).magic
                  = RECMAGIC := rfl
              have hfw := findRec_after_write vio2 vio5 _
                ({ rec2 with magic := RECMAGIC, oid := db2.oid } : CDBREC) key q8 hmag
                (by show rec2.key = key; rw [p4, hk]) (by show rec2.ksize = key.length; rw [p6, hks])
              refine ⟨db5, _, d, q1, q2.2, q3, q4.trans hd.1, q5.trans hd.2.2.2.2.1,
                q6.trans k4, q9.trans p8, ?_, ?_⟩
              · -- the record count
                intro hcase
                have hrep : OFFNOTNULL rec2.ooff = true := by
                  by_cases hn : OFFNULL rec1.ooff = true
                  · obtain ⟨offs, vio', g1, g2, g3⟩ := p10 hn
                    rw [hv] at g2
                    have hvv : vio = vio' := Option.some.inj g2
                    subst hvv
                    rcases g3 with ⟨rrec, g4, g5⟩ | ⟨g4, _⟩
                    · obtain ⟨_, _, _, _, _, img, himg⟩ := findRec_split vio key false offs rrec g4
                      rw [g5]
                      exact hdata vio hv _ himg
                    · exfalso
                      rcases hcase with hcase | hcase
                      · rw [hn] at hcase; cases hcase
                      · simp only [indexedRec, g1, hv] at hcase
                        rw [findRec_true_of_false_none vio key offs g4] at hcase
                        cases hcase
                  · have hn' : OFFNULL rec1.ooff = false := by simpa using hn
                    rw [p9 hn', OFFNOTNULL_not, hn']
                    rfl
                rw [(q11 hrep).2.1, k2]
              · -- the record is found again
                intro hn
                obtain ⟨offs, vio', g1, g2, g3⟩ := p10 hn
                rw [hv] at g2
                have hvv : vio = vio' := Option.some.inj g2
                subst hvv
                rw [hgs] at g1
                simp only [Option.some.injEq] at g1
                rcases g3 with ⟨rrec, g4, g5⟩ | ⟨g4, g5⟩
                · obtain ⟨pre, post, s1', s2, s3, img, himg⟩ :=
                    findRec_split vio key false offs rrec g4
                  have hrep : OFFNOTNULL rec2.ooff = true := by
                    rw [g5]; exact hdata vio hv _ himg
                  obtain ⟨t1, _, _⟩ := q11 hrep
                  have hfind := hfw post pre (by
                    rw [findRec_congr vio vio2 hrecs]
                    exact findRec_true_of_false_none vio key pre s2)
                  obtain ⟨rN, hf1, hf2⟩ : ∃ rN : CDBREC,
                      findRec vio5 key true
                        (pre ++ (_vio_apnd2_writerec db2 vio2 rec2).2.1 :: post) = some rN
                      ∧ rN.val = rec1.val ∧ rN.vsize = rec1.vsize ∧ rN.expire = rec1.expire :=
                    ⟨_, hfind, p5, p7, p8⟩
                  refine ⟨_, vio5, rN, q7, t1, ?_, hf2⟩
                  rw [candOffs_replFirst, g1, g5, s1', substFirst_split _ _ post pre s3]
                  exact hf1
                · have hins : OFFNOTNULL rec2.ooff = false := by
                    rw [g5, OFFNOTNULL_not, hn]; rfl
                  obtain ⟨t1, _⟩ := q12 hins
                  have hnone : findRec vio2 key true offs = none := by
                    rw [findRec_congr vio vio2 hrecs]
                    exact findRec_true_of_false_none vio key offs g4
                  cases hch : updChanges (mkPHASH (crc key))
                      (_vio_apnd2_writerec db2 vio2 rec2).2.1 CDB_PAGEINSERTOFF v0 with
                  | true =>
                      have hfind := hfw [] offs hnone
                      obtain ⟨rN, hf1, hf2⟩ : ∃ rN : CDBREC,
                          findRec vio5 key true
                            (offs ++ [(_vio_apnd2_writerec db2 vio2 rec2).2.1]) = some rN
                          ∧ rN.val = rec1.val ∧ rN.vsize = rec1.vsize
                          ∧ rN.expire = rec1.expire :=
                        ⟨_, hfind, p5, p7, p8⟩
                      refine ⟨_, vio5, rN, q7, t1, ?_⟩
                      refine ⟨?_, hf2⟩
                      · have hv : (updView (mkPHASH (crc key))
                            (_vio_apnd2_writerec db2 vio2 rec2).2.1 CDB_PAGEINSERTOFF v0).2
                            = v0.2 ++ [{ off := (_vio_apnd2_writerec db2 vio2 rec2).2.1,
                                         hash := mkPHASH (crc key) }] := by
                          rw [updView, if_pos hch]
                          rfl
                        rw [hv, candOffs_append_new, g1]
                        exact hf1
                  | false =>
                      have hany : v0.2.any (itemIs (mkPHASH (crc key))
                          (_vio_apnd2_writerec db2 vio2 rec2).2.1) = true := by
                        simp only [updChanges, CDB_PAGEINSERTOFF, CDB_PAGEDELETEOFF] at hch
                        simpa using hch
                      have hmem := mem_candOffs_of_any _ _ _ hany
                      rw [g1] at hmem
                      obtain ⟨pre, post, e1, _⟩ := mem_split_first _ _ hmem
                      have hfind := hfw post pre (by
                        apply findRec_prefix_none vio2 key true pre (_ :: post)
                        rw [← e1]
                        exact hnone)
                      obtain ⟨rN, hf1, hf2⟩ : ∃ rN : CDBREC,
                          findRec vio5 key true
                            (pre ++ (_vio_apnd2_writerec db2 vio2 rec2).2.1 :: post) = some rN
                          ∧ rN.val = rec1.val ∧ rN.vsize = rec1.vsize
                          ∧ rN.expire = rec1.expire :=
                        ⟨_, hfind, p5, p7, p8⟩
                      refine ⟨_, vio5, rN, q7, t1, ?_⟩
                      refine ⟨?_, hf2⟩
                      · have hv : updView (mkPHASH (crc key))
                            (_vio_apnd2_writerec db2 vio2 rec2).2.1 CDB_PAGEINSERTOFF v0 = v0 := by
                          rw [updView, if_neg (by rw [hch]; decide)]
                        rw [hv, g1, e1]
                        exact hf1

/-- What the index shows depends on the table size, the bloom filter, the two
page caches, the main table and the storage object only. -/
theorem index_congr (db db1 : CDB) (hh : db1.hsize = db.hsize) (hb : db1.bf = db.bf)
    (hp : db1.pcache = db.pcache) (hd : db1.dpcache = db.dpcache)
    (hm : db1.mtable = db.mtable) (hv : db1.vio = db.vio) :
    (∀ b, curView db1 b = curView db b)
    ∧ (∀ hash, bucketOf db1 hash = bucketOf db hash)
    ∧ (∀ hash, bloomMiss db1 hash = bloomMiss db hash)
    ∧ (∀ hash, getoffSpec db1 hash = getoffSpec db hash)
    ∧ (∀ crc key, indexedRec crc db1 key = indexedRec crc db key)
    ∧ (PageInv db → PageInv db1) ∧ (DataOK db → DataOK db1) := by
  have h1 : ∀ b, curView db1 b = curView db b := by
    intro b
    simp only [curView, hp, hd, diskView_congr db db1 hv hm]
  have h2 : ∀ hash, bucketOf db1 hash = bucketOf db hash := by
    intro hash; simp only [bucketOf, hh]
  have h3 : ∀ hash, bloomMiss db1 hash = bloomMiss db hash := by
    intro hash; simp only [bloomMiss, hb, h2]
  have h4 : ∀ hash, getoffSpec db1 hash = getoffSpec db hash := by
    intro hash; simp only [getoffSpec, h1, h2, h3]
  refine ⟨h1, h2, h3, h4, ?_,
    fun hi => PageInv_congr db db1 hh hp hd hm hv (by rw [hb]; exact hi.bf_ok) hi, ?_⟩
  · intro crc key
    simp only [indexedRec, h4, hv]
  · intro hdt vio hvio e he
    rw [hv] at hvio
    exact hdt vio hvio e he

/-- A hit in the record cache in disk mode: `cdb_get` answers from the cached
item. -/
theorem cdb_get_cached (crc : Bytes → Nat) (db : CDB) (key : Bytes) (now : Nat) (sbuf : CDBPAGE)
    (it : CDBHTITEM Bytes Bytes) (hvio : db.vio.isSome = true) (hit : rcFind db key = some it) :
    (cdb_get crc db key now sbuf).map (fun r => (r.1, r.2.1, r.2.2.1))
      = some (if rcExpire it.val ≠ 0 ∧ rcExpire it.val ≤ now
          then (-3, none, it.vsize - (SI4 + SFOFF))
          else (0, some ((it.val.drop (SI4 + SFOFF)).take (it.vsize - (SI4 + SFOFF))),
                it.vsize - (SI4 + SFOFF))) := by
  cases hc : db.rcache with
  | none => simp [rcFind, hc, cacheItems, htUnlink] at hit
  | some rc =>
      have hu : (htUnlink (MurmurHash1 key) key.length key rc.items).1 = some it := by
        simpa [rcFind, hc, cacheItems] using hit
      obtain ⟨g1, g2⟩ := rc_get_fst rc key key.length true
      rw [hu] at g1 g2
      simp only [Option.map_some', Option.getD_some] at g1 g2
      cases hv : db.vio with
      | none => rw [hv] at hvio; simp at hvio
      | some v =>
          by_cases hx : rcExpire it.val ≠ 0 ∧ rcExpire it.val ≤ now
          · have hb : (rcExpire it.val != 0 && decide (rcExpire it.val ≤ now)) = true := by
              simp [hx.1, hx.2]
            rw [if_pos hx]
            simp only [cdb_get, hc, g1, g2, Option.map_some', hv, hb, ↓reduceIte]
          · have hb : (rcExpire it.val != 0 && decide (rcExpire it.val ≤ now)) = false := by
              simp only [ne_eq, not_and, not_le] at hx
              by_cases h0 : rcExpire it.val = 0
              · simp [h0]
              · simp [h0, hx h0]
            rw [if_neg hx]
            simp only [cdb_get, hc, g1, g2, Option.map_some', hv, hb, Bool.false_eq_true,
              ↓reduceIte]

/-- A hit in the record cache in memory mode: `cdb_get` hands out the cached
value. -/
theorem cdb_get_cached_mem (crc : Bytes → Nat) (db : CDB) (key : Bytes) (now : Nat)
    (sbuf : CDBPAGE) (it : CDBHTITEM Bytes Bytes) (hvio : db.vio = none)
    (hit : rcFind db key = some it) :
    (cdb_get crc db key now sbuf).map (fun r => (r.1, r.2.1, r.2.2.1))
      = some (0, some (it.val.take it.vsize), it.vsize) := by
  cases hc : db.rcache with
  | none => simp [rcFind, hc, cacheItems, htUnlink] at hit
  | some rc =>
      have hu : (htUnlink (MurmurHash1 key) key.length key rc.items).1 = some it := by
        simpa [rcFind, hc, cacheItems] using hit
      obtain ⟨g1, g2⟩ := rc_get_fst rc key key.length true
      rw [hu] at g1 g2
      simp only [Option.map_some', Option.getD_some] at g1 g2
      simp only [cdb_get, hc, g1, g2, Option.map_some', hvio]

/-- `cdb_set2` in disk mode, when it returns 0: the record is in the data
store and the index leads to it, the record count is unchanged if the index
led to a record for the key before, and what remains to be done is the
record-cache phase. -/
theorem set2_disk (crc : Bytes → Nat) (s : CDB) (key val : Bytes) (opt : Nat) (e : Int)
    (now : Nat) (sbuf : CDBPAGE) (s1 : CDB) (hinv : PageInv s) (hdata : DataOK s)
    (hbs : BloomSound s (crc key))
    (h : cdb_set2 crc s key val opt e now sbuf = some (0, s1)) :
    ∃ db5 rec3 d,
      checkRecOverflow (setFill db5 key val opt rec3) = some d
      ∧ s1 = cdb_seterrno d CDB_SUCCESS
      ∧ PageInv db5 ∧ db5.rcache = s.rcache ∧ db5.rclimit = s.rclimit
      ∧ db5.hsize = s.hsize ∧ rec3.expire = expireAt now e
      ∧ ((indexedRec crc s key).isSome = true → db5.rnum = s.rnum)
      ∧ (rcFind s key = none →
          ∃ v5 vio5 r, db5.vio = some vio5
            ∧ curView db5 (bucketOf s (crc key)) = some v5
            ∧ findRec vio5 key true (candOffs (mkPHASH (crc key)) v5.2) = some r
            ∧ r.val = val ∧ r.vsize = val.length ∧ r.expire = expireAt now e) := by
  obtain ⟨vio, mt, hv, _, _⟩ := hinv.store
  obtain ⟨c1, c2, c3, c4, c5, c6, c7⟩ := index_congr s (cdb_genoid s).2 rfl rfl rfl rfl rfl rfl
  have hbs1 : BloomSound (cdb_genoid s).2 (crc key) := by
    intro hm v hc
    rw [c3] at hm
    rw [c2, c1] at hc
    exact hbs hm v hc
  have hcached : setCached (cdb_genoid s).2 key
      = (rcFind s key).map fun it => (it.val, it.vsize) := by
    cases hrc : s.rcache with
    | none =>
        have e1 : (cdb_genoid s).2.rcache = none := hrc
        simp [setCached, e1, rcFind, hrc, cacheItems, htUnlink]
    | some rc =>
        have e1 : (cdb_genoid s).2.rcache = some rc := hrc
        obtain ⟨g1, g2⟩ := rc_get_fst rc key key.length false
        simp only [setCached, e1, g1, g2, rcFind, hrc, cacheItems]
        cases (htUnlink (MurmurHash1 key) key.length key rc.items).1 <;> rfl
  simp only [cdb_set2, hv] at h
  rw [hcached] at h
  cases hf : rcFind s key with
  | none =>
      rw [hf] at h
      simp only [Option.map_none'] at h
      obtain ⟨db5, rec3, d, f1, f2, f3, f4, f5, f6, f7, f8, f9⟩ :=
        setFinish_spec crc _ key val opt now _ _ sbuf s1 (c6 hinv) (c7 hdata) hbs1 rfl rfl h
      refine ⟨db5, rec3, d, f1, f2, f3, f4, f5, f6, f7, ?_, ?_⟩
      · intro hi
        rw [f8 (Or.inr (by rw [c5]; exact hi))]
        rfl
      · intro _
        obtain ⟨v5, vio5, r, g1, g2, g3, g4, g5, g6⟩ := f9 rfl
        rw [c2] at g2
        exact ⟨v5, vio5, r, g1, g2, g3, g4, g5, g6⟩
  | some it =>
      rw [hf] at h
      simp only [Option.map_some'] at h
      obtain ⟨db5, rec3, d, f1, f2, f3, f4, f5, f6, f7, f8, f9⟩ :=
        setFinish_spec crc _ key val opt now _ _ sbuf s1 (c6 hinv) (c7 hdata) hbs1 rfl rfl h
      refine ⟨db5, rec3, d, f1, f2, f3, f4, f5, f6, f7, ?_, ?_⟩
      · intro hi
        rw [f8 (by
          by_cases hn : OFFNULL (rcOoff it.val) = true
          · exact Or.inr (by rw [c5]; exact hi)
          · exact Or.inl (by simpa using hn))]
        rfl
      · intro hc
        cases hc


/-- `cdb_set2` followed by `cdb_get` in disk mode: when the set returns 0 and
did not leave an older record-cache item of the key in place, the get hands
out the value just set; the record count is unchanged when the index led to a
record of the key before. -/
theorem set_get_disk (crc : Bytes → Nat) (s : CDB) (key val : Bytes) (opt : Nat) (e : Int)
    (now : Nat) (sbuf : CDBPAGE) (s1 : CDB) (now2 : Nat) (sbuf2 : CDBPAGE)
    (hset : cdb_set2 crc s key val opt e now sbuf = some (0, s1))
    (hok : RcOK s) (hinv : PageInv s) (hdata : DataOK s) (hbs : BloomSound s (crc key))
    (hH : rcFind s key = none
      ∨ (Nat.land opt CDB_INSERTCACHE = CDB_INSERTCACHE
          ∧ RcRoom s key.length (val.length + SI4 + SFOFF)))
    (hbm : bloomMiss s1 (crc key) = false) (hpf : PFit s1) (hrf : RFit s1)
    (hexp : expireAt now e = 0 ∨ now2 < expireAt now e) :
    (cdb_get crc s1 key now2 sbuf2).map (fun r => (r.1, r.2.1, r.2.2.1))
        = some (0, some val, val.length)
      ∧ ((indexedRec crc s key).isSome = true → s1.rnum = s.rnum) := by
  obtain ⟨db5, rec3, d, f1, f2, f3, f4, f5, f6, f7, f8, f9⟩ :=
    set2_disk crc s key val opt e now sbuf s1 hinv hdata hbs hset
  have hok5 : RcOK db5 := by
    intro rc h
    exact hok rc (f4 ▸ h)
  have hrf5 : rcFind db5 key = rcFind s key := by
    simp only [rcFind, f4]
  have hH5 : rcFind db5 key = none
      ∨ (Nat.land opt CDB_INSERTCACHE = CDB_INSERTCACHE
          ∧ RcRoom db5 key.length (val.length + SI4 + SFOFF)) := by
    rcases hH with h | ⟨h1, h2⟩
    · exact Or.inl (hrf5.trans h)
    · refine Or.inr ⟨h1, ?_⟩
      intro rc hrc
      rw [f5]
      exact h2 rc (f4 ▸ hrc)
  obtain ⟨g1, g2⟩ := setFill_spec db5 d key val opt rec3 hok5 hH5 f1
  have e1 : s1.hsize = db5.hsize := by
    rw [f2]
    have h := congrArg CDB.hsize g1
    exact h
  have e2 : s1.bf = db5.bf := by
    rw [f2]
    have h := congrArg CDB.bf g1
    exact h
  have e3 : s1.pcache = db5.pcache := by
    rw [f2]
    have h := congrArg CDB.pcache g1
    exact h
  have e4 : s1.dpcache = db5.dpcache := by
    rw [f2]
    have h := congrArg CDB.dpcache g1
    exact h
  have e5 : s1.mtable = db5.mtable := by
    rw [f2]
    have h := congrArg CDB.mtable g1
    exact h
  have e6 : s1.vio = db5.vio := by
    rw [f2]
    have h := congrArg CDB.vio g1
    exact h
  have e7 : s1.rnum = db5.rnum := by
    rw [f2]
    have h := congrArg CDB.rnum g1
    exact h
  have e8 : rcFind s1 key = rcFind d key := by rw [f2]; rfl
  obtain ⟨c1, c2, c3, c4, c5, c6, c7⟩ := index_congr db5 s1 e1 e2 e3 e4 e5 e6
  obtain ⟨vio5, mt5, hv5, _, _⟩ := f3.store
  have hvs : s1.vio.isSome = true := by rw [e6, hv5]; rfl
  have hne : ¬ (expireAt now e ≠ 0 ∧ expireAt now e ≤ now2) := by
    rintro ⟨h1, h2⟩
    rcases hexp with h | h
    · exact h1 h
    · omega
  refine ⟨?_, fun hi => by rw [e7]; exact f8 hi⟩
  rcases g2 with ⟨g3, g4⟩ | ⟨it, g3, g4, g5⟩
  · -- the record cache does not hold the key: the index leads to the record
    obtain ⟨v5, vio6, r, q1, q2, q3, q4, q5, q6⟩ := f9 (hrf5.symm.trans g4)
    have hb : bucketOf s1 (crc key) = bucketOf s (crc key) := by
      simp only [bucketOf, e1, f6]
    have hidx : indexedRec crc s1 key = some r := by
      simp only [indexedRec, getoffSpec, hbm, Bool.false_eq_true, ↓reduceIte, hb, c1, q2,
        Option.map_some', e6, q1, q3]
    rw [cdb_get_miss crc s1 key now2 sbuf2 hvs (fun rc h => (hrf rc h).1) (e8.trans g3)]
    obtain ⟨dbx, hx⟩ := getIndexed_spec crc s1 key now2 sbuf2 (c6 f3) hpf hrf
    rw [hx, hidx]
    have hb2 : (r.expire != 0 && decide (r.expire ≤ now2)) = false := by
      rw [q6]
      by_cases h0 : expireAt now e = 0
      · simp [h0]
      · have : ¬ expireAt now e ≤ now2 := fun h => hne ⟨h0, h⟩
        simp [h0, this]
    simp only [hb2, Bool.false_eq_true, ↓reduceIte, Option.map_some', q4, q5, List.take_length]
  · -- the record cache holds the new item
    rw [cdb_get_cached crc s1 key now2 sbuf2 it hvs (e8.trans g3)]
    have hx : rcExpire it.val = expireAt now e := by
      rw [g4, rcExpire_pack, f7, Nat.mod_eq_of_lt (expireAt_lt now e)]
    rw [hx, if_neg hne, g4, g5, packRCVal_value]
    have hl : val.length + SI4 + SFOFF - (SI4 + SFOFF) = val.length := by omega
    rw [hl]


/-- `cdb_set2` followed by `cdb_get` in memory mode: when the record cache has
room for the new item, the get hands out the value just set, and the record
count is untouched. -/
theorem set_get_mem (crc : Bytes → Nat) (s : CDB) (key val : Bytes) (opt : Nat) (e : Int)
    (now : Nat) (sbuf : CDBPAGE) (s1 : CDB) (now2 : Nat) (sbuf2 : CDBPAGE)
    (hset : cdb_set2 crc s key val opt e now sbuf = some (0, s1))
    (hvio : s.vio = none) (hok : RcOK s) (hroom : RcRoom s key.length val.length) :
    (cdb_get crc s1 key now2 sbuf2).map (fun r => (r.1, r.2.1, r.2.2.1))
        = some (0, some val, val.length)
      ∧ s1.rnum = s.rnum := by
  cases hrc : s.rcache with
  | none => simp [cdb_set2, hvio, hrc] at hset
  | some rc =>
      obtain ⟨i1, i2, i3⟩ := cdb_ht_insert_spec MurmurHash1 rc
        (cdb_ht_newitem key.length val.length key val) (hok rc hrc)
      have hr := hroom rc hrc
      obtain ⟨rc1, c1, _, _, _, j2, _, keep⟩ := checkRecOverflow_returns
        { s with rcache := some (cdb_ht_insert MurmurHash1 rc
            (cdb_ht_newitem key.length val.length key val)) } _ rfl i2
        (by
          show htOverhead _ ≤ s.rclimit
          omega)
      have hk := keep 1 (by
        show htOverhead _ + _ ≤ s.rclimit
        rw [i1]
        simp only [List.take_succ_cons, List.take_zero, List.map_cons, List.map_nil,
          List.sum_cons, List.sum_nil]
        show htOverhead _ + (SIZEOF_CDBHTITEM + key.length + val.length
          + 2 * SIZEOF_PTR + 0) ≤ s.rclimit
        omega)
      have hs : cdb_set2 crc s key val opt e now sbuf
          = (checkRecOverflow { s with rcache := some (cdb_ht_insert MurmurHash1 rc
              (cdb_ht_newitem key.length val.length key val)) }).map fun d => (0, d) := by
        simp only [cdb_set2, hvio, hrc, cdb_ht_insert2]
      rw [hs, c1] at hset
      simp only [Option.map_some', Option.some.injEq, Prod.mk.injEq, true_and] at hset
      rw [i1] at hk
      simp only [List.take_succ_cons, List.take_zero] at hk
      cases hit : rc1.items with
      | nil => rw [hit] at hk; simp at hk
      | cons it rest =>
          rw [hit] at hk
          simp only [List.take_succ_cons, List.take_zero, List.cons.injEq, and_true] at hk
          have hv1 : s1.vio = none := by rw [← hset]; exact hvio
          have hr1 : s1.rcache = some rc1 := by rw [← hset]
          have hf : rcFind s1 key = some it :=
            rcFind_head s1 rc1 key it rest hr1 hit (by rw [← hk]; rfl) (by rw [← hk]; rfl)
              (by rw [← hk]; rfl)
          refine ⟨?_, by rw [← hset]⟩
          rw [cdb_get_cached_mem crc s1 key now2 sbuf2 it hv1 hf, ← hk]
          show some ((0 : Int), some (val.take val.length), val.length) = _
          rw [List.take_length]


/-- A miss in the record cache in memory mode: `cdb_get` returns -3. -/
theorem cdb_get_mem_miss (crc : Bytes → Nat) (db : CDB) (key : Bytes) (now : Nat)
    (sbuf : CDBPAGE) (rc : CDBHASHTABLE Bytes Bytes) (hvio : db.vio = none)
    (hrc : db.rcache = some rc) (hmiss : rcFind db key = none) :
    (cdb_get crc db key now sbuf).map (fun r => (r.1, r.2.1, r.2.2.1))
      = some (-3, none, 0) := by
  have hu : (htUnlink (MurmurHash1 key) key.length key rc.items).1 = none := by
    simpa [rcFind, hrc, cacheItems] using hmiss
  obtain ⟨g1, g2⟩ := rc_get_fst rc key key.length true
  rw [hu] at g1 g2
  simp only [Option.map_none'] at g1
  simp [cdb_get, hrc, g1, hvio]

/-- `cdb_set2` in memory mode with a record that is larger than the whole
record cache: the set returns 0, `_cdb_recout` removes every item including
the new one, and the following `cdb_get` returns -3. -/
theorem set_mem_evicts (crc : Bytes → Nat) (s : CDB) (key val : Bytes) (opt : Nat) (e : Int)
    (now : Nat) (sbuf : CDBPAGE) (now2 : Nat) (sbuf2 : CDBPAGE)
    (rc : CDBHASHTABLE Bytes Bytes) (hvio : s.vio = none) (hrc : s.rcache = some rc)
    (hok : HtOK rc) (hfit : htOverhead rc + htGrowth rc ≤ s.rclimit)
    (hbig : s.rclimit < SIZEOF_CDBHTITEM + key.length + val.length + 2 * SIZEOF_PTR) :
    ∃ s1, cdb_set2 crc s key val opt e now sbuf = some (0, s1)
      ∧ (cdb_get crc s1 key now2 sbuf2).map (fun r => (r.1, r.2.1, r.2.2.1))
          = some (-3, none, 0)
      ∧ s1.rnum = s.rnum := by
  obtain ⟨i1, i2, i3⟩ := cdb_ht_insert_spec MurmurHash1 rc
    (cdb_ht_newitem key.length val.length key val) hok
  obtain ⟨rc1, c1, hok1, _, _, j, hj, _⟩ := checkRecOverflow_returns
    { s with rcache := some (cdb_ht_insert MurmurHash1 rc
        (cdb_ht_newitem key.length val.length key val)) } _ rfl i2
    (by
      show htOverhead _ ≤ s.rclimit
      omega)
  have hs : cdb_set2 crc s key val opt e now sbuf
      = (checkRecOverflow { s with rcache := some (cdb_ht_insert MurmurHash1 rc
          (cdb_ht_newitem key.length val.length key val)) }).map fun d => (0, d) := by
    simp only [cdb_set2, hvio, hrc, cdb_ht_insert2]
  obtain ⟨hov, _, _, _⟩ := checkRecOverflow_frame _ _ c1
  have hsz : rc1.size ≤ s.rclimit := by
    have h := hov
    simp only [RCOVERFLOW, decide_eq_false_iff_not, not_lt] at h
    exact h
  have hempty : rc1.items = [] := by
    rw [i1] at hj
    cases j with
    | zero => simpa using hj
    | succ j1 =>
        exfalso
        obtain ⟨hl, _, hb⟩ := hok1
        simp only [List.take_succ_cons] at hj
        simp only [htItemsBytes, hj, hl, List.map_cons, List.sum_cons] at hb
        have hi : htItemBytes true ({ cdb_ht_newitem key.length val.length key val with
            hash := MurmurHash1 (cdb_ht_newitem key.length val.length key val).key }
              : CDBHTITEM Bytes Bytes)
            = SIZEOF_CDBHTITEM + key.length + val.length + 2 * SIZEOF_PTR := rfl
        rw [hi] at hb
        omega
  rw [hs, c1]
  refine ⟨_, rfl, ?_, rfl⟩
  refine cdb_get_mem_miss crc _ key now2 sbuf2 rc1 hvio rfl ?_
  simp [rcFind, cacheItems, hempty, htUnlink]


/-! ## Set followed by get -/

theorem some_pair_of_fst {α : Type} (o : Option (Int × α)) (r : Int) (d : α)
    (h : o.map (·.1) = some r) : o = some (r, (o.map (·.2)).getD d) := by
  cases o with
  | none => simp at h
  | some a =>
      obtain ⟨a1, a2⟩ := a
      simp only [Option.map_some', Option.some.injEq] at h
      subst h
      rfl

theorem DataOK_of_all (db : CDB)
    (h : ∀ vio, db.vio = some vio → vio.recs.all (fun e => OFFNOTNULL e.1) = true) :
    DataOK db := by
  intro vio hv e he
  exact List.all_eq_true.mp (h vio hv) e he

theorem BloomSound_of_nobf (db : CDB) (hash : Nat) (h : db.bf = none) : BloomSound db hash := by
  intro hm
  simp [bloomMiss, h] at hm

/-- `cdb_set2` in disk mode, when it returns 0, keeps the index invariant. -/
theorem set2_disk_inv (crc : Bytes → Nat) (s : CDB) (key val : Bytes) (opt : Nat) (e : Int)
    (now : Nat) (sbuf : CDBPAGE) (s1 : CDB) (hinv : PageInv s) (hdata : DataOK s)
    (hbs : BloomSound s (crc key))
    (h : cdb_set2 crc s key val opt e now sbuf = some (0, s1)) : PageInv s1 := by
  obtain ⟨db5, rec3, d, f1, f2, f3, _⟩ := set2_disk crc s key val opt e now sbuf s1 hinv hdata hbs h
  obtain ⟨_, _, g3, _⟩ := checkRecOverflow_frame _ d f1
  have g1 : d = { db5 with rcache := d.rcache } := by
    rw [g3]
    simp only [setFill]
    split
    · split <;> rfl
    · rfl
  have e1 : s1.hsize = db5.hsize := by
    rw [f2]
    have h := congrArg CDB.hsize g1
    exact h
  have e2 : s1.bf = db5.bf := by
    rw [f2]
    have h := congrArg CDB.bf g1
    exact h
  have e3 : s1.pcache = db5.pcache := by
    rw [f2]
    have h := congrArg CDB.pcache g1
    exact h
  have e4 : s1.dpcache = db5.dpcache := by
    rw [f2]
    have h := congrArg CDB.dpcache g1
    exact h
  have e5 : s1.mtable = db5.mtable := by
    rw [f2]
    have h := congrArg CDB.mtable g1
    exact h
  have e6 : s1.vio = db5.vio := by
    rw [f2]
    have h := congrArg CDB.vio g1
    exact h
  exact (index_congr db5 s1 e1 e2 e3 e4 e5 e6).2.2.2.2.2.1 f3

set_option maxRecDepth 100000 in
/-- Set then get in memory mode, without room in the record cache: on a
freshly opened memory database with a record cache of 1 MiB, `cdb_set2(k, v)` with a value `v` of 1 MiB
returns 0, `_cdb_recout` empties the record cache, and the `cdb_get(k)` that
follows returns -3. -/
theorem set_then_get_memdb_value_evicted :
    ∃ s1, cdb_set2 runCrc freshMemDB [107] bigVal CDB_OVERWRITE 0 100 runSbuf = some (0, s1)
      ∧ (cdb_get runCrc s1 [107] 100 runSbuf).map (fun r => (r.1, r.2.1, r.2.2.1))
          = some (-3, none, 0) := by
  obtain ⟨s1, h1, h2, _⟩ := set_mem_evicts runCrc freshMemDB [107] bigVal CDB_OVERWRITE 0 100
    runSbuf 100 runSbuf (cdb_ht_new true) rfl rfl HtOK_new (by decide)
    (by
      rw [show bigVal.length = 1048576 from List.length_replicate _ _]
      decide)
  exact ⟨s1, h1, h2⟩

/-- Set then get, where it holds: let `cdb_set2(k, v, opt, e)` return 0 on a
database whose record cache keeps its books.  In memory mode, if the record cache has room
for the new item, the following `cdb_get(k)` returns 0 with the bytes of `v`
and `vsize = |v|`.  In disk mode the same holds at a time before the stored
expire time (or when that is 0), if the index invariant holds, no record lies
at the null offset, the bloom filter rejects the key hash neither before
(unless the bucket has no item for it) nor after the set, the caches of the
state after the set leave room under their limits, and the record cache
either had no item for `k` or `opt` has `CDB_INSERTCACHE` and the cache has
room for the new item. -/
theorem set_then_get (crc : Bytes → Nat) (s : CDB) (key val : Bytes) (opt : Nat) (e : Int)
    (now : Nat) (sbuf : CDBPAGE) (s1 : CDB) (now2 : Nat) (sbuf2 : CDBPAGE)
    (hset : cdb_set2 crc s key val opt e now sbuf = some (0, s1)) (hok : RcOK s)
    (hmode : (s.vio = none ∧ RcRoom s key.length val.length)
      ∨ (PageInv s ∧ DataOK s ∧ BloomSound s (crc key)
          ∧ (rcFind s key = none
              ∨ (Nat.land opt CDB_INSERTCACHE = CDB_INSERTCACHE
                  ∧ RcRoom s key.length (val.length + SI4 + SFOFF)))
          ∧ bloomMiss s1 (crc key) = false ∧ PFit s1 ∧ RFit s1
          ∧ (expireAt now e = 0 ∨ now2 < expireAt now e))) :
    (cdb_get crc s1 key now2 sbuf2).map (fun r => (r.1, r.2.1, r.2.2.1))
      = some (0, some val, val.length) := by
  rcases hmode with ⟨hv, hroom⟩ | ⟨hinv, hdata, hbs, hH, hbm, hpf, hrf, hexp⟩
  · exact (set_get_mem crc s key val opt e now sbuf s1 now2 sbuf2 hset hv hok hroom).1
  · exact (set_get_disk crc s key val opt e now sbuf s1 now2 sbuf2 hset hok hinv hdata hbs hH
      hbm hpf hrf hexp).1

theorem RcOK_freshDB : RcOK freshDB := by
  intro rc h
  rw [← Option.some.inj h]
  exact HtOK_new

theorem DataOK_freshDB : DataOK freshDB := by
  intro vio hv e he
  rw [← Option.some.inj hv] at he
  simp [vioNew] at he

set_option maxRecDepth 100000 in
theorem PFit_run2 : PFit (dbAfter run2Set1) := by
  intro pc dpc hp hd
  rw [← Option.some.inj hp, ← Option.some.inj hd]
  decide

set_option maxRecDepth 100000 in
theorem RFit_run2 : RFit (dbAfter run2Set1) := by
  intro rc h
  rw [← Option.some.inj h]
  exact ⟨⟨by decide, by decide, by decide⟩, by decide⟩

set_option maxRecDepth 100000 in
/-- Set then get at work: `cdb_set2(k, [11], CDB_OVERWRITE, 0)` on a freshly
opened disk database returns 0 and the following `cdb_get(k)` returns 0 with
`[11]`. -/
theorem set_then_get_witness :
    cdb_set2 runCrc freshDB [107] [11] CDB_OVERWRITE 0 100 runSbuf
        = some (0, dbAfter run2Set1)
    ∧ (cdb_get runCrc (dbAfter run2Set1) [107] 100 runSbuf).map
        (fun r => (r.1, r.2.1, r.2.2.1)) = some (0, some [11], 1) :=
  ⟨some_pair_of_fst _ 0 freshDB (by decide),
    set_then_get runCrc freshDB [107] [11] CDB_OVERWRITE 0 100 runSbuf (dbAfter run2Set1) 100
      runSbuf (some_pair_of_fst _ 0 freshDB (by decide)) RcOK_freshDB
      (Or.inr ⟨PageInv_freshDB.1, DataOK_freshDB, BloomSound_of_nobf _ _ rfl, Or.inl (by decide),
        by decide, PFit_run2, RFit_run2, Or.inl (by decide)⟩)⟩


/-! ## Overwriting a record -/

set_option maxRecDepth 100000 in
/-- Overwriting in memory mode, without room in the record cache: key `k`
holds `[11]` in a memory database with a record cache of 1 MiB; `cdb_set2(k, v2)` with a value `v2` of
1 MiB returns 0, `_cdb_recout` empties the record cache, and the `cdb_get(k)`
that follows returns -3 instead of `v2`. -/
theorem overwrite_memdb_value_evicted :
    run6Set1 = some (0, memAfter run6Set1)
    ∧ (cdb_get runCrc (memAfter run6Set1) [107] 100 runSbuf).map
        (fun r => (r.1, r.2.1, r.2.2.1)) = some (0, some [11], 1)
    ∧ ∃ s1, cdb_set2 runCrc (memAfter run6Set1) [107] bigVal CDB_OVERWRITE 0 100 runSbuf
          = some (0, s1)
        ∧ (cdb_get runCrc s1 [107] 100 runSbuf).map (fun r => (r.1, r.2.1, r.2.2.1))
            = some (-3, none, 0) := by
  refine ⟨some_pair_of_fst _ 0 freshMemDB (by decide), by decide, ?_⟩
  obtain ⟨s1, h1, h2, _⟩ := set_mem_evicts runCrc (memAfter run6Set1) [107] bigVal
    CDB_OVERWRITE 0 100 runSbuf 100 runSbuf
    ((memAfter run6Set1).rcache.getD (cdb_ht_new true)) (by decide)
    (some_getD_of_isSome _ _ (by decide)) ⟨by decide, by decide, by decide⟩ (by decide)
    (by
      rw [show bigVal.length = 1048576 from List.length_replicate _ _]
      decide)
  exact ⟨s1, h1, h2⟩

/-- Overwriting, where it holds: let `cdb_set2(k, v2, opt, e)` return 0 on a
database whose record cache keeps its books.  In memory mode, if the record cache has room
for the new item, the following `cdb_get(k)` returns 0 with the bytes of
`v2`, and `rnum` is unchanged.  In disk mode, if the index leads to a record
for `k`, the same holds at a time before the stored expire time (or when that
is 0), provided the index invariant holds, no record lies at the null offset,
the bloom filter rejects the key hash neither before (unless the bucket has
no item for it) nor after the set, the caches of the state after the set
leave room under their limits, and the record cache either had no item for
`k` or `opt` has `CDB_INSERTCACHE` and the cache has room for the new
item. -/
theorem overwrite_then_get (crc : Bytes → Nat) (s : CDB) (key val : Bytes) (opt : Nat)
    (e : Int) (now : Nat) (sbuf : CDBPAGE) (s1 : CDB) (now2 : Nat) (sbuf2 : CDBPAGE)
    (hset : cdb_set2 crc s key val opt e now sbuf = some (0, s1)) (hok : RcOK s)
    (hmode : (s.vio = none ∧ RcRoom s key.length val.length)
      ∨ (PageInv s ∧ DataOK s ∧ BloomSound s (crc key)
          ∧ (indexedRec crc s key).isSome = true
          ∧ (rcFind s key = none
              ∨ (Nat.land opt CDB_INSERTCACHE = CDB_INSERTCACHE
                  ∧ RcRoom s key.length (val.length + SI4 + SFOFF)))
          ∧ bloomMiss s1 (crc key) = false ∧ PFit s1 ∧ RFit s1
          ∧ (expireAt now e = 0 ∨ now2 < expireAt now e))) :
    (cdb_get crc s1 key now2 sbuf2).map (fun r => (r.1, r.2.1, r.2.2.1))
        = some (0, some val, val.length)
      ∧ s1.rnum = s.rnum := by
  rcases hmode with ⟨hv, hroom⟩ | ⟨hinv, hdata, hbs, hi, hH, hbm, hpf, hrf, hexp⟩
  · exact set_get_mem crc s key val opt e now sbuf s1 now2 sbuf2 hset hv hok hroom
  · obtain ⟨h1, h2⟩ := set_get_disk crc s key val opt e now sbuf s1 now2 sbuf2 hset hok hinv
      hdata hbs hH hbm hpf hrf hexp
    exact ⟨h1, h2 hi⟩

set_option maxRecDepth 100000 in
theorem run2_eq : cdb_set2 runCrc freshDB [107] [11] CDB_OVERWRITE 0 100 runSbuf
    = some (0, dbAfter run2Set1) :=
  some_pair_of_fst _ 0 freshDB (by decide)

theorem PageInv_run2 : PageInv (dbAfter run2Set1) :=
  set2_disk_inv runCrc freshDB [107] [11] CDB_OVERWRITE 0 100 runSbuf _ PageInv_freshDB.1
    DataOK_freshDB (BloomSound_of_nobf _ _ rfl) run2_eq

set_option maxRecDepth 100000 in
theorem DataOK_run2 : DataOK (dbAfter run2Set1) := by
  refine DataOK_of_all _ ?_
  intro vio hv
  rw [← Option.some.inj hv]
  decide

set_option maxRecDepth 100000 in
theorem PFit_run7 : PFit (dbAfter run7Set2) := by
  intro pc dpc hp hd
  rw [← Option.some.inj hp, ← Option.some.inj hd]
  decide

set_option maxRecDepth 100000 in
theorem RFit_run7 : RFit (dbAfter run7Set2) := by
  intro rc h
  rw [← Option.some.inj h]
  exact ⟨⟨by decide, by decide, by decide⟩, by decide⟩

set_option maxRecDepth 100000 in
/-- Overwriting at work: key `k` has the record `[11]` on disk and no item
in the record cache; `cdb_set2(k, [22], CDB_OVERWRITE, 0)` returns 0, the
following `cdb_get(k)` returns 0 with `[22]`, and `rnum` stays 1. -/
theorem overwrite_then_get_witness :
    (indexedRec runCrc (dbAfter run2Set1) [107]).map (·.val) = some [11]
    ∧ run7Set2 = some (0, dbAfter run7Set2)
    ∧ (cdb_get runCrc (dbAfter run7Set2) [107] 100 runSbuf).map
        (fun r => (r.1, r.2.1, r.2.2.1)) = some (0, some [22], 1)
    ∧ (dbAfter run7Set2).rnum = 1 ∧ (dbAfter run2Set1).rnum = 1 :=
  have h := overwrite_then_get runCrc (dbAfter run2Set1) [107] [22] CDB_OVERWRITE 0 100 runSbuf
    (dbAfter run7Set2) 100 runSbuf (some_pair_of_fst _ 0 freshDB (by decide))
    (fun rc hrc => (RFit_run2 rc hrc).1)
    (Or.inr ⟨PageInv_run2, DataOK_run2, BloomSound_of_nobf _ _ rfl, by decide,
      Or.inl (by decide), by decide, PFit_run7, RFit_run7, Or.inl (by decide)⟩)
  ⟨by decide, some_pair_of_fst _ 0 freshDB (by decide), h.1, h.2.trans (by decide), by decide⟩


/-! ## The option functions -/

/-- C15: for all `bnum`, `rcacheMB` and `pcacheMB`, `cdb_option` returns 0 and
sets `hsize` to the larger of `bnum` and 4096; a negative `rcacheMB` or
`pcacheMB` leaves the limit of that cache as it was, a non-negative one sets
it to that many MiB; no other field of the database changes. -/
theorem cdb_option_clamps_hsize (db : CDB) (bnum rcacheMB pcacheMB : Int) :
    (cdb_option db bnum rcacheMB pcacheMB).1 = 0
    ∧ ((cdb_option db bnum rcacheMB pcacheMB).2.hsize : Int) = max bnum 4096
    ∧ (cdb_option db bnum rcacheMB pcacheMB).2.rclimit
        = (if rcacheMB < 0 then db.rclimit else rcacheMB.toNat * 1048576)
    ∧ (cdb_option db bnum rcacheMB pcacheMB).2.pclimit
        = (if pcacheMB < 0 then db.pclimit else pcacheMB.toNat * 1048576)
    ∧ (cdb_option db bnum rcacheMB pcacheMB).2
        = { db with hsize := (cdb_option db bnum rcacheMB pcacheMB).2.hsize
                    rclimit := (cdb_option db bnum rcacheMB pcacheMB).2.rclimit
                    pclimit := (cdb_option db bnum rcacheMB pcacheMB).2.pclimit } := by
  refine ⟨rfl, ?_, ?_, ?_, ?_⟩
  · by_cases h : bnum > 4096
    · simp only [cdb_option]
      split <;> split <;> simp [h] <;> omega
    · simp only [cdb_option]
      split <;> split <;> simp [h] <;> omega
  · by_cases h : rcacheMB ≥ 0
    · have h2 : ¬ rcacheMB < 0 := by omega
      simp only [cdb_option, h, h2, ↓reduceIte, MB]
      split <;> rfl
    · have h2 : rcacheMB < 0 := by omega
      simp only [cdb_option, h, h2, ↓reduceIte]
      split <;> rfl
  · by_cases h : pcacheMB ≥ 0
    · have h2 : ¬ pcacheMB < 0 := by omega
      simp only [cdb_option, h, h2, ↓reduceIte, MB]
    · have h2 : pcacheMB < 0 := by omega
      simp only [cdb_option, h, h2, ↓reduceIte]
      split <;> rfl
  · simp only [cdb_option]
    split <;> split <;> rfl

/-- C16: for every `size`, `cdb_option_areadsize` sets `areadsize` to `size`
clamped into the interval from 1024 to
`65536 - (sizeof(CDBREC) - RECHSIZE) = 65510`: to 1024 when `size` is
smaller, to 65510 when it is larger, and to `size` itself otherwise; no other
field of the database changes. -/
theorem cdb_option_areadsize_clamps (db : CDB) (size : Nat) :
    (cdb_option_areadsize db size).areadsize
        = max 1024 (min size (65536 - (SIZEOF_CDBREC - RECHSIZE)))
    ∧ 65536 - (SIZEOF_CDBREC - RECHSIZE) = 65510
    ∧ (cdb_option_areadsize db size).areadsize
        = (if size < 1024 then 1024 else if size > 65510 then 65510 else size)
    ∧ cdb_option_areadsize db size
        = { db with areadsize := (cdb_option_areadsize db size).areadsize } := by
  have hv : (cdb_option_areadsize db size).areadsize
      = if size < 1024 then 1024 else if size > 65510 then 65510 else size := by
    simp only [cdb_option_areadsize, KB, SBUFSIZE, SIZEOF_CDBREC, RECHSIZE]
    by_cases h1 : size < 1024
    · simp [h1]
    · by_cases h2 : size > 65510
      · simp [h1, h2]
      · simp [h1, h2]
  refine ⟨?_, by decide, hv, ?_⟩
  · rw [hv]
    simp only [SIZEOF_CDBREC, RECHSIZE]
    split
    · omega
    · split <;> omega
  · simp only [cdb_option_areadsize]
    split <;> split <;> rfl


/-! ## The bloom filter -/

theorem bfAllOn_of_bits (bf : CDBBLOOMFILTER) (key : Bytes) (hpos : 0 ≤ bf.hnum)
    (h : ∀ i, i < bf.hnum.toNat → bfBit bf key i ∈ bf.bits) : bfAllOn bf key = true := by
  have hall : ∀ i ∈ List.range bf.hnum.toNat,
      (fun i => decide (bfBit bf key i ∈ bf.bits)) i = true := by
    intro i hi
    simp only [decide_eq_true_eq]
    exact h i (List.mem_range.mp hi)
  simp only [bfAllOn, List.takeWhile_eq_self_iff.mpr hall, List.length_range,
    decide_eq_true_eq]
  exact Int.toNat_of_nonneg hpos

theorem bfBit_setBits (bf : CDBBLOOMFILTER) (k key : Bytes) (i : Nat) :
    bfBit (bfSetBits bf k) key i = bfBit bf key i := rfl

/-- A filter with a positive number of hashes and at least 64 bytes has no
false negatives: the `cdb_bf_set` calls for a list of keys all return, and
afterwards `cdb_bf_exist` returns true for each of these keys and for every
key whose bits were on before. -/
theorem bf_no_false_negative : ∀ (keys : List Bytes) (bf0 : CDBBLOOMFILTER),
    0 < bf0.hnum → 64 ≤ bf0.size →
    ∃ bf, bfSetKeys bf0 keys = some bf ∧ bf.hnum = bf0.hnum ∧ bf.size = bf0.size
      ∧ (∀ b ∈ bf0.bits, b ∈ bf.bits)
      ∧ ∀ k ∈ keys, cdb_bf_exist bf k = some true
  | [], bf0, _, _ => ⟨bf0, rfl, rfl, rfl, fun _ h => h, fun _ h => by cases h⟩
  | k :: ks, bf0, hpos, hsz => by
      have hdiv : ((bf0.size / 64) * 8 == 0) = false := by
        have : 1 ≤ bf0.size / 64 := (Nat.le_div_iff_mul_le (by decide)).mpr (by omega)
        simp only [beq_eq_false_iff_ne, ne_eq]
        omega
      have ht : bfTraps bf0 = false := by simp only [bfTraps, hdiv, Bool.and_false]
      obtain ⟨bf, h1, h2, h3, h4, h5⟩ :=
        bf_no_false_negative ks (bfSetBits bf0 k) hpos hsz
      replace h2 : bf.hnum = bf0.hnum := h2
      replace h3 : bf.size = bf0.size := h3
      replace h4 : ∀ b ∈ (List.range bf0.hnum.toNat).map (bfBit bf0 k) ++ bf0.bits,
          b ∈ bf.bits := h4
      refine ⟨bf, ?_, h2, h3, ?_, ?_⟩
      · simp only [bfSetKeys, cdb_bf_set, ht, Bool.false_eq_true, ↓reduceIte]
        exact h1
      · intro b hb
        exact h4 b (List.mem_append_right _ hb)
      · intro k2 hk2
        rcases List.mem_cons.mp hk2 with e | hin
        · subst e
          have htb : bfTraps bf = false := by
            have : bfTraps bf = bfTraps bf0 := by simp only [bfTraps, h2, h3]
            rw [this]; exact ht
          simp only [cdb_bf_exist, htb, Bool.false_eq_true, ↓reduceIte, Option.some.injEq]
          apply bfAllOn_of_bits bf k2 (by rw [h2]; omega)
          intro i hi
          rw [h2] at hi
          apply h4
          have e1 : bfBit bf k2 i = bfBit bf0 k2 i := by simp only [bfBit, h3]
          rw [e1]
          exact List.mem_append_left _ (List.mem_map.mpr ⟨i, List.mem_range.mpr hi, rfl⟩)
        · exact h5 k2 hin

/-- C14, evaluated: `cdb_bf_new(1, 383479223)` computes the quotient
`383479223 * 56 / 10 = 2^31`, which becomes the `int` `hnum = -2^31`; no
clamp applies, `cdb_bf_set` sets no bit and `cdb_bf_exist` compares its count
0 with `hnum`: it returns false for the key that was just set. -/
theorem bf_exist_misses_set_key :
    (cdb_bf_new 1 383479223).map (·.hnum) = some (-2147483648)
    ∧ ((cdb_bf_new 1 383479223).bind fun bf =>
        (cdb_bf_set bf [1, 2, 3, 4]).bind fun bf1 => cdb_bf_exist bf1 [1, 2, 3, 4])
        = some false := by
  decide


set_option maxRecDepth 100000 in
/-- C17, evaluated: with `hsize = 4096` and the key hash `256 * 2^24 + 1`
(bucket 256), `cdb_updatepage` sets the bloom filter under the key
`2^32 + 1`, while `cdb_getoff` probes it under the key 1, because it shifts
the 32-bit `bid` by 24 bits.  After `cdb_set2(k, [11])` has returned 0 on a
database with the bloom filter enabled, `cdb_getoff` returns 0 offsets for
the hash of `k` although the page of bucket 256 holds its item, and `cdb_get(k)`
returns -3. -/
theorem bloom_key_of_getoff_differs :
    bfkeyUpdate 4096 4294967297 = 4294967297
    ∧ bfkeyGetoff (bucketOf bloomDB 4294967297) 4294967297 = 1
    ∧ run9Set.map (·.1) = some 0
    ∧ (curView (bloomAfter run9Set) 256).map (fun v => v.2.map (·.hash))
        = some [mkPHASH 4294967297]
    ∧ (cdb_getoff (bloomAfter run9Set) 4294967297 runSbuf).map (fun r => (r.1, r.2.1))
        = some (0, [])
    ∧ run9Get.map (fun r => (r.1, r.2.1)) = some (-3, none) := by
  decide


set_option maxRecDepth 100000 in
/-- C18, evaluated: the page of bucket 3 holds one item, and it does not
have the offset `natFOFF 999`; `cdb_replaceoff` for that old offset replaces
nothing, leaves the page as it was and returns 0. -/
theorem replaceoff_returns_zero_on_miss :
    (curView (dbAfter run2Set1) 3).map
        (fun v => (v.1, v.2.any (itemIs (mkPHASH 50332161) (natFOFF 999)))) = some (1, false)
    ∧ run8Replace.map (·.1) = some 0
    ∧ curView (dbAfter run8Replace) 3 = curView (dbAfter run2Set1) 3 := by
  decide


/-- An insertion of an item that the page holds, when `cdb_updatepage`
returns: the page, every other page and the record count stay as they were
and the return value is -1. -/
theorem updatepage_insert_present (db : CDB) (hash : Nat) (off : FOFF) (now : Nat)
    (sbuf : CDBPAGE) (r : Int × CDB) (v : Nat × List PITEM) (hinv : PageInv db)
    (hv : curView db (bucketOf db hash) = some v)
    (hin : v.2.any (itemIs (mkPHASH hash) off) = true)
    (h : cdb_updatepage db hash off CDB_PAGEINSERTOFF now sbuf = some r) :
    r.1 = -1 ∧ (∀ b, curView r.2 b = curView db b) ∧ r.2.rnum = db.rnum ∧ PageInv r.2 := by
  obtain ⟨v1, h1, _, h3, h4, h5, h6, _, _, h9⟩ :=
    cdb_updatepage_spec db hash off CDB_PAGEINSERTOFF now sbuf r hinv h
  rw [hv] at h1
  cases Option.some.inj h1
  have hch : updChanges (mkPHASH hash) off CDB_PAGEINSERTOFF v = false := by
    simp [updChanges, hin, CDB_PAGEINSERTOFF, CDB_PAGEDELETEOFF]
  refine ⟨by rw [h9, hch]; rfl, ?_, by rw [h6, updRnum, hch]; rfl, h3⟩
  intro b
  by_cases hb : b = bucketOf db hash
  · rw [hb, h4, updView, hch, hv]
    rfl
  · exact h5 b hb

set_option maxRecDepth 100000 in
/-- C19, evaluated: the page of bucket 3 holds the item `(hash of k, offset
number 4)`; after `cdb_flushalldpage` it lies on disk only, both page caches
are enabled and empty.  `cdb_updatepage` with `CDB_PAGEINSERTOFF` for that same
item does not return -1: it does not return at all (`none`), because the
branch "nothing done" puts the new cache item back with `tmpcache` and
`tmpclock`, which are NULL for a page read from disk.  The insertion of an
item with another offset returns 0. -/
theorem updatepage_duplicate_insert_fails :
    run2Set1.map (·.1) = some 0
    ∧ run10Flush.map (fun d => (cacheItems d.pcache).length + (cacheItems d.dpcache).length)
        = some 0
    ∧ run10Flush.map (fun d => d.pcache.isSome && d.dpcache.isSome) = some true
    ∧ run10Flush.map (fun d => curView d 3)
        = some (some (1, [{ off := natFOFF 4, hash := mkPHASH 50332161 }]))
    ∧ (run10Flush.bind fun d =>
        cdb_updatepage d 50332161 (natFOFF 5) CDB_PAGEINSERTOFF 100 runSbuf).map (·.1) = some 0
    ∧ run10Insert.isNone = true := by
  decide


/-! ## The result array of `cdb_getoff` -/

theorem getoffFill_spec (phash : PHASH) (num : Nat) : ∀ (its : List PITEM) (i : Nat)
    (arr : OffArr),
    ((arr.elems.length < SFOFFNUM ∧ arr.cap = SFOFFNUM)
      ∨ (SFOFFNUM ≤ arr.elems.length ∧ arr.elems.length + (num - i) + 1 ≤ arr.cap)) →
    ∃ arr1, getoffFill phash num i its arr = some arr1
      ∧ arr1.elems = arr.elems ++ getoffLoop phash (num - i) its
      ∧ arr1.elems.length < arr1.cap
  | [], i, arr, hinv => by
      refine ⟨arr, rfl, ?_, ?_⟩
      · cases h : num - i <;> simp [getoffLoop]
      · rcases hinv with ⟨h1, h2⟩ | ⟨h1, h2⟩ <;> omega
  | it :: rest, i, arr, hinv => by
      by_cases hi : i < num
      · obtain ⟨m, hm⟩ : ∃ m, num - i = m + 1 := ⟨num - i - 1, by omega⟩
        have hm2 : num - (i + 1) = m := by omega
        by_cases hp : PHASHEQ it.hash phash = true
        · have hroom : arr.elems.length < arr.cap := by
            rcases hinv with ⟨h1, h2⟩ | ⟨h1, h2⟩ <;> omega
          by_cases h8 : (arr.elems ++ [it.off]).length = SFOFFNUM
          · have hlen : arr.elems.length + 1 = SFOFFNUM := by
              simpa [List.length_append] using h8
            obtain ⟨arr1, a1, a2, a3⟩ := getoffFill_spec phash num rest (i + 1)
              { cap := num - i + SFOFFNUM + 1, elems := (arr.elems ++ [it.off]).take SFOFFNUM }
              (Or.inr (by
                simp only [List.length_take, List.length_append, List.length_singleton]
                constructor <;> omega))
            refine ⟨arr1, ?_, ?_, a3⟩
            · simp only [getoffFill, hi, ↓reduceIte, hp, hroom, h8, beq_self_eq_true]
              exact a1
            · rw [a2, hm, hm2]
              simp only [getoffLoop, hp, ↓reduceIte]
              rw [List.take_of_length_le (by rw [h8])]
              simp
          · have hb : ((arr.elems ++ [it.off]).length == SFOFFNUM) = false := by
              simpa using h8
            obtain ⟨arr1, a1, a2, a3⟩ := getoffFill_spec phash num rest (i + 1)
              { arr with elems := arr.elems ++ [it.off] }
              (by
                simp only [List.length_append, List.length_singleton] at h8 ⊢
                rcases hinv with ⟨h1, h2⟩ | ⟨h1, h2⟩
                · left; constructor <;> omega
                · right; constructor <;> omega)
            refine ⟨arr1, ?_, ?_, a3⟩
            · simp only [getoffFill, hi, ↓reduceIte, hp, hroom, hb, Bool.false_eq_true]
              exact a1
            · rw [a2, hm, hm2]
              simp only [getoffLoop, hp, ↓reduceIte, List.append_assoc, List.singleton_append]
        · obtain ⟨arr1, a1, a2, a3⟩ := getoffFill_spec phash num rest (i + 1) arr
            (by
              rcases hinv with ⟨h1, h2⟩ | ⟨h1, h2⟩
              · left; exact ⟨h1, h2⟩
              · right; constructor <;> omega)
          refine ⟨arr1, ?_, ?_, a3⟩
          · simp only [getoffFill, hi, ↓reduceIte, hp, Bool.false_eq_true]
            exact a1
          · rw [a2, hm, hm2]
            simp only [getoffLoop, hp, Bool.false_eq_true, ↓reduceIte]
      · have h0 : num - i = 0 := by omega
        refine ⟨arr, ?_, ?_, ?_⟩
        · simp only [getoffFill, hi, ↓reduceIte]
        · rw [h0]; simp [getoffLoop]
        · rcases hinv with ⟨h1, h2⟩ | ⟨h1, h2⟩ <;> omega

theorem view_take (p : CDBPAGE) : p.view.2.take p.view.1 = p.view.2 := by
  simp [CDBPAGE.view, List.take_take]

theorem curView_take (db : CDB) (b : Nat) (v : Nat × List PITEM) (h : curView db b = some v) :
    v.2.take v.1 = v.2 := by
  simp only [curView] at h
  split at h
  · cases Option.some.inj h; exact view_take _
  · split at h
    · cases Option.some.inj h; exact view_take _
    · simp only [diskView] at h
      split at h
      · split at h
        · cases hr : _vio_apnd2_readpage _ _ with
          | none => rw [hr] at h; simp at h
          | some p =>
              rw [hr] at h
              simp only [Option.map_some', Option.some.injEq] at h
              rw [← h]; exact view_take _
        · cases Option.some.inj h; rfl
      · cases h

/-- The comparison `PHASHEQ` with the packed hash of a key hash tells whether
the packed hash of the item holds the low 24 bits of the key hash. -/
theorem PHASHEQ_holdsLow24 (hash : Nat) (h : PHASH) :
    PHASHEQ h (mkPHASH hash) = holdsLow24 hash h := by
  rw [Bool.eq_iff_iff]
  simp only [PHASHEQ, mkPHASH, holdsLow24, Bool.and_eq_true, beq_iff_eq, decide_eq_true_eq]
  omega

/-- C20: on a database that satisfies the index invariant and whose page
caches leave room under their limit, for a key hash that passes the bloom
probe, `cdb_getoff` returns `n` and the offsets of the items of the page of
bucket `(hash >> 24) mod hsize` whose packed hash holds the low 24 bits of
`hash`, in page order, `n` being their number (0 for a page without such an
item, in particular for an empty bucket).  The array that the loop fills,
first the caller's `SFOFFNUM = 8` entries and from the eighth match on the
heap array, is never written outside its bounds and ends up holding exactly
these offsets; the index shows the same pages afterwards. -/
theorem cdb_getoff_result (db : CDB) (hash : Nat) (sbuf : CDBPAGE) (hinv : PageInv db)
    (hfit : PFit db) (hbm : bloomMiss db hash = false) :
    ∃ r v arr, cdb_getoff db hash sbuf = some r
      ∧ curView db ((hash / 16777216) % db.hsize) = some v
      ∧ r.2.1 = (v.2.filter fun it => holdsLow24 hash it.hash).map (·.off)
      ∧ r.1 = (r.2.1.length : Int)
      ∧ getoffFill (mkPHASH hash) v.1 0 v.2 { cap := SFOFFNUM, elems := [] } = some arr
      ∧ arr.elems = r.2.1 ∧ arr.elems.length < arr.cap
      ∧ (∀ b, curView r.2.2 b = curView db b) ∧ PageInv r.2.2 := by
  obtain ⟨r, hr⟩ := cdb_getoff_returns db hash sbuf hinv hfit
  obtain ⟨c1, c2, _, c4, c5⟩ := cdb_getoff_spec db hash sbuf r hinv hr
  obtain ⟨v, hv⟩ := curView_some db hinv (bucketOf db hash)
  have hoffs : r.2.1 = candOffs (mkPHASH hash) v.2 := by
    simp only [getoffSpec, hbm, Bool.false_eq_true, ↓reduceIte, hv, Option.map_some',
      Option.some.injEq] at c4
    exact c4.symm
  have hspec : candOffs (mkPHASH hash) v.2
      = (v.2.filter fun it => holdsLow24 hash it.hash).map (·.off) := by
    simp only [candOffs, PHASHEQ_holdsLow24]
  obtain ⟨arr, a1, a2, a3⟩ := getoffFill_spec (mkPHASH hash) v.1 v.2 0
    { cap := SFOFFNUM, elems := [] } (Or.inl ⟨by decide, rfl⟩)
  refine ⟨r, v, arr, hr, hv, hoffs.trans hspec, c5, a1, ?_, a3, c2, c1⟩
  rw [a2, hoffs, getoffLoop_eq, Nat.sub_zero, curView_take db _ v hv]
  rfl

set_option maxRecDepth 100000 in
theorem getoffRun_eq : runCalls freshDB getoffRunCalls = some getoffRunDB :=
  some_getD_of_isSome _ _ (by decide)

theorem PageInv_getoffRun : PageInv getoffRunDB :=
  (runCalls_count getoffRunCalls freshDB getoffRunDB PageInv_freshDB.1
    (by
      rw [indexNumSum_empty freshDB (fun b _ => by simp only [pageNum, PageInv_freshDB.2 b])]
      decide)
    getoffRun_eq).1

set_option maxRecDepth 100000 in
theorem PFit_getoffRun : PFit getoffRunDB := by
  intro pc dpc hp hd
  rw [← Option.some.inj hp, ← Option.some.inj hd]
  decide

set_option maxRecDepth 100000 in
/-- C20 at work: the page of bucket 3 holds ten items, nine with the low 24
bits 513 and, second in the page, one with the low 24 bits 514.  For a key
hash with the low 24 bits 513 `cdb_getoff` returns 9 and the nine offsets in
page order, without the offset of the other item; for a key hash with the
low 24 bits 514 it returns 1 and that offset. -/
theorem cdb_getoff_result_witness :
    (PageInv getoffRunDB ∧ PFit getoffRunDB ∧ bloomMiss getoffRunDB 50332161 = false)
    ∧ (curView getoffRunDB 3).map (fun v => v.2.map fun it => (it.hash.i2 * 256 + it.hash.i1,
          it.off))
        = some [(513, natFOFF 4), (514, natFOFF 6), (513, natFOFF 8), (513, natFOFF 10),
            (513, natFOFF 12), (513, natFOFF 14), (513, natFOFF 16), (513, natFOFF 18),
            (513, natFOFF 20), (513, natFOFF 22)]
    ∧ (cdb_getoff getoffRunDB 50332161 runSbuf).map (fun r => (r.1, r.2.1))
        = some (9, [natFOFF 4, natFOFF 8, natFOFF 10, natFOFF 12, natFOFF 14, natFOFF 16,
            natFOFF 18, natFOFF 20, natFOFF 22])
    ∧ (cdb_getoff getoffRunDB 50332162 runSbuf).map (fun r => (r.1, r.2.1))
        = some (1, [natFOFF 6]) := by
  refine ⟨⟨PageInv_getoffRun, PFit_getoffRun, by decide⟩, by decide, ?_, by decide⟩
  obtain ⟨r, v, arr, h1, h2, h3, h4, _⟩ :=
    cdb_getoff_result getoffRunDB 50332161 runSbuf PageInv_getoffRun PFit_getoffRun (by decide)
  have hv : curView getoffRunDB ((50332161 / 16777216) % getoffRunDB.hsize)
      = curView getoffRunDB 3 := by decide
  rw [hv] at h2
  rw [h1]
  simp only [Option.map_some', Option.some.injEq, Prod.mk.injEq]
  rw [h4, h3]
  have hl : (v.2.filter fun it => holdsLow24 50332161 it.hash).map (·.off)
      = [natFOFF 4, natFOFF 8, natFOFF 10, natFOFF 12, natFOFF 14, natFOFF 16,
          natFOFF 18, natFOFF 20, natFOFF 22] := by
    have e : some v = curView getoffRunDB 3 := h2.symm
    have : ((curView getoffRunDB 3).map fun w =>
        (w.2.filter fun it => holdsLow24 50332161 it.hash).map (·.off))
        = some [natFOFF 4, natFOFF 8, natFOFF 10, natFOFF 12, natFOFF 14, natFOFF 16,
          natFOFF 18, natFOFF 20, natFOFF 22] := by decide
    rw [← e] at this
    exact Option.some.inj this
  rw [hl]
  exact ⟨by decide, rfl⟩


/-! ## The table with its chains: lists of lists -/

theorem flatten_set_perm {α : Type} : ∀ (l : List (List α)) (i : Nat) (x : List α),
    l[i]? = some x →
    ∃ rest, List.Perm l.flatten (x ++ rest)
      ∧ (∀ y, List.Perm (l.set i y).flatten (y ++ rest))
      ∧ (∀ a, a ∈ rest ↔ ∃ j c, j ≠ i ∧ l[j]? = some c ∧ a ∈ c)
  | [], i, x, h => by simp at h
  | a :: l, 0, x, h => by
      simp only [List.getElem?_cons_zero, Option.some.injEq] at h
      subst h
      refine ⟨l.flatten, by simp, fun y => by simp, ?_⟩
      intro b
      constructor
      · intro hb
        obtain ⟨c, hc, hbc⟩ := List.mem_flatten.mp hb
        obtain ⟨j, hj⟩ := List.getElem?_of_mem hc
        exact ⟨j + 1, c, by omega, by simpa using hj, hbc⟩
      · rintro ⟨j, c, hj, hc, hbc⟩
        cases j with
        | zero => exact absurd rfl hj
        | succ j1 =>
            simp only [List.getElem?_cons_succ] at hc
            exact List.mem_flatten.mpr ⟨c, List.getElem?_mem hc, hbc⟩
  | a :: l, i + 1, x, h => by
      simp only [List.getElem?_cons_succ] at h
      obtain ⟨rest, h1, h2, h3⟩ := flatten_set_perm l i x h
      refine ⟨a ++ rest, ?_, ?_, ?_⟩
      · simp only [List.flatten_cons]
        exact (List.Perm.append_left a h1).trans
          ((List.perm_append_comm_assoc a x rest))
      · intro y
        simp only [List.set_cons_succ, List.flatten_cons]
        exact (List.Perm.append_left a (h2 y)).trans (List.perm_append_comm_assoc a y rest)
      · intro b
        simp only [List.mem_append, h3]
        constructor
        · rintro (hb | ⟨j, c, hj, hc, hbc⟩)
          · exact ⟨0, a, by omega, List.getElem?_cons_zero, hb⟩
          · exact ⟨j + 1, c, by omega, by simpa using hc, hbc⟩
        · rintro ⟨j, c, hj, hc, hbc⟩
          cases j with
          | zero =>
              simp only [List.getElem?_cons_zero, Option.some.injEq] at hc
              subst hc
              exact Or.inl hbc
          | succ j1 =>
              simp only [List.getElem?_cons_succ] at hc
              exact Or.inr ⟨j1, c, by omega, hc, hbc⟩

theorem sum_map_set {α : Type} (f : α → Nat) : ∀ (l : List α) (i : Nat) (x : α),
    l[i]? = some x → ∀ y, ((l.set i y).map f).sum + f x = (l.map f).sum + f y
  | [], i, x, h => by simp at h
  | a :: l, 0, x, h => by
      simp only [List.getElem?_cons_zero, Option.some.injEq] at h
      subst h
      intro y
      simp only [List.set_cons_zero, List.map_cons, List.sum_cons]
      omega
  | a :: l, i + 1, x, h => by
      simp only [List.getElem?_cons_succ] at h
      intro y
      have ih := sum_map_set f l i x h y
      simp only [List.set_cons_succ, List.map_cons, List.sum_cons]
      omega

theorem getD_of_getElem? {α : Type} (l : List α) (i : Nat) (x d : α) (h : l[i]? = some x) :
    l.getD i d = x := by
  rw [List.getD_eq_getElem?_getD, h]
  rfl

theorem hid_lt (bnum hash : Nat) (h : 0 < bnum) : Chain.hid bnum hash < bnum := by
  have := @Nat.and_le_right (hash / CDBHTBNUM) (bnum - 1)
  simp only [Chain.hid]
  show Nat.land (hash / CDBHTBNUM) (bnum - 1) < bnum
  have h2 : Nat.land (hash / CDBHTBNUM) (bnum - 1) ≤ bnum - 1 := this
  omega


/-! ## The table with its chains: growth of a second-level array -/

theorem SlotsOK_set {K V : Type} (nb : Nat) (l : List (List (CDBHTITEM K V))) (j : Nat)
    (c : List (CDBHTITEM K V)) (h : Chain.SlotsOK nb l)
    (hc : ∀ it ∈ c, Chain.hid nb it.hash = j) : Chain.SlotsOK nb (l.set j c) := by
  refine ⟨by rw [List.length_set]; exact h.1, ?_⟩
  intro j2 c2 h2 it hit
  rw [List.getElem?_set] at h2
  by_cases e : j = j2
  · subst e
    simp only [↓reduceIte] at h2
    split at h2
    · cases Option.some.inj h2; exact hc it hit
    · cases h2
  · simp only [e, ↓reduceIte] at h2
    exact h.2 j2 c2 h2 it hit

theorem rehashChain_spec {K V : Type} (nb : Nat) (hnb : 0 < nb) :
    ∀ (chain : List (CDBHTITEM K V)) (ilist : List (List (CDBHTITEM K V))),
      Chain.SlotsOK nb ilist →
      Chain.SlotsOK nb (Chain.rehashChain nb ilist chain)
      ∧ List.Perm (Chain.rehashChain nb ilist chain).flatten (chain ++ ilist.flatten)
  | [], ilist, h => ⟨h, by simp [Chain.rehashChain]⟩
  | cur :: rest, ilist, h => by
      have hlt : Chain.hid nb cur.hash < ilist.length := by rw [h.1]; exact hid_lt nb _ hnb
      obtain ⟨x, hx⟩ : ∃ x, ilist[Chain.hid nb cur.hash]? = some x :=
        ⟨ilist[Chain.hid nb cur.hash], List.getElem?_eq_getElem hlt⟩
      have hd : ilist.getD (Chain.hid nb cur.hash) [] = x := getD_of_getElem? _ _ _ _ hx
      obtain ⟨r, p1, p2, _⟩ := flatten_set_perm ilist _ x hx
      have hok : Chain.SlotsOK nb (ilist.set (Chain.hid nb cur.hash) (cur :: x)) := by
        apply SlotsOK_set nb ilist _ _ h
        intro it hit
        rcases List.mem_cons.mp hit with e | hin
        · rw [e]
        · exact h.2 _ x hx it hin
      obtain ⟨i1, i2⟩ := rehashChain_spec nb hnb rest _ hok
      simp only [Chain.rehashChain, hd]
      refine ⟨i1, i2.trans ?_⟩
      have q := p2 (cur :: x)
      have q2 : List.Perm (cur :: x ++ r) (cur :: ilist.flatten) :=
        List.Perm.cons cur p1.symm
      have q3 := q.trans q2
      exact ((List.Perm.append_left rest q3).trans List.perm_middle)

theorem rehash_fold_spec {K V : Type} (nb : Nat) (hnb : 0 < nb) :
    ∀ (slots : List (List (CDBHTITEM K V))) (ilist : List (List (CDBHTITEM K V))),
      Chain.SlotsOK nb ilist →
      Chain.SlotsOK nb (slots.foldl (Chain.rehashChain nb) ilist)
      ∧ List.Perm (slots.foldl (Chain.rehashChain nb) ilist).flatten
          (slots.flatten ++ ilist.flatten)
  | [], ilist, h => ⟨h, by simp⟩
  | c :: rest, ilist, h => by
      obtain ⟨a1, a2⟩ := rehashChain_spec nb hnb c ilist h
      obtain ⟨b1, b2⟩ := rehash_fold_spec nb hnb rest _ a1
      simp only [List.foldl_cons, List.flatten_cons]
      refine ⟨b1, b2.trans ?_⟩
      have := List.Perm.append_left rest.flatten a2
      refine this.trans ?_
      rw [← List.append_assoc]
      exact List.Perm.append_right _ List.perm_append_comm

/-- The growth of a second-level array keeps every item and puts each one
into the slot its hash selects among the `nb` new slots. -/
theorem rehash_spec {K V : Type} (nb : Nat) (hnb : 0 < nb)
    (items : List (List (CDBHTITEM K V))) (bnum : Nat) (hlen : items.length = bnum) :
    Chain.SlotsOK nb (Chain.rehash nb items bnum)
    ∧ List.Perm (Chain.rehash nb items bnum).flatten items.flatten := by
  have h0 : Chain.SlotsOK nb (List.replicate nb ([] : List (CDBHTITEM K V))) := by
    refine ⟨List.length_replicate _ _, ?_⟩
    intro j c hc it hit
    rw [List.getElem?_replicate] at hc
    split at hc
    · cases Option.some.inj hc; cases hit
    · cases hc
  obtain ⟨a1, a2⟩ := rehash_fold_spec nb hnb (items.take bnum) _ h0
  refine ⟨a1, ?_⟩
  have e : items.take bnum = items := List.take_of_length_le (by omega)
  simp only [Chain.rehash]
  rw [e] at a2 ⊢
  refine a2.trans ?_
  have : (List.replicate nb ([] : List (CDBHTITEM K V))).flatten = [] := by
    simp
  rw [this, List.append_nil]


/-! ## The table with its chains: the invariant -/

theorem Chain_Inv_new {K V : Type} (hf : K → Nat → Nat) (lru : Bool) :
    Chain.Inv hf 0 (Chain.cdb_ht_new lru : Chain.CDBHASHTABLE K V) := by
  have hb : ∀ (bi : Nat) (b : Chain.CDBHTBUCKET K V),
      (Chain.cdb_ht_new lru : Chain.CDBHASHTABLE K V).buckets[bi]? = some b →
      b = { items := List.replicate 2 [], bnum := 2, rnum := 0 } := by
    intro bi b h
    simp only [Chain.cdb_ht_new, List.getElem?_replicate] at h
    split at h
    · exact (Option.some.inj h).symm
    · cases h
  have hall : Chain.allItems (Chain.cdb_ht_new lru : Chain.CDBHASHTABLE K V) = [] := by
    simp only [Chain.allItems, Chain.cdb_ht_new, List.map_replicate, List.flatten_eq_nil_iff]
    intro l hl
    rw [(List.mem_replicate.mp hl).2]
    rfl
  refine
    { nbuckets := by simp [Chain.cdb_ht_new]
      bucket := ?_
      nodup := by rw [hall]; exact List.nodup_nil
      count := by rw [hall]; rfl
      bound := by rw [hall]; exact Nat.le_refl 0
      sizes := by rw [hall]; intro it hit; cases hit
      size_eq := ?_
      lru_ok := ?_ }
  · intro bi b h
    rw [hb bi b h]
    refine
      { slots := ⟨rfl, ?_⟩
        bnum_ge := Nat.le_refl 2
        bnum_le := by show 2 ≤ 2 * 0 + 2; omega
        rnum_eq := rfl
        place := by intro it hit; cases hit }
    intro j c hc it hit
    rw [List.getElem?_replicate] at hc
    split at hc
    · cases Option.some.inj hc; cases hit
    · cases hc
  · rw [hall]
    simp only [Chain.cdb_ht_new, List.map_replicate, List.sum_replicate, smul_eq_mul,
      List.map_nil, List.sum_nil, CDBHTBNUM, SIZEOF_PTR, SIZEOF_CDBHASHTABLE]
    rfl
  · split
    · rw [hall]; exact List.Perm.refl _
    · rfl


theorem Chain_BucketOK_mono {K V : Type} (hf : K → Nat → Nat) (n n2 bi : Nat)
    (b : Chain.CDBHTBUCKET K V) (h : Chain.BucketOK hf n bi b) (hn : n ≤ n2) :
    Chain.BucketOK hf n2 bi b :=
  { slots := h.slots, bnum_ge := h.bnum_ge, bnum_le := by have := h.bnum_le; omega
    rnum_eq := h.rnum_eq, place := h.place }

theorem Chain_bucket_access {K V : Type} (hf : K → Nat → Nat) (n : Nat)
    (ht : Chain.CDBHASHTABLE K V) (hinv : Chain.Inv hf n ht) (hash : Nat) :
    ∃ b, ht.buckets[hash % CDBHTBNUM]? = some b ∧ Chain.bucketAt ht hash = b
      ∧ Chain.BucketOK hf n (hash % CDBHTBNUM) b := by
  have hlt : hash % CDBHTBNUM < ht.buckets.length := by
    rw [hinv.nbuckets]
    exact Nat.mod_lt _ (by decide)
  have hb : ht.buckets[hash % CDBHTBNUM]? = some ht.buckets[hash % CDBHTBNUM] :=
    List.getElem?_eq_getElem hlt
  exact ⟨_, hb, getD_of_getElem? _ _ _ _ hb, hinv.bucket _ _ hb⟩

theorem Chain_mem_allItems {K V : Type} (ht : Chain.CDBHASHTABLE K V) (it : CDBHTITEM K V) :
    it ∈ Chain.allItems ht
      ↔ ∃ (bi : Nat) (b : Chain.CDBHTBUCKET K V), ht.buckets[bi]? = some b
          ∧ it ∈ Chain.bucketItems b := by
  simp only [Chain.allItems, List.mem_flatten, List.mem_map]
  constructor
  · rintro ⟨l, ⟨b, hb, rfl⟩, hit⟩
    obtain ⟨bi, hbi⟩ := List.getElem?_of_mem hb
    exact ⟨bi, b, hbi, hit⟩
  · rintro ⟨bi, b, hb, hit⟩
    exact ⟨_, ⟨b, List.getElem?_mem hb, rfl⟩, hit⟩

/-- One bucket of a sound table is replaced by another sound bucket, and
the counters and the LRU list follow: the table stays sound. -/
theorem Chain_bucket_update {K V : Type} (hf : K → Nat → Nat) (n : Nat)
    (ht : Chain.CDBHASHTABLE K V) (hinv : Chain.Inv hf n ht) (bi : Nat)
    (b : Chain.CDBHTBUCKET K V) (hb : ht.buckets[bi]? = some b) :
    ∃ RB, List.Perm (Chain.allItems ht) (Chain.bucketItems b ++ RB)
      ∧ (∀ it ∈ RB, it.hash % CDBHTBNUM ≠ bi)
      ∧ ∀ (b2 : Chain.CDBHTBUCKET K V) (n2 sz nm : Nat) (ll : List (CDBHTITEM K V)),
          n ≤ n2 → Chain.BucketOK hf n2 bi b2 →
          ((Chain.bucketItems b2 ++ RB).map itemKey).Nodup →
          nm = (Chain.bucketItems b2 ++ RB).length → nm ≤ n2 →
          (∀ it ∈ Chain.bucketItems b2, it.ksize < 2147483648 ∧ it.vsize < 2147483648) →
          sz + b.bnum * SIZEOF_PTR + ((Chain.bucketItems b).map (htItemBytes ht.lru)).sum
            = ht.size + b2.bnum * SIZEOF_PTR
              + ((Chain.bucketItems b2).map (htItemBytes ht.lru)).sum →
          (if ht.lru = true then List.Perm ll (Chain.bucketItems b2 ++ RB) else ll = []) →
          Chain.Inv hf n2 (Chain.CDBHASHTABLE.mk ht.lru (ht.buckets.set bi b2) sz nm ll)
          ∧ List.Perm (Chain.allItems (Chain.CDBHASHTABLE.mk ht.lru (ht.buckets.set bi b2) sz nm ll))
              (Chain.bucketItems b2 ++ RB) := by
  have hm : (ht.buckets.map Chain.bucketItems)[bi]? = some (Chain.bucketItems b) := by
    rw [List.getElem?_map, hb]; rfl
  obtain ⟨RB, p0, p2, p3⟩ := flatten_set_perm _ bi _ hm
  have p1 : List.Perm (Chain.allItems ht) (Chain.bucketItems b ++ RB) := p0
  have hRB : ∀ it ∈ RB, it.hash % CDBHTBNUM ≠ bi := by
    intro it hit
    obtain ⟨j, c, hj, hc, hic⟩ := (p3 it).mp hit
    rw [List.getElem?_map] at hc
    cases hbj : ht.buckets[j]? with
    | none => rw [hbj] at hc; cases hc
    | some bj =>
        rw [hbj] at hc
        simp only [Option.map_some', Option.some.injEq] at hc
        rw [← hc] at hic
        rw [((hinv.bucket j bj hbj).place it hic).2]
        exact hj
  refine ⟨RB, p1, hRB, ?_⟩
  intro b2 n2 sz nm ll hn hok hnd hnm hle hsz hsize hlru
  have pnew : List.Perm
      (Chain.allItems (Chain.CDBHASHTABLE.mk ht.lru (ht.buckets.set bi b2) sz nm ll))
      (Chain.bucketItems b2 ++ RB) := by
    have := p2 (Chain.bucketItems b2)
    simp only [Chain.allItems, List.map_set]
    exact this
  refine ⟨?_, pnew⟩
  have hsum := sum_map_set (fun b : Chain.CDBHTBUCKET K V => b.bnum * SIZEOF_PTR) ht.buckets bi b
    hb b2
  have hs1 := (List.Perm.map (htItemBytes ht.lru) p1).sum_eq
  have hs2 := (List.Perm.map (htItemBytes ht.lru) pnew).sum_eq
  simp only [List.map_append, List.sum_append] at hs1 hs2
  have hse := hinv.size_eq
  refine
    { nbuckets := by simp only [List.length_set]; exact hinv.nbuckets
      bucket := ?_
      nodup := (List.Perm.nodup_iff (List.Perm.map itemKey pnew)).mpr hnd
      count := by rw [pnew.length_eq]; exact hnm
      bound := by rw [pnew.length_eq, ← hnm]; exact hle
      sizes := ?_
      size_eq := ?_
      lru_ok := ?_ }
  · intro bj b3 h3
    simp only [List.getElem?_set] at h3
    by_cases e : bi = bj
    · subst e
      simp only [↓reduceIte] at h3
      split at h3
      · cases Option.some.inj h3; exact hok
      · cases h3
    · simp only [e, ↓reduceIte] at h3
      exact Chain_BucketOK_mono hf n n2 bj b3 (hinv.bucket bj b3 h3) hn
  · intro it hit
    rcases List.mem_append.mp (pnew.subset hit) with h1 | h1
    · exact hsz it h1
    · exact hinv.sizes it (p1.symm.subset (List.mem_append_right _ h1))
  · show sz = SIZEOF_CDBHASHTABLE
        + ((ht.buckets.set bi b2).map fun b => b.bnum * SIZEOF_PTR).sum
        + ((Chain.allItems (Chain.CDBHASHTABLE.mk ht.lru (ht.buckets.set bi b2) sz nm ll)).map
            (htItemBytes ht.lru)).sum
    simp only at hsum
    omega
  · show (if ht.lru = true then List.Perm ll _ else ll = [])
    split
    · rename_i hl
      simp only [hl, ↓reduceIte] at hlru
      exact hlru.trans pnew.symm
    · rename_i hl
      simp only [hl, Bool.false_eq_true, ↓reduceIte] at hlru
      exact hlru

/-- The chain of one slot of a sound table is replaced, and the counters and
the LRU list follow: the table stays sound. -/
theorem Chain_slot_update {K V : Type} (hf : K → Nat → Nat) (n : Nat)
    (ht : Chain.CDBHASHTABLE K V) (hinv : Chain.Inv hf n ht) (hash : Nat) :
    ∃ (b : Chain.CDBHTBUCKET K V) (c R : List (CDBHTITEM K V)),
      ht.buckets[hash % CDBHTBNUM]? = some b ∧ Chain.bucketAt ht hash = b
      ∧ b.items[Chain.hid b.bnum hash]? = some c
      ∧ b.items.getD (Chain.hid b.bnum hash) [] = c
      ∧ Chain.BucketOK hf n (hash % CDBHTBNUM) b
      ∧ List.Perm (Chain.allItems ht) (c ++ R)
      ∧ (∀ it ∈ R, it.hash ≠ hash)
      ∧ ∀ (c2 : List (CDBHTITEM K V)) (n2 r2 sz nm : Nat) (ll : List (CDBHTITEM K V)),
          n ≤ n2 →
          (∀ it ∈ c2, it.hash = hf it.key it.ksize ∧ it.hash % CDBHTBNUM = hash % CDBHTBNUM
            ∧ Chain.hid b.bnum it.hash = Chain.hid b.bnum hash
            ∧ it.ksize < 2147483648 ∧ it.vsize < 2147483648) →
          ((c2 ++ R).map itemKey).Nodup →
          r2 + c.length = b.rnum + c2.length →
          nm = (c2 ++ R).length → nm ≤ n2 →
          sz + (c.map (htItemBytes ht.lru)).sum = ht.size + (c2.map (htItemBytes ht.lru)).sum →
          (if ht.lru = true then List.Perm ll (c2 ++ R) else ll = []) →
          Chain.Inv hf n2 (Chain.CDBHASHTABLE.mk ht.lru (ht.buckets.set (hash % CDBHTBNUM)
              (Chain.CDBHTBUCKET.mk (b.items.set (Chain.hid b.bnum hash) c2) b.bnum r2)) sz nm ll)
          ∧ List.Perm (Chain.allItems (Chain.CDBHASHTABLE.mk ht.lru
              (ht.buckets.set (hash % CDBHTBNUM)
                (Chain.CDBHTBUCKET.mk (b.items.set (Chain.hid b.bnum hash) c2) b.bnum r2))
              sz nm ll)) (c2 ++ R) := by
  obtain ⟨b, hb, hba, hok⟩ := Chain_bucket_access hf n ht hinv hash
  have hlt : Chain.hid b.bnum hash < b.items.length := by
    rw [hok.slots.1]
    exact hid_lt _ _ (by have := hok.bnum_ge; omega)
  have hc : b.items[Chain.hid b.bnum hash]? = some b.items[Chain.hid b.bnum hash] :=
    List.getElem?_eq_getElem hlt
  obtain ⟨RS, s0, s2, s3⟩ := flatten_set_perm b.items _ _ hc
  have s1 : List.Perm (Chain.bucketItems b) (b.items[Chain.hid b.bnum hash] ++ RS) := s0
  obtain ⟨RB, p1, p2, p3⟩ := Chain_bucket_update hf n ht hinv _ b hb
  have hRS : ∀ it ∈ RS, it ∈ Chain.bucketItems b ∧ it.hash ≠ hash := by
    intro it hit
    refine ⟨s1.symm.subset (List.mem_append_right _ hit), ?_⟩
    obtain ⟨j, c, hj, hjc, hic⟩ := (s3 it).mp hit
    intro e
    have := hok.slots.2 j c hjc it hic
    rw [e] at this
    exact hj this.symm
  refine ⟨b, _, RS ++ RB, hb, hba, hc, getD_of_getElem? _ _ _ _ hc, hok, ?_, ?_, ?_⟩
  · refine p1.trans ?_
    rw [← List.append_assoc]
    exact List.Perm.append_right _ s1
  · intro it hit
    rcases List.mem_append.mp hit with h | h
    · exact (hRS it h).2
    · intro e
      exact p2 it h (by rw [e])
  · intro c2 n2 r2 sz nm ll hn hc2 hnd hr hnm hle hsize hlru
    have q1 : List.Perm (Chain.bucketItems (Chain.CDBHTBUCKET.mk
        (b.items.set (Chain.hid b.bnum hash) c2) b.bnum r2)) (c2 ++ RS) := s2 c2
    have q2 : List.Perm (Chain.bucketItems (Chain.CDBHTBUCKET.mk
        (b.items.set (Chain.hid b.bnum hash) c2) b.bnum r2) ++ RB) (c2 ++ (RS ++ RB)) := by
      rw [← List.append_assoc]
      exact List.Perm.append_right _ q1
    have hl1 := s1.length_eq
    have hl2 := q1.length_eq
    have hb1 := (List.Perm.map (htItemBytes ht.lru) s1).sum_eq
    have hb2 := (List.Perm.map (htItemBytes ht.lru) q1).sum_eq
    simp only [List.length_append, List.map_append, List.sum_append] at hl1 hl2 hb1 hb2
    have hrn := hok.rnum_eq
    obtain ⟨i1, i2⟩ := p3 (Chain.CDBHTBUCKET.mk (b.items.set (Chain.hid b.bnum hash) c2)
      b.bnum r2) n2 sz nm ll hn
      { slots := SlotsOK_set _ _ _ _ hok.slots (fun it hit => (hc2 it hit).2.2.1)
        bnum_ge := hok.bnum_ge
        bnum_le := by have := hok.bnum_le; show b.bnum ≤ 2 * n2 + 2; omega
        rnum_eq := by
          show r2 = _
          omega
        place := by
          intro it hit
          rcases List.mem_append.mp (q1.subset hit) with h | h
          · exact ⟨(hc2 it h).1, (hc2 it h).2.1⟩
          · exact hok.place it (hRS it h).1 }
      ((List.Perm.nodup_iff (List.Perm.map itemKey q2)).mpr hnd)
      (by rw [q2.length_eq]; exact hnm) hle
      (by
        intro it hit
        rcases List.mem_append.mp (q1.subset hit) with h | h
        · exact ⟨(hc2 it h).2.2.2.1, (hc2 it h).2.2.2.2⟩
        · exact hinv.sizes it ((Chain_mem_allItems ht it).mpr ⟨_, b, hb, (hRS it h).1⟩))
      (by
        show sz + b.bnum * SIZEOF_PTR + _ = ht.size + b.bnum * SIZEOF_PTR + _
        omega)
      (by
        split
        · rename_i hl
          simp only [hl, ↓reduceIte] at hlru
          exact hlru.trans q2.symm
        · rename_i hl
          simp only [hl, Bool.false_eq_true, ↓reduceIte] at hlru
          exact hlru)
    exact ⟨i1, i2.trans q2⟩


/-! ## The table with its chains: chains and keys -/

theorem htMatch_keyed {K V : Type} [DecidableEq K] (hf : K → Nat → Nat) (key : K) (ksize : Nat)
    (it : CDBHTITEM K V) (h : it.hash = hf it.key it.ksize) :
    htMatch (hf key ksize) ksize key it = decide (itemKey it = (ksize, key)) := by
  by_cases e : itemKey it = (ksize, key)
  · have e1 : it.ksize = ksize := congrArg Prod.fst e
    have e2 : it.key = key := congrArg Prod.snd e
    simp only [htMatch, h, e1, e2, e, beq_self_eq_true, decide_True, Bool.and_self]
  · simp only [e, decide_False]
    simp only [htMatch, Bool.and_eq_false_imp, Bool.and_eq_true, beq_iff_eq, decide_eq_false_iff_not]
    intro ⟨_, e1⟩ e2
    exact e (by simp only [itemKey, e1, e2])

theorem htUnlink_perm {K V : Type} [DecidableEq K] (hash ksize : Nat) (key : K) :
    ∀ (l : List (CDBHTITEM K V)) (cur : CDBHTITEM K V),
      (htUnlink hash ksize key l).1 = some cur →
      List.Perm l (cur :: (htUnlink hash ksize key l).2)
  | [], cur, h => by simp [htUnlink] at h
  | c :: rest, cur, h => by
      by_cases hm : htMatch hash ksize key c = true
      · simp only [htUnlink, hm, ↓reduceIte, Option.some.injEq] at h ⊢
        subst h
        exact List.Perm.refl _
      · simp only [htUnlink, hm, Bool.false_eq_true, ↓reduceIte] at h ⊢
        exact (List.Perm.cons c (htUnlink_perm hash ksize key rest cur h)).trans
          (List.Perm.swap cur c _)

/-- In a list of items that carry the hash of their key, no two with the same
key, unlinking by hash, key size and key is a search and a filter by key. -/
theorem htUnlink_keyed {K V : Type} [DecidableEq K] (hf : K → Nat → Nat) (key : K) (ksize : Nat) :
    ∀ (l : List (CDBHTITEM K V)), (∀ it ∈ l, it.hash = hf it.key it.ksize) →
      (l.map itemKey).Nodup →
      htUnlink (hf key ksize) ksize key l
        = (l.find? (fun it => decide (itemKey it = (ksize, key))),
           l.filter (fun it => !decide (itemKey it = (ksize, key))))
  | [], _, _ => rfl
  | c :: rest, hh, hn => by
      have hc := htMatch_keyed hf key ksize c (hh c (List.mem_cons_self _ _))
      rw [List.map_cons, List.nodup_cons] at hn
      by_cases e : itemKey c = (ksize, key)
      · have hr : rest.filter (fun it => !decide (itemKey it = (ksize, key))) = rest := by
          rw [List.filter_eq_self]
          intro a ha
          have : itemKey a ≠ (ksize, key) := by
            intro ea
            exact hn.1 (by rw [e, ← ea]; exact List.mem_map_of_mem _ ha)
          simp only [this, decide_False, Bool.not_false]
        simp only [htUnlink, hc, e, decide_True, ↓reduceIte, List.find?_cons, List.filter_cons,
          Bool.not_true, Bool.false_eq_true, hr]
      · have ih := htUnlink_keyed hf key ksize rest
          (fun it hit => hh it (List.mem_cons_of_mem _ hit)) hn.2
        simp only [htUnlink, hc, e, decide_False, Bool.false_eq_true, ↓reduceIte, ih,
          List.find?_cons, List.filter_cons, Bool.not_false]

theorem sum_map_le {α : Type} (f : α → Nat) (B : Nat) :
    ∀ (l : List α), (∀ x ∈ l, f x ≤ B) → (l.map f).sum ≤ l.length * B
  | [], _ => by simp
  | a :: l, h => by
      have ih := sum_map_le f B l (fun x hx => h x (List.mem_cons_of_mem _ hx))
      have ha := h a (List.mem_cons_self _ _)
      simp only [List.map_cons, List.sum_cons, List.length_cons, Nat.add_mul, Nat.one_mul]
      omega

/-- The byte count of a sound table of at most 2^27 items stays far below
2^64. -/
theorem Chain_size_lt {K V : Type} (hf : K → Nat → Nat) (n : Nat)
    (ht : Chain.CDBHASHTABLE K V) (hinv : Chain.Inv hf n ht) (hn : n ≤ 134217728) :
    ht.size < 2305843009213693952 := by
  have h1 : (ht.buckets.map fun b => b.bnum * SIZEOF_PTR).sum
      ≤ ht.buckets.length * ((2 * n + 2) * 8) := by
    apply sum_map_le
    intro b hb
    obtain ⟨i, hi, rfl⟩ := List.getElem_of_mem hb
    have := (hinv.bucket i _ (List.getElem?_eq_getElem hi)).bnum_le
    simp only [SIZEOF_PTR]
    omega
  have h2 : ((Chain.allItems ht).map (htItemBytes ht.lru)).sum
      ≤ (Chain.allItems ht).length * 4294967332 := by
    apply sum_map_le
    intro it hit
    have := hinv.sizes it hit
    simp only [htItemBytes, SIZEOF_CDBHTITEM, SIZEOF_PTR]
    split <;> omega
  have h3 := hinv.size_eq
  have h4 := hinv.bound
  have h5 := hinv.nbuckets
  rw [h5] at h1
  have h6 : (Chain.allItems ht).length * 4294967332 ≤ n * 4294967332 :=
    Nat.mul_le_mul_right _ h4
  simp only [SIZEOF_CDBHASHTABLE, CDBHTBNUM] at h3 h1
  omega


/-! ## The table with its chains: the operations -/

/-- The growth step of `cdb_ht_insert` on a sound table of at most 2^27
items: it succeeds, the table stays sound and holds the same items. -/
theorem Chain_grow_spec {K V : Type} (hf : K → Nat → Nat) (n : Nat)
    (ht : Chain.CDBHASHTABLE K V) (hinv : Chain.Inv hf n ht) (hn : n ≤ 134217728)
    (hash : Nat) :
    ∃ ht1, Chain.grow ht hash = some ht1 ∧ Chain.Inv hf n ht1
      ∧ List.Perm (Chain.allItems ht1) (Chain.allItems ht)
      ∧ ht1.lrulist = ht.lrulist ∧ ht1.lru = ht.lru := by
  obtain ⟨b, hb, hba, hok⟩ := Chain_bucket_access hf n ht hinv hash
  obtain ⟨RB, p1, p2, p3⟩ := Chain_bucket_update hf n ht hinv _ b hb
  have hsz := Chain_size_lt hf n ht hinv hn
  have hle := hok.bnum_le
  have hge := hok.bnum_ge
  have hr : b.rnum ≤ n := by
    have := p1.length_eq
    have := hinv.bound
    have := hok.rnum_eq
    simp only [List.length_append] at *
    omega
  by_cases hg : b.rnum > (b.bnum * 2) % U32
  · have hg2 : b.bnum * 2 < b.rnum := by
      simp only [U32] at hg
      omega
    have hexp : (b.bnum * (if b.bnum < 512 then 4 else 2)) % U32
        = b.bnum * (if b.bnum < 512 then 4 else 2) := by
      simp only [U32]
      split <;> omega
    have hnb : b.bnum * (if b.bnum < 512 then 4 else 2) < 268435456 := by
      split <;> omega
    have hnb2 : b.bnum ≤ b.bnum * (if b.bnum < 512 then 4 else 2) := by
      split <;> omega
    have hnb3 : b.bnum * (if b.bnum < 512 then 4 else 2) ≤ 2 * n + 2 := by
      split <;> omega
    obtain ⟨r1, r2⟩ := rehash_spec (b.bnum * (if b.bnum < 512 then 4 else 2)) (by omega)
      b.items b.bnum hok.slots.1
    have q1 : List.Perm (Chain.bucketItems (Chain.CDBHTBUCKET.mk
        (Chain.rehash (b.bnum * (if b.bnum < 512 then 4 else 2)) b.items b.bnum)
        (b.bnum * (if b.bnum < 512 then 4 else 2)) b.rnum)) (Chain.bucketItems b) := r2
    have q2 := List.Perm.append_right RB q1
    obtain ⟨i1, i2⟩ := p3 (Chain.CDBHTBUCKET.mk
        (Chain.rehash (b.bnum * (if b.bnum < 512 then 4 else 2)) b.items b.bnum)
        (b.bnum * (if b.bnum < 512 then 4 else 2)) b.rnum) n
      ((ht.size + (b.bnum * (if b.bnum < 512 then 4 else 2)) * SIZEOF_PTR
          + (U64 - (b.bnum * SIZEOF_PTR) % U64)) % U64) ht.num ht.lrulist (Nat.le_refl _)
      { slots := r1
        bnum_ge := by show 2 ≤ b.bnum * _; omega
        bnum_le := hnb3
        rnum_eq := by rw [q1.length_eq]; exact hok.rnum_eq
        place := fun it hit => hok.place it (q1.subset hit) }
      ((List.Perm.nodup_iff (List.Perm.map itemKey (q2.trans p1.symm))).mpr hinv.nodup)
      (by rw [(q2.trans p1.symm).length_eq]; exact hinv.count)
      (by rw [hinv.count]; exact hinv.bound)
      (fun it hit => hinv.sizes it (p1.symm.subset (List.mem_append_left _ (q1.subset hit))))
      (by
        have := (List.Perm.map (htItemBytes ht.lru) q1).sum_eq
        rw [this]
        show _ + b.bnum * SIZEOF_PTR + _
          = ht.size + (b.bnum * (if b.bnum < 512 then 4 else 2)) * SIZEOF_PTR + _
        simp only [U64, SIZEOF_PTR]
        omega)
      (by
        have := hinv.lru_ok
        split
        · rename_i hl
          simp only [hl, ↓reduceIte] at this
          exact this.trans (p1.trans q2.symm)
        · rename_i hl
          simp only [hl, Bool.false_eq_true, ↓reduceIte] at this
          exact this)
    refine ⟨_, ?_, i1, i2.trans (q2.trans p1.symm), rfl, rfl⟩
    simp only [Chain.grow, hba, hg, ↓reduceIte, hexp]
    rw [if_neg (by simp only [SIZEOF_PTR]; omega)]
  · exact ⟨ht, by simp only [Chain.grow, hba, hg, ↓reduceIte], hinv, List.Perm.refl _, rfl, rfl⟩


theorem Chain_rest_key {K V : Type} (hf : K → Nat → Nat) (n : Nat)
    (ht : Chain.CDBHASHTABLE K V) (hinv : Chain.Inv hf n ht) (key : K) (ksize : Nat)
    (c R : List (CDBHTITEM K V)) (hp : List.Perm (Chain.allItems ht) (c ++ R))
    (hR : ∀ it ∈ R, it.hash ≠ hf key ksize) :
    ∀ it ∈ R, itemKey it ≠ (ksize, key) := by
  intro it hit e
  have hmem : it ∈ Chain.allItems ht := hp.symm.subset (List.mem_append_right _ hit)
  obtain ⟨bi, b, hb, hib⟩ := (Chain_mem_allItems ht it).mp hmem
  have h1 := ((hinv.bucket bi b hb).place it hib).1
  have e1 : it.ksize = ksize := congrArg Prod.fst e
  have e2 : it.key = key := congrArg Prod.snd e
  rw [e1, e2] at h1
  exact hR it hit h1

theorem Chain_hash_ok {K V : Type} (hf : K → Nat → Nat) (n : Nat)
    (ht : Chain.CDBHASHTABLE K V) (hinv : Chain.Inv hf n ht) :
    ∀ it ∈ Chain.allItems ht, it.hash = hf it.key it.ksize := by
  intro it hit
  obtain ⟨bi, b, hb, hib⟩ := (Chain_mem_allItems ht it).mp hit
  exact ((hinv.bucket bi b hb).place it hib).1

theorem filter_view {α : Type} (p : α → Bool) (l c R : List α) (hp : List.Perm l (c ++ R))
    (hR : ∀ x ∈ R, p x = true) : List.Perm (l.filter p) (c.filter p ++ R) := by
  have h := hp.filter p
  rw [List.filter_append, List.filter_eq_self.mpr hR] at h
  exact h

theorem nodup_cons_filter {α β : Type} [DecidableEq β] (f : α → β) (x : α) (l : List α)
    (h : (l.map f).Nodup) :
    ((x :: l.filter (fun y => !decide (f y = f x))).map f).Nodup := by
  rw [List.map_cons, List.nodup_cons]
  constructor
  · intro hm
    obtain ⟨y, hy, e⟩ := List.mem_map.mp hm
    have := (List.mem_filter.mp hy).2
    simp only [e, decide_True, Bool.not_true, Bool.false_eq_true] at this
  · exact List.Nodup.sublist (List.Sublist.map f (List.filter_sublist l)) h

theorem find_keyed_mem {K V : Type} [DecidableEq K] (k : Nat × K) (l : List (CDBHTITEM K V))
    (cur : CDBHTITEM K V) (h : l.find? (fun it => decide (itemKey it = k)) = some cur) :
    cur ∈ l ∧ itemKey cur = k := by
  have h1 := List.find?_some h
  exact ⟨List.mem_of_find?_eq_some h, of_decide_eq_true h1⟩

theorem filter_keyed_none {K V : Type} [DecidableEq K] (k : Nat × K) (l : List (CDBHTITEM K V))
    (h : l.find? (fun it => decide (itemKey it = k)) = none) :
    l.filter (fun it => !decide (itemKey it = k)) = l := by
  rw [List.filter_eq_self]
  intro a ha
  have := List.find?_eq_none.mp h a ha
  simpa using this

/-- Unlinking an item of the table from the LRU list filters the list by the
key of the item. -/
theorem Chain_lruUnlink_eq {K V : Type} [DecidableEq K] (hf : K → Nat → Nat)
    (l : List (CDBHTITEM K V)) (hh : ∀ it ∈ l, it.hash = hf it.key it.ksize)
    (hn : (l.map itemKey).Nodup) (cur : CDBHTITEM K V)
    (hc : cur.hash = hf cur.key cur.ksize) :
    Chain.lruUnlink cur l = l.filter (fun it => !decide (itemKey it = itemKey cur)) := by
  simp only [Chain.lruUnlink]
  rw [hc, htUnlink_keyed hf cur.key cur.ksize l hh hn]
  rfl

theorem Chain_lru_facts {K V : Type} (hf : K → Nat → Nat) (n : Nat)
    (ht : Chain.CDBHASHTABLE K V) (hinv : Chain.Inv hf n ht) (hl : ht.lru = true) :
    List.Perm ht.lrulist (Chain.allItems ht)
    ∧ (∀ it ∈ ht.lrulist, it.hash = hf it.key it.ksize)
    ∧ (ht.lrulist.map itemKey).Nodup := by
  have h := hinv.lru_ok
  simp only [hl, ↓reduceIte] at h
  exact ⟨h, fun it hit => Chain_hash_ok hf n ht hinv it (h.subset hit),
    (List.Perm.nodup_iff (List.Perm.map itemKey h)).mpr hinv.nodup⟩

/-- What the chain of a key's slot knows: its items carry their hash, belong
to the slot, have `int` sizes and distinct keys, and the bucket holds at
least as many items as the chain. -/
theorem Chain_chain_facts {K V : Type} (hf : K → Nat → Nat) (n : Nat)
    (ht : Chain.CDBHASHTABLE K V) (hinv : Chain.Inv hf n ht) (hash : Nat)
    (b : Chain.CDBHTBUCKET K V) (c R : List (CDBHTITEM K V))
    (hb : ht.buckets[hash % CDBHTBNUM]? = some b)
    (hc : b.items[Chain.hid b.bnum hash]? = some c)
    (hp : List.Perm (Chain.allItems ht) (c ++ R)) :
    (∀ it ∈ c, it.hash = hf it.key it.ksize ∧ it.hash % CDBHTBNUM = hash % CDBHTBNUM
        ∧ Chain.hid b.bnum it.hash = Chain.hid b.bnum hash
        ∧ it.ksize < 2147483648 ∧ it.vsize < 2147483648)
    ∧ (c.map itemKey).Nodup
    ∧ c.length ≤ b.rnum ∧ b.rnum ≤ n
    ∧ ht.num = c.length + R.length
    ∧ ht.size = SIZEOF_CDBHASHTABLE + (ht.buckets.map fun b => b.bnum * SIZEOF_PTR).sum
        + ((c.map (htItemBytes ht.lru)).sum + (R.map (htItemBytes ht.lru)).sum) := by
  have hok := hinv.bucket _ b hb
  have hcb : ∀ it ∈ c, it ∈ Chain.bucketItems b := fun it hit =>
    List.mem_flatten.mpr ⟨c, List.getElem?_mem hc, hit⟩
  have hca : ∀ it ∈ c, it ∈ Chain.allItems ht := fun it hit =>
    hp.symm.subset (List.mem_append_left _ hit)
  have hnd := (List.Perm.nodup_iff (List.Perm.map itemKey hp)).mp hinv.nodup
  rw [List.map_append] at hnd
  obtain ⟨RB, p1, _, _⟩ := Chain_bucket_update hf n ht hinv _ b hb
  have hl1 := p1.length_eq
  have hl2 := hp.length_eq
  have hl3 : c.length ≤ (Chain.bucketItems b).length := by
    obtain ⟨RS, s0, _, _⟩ := flatten_set_perm b.items _ _ hc
    have := s0.length_eq
    simp only [List.length_append] at this
    show c.length ≤ b.items.flatten.length
    omega
  have hs := (List.Perm.map (htItemBytes ht.lru) hp).sum_eq
  simp only [List.length_append, List.map_append, List.sum_append] at hl1 hl2 hs
  refine ⟨?_, List.Nodup.of_append_left hnd, ?_, ?_, ?_, ?_⟩
  · intro it hit
    exact ⟨(hok.place it (hcb it hit)).1, (hok.place it (hcb it hit)).2,
      hok.slots.2 _ c hc it hit, hinv.sizes it (hca it hit)⟩
  · rw [hok.rnum_eq]; exact hl3
  · have := hinv.bound
    rw [hok.rnum_eq]
    omega
  · rw [hinv.count]; exact hl2
  · rw [← hs]; exact hinv.size_eq


/-- The linking step of `cdb_ht_insert` on a sound table with room for one
more item: the table stays sound, holds the new item in place of any item with
its key, and the new item heads the LRU list. -/
theorem Chain_link_spec {K V : Type} [DecidableEq K] (hf : K → Nat → Nat) (n : Nat)
    (ht : Chain.CDBHASHTABLE K V) (hinv : Chain.Inv hf n ht) (hn : n ≤ 134217728)
    (item : CDBHTITEM K V) (hh : item.hash = hf item.key item.ksize)
    (hk : item.ksize < 2147483648) (hv : item.vsize < 2147483648)
    (hroom : (Chain.allItems ht).length + 1 ≤ n) :
    Chain.Inv hf n (Chain.link ht item)
    ∧ List.Perm (Chain.allItems (Chain.link ht item))
        (item :: (Chain.allItems ht).filter (fun it => !decide (itemKey it = itemKey item)))
    ∧ (Chain.link ht item).lru = ht.lru
    ∧ (Chain.link ht item).lrulist
        = if ht.lru = true then
            item :: ht.lrulist.filter (fun it => !decide (itemKey it = itemKey item))
          else [] := by
  obtain ⟨b, c, R, hb, hba, hc, hcd, hok, hp, hR, hupd⟩ :=
    Chain_slot_update hf n ht hinv item.hash
  obtain ⟨f1, f2, f3, f4, f5, f6⟩ := Chain_chain_facts hf n ht hinv item.hash b c R hb hc hp
  have hRk : ∀ it ∈ R, (!decide (itemKey it = itemKey item)) = true := by
    intro it hit
    have := Chain_rest_key hf n ht hinv item.key item.ksize c R hp (by rw [← hh]; exact hR) it hit
    simp only [itemKey] at this ⊢
    simp only [this, decide_False, Bool.not_false]
  have hu : htUnlink item.hash item.ksize item.key c
      = (c.find? (fun it => decide (itemKey it = itemKey item)),
         c.filter (fun it => !decide (itemKey it = itemKey item))) := by
    rw [hh]
    exact htUnlink_keyed hf item.key item.ksize c (fun it hit => (f1 it hit).1) f2
  have hfv := filter_view _ _ c R hp hRk
  have hsz := Chain_size_lt hf n ht hinv hn
  have hpl := hp.length_eq
  simp only [List.length_append] at hpl
  have hallnd := nodup_cons_filter itemKey item (Chain.allItems ht) hinv.nodup
  have g1 : ∀ it ∈ item :: c.filter (fun it => !decide (itemKey it = itemKey item)),
      it.hash = hf it.key it.ksize ∧ it.hash % CDBHTBNUM = item.hash % CDBHTBNUM
        ∧ Chain.hid b.bnum it.hash = Chain.hid b.bnum item.hash
        ∧ it.ksize < 2147483648 ∧ it.vsize < 2147483648 := by
    intro it hit
    rcases List.mem_cons.mp hit with e | h
    · subst e; exact ⟨hh, rfl, rfl, hk, hv⟩
    · exact f1 it (List.mem_filter.mp h).1
  have g3 : List.Perm (item :: c.filter (fun it => !decide (itemKey it = itemKey item)) ++ R)
      (item :: (Chain.allItems ht).filter (fun it => !decide (itemKey it = itemKey item))) :=
    List.Perm.cons item hfv.symm
  have g2 := (List.Perm.nodup_iff (List.Perm.map itemKey g3)).mpr hallnd
  have hbi : htItemBytes ht.lru item < 8589934592 := by
    simp only [htItemBytes, SIZEOF_CDBHTITEM, SIZEOF_PTR]
    split <;> omega
  cases hfind : c.find? (fun it => decide (itemKey it = itemKey item)) with
  | none =>
    have hcf := filter_keyed_none _ c hfind
    rw [hcf] at g1 g2 g3
    have e : Chain.link ht item = Chain.CDBHASHTABLE.mk ht.lru
        (ht.buckets.set (item.hash % CDBHTBNUM) (Chain.CDBHTBUCKET.mk
          (b.items.set (Chain.hid b.bnum item.hash) (item :: c)) b.bnum ((b.rnum + 1) % U32)))
        ((ht.size + htItemBytes ht.lru item) % U64) ((ht.num + 1) % U64)
        (if ht.lru = true then item :: ht.lrulist else ht.lrulist) := by
      simp only [Chain.link, hba, hcd, hu, hfind]
    have hlf : ht.lru = true →
        ht.lrulist.filter (fun it => !decide (itemKey it = itemKey item)) = ht.lrulist := by
      intro hl
      obtain ⟨l1, _, _⟩ := Chain_lru_facts hf n ht hinv hl
      rw [List.filter_eq_self]
      intro a ha
      rcases List.mem_append.mp (hp.subset (l1.subset ha)) with h | h
      · have := List.find?_eq_none.mp hfind a h
        simpa using this
      · exact hRk a h
    obtain ⟨i1, i2⟩ := hupd (item :: c) n ((b.rnum + 1) % U32)
      ((ht.size + htItemBytes ht.lru item) % U64) ((ht.num + 1) % U64)
      (if ht.lru = true then item :: ht.lrulist else ht.lrulist) (Nat.le_refl _) g1 g2
      (by simp only [U32, List.length_cons]; omega)
      (by simp only [U64, List.length_cons, List.length_append, List.cons_append]; omega)
      (by simp only [U64]; omega)
      (by simp only [U64, List.map_cons, List.sum_cons]; omega)
      (by
        have := hinv.lru_ok
        split
        · rename_i hl
          simp only [hl, ↓reduceIte] at this
          exact List.Perm.cons item (this.trans hp)
        · rename_i hl
          simp only [hl, Bool.false_eq_true, ↓reduceIte] at this
          exact this)
    rw [e]
    refine ⟨i1, i2.trans g3, rfl, ?_⟩
    show (if ht.lru = true then item :: ht.lrulist else ht.lrulist) = _
    split
    · rename_i hl; rw [hlf hl]
    · rename_i hl
      have := hinv.lru_ok
      simp only [hl, Bool.false_eq_true, ↓reduceIte] at this
      exact this
  | some cur =>
    obtain ⟨m1, m2⟩ := find_keyed_mem _ c cur hfind
    have hperm : List.Perm c (cur :: c.filter (fun it => !decide (itemKey it = itemKey item))) := by
      have := htUnlink_perm item.hash item.ksize item.key c cur (by rw [hu]; exact hfind)
      rw [hu] at this
      exact this
    have hcl := hperm.length_eq
    have hcs := (List.Perm.map (htItemBytes ht.lru) hperm).sum_eq
    simp only [List.length_cons, List.map_cons, List.sum_cons] at hcl hcs
    have hbc : htItemBytes ht.lru cur < 8589934592 := by
      have := (f1 cur m1).2.2.2
      simp only [htItemBytes, SIZEOF_CDBHTITEM, SIZEOF_PTR]
      split <;> omega
    have e : Chain.link ht item = Chain.CDBHASHTABLE.mk ht.lru
        (ht.buckets.set (item.hash % CDBHTBNUM) (Chain.CDBHTBUCKET.mk
          (b.items.set (Chain.hid b.bnum item.hash)
            (item :: c.filter (fun it => !decide (itemKey it = itemKey item))))
          b.bnum (((b.rnum + U32 - 1) % U32 + 1) % U32)))
        (((ht.size + (U64 - htItemBytes ht.lru cur % U64)) % U64 + htItemBytes ht.lru item) % U64)
        (((ht.num + U64 - 1) % U64 + 1) % U64)
        (if ht.lru = true then item :: Chain.lruUnlink cur ht.lrulist else ht.lrulist) := by
      simp only [Chain.link, hba, hcd, hu, hfind]
    have hlf : ht.lru = true → Chain.lruUnlink cur ht.lrulist
        = ht.lrulist.filter (fun it => !decide (itemKey it = itemKey item)) := by
      intro hl
      obtain ⟨_, l2, l3⟩ := Chain_lru_facts hf n ht hinv hl
      rw [Chain_lruUnlink_eq hf ht.lrulist l2 l3 cur (f1 cur m1).1, m2]
    obtain ⟨i1, i2⟩ := hupd (item :: c.filter (fun it => !decide (itemKey it = itemKey item))) n
      (((b.rnum + U32 - 1) % U32 + 1) % U32)
      (((ht.size + (U64 - htItemBytes ht.lru cur % U64)) % U64 + htItemBytes ht.lru item) % U64)
      (((ht.num + U64 - 1) % U64 + 1) % U64)
      (if ht.lru = true then item :: Chain.lruUnlink cur ht.lrulist else ht.lrulist)
      (Nat.le_refl _) g1 g2
      (by simp only [U32, List.length_cons]; omega)
      (by simp only [U64, List.length_cons, List.length_append, List.cons_append]; omega)
      (by simp only [U64]; omega)
      (by simp only [U64, List.map_cons, List.sum_cons]; omega)
      (by
        have := hinv.lru_ok
        split
        · rename_i hl
          simp only [hl, ↓reduceIte] at this
          rw [hlf hl]
          exact List.Perm.cons item ((this.filter _).trans hfv)
        · rename_i hl
          simp only [hl, Bool.false_eq_true, ↓reduceIte] at this
          exact this)
    rw [e]
    refine ⟨i1, i2.trans g3, rfl, ?_⟩
    show (if ht.lru = true then item :: Chain.lruUnlink cur ht.lrulist else ht.lrulist) = _
    split
    · rename_i hl; rw [hlf hl]
    · rename_i hl
      have := hinv.lru_ok
      simp only [hl, Bool.false_eq_true, ↓reduceIte] at this
      exact this


theorem keyed_unique {K V : Type} (l : List (CDBHTITEM K V)) (hn : (l.map itemKey).Nodup)
    (x y : CDBHTITEM K V) (hx : x ∈ l) (hy : y ∈ l) (e : itemKey x = itemKey y) : x = y :=
  List.inj_on_of_nodup_map hn hx hy e

/-- Function `cdb_ht_insert2` on a sound table with room for one more item:
it returns, the table stays sound, the new item replaces any item with its
key and heads the LRU list. -/
theorem Chain_insert2_spec {K V : Type} [DecidableEq K] (hf : K → Nat → Nat) (n : Nat)
    (ht : Chain.CDBHASHTABLE K V) (hinv : Chain.Inv hf n ht) (hn : n ≤ 134217728)
    (key : K) (ksize : Nat) (val : V) (vsize : Nat)
    (hk : ksize < 2147483648) (hv : vsize < 2147483648)
    (hroom : (Chain.allItems ht).length + 1 ≤ n) :
    ∃ ht2, Chain.cdb_ht_insert2 hf ht key ksize val vsize = some ht2
      ∧ Chain.Inv hf n ht2
      ∧ List.Perm (Chain.allItems ht2)
          (CDBHTITEM.mk ksize vsize (hf key ksize) key val
            :: (Chain.allItems ht).filter (fun it => !decide (itemKey it = (ksize, key))))
      ∧ ht2.lru = ht.lru
      ∧ ht2.lrulist
          = if ht.lru = true then
              CDBHTITEM.mk ksize vsize (hf key ksize) key val
                :: ht.lrulist.filter (fun it => !decide (itemKey it = (ksize, key)))
            else [] := by
  obtain ⟨ht1, g1, g2, g3, g4, g5⟩ := Chain_grow_spec hf n ht hinv hn (hf key ksize)
  have hroom1 : (Chain.allItems ht1).length + 1 ≤ n := by rw [g3.length_eq]; exact hroom
  obtain ⟨l1, l2, l3, l4⟩ := Chain_link_spec hf n ht1 g2 hn
    (CDBHTITEM.mk ksize vsize (hf key ksize) key val) rfl hk hv hroom1
  refine ⟨Chain.link ht1 (CDBHTITEM.mk ksize vsize (hf key ksize) key val), ?_, l1, ?_, ?_, ?_⟩
  · simp only [Chain.cdb_ht_insert2, Chain.cdb_ht_insert, cdb_ht_newitem, g1, Option.map_some']
  · exact l2.trans (List.Perm.cons _ (g3.filter _))
  · rw [l3, g5]
  · rw [l4, g5, g4]
    rfl

/-- The chain of a key's slot in a sound table: unlinking by the key is a
search and a filter by key, the search finds exactly the item of the table
with this key, and the table without that item is sound. -/
theorem Chain_remove_core {K V : Type} [DecidableEq K] (hf : K → Nat → Nat) (n : Nat)
    (ht : Chain.CDBHASHTABLE K V) (hinv : Chain.Inv hf n ht) (hn : n ≤ 134217728)
    (key : K) (ksize : Nat) (b : Chain.CDBHTBUCKET K V) (c : List (CDBHTITEM K V))
    (hbe : b = Chain.bucketAt ht (hf key ksize))
    (hce : c = b.items.getD (Chain.hid b.bnum (hf key ksize)) []) :
    htUnlink (hf key ksize) ksize key c
        = (c.find? (fun it => decide (itemKey it = (ksize, key))),
           c.filter (fun it => !decide (itemKey it = (ksize, key))))
    ∧ c.find? (htMatch (hf key ksize) ksize key)
        = c.find? (fun it => decide (itemKey it = (ksize, key)))
    ∧ (∀ cur, c.find? (fun it => decide (itemKey it = (ksize, key))) = some cur
          ↔ cur ∈ Chain.allItems ht ∧ itemKey cur = (ksize, key))
    ∧ ∀ cur ll, c.find? (fun it => decide (itemKey it = (ksize, key))) = some cur →
        (if ht.lru = true then
            List.Perm ll (ht.lrulist.filter (fun it => !decide (itemKey it = (ksize, key))))
          else ll = []) →
        Chain.Inv hf n (Chain.CDBHASHTABLE.mk ht.lru
          (ht.buckets.set (hf key ksize % CDBHTBNUM) (Chain.CDBHTBUCKET.mk
            (b.items.set (Chain.hid b.bnum (hf key ksize))
              (c.filter (fun it => !decide (itemKey it = (ksize, key)))))
            b.bnum ((b.rnum + U32 - 1) % U32)))
          ((ht.size + (U64 - htItemBytes ht.lru cur % U64)) % U64)
          ((ht.num + U64 - 1) % U64) ll)
        ∧ List.Perm (Chain.allItems (Chain.CDBHASHTABLE.mk ht.lru
          (ht.buckets.set (hf key ksize % CDBHTBNUM) (Chain.CDBHTBUCKET.mk
            (b.items.set (Chain.hid b.bnum (hf key ksize))
              (c.filter (fun it => !decide (itemKey it = (ksize, key)))))
            b.bnum ((b.rnum + U32 - 1) % U32)))
          ((ht.size + (U64 - htItemBytes ht.lru cur % U64)) % U64)
          ((ht.num + U64 - 1) % U64) ll))
          ((Chain.allItems ht).filter (fun it => !decide (itemKey it = (ksize, key)))) := by
  obtain ⟨b0, c0, R, hb, hba, hc, hcd, hok, hp, hR, hupd⟩ :=
    Chain_slot_update hf n ht hinv (hf key ksize)
  have eb : b = b0 := by rw [hbe, hba]
  subst eb
  have ec : c = c0 := by rw [hce, hcd]
  subst ec
  obtain ⟨f1, f2, f3, f4, f5, f6⟩ := Chain_chain_facts hf n ht hinv (hf key ksize) b c R hb hc hp
  have hRk0 := Chain_rest_key hf n ht hinv key ksize c R hp hR
  have hRk : ∀ it ∈ R, (!decide (itemKey it = (ksize, key))) = true := by
    intro it hit
    simp only [hRk0 it hit, decide_False, Bool.not_false]
  have hu := htUnlink_keyed hf key ksize c (fun it hit => (f1 it hit).1) f2
  have hfv := filter_view _ _ c R hp hRk
  have hsz := Chain_size_lt hf n ht hinv hn
  have hpl := hp.length_eq
  simp only [List.length_append] at hpl
  refine ⟨hu, ?_, ?_, ?_⟩
  · rw [← htUnlink_fst_find, hu]
  · intro cur
    constructor
    · intro h
      obtain ⟨m1, m2⟩ := find_keyed_mem _ c cur h
      exact ⟨hp.symm.subset (List.mem_append_left _ m1), m2⟩
    · intro ⟨h1, h2⟩
      have hin : cur ∈ c := by
        rcases List.mem_append.mp (hp.subset h1) with h | h
        · exact h
        · exact absurd h2 (hRk0 cur h)
      cases hfind : c.find? (fun it => decide (itemKey it = (ksize, key))) with
      | none =>
        have := List.find?_eq_none.mp hfind cur hin
        simp only [h2, decide_True, not_true_eq_false] at this
      | some x =>
        obtain ⟨m1, m2⟩ := find_keyed_mem _ c x hfind
        rw [keyed_unique c f2 x cur m1 hin (by rw [m2, h2])]
  · intro cur ll hfind hll
    obtain ⟨m1, m2⟩ := find_keyed_mem _ c cur hfind
    have hperm : List.Perm c (cur :: c.filter (fun it => !decide (itemKey it = (ksize, key)))) := by
      have := htUnlink_perm (hf key ksize) ksize key c cur (by rw [hu]; exact hfind)
      rw [hu] at this
      exact this
    have hcl := hperm.length_eq
    have hcs := (List.Perm.map (htItemBytes ht.lru) hperm).sum_eq
    simp only [List.length_cons, List.map_cons, List.sum_cons] at hcl hcs
    have hbc : htItemBytes ht.lru cur < 8589934592 := by
      have := (f1 cur m1).2.2.2
      simp only [htItemBytes, SIZEOF_CDBHTITEM, SIZEOF_PTR]
      split <;> omega
    have hnd : ((c.filter (fun it => !decide (itemKey it = (ksize, key))) ++ R).map
        itemKey).Nodup :=
      (List.Perm.nodup_iff (List.Perm.map itemKey hfv)).mp
        (List.Nodup.sublist (List.Sublist.map itemKey (List.filter_sublist _)) hinv.nodup)
    have hb1 := hinv.bound
    obtain ⟨i1, i2⟩ := hupd (c.filter (fun it => !decide (itemKey it = (ksize, key)))) n
      ((b.rnum + U32 - 1) % U32)
      ((ht.size + (U64 - htItemBytes ht.lru cur % U64)) % U64)
      ((ht.num + U64 - 1) % U64) ll (Nat.le_refl _)
      (fun it hit => f1 it (List.mem_filter.mp hit).1) hnd
      (by simp only [U32]; omega)
      (by simp only [U64, List.length_append]; omega)
      (by simp only [U64]; omega)
      (by simp only [U64]; omega)
      (by
        split
        · rename_i hl
          simp only [hl, ↓reduceIte] at hll
          obtain ⟨l1, _, _⟩ := Chain_lru_facts hf n ht hinv hl
          exact hll.trans ((l1.filter _).trans hfv)
        · rename_i hl
          simp only [hl, Bool.false_eq_true, ↓reduceIte] at hll
          exact hll)
    exact ⟨i1, i2.trans hfv.symm⟩


theorem filter_absent {K V : Type} [DecidableEq K] (k : Nat × K) (l : List (CDBHTITEM K V))
    (h : ∀ it ∈ l, itemKey it ≠ k) :
    l.filter (fun it => !decide (itemKey it = k)) = l := by
  rw [List.filter_eq_self]
  intro a ha
  simp only [h a ha, decide_False, Bool.not_false]

/-- The LRU list of a sound table, filtered by a key that no item of the
table has, is the LRU list. -/
theorem Chain_lru_filter_absent {K V : Type} [DecidableEq K] (hf : K → Nat → Nat) (n : Nat)
    (ht : Chain.CDBHASHTABLE K V) (hinv : Chain.Inv hf n ht) (k : Nat × K)
    (h : ∀ it ∈ Chain.allItems ht, itemKey it ≠ k) :
    ht.lrulist.filter (fun it => !decide (itemKey it = k)) = ht.lrulist := by
  apply filter_absent
  intro it hit
  have := hinv.lru_ok
  by_cases hl : ht.lru = true
  · simp only [hl, ↓reduceIte] at this
    exact h it (this.subset hit)
  · simp only [hl, Bool.false_eq_true, ↓reduceIte] at this
    rw [this] at hit
    cases hit

/-- Function `cdb_ht_del` on a sound table: it returns the item of the table
with the key, if there is one, and leaves a sound table without it. -/
theorem Chain_del_spec {K V : Type} [DecidableEq K] (hf : K → Nat → Nat) (n : Nat)
    (ht : Chain.CDBHASHTABLE K V) (hinv : Chain.Inv hf n ht) (hn : n ≤ 134217728)
    (key : K) (ksize : Nat) :
    (∀ cur, (Chain.cdb_ht_del hf ht key ksize).1 = some cur
        ↔ cur ∈ Chain.allItems ht ∧ itemKey cur = (ksize, key))
    ∧ Chain.Inv hf n (Chain.cdb_ht_del hf ht key ksize).2
    ∧ List.Perm (Chain.allItems (Chain.cdb_ht_del hf ht key ksize).2)
        ((Chain.allItems ht).filter (fun it => !decide (itemKey it = (ksize, key))))
    ∧ (Chain.cdb_ht_del hf ht key ksize).2.lru = ht.lru
    ∧ (Chain.cdb_ht_del hf ht key ksize).2.lrulist
        = ht.lrulist.filter (fun it => !decide (itemKey it = (ksize, key))) := by
  obtain ⟨hu, _, hfd, hrm⟩ := Chain_remove_core hf n ht hinv hn key ksize
    (Chain.bucketAt ht (hf key ksize))
    ((Chain.bucketAt ht (hf key ksize)).items.getD
      (Chain.hid (Chain.bucketAt ht (hf key ksize)).bnum (hf key ksize)) []) rfl rfl
  cases hfind : ((Chain.bucketAt ht (hf key ksize)).items.getD
      (Chain.hid (Chain.bucketAt ht (hf key ksize)).bnum (hf key ksize)) []).find?
      (fun it => decide (itemKey it = (ksize, key))) with
  | none =>
    have e : Chain.cdb_ht_del hf ht key ksize = (none, ht) := by
      simp only [Chain.cdb_ht_del, hu, hfind]
    have habs : ∀ it ∈ Chain.allItems ht, itemKey it ≠ (ksize, key) := by
      intro it hit e2
      have := (hfd it).mpr ⟨hit, e2⟩
      rw [hfind] at this
      cases this
    rw [e]
    refine ⟨?_, hinv, ?_, rfl, ?_⟩
    · intro cur
      rw [← hfd cur, hfind]
    · rw [filter_absent _ _ habs]
    · exact (Chain_lru_filter_absent hf n ht hinv _ habs).symm
  | some cur =>
    obtain ⟨m1, m2⟩ := (hfd cur).mp hfind
    have e : Chain.cdb_ht_del hf ht key ksize = (some cur, Chain.CDBHASHTABLE.mk ht.lru
        (ht.buckets.set (hf key ksize % CDBHTBNUM) (Chain.CDBHTBUCKET.mk
          ((Chain.bucketAt ht (hf key ksize)).items.set
            (Chain.hid (Chain.bucketAt ht (hf key ksize)).bnum (hf key ksize))
            (((Chain.bucketAt ht (hf key ksize)).items.getD
              (Chain.hid (Chain.bucketAt ht (hf key ksize)).bnum (hf key ksize)) []).filter
              (fun it => !decide (itemKey it = (ksize, key)))))
          (Chain.bucketAt ht (hf key ksize)).bnum
          (((Chain.bucketAt ht (hf key ksize)).rnum + U32 - 1) % U32)))
        ((ht.size + (U64 - htItemBytes ht.lru cur % U64)) % U64)
        ((ht.num + U64 - 1) % U64)
        (if ht.lru = true then Chain.lruUnlink cur ht.lrulist else ht.lrulist)) := by
      simp only [Chain.cdb_ht_del, hu, hfind]
    have hll : (if ht.lru = true then Chain.lruUnlink cur ht.lrulist else ht.lrulist)
        = ht.lrulist.filter (fun it => !decide (itemKey it = (ksize, key))) := by
      split
      · rename_i hl
        obtain ⟨_, l2, l3⟩ := Chain_lru_facts hf n ht hinv hl
        rw [Chain_lruUnlink_eq hf ht.lrulist l2 l3 cur (Chain_hash_ok hf n ht hinv cur m1), m2]
      · rename_i hl
        have := hinv.lru_ok
        simp only [hl, Bool.false_eq_true, ↓reduceIte] at this
        rw [this]
        rfl
    obtain ⟨i1, i2⟩ := hrm cur
      (if ht.lru = true then Chain.lruUnlink cur ht.lrulist else ht.lrulist) hfind (by
        rw [hll]
        split
        · exact List.Perm.refl _
        · rename_i hl
          have := hinv.lru_ok
          simp only [hl, Bool.false_eq_true, ↓reduceIte] at this
          rw [this]
          rfl)
    rw [e]
    refine ⟨?_, i1, i2, rfl, hll⟩
    intro x
    rw [← hfd x, hfind]


theorem perm_cons_filter_keyed {K V : Type} [DecidableEq K] (cur : CDBHTITEM K V) :
    ∀ (l : List (CDBHTITEM K V)), (l.map itemKey).Nodup → cur ∈ l →
      List.Perm l (cur :: l.filter (fun it => !decide (itemKey it = itemKey cur)))
  | [], _, h => by cases h
  | a :: t, hn, h => by
      have hn2 := hn
      rw [List.map_cons, List.nodup_cons] at hn2
      by_cases e : itemKey a = itemKey cur
      · have : a = cur := keyed_unique (a :: t) hn a cur (List.mem_cons_self _ _) h e
        subst this
        have ht : t.filter (fun it => !decide (itemKey it = itemKey a)) = t := by
          apply filter_absent
          intro it hit e2
          exact hn2.1 (by rw [← e2]; exact List.mem_map_of_mem _ hit)
        simp only [List.filter_cons, decide_True, Bool.not_true, Bool.false_eq_true,
          ↓reduceIte, ht]
        exact List.Perm.refl _
      · have hin : cur ∈ t := by
          rcases List.mem_cons.mp h with e2 | e2
          · exact absurd (by rw [e2]) e
          · exact e2
        have ih := perm_cons_filter_keyed cur t hn2.2 hin
        simp only [List.filter_cons, e, decide_False, Bool.not_false, ↓reduceIte]
        exact (List.Perm.cons a ih).trans (List.Perm.swap cur a _)

theorem filter_head_keyed {K V : Type} [DecidableEq K] (cur : CDBHTITEM K V)
    (rest : List (CDBHTITEM K V)) (hn : ((cur :: rest).map itemKey).Nodup) :
    (cur :: rest).filter (fun it => !decide (itemKey it = itemKey cur)) = rest := by
  rw [List.map_cons, List.nodup_cons] at hn
  have ht : rest.filter (fun it => !decide (itemKey it = itemKey cur)) = rest := by
    apply filter_absent
    intro it hit e2
    exact hn.1 (by rw [← e2]; exact List.mem_map_of_mem _ hit)
  simp only [List.filter_cons, decide_True, Bool.not_true, Bool.false_eq_true, ↓reduceIte, ht]

theorem Chain_Inv_lrulist {K V : Type} (hf : K → Nat → Nat) (n : Nat)
    (ht : Chain.CDBHASHTABLE K V) (hinv : Chain.Inv hf n ht) (ll : List (CDBHTITEM K V))
    (h : if ht.lru = true then List.Perm ll (Chain.allItems ht) else ll = []) :
    Chain.Inv hf n (Chain.CDBHASHTABLE.mk ht.lru ht.buckets ht.size ht.num ll) :=
  { nbuckets := hinv.nbuckets
    bucket := hinv.bucket
    nodup := hinv.nodup
    count := hinv.count
    bound := hinv.bound
    sizes := hinv.sizes
    size_eq := hinv.size_eq
    lru_ok := h }

/-- Function `cdb_ht_get3` on a sound table: it returns the item of the table
with the key, if there is one; the chains stay as they are, and in LRU mode
with `mtf` the item found becomes the head of the LRU list. -/
theorem Chain_get3_spec {K V : Type} [DecidableEq K] (hf : K → Nat → Nat) (n : Nat)
    (ht : Chain.CDBHASHTABLE K V) (hinv : Chain.Inv hf n ht) (hn : n ≤ 134217728)
    (key : K) (ksize : Nat) (mtf : Bool) :
    (∀ cur, (Chain.cdb_ht_get3 hf ht key ksize mtf).1 = some cur
        ↔ cur ∈ Chain.allItems ht ∧ itemKey cur = (ksize, key))
    ∧ Chain.Inv hf n (Chain.cdb_ht_get3 hf ht key ksize mtf).2
    ∧ Chain.allItems (Chain.cdb_ht_get3 hf ht key ksize mtf).2 = Chain.allItems ht
    ∧ (Chain.cdb_ht_get3 hf ht key ksize mtf).2.lru = ht.lru
    ∧ (Chain.cdb_ht_get3 hf ht key ksize mtf).2.lrulist
        = match (Chain.cdb_ht_get3 hf ht key ksize mtf).1 with
          | some cur =>
              if ht.lru && mtf then
                cur :: ht.lrulist.filter (fun it => !decide (itemKey it = (ksize, key)))
              else ht.lrulist
          | none => ht.lrulist := by
  obtain ⟨_, hfm, hfd, _⟩ := Chain_remove_core hf n ht hinv hn key ksize
    (Chain.bucketAt ht (hf key ksize))
    ((Chain.bucketAt ht (hf key ksize)).items.getD
      (Chain.hid (Chain.bucketAt ht (hf key ksize)).bnum (hf key ksize)) []) rfl rfl
  cases hfind : ((Chain.bucketAt ht (hf key ksize)).items.getD
      (Chain.hid (Chain.bucketAt ht (hf key ksize)).bnum (hf key ksize)) []).find?
      (fun it => decide (itemKey it = (ksize, key))) with
  | none =>
    have e : Chain.cdb_ht_get3 hf ht key ksize mtf = (none, ht) := by
      simp only [Chain.cdb_ht_get3, hfm, hfind]
    rw [e]
    refine ⟨?_, hinv, rfl, rfl, rfl⟩
    intro cur
    rw [← hfd cur, hfind]
  | some cur =>
    obtain ⟨m1, m2⟩ := (hfd cur).mp hfind
    have hiff : ∀ x, some cur = some x ↔ x ∈ Chain.allItems ht ∧ itemKey x = (ksize, key) := by
      intro x
      rw [← hfd x, hfind]
    by_cases hlm : (ht.lru && mtf) = true
    · have hl : ht.lru = true := (Bool.and_eq_true _ _ ▸ hlm).1
      obtain ⟨l1, l2, l3⟩ := Chain_lru_facts hf n ht hinv hl
      have hcl : cur ∈ ht.lrulist := l1.symm.subset m1
      have hpc := perm_cons_filter_keyed cur ht.lrulist l3 hcl
      rw [m2] at hpc
      by_cases hhead : (match ht.lrulist with
          | h :: _ => htMatch cur.hash cur.ksize cur.key h
          | [] => false) = true
      · have e : Chain.cdb_ht_get3 hf ht key ksize mtf = (some cur, ht) := by
          simp only [Chain.cdb_ht_get3, hfm, hfind, hhead, Bool.not_true, Bool.and_false,
            Bool.false_eq_true, ↓reduceIte]
        rw [e]
        refine ⟨hiff, hinv, rfl, rfl, ?_⟩
        simp only [hlm, ↓reduceIte]
        cases hlist : ht.lrulist with
        | nil => rw [hlist] at hcl; cases hcl
        | cons h rest =>
          rw [hlist] at hhead l3 hcl
          simp only at hhead
          have hk : itemKey h = itemKey cur := by
            simp only [htMatch, Bool.and_eq_true, beq_iff_eq, decide_eq_true_eq] at hhead
            simp only [itemKey, hhead.1.2, hhead.2]
          have : h = cur := keyed_unique (h :: rest) l3 h cur (List.mem_cons_self _ _) hcl hk
          subst this
          rw [← m2, filter_head_keyed h rest l3]
      · have e : Chain.cdb_ht_get3 hf ht key ksize mtf
            = (some cur, Chain.CDBHASHTABLE.mk ht.lru ht.buckets ht.size ht.num
                (cur :: Chain.lruUnlink cur ht.lrulist)) := by
          simp only [Chain.cdb_ht_get3, hfm, hfind, hlm, hhead, Bool.not_false, Bool.and_true,
            ↓reduceIte]
        have hll : Chain.lruUnlink cur ht.lrulist
            = ht.lrulist.filter (fun it => !decide (itemKey it = (ksize, key))) := by
          rw [Chain_lruUnlink_eq hf ht.lrulist l2 l3 cur (Chain_hash_ok hf n ht hinv cur m1), m2]
        rw [e, hll]
        refine ⟨hiff, ?_, rfl, rfl, ?_⟩
        · apply Chain_Inv_lrulist hf n ht hinv
          simp only [hl, ↓reduceIte]
          exact hpc.symm.trans l1
        · simp only [hlm, ↓reduceIte]
    · have e : Chain.cdb_ht_get3 hf ht key ksize mtf = (some cur, ht) := by
        simp only [Chain.cdb_ht_get3, hfm, hfind, hlm, Bool.false_and, Bool.false_eq_true,
          ↓reduceIte]
      rw [e]
      refine ⟨hiff, hinv, rfl, rfl, ?_⟩
      simp only [hlm, Bool.false_eq_true, ↓reduceIte]


theorem getLast_dropLast {α : Type} (l : List α) (x : α) (h : l.getLast? = some x) :
    l = l.dropLast ++ [x] := by
  cases l with
  | nil => cases h
  | cons a t =>
    have h2 : (a :: t).getLast (List.cons_ne_nil a t) = x := by
      rw [List.getLast?_eq_getLast _ (List.cons_ne_nil a t)] at h
      exact Option.some.inj h
    rw [← h2]
    exact (List.dropLast_append_getLast (List.cons_ne_nil a t)).symm

/-- Function `cdb_ht_poptail` on a sound table: NULL and no change without
LRU mode or with an empty LRU list; else the last item of the LRU list is
returned and the table without it is sound. -/
theorem Chain_poptail_spec {K V : Type} [DecidableEq K] (hf : K → Nat → Nat) (n : Nat)
    (ht : Chain.CDBHASHTABLE K V) (hinv : Chain.Inv hf n ht) (hn : n ≤ 134217728) :
    (ht.lru = false ∨ ht.lrulist = [] → Chain.cdb_ht_poptail ht = (none, ht))
    ∧ ∀ item, ht.lru = true → ht.lrulist.getLast? = some item →
        (Chain.cdb_ht_poptail ht).1 = some item
        ∧ item ∈ Chain.allItems ht
        ∧ Chain.Inv hf n (Chain.cdb_ht_poptail ht).2
        ∧ List.Perm (Chain.allItems (Chain.cdb_ht_poptail ht).2)
            ((Chain.allItems ht).filter (fun it => !decide (itemKey it = itemKey item)))
        ∧ (Chain.cdb_ht_poptail ht).2.lru = true
        ∧ (Chain.cdb_ht_poptail ht).2.lrulist = ht.lrulist.dropLast
        ∧ ht.lrulist = ht.lrulist.dropLast ++ [item] := by
  constructor
  · intro h
    cases hg : ht.lrulist.getLast? with
    | none => simp only [Chain.cdb_ht_poptail, hg]
    | some item =>
      rcases h with h | h
      · simp only [Chain.cdb_ht_poptail, hg, h, Bool.not_false, ↓reduceIte]
      · rw [h] at hg; cases hg
  · intro item hl hg
    obtain ⟨l1, l2, l3⟩ := Chain_lru_facts hf n ht hinv hl
    have hdl := getLast_dropLast ht.lrulist item hg
    have hil : item ∈ ht.lrulist := by
      rw [hdl]; exact List.mem_append_right _ (List.mem_singleton_self _)
    have hia : item ∈ Chain.allItems ht := l1.subset hil
    have hh : item.hash = hf item.key item.ksize := l2 item hil
    obtain ⟨hu, _, hfd, hrm⟩ := Chain_remove_core hf n ht hinv hn item.key item.ksize
      (Chain.bucketAt ht (hf item.key item.ksize))
      ((Chain.bucketAt ht (hf item.key item.ksize)).items.getD
        (Chain.hid (Chain.bucketAt ht (hf item.key item.ksize)).bnum (hf item.key item.ksize))
        []) rfl rfl
    have hfind := (hfd item).mpr ⟨hia, rfl⟩
    have hbytes : htItemBytes ht.lru item
        = SIZEOF_CDBHTITEM + item.ksize + item.vsize + SIZEOF_PTR * 2 := by
      simp only [htItemBytes, hl, ↓reduceIte, SIZEOF_PTR]
    have hperm : List.Perm ht.lrulist.dropLast
        (ht.lrulist.filter (fun it => !decide (itemKey it = itemKey item))) := by
      have h1 := perm_cons_filter_keyed item ht.lrulist l3 hil
      have h2 : List.Perm ht.lrulist (item :: ht.lrulist.dropLast) := by
        conv => lhs; rw [hdl]
        exact List.perm_append_singleton _ _
      exact List.Perm.cons_inv (h2.symm.trans h1)
    obtain ⟨i1, i2⟩ := hrm item ht.lrulist.dropLast hfind (by
      simp only [hl, ↓reduceIte]
      exact hperm)
    rw [hbytes] at i1 i2
    have e : Chain.cdb_ht_poptail ht = (some item, Chain.CDBHASHTABLE.mk ht.lru
        (ht.buckets.set (hf item.key item.ksize % CDBHTBNUM) (Chain.CDBHTBUCKET.mk
          ((Chain.bucketAt ht (hf item.key item.ksize)).items.set
            (Chain.hid (Chain.bucketAt ht (hf item.key item.ksize)).bnum
              (hf item.key item.ksize))
            (((Chain.bucketAt ht (hf item.key item.ksize)).items.getD
              (Chain.hid (Chain.bucketAt ht (hf item.key item.ksize)).bnum
                (hf item.key item.ksize)) []).filter
              (fun it => !decide (itemKey it = (item.ksize, item.key)))))
          (Chain.bucketAt ht (hf item.key item.ksize)).bnum
          (((Chain.bucketAt ht (hf item.key item.ksize)).rnum + U32 - 1) % U32)))
        ((ht.size + (U64 - (SIZEOF_CDBHTITEM + item.ksize + item.vsize + SIZEOF_PTR * 2) % U64))
          % U64)
        ((ht.num + U64 - 1) % U64) ht.lrulist.dropLast) := by
      simp only [Chain.cdb_ht_poptail, hg, hl, Bool.not_true, Bool.false_eq_true, ↓reduceIte,
        hh, hu]
    rw [e]
    exact ⟨rfl, hia, i1, i2, hl, rfl, hdl⟩


/-! ## Sequences of calls: the log and the table -/

theorem lastIns_inserted {K V : Type} [DecidableEq K] (k : Nat × K) :
    ∀ (log : List (HtCall K V × Option (CDBHTITEM K V))),
      (lastIns log k).isSome = true → k ∈ insertedKeys log
  | [], h => by simp [lastIns] at h
  | (HtCall.insert2 key ksize val vsize, r) :: rest, h => by
      simp only [lastIns] at h
      simp only [insertedKeys, List.filterMap_cons]
      by_cases e : (ksize, key) = k
      · rw [e]; exact List.mem_cons_self _ _
      · simp only [e, ↓reduceIte] at h
        exact List.mem_cons_of_mem _ (lastIns_inserted k rest h)
  | (HtCall.del key ksize, r) :: rest, h => by
      simp only [lastIns] at h
      simp only [insertedKeys, List.filterMap_cons]
      split at h
      · cases h
      · exact lastIns_inserted k rest h
  | (HtCall.get key ksize mtf, r) :: rest, h => by
      simp only [lastIns] at h
      simp only [insertedKeys, List.filterMap_cons]
      split at h
      · cases h
      · exact lastIns_inserted k rest h
  | (HtCall.poptail, r) :: rest, h => by
      simp only [lastIns] at h
      simp only [insertedKeys, List.filterMap_cons]
      split at h
      · cases h
      · exact lastIns_inserted k rest h

theorem touchTime_le {K V : Type} [DecidableEq K] (k : Nat × K) :
    ∀ (log : List (HtCall K V × Option (CDBHTITEM K V))), touchTime log k ≤ log.length
  | [] => Nat.le_refl _
  | e :: rest => by
      simp only [touchTime, List.length_cons]
      split
      · exact Nat.le_refl _
      · exact Nat.le_succ_of_le (touchTime_le k rest)


theorem agree_remove {K V : Type} [DecidableEq K] (l l2 : List (CDBHTITEM K V))
    (f f2 : Nat × K → Option (V × Nat)) (k0 : Nat × K)
    (hp : ∀ it, it ∈ l2 ↔ it ∈ l ∧ itemKey it ≠ k0)
    (hf2 : ∀ k, f2 k = if k0 = k then none else f k)
    (h1 : ∀ it ∈ l, f (itemKey it) = some (it.val, it.vsize))
    (h2 : ∀ k, (∀ it ∈ l, itemKey it ≠ k) → f k = none) :
    (∀ it ∈ l2, f2 (itemKey it) = some (it.val, it.vsize))
    ∧ ∀ k, (∀ it ∈ l2, itemKey it ≠ k) → f2 k = none := by
  constructor
  · intro it hit
    obtain ⟨a, b⟩ := (hp it).mp hit
    rw [hf2, if_neg (fun e => b e.symm)]
    exact h1 it a
  · intro k hk
    rw [hf2]
    split
    · rfl
    · rename_i hne
      apply h2
      intro it hit e
      exact hk it ((hp it).mpr ⟨hit, fun e2 => hne (by rw [← e2, e])⟩) e

theorem agree_insert {K V : Type} [DecidableEq K] (l l2 : List (CDBHTITEM K V))
    (f f2 : Nat × K → Option (V × Nat)) (item : CDBHTITEM K V)
    (hp : ∀ it, it ∈ l2 ↔ it = item ∨ (it ∈ l ∧ itemKey it ≠ itemKey item))
    (hf2 : ∀ k, f2 k = if itemKey item = k then some (item.val, item.vsize) else f k)
    (h1 : ∀ it ∈ l, f (itemKey it) = some (it.val, it.vsize))
    (h2 : ∀ k, (∀ it ∈ l, itemKey it ≠ k) → f k = none) :
    (∀ it ∈ l2, f2 (itemKey it) = some (it.val, it.vsize))
    ∧ ∀ k, (∀ it ∈ l2, itemKey it ≠ k) → f2 k = none := by
  constructor
  · intro it hit
    rcases (hp it).mp hit with e | ⟨a, b⟩
    · subst e
      rw [hf2, if_pos rfl]
    · rw [hf2, if_neg (fun e => b e.symm)]
      exact h1 it a
  · intro k hk
    have hne : itemKey item ≠ k := hk item ((hp item).mpr (Or.inl rfl))
    rw [hf2, if_neg hne]
    apply h2
    intro it hit e
    exact hk it ((hp it).mpr (Or.inr ⟨hit, fun e2 => hne (by rw [← e2, e])⟩)) e

theorem mem_filter_keyed {K V : Type} [DecidableEq K] (k0 : Nat × K) (l : List (CDBHTITEM K V))
    (it : CDBHTITEM K V) :
    it ∈ l.filter (fun it => !decide (itemKey it = k0)) ↔ it ∈ l ∧ itemKey it ≠ k0 := by
  rw [List.mem_filter]
  simp only [Bool.not_eq_true', decide_eq_false_iff_not, ne_eq]

/-- The LRU order after a touch: the touched item at the head, the others
behind it as before. -/
theorem order_front {K V : Type} [DecidableEq K] (l : List (CDBHTITEM K V))
    (t t2 : Nat × K → Nat) (cur : CDBHTITEM K V) (L : Nat)
    (ht0 : t2 (itemKey cur) = L + 1) (hne : ∀ k, k ≠ itemKey cur → t2 k = t k)
    (hle : ∀ k, t k ≤ L)
    (h : (l.map itemKey).Pairwise (fun a b => t b < t a)) :
    ((cur :: l.filter (fun it => !decide (itemKey it = itemKey cur))).map itemKey).Pairwise
      (fun a b => t2 b < t2 a) := by
  have hk : ∀ k ∈ (l.filter (fun it => !decide (itemKey it = itemKey cur))).map itemKey,
      k ≠ itemKey cur := by
    intro k hk
    obtain ⟨it, hit, e⟩ := List.mem_map.mp hk
    rw [← e]
    exact ((mem_filter_keyed _ l it).mp hit).2
  rw [List.map_cons, List.pairwise_cons]
  constructor
  · intro k hk2
    rw [ht0, hne k (hk k hk2)]
    have := hle k
    omega
  · have hs : List.Sublist ((l.filter (fun it => !decide (itemKey it = itemKey cur))).map itemKey)
        (l.map itemKey) := List.Sublist.map itemKey (List.filter_sublist l)
    refine List.Pairwise.imp_of_mem ?_ (List.Pairwise.sublist hs h)
    intro a b ha hb hab
    rw [hne a (hk a ha), hne b (hk b hb)]
    exact hab

theorem order_sub {K V : Type} (l l2 : List (CDBHTITEM K V)) (t : Nat × K → Nat)
    (hs : List.Sublist l2 l) (h : (l.map itemKey).Pairwise (fun a b => t b < t a)) :
    (l2.map itemKey).Pairwise (fun a b => t b < t a) :=
  List.Pairwise.sublist (List.Sublist.map itemKey hs) h


theorem Chain_step_insert2 {K V : Type} [DecidableEq K] (hf : K → Nat → Nat) (N : Nat)
    (hN : N ≤ 134217728) (ht : Chain.CDBHASHTABLE K V)
    (log : List (HtCall K V × Option (CDBHTITEM K V))) (h : Chain.RunInv hf N ht log)
    (hlen : log.length < N) (key : K) (ksize : Nat) (val : V) (vsize : Nat)
    (hc : callOK (HtCall.insert2 key ksize val vsize) = true) :
    ∃ r ht2, Chain.step hf ht (HtCall.insert2 key ksize val vsize) = some (r, ht2)
      ∧ Chain.RunInv hf N ht2 ((HtCall.insert2 key ksize val vsize, r) :: log)
      ∧ ht2.lru = ht.lru := by
  simp only [callOK, Bool.and_eq_true, decide_eq_true_eq] at hc
  have hlen0 := h.len
  obtain ⟨ht2, e, i1, i2, i3, i4⟩ := Chain_insert2_spec hf N ht h.inv hN key ksize val vsize
    hc.1 hc.2 (by omega)
  have hmem : ∀ it, it ∈ Chain.allItems ht2 ↔ it = CDBHTITEM.mk ksize vsize (hf key ksize) key val
      ∨ (it ∈ Chain.allItems ht
          ∧ itemKey it ≠ itemKey (CDBHTITEM.mk ksize vsize (hf key ksize) key val)) := by
    intro it
    rw [i2.mem_iff, List.mem_cons, mem_filter_keyed]
    rfl
  obtain ⟨a1, a2⟩ := agree_insert (Chain.allItems ht) (Chain.allItems ht2) (lastIns log)
    (lastIns ((HtCall.insert2 key ksize val vsize, none) :: log))
    (CDBHTITEM.mk ksize vsize (hf key ksize) key val) hmem (fun k => rfl) h.present h.absent
  refine ⟨none, ht2, by simp only [Chain.step, e, Option.map_some'], ?_, i3⟩
  refine ⟨i1, ?_, a1, a2, ?_⟩
  · have := i2.length_eq
    have := List.length_filter_le (fun it => !decide (itemKey it = (ksize, key)))
      (Chain.allItems ht)
    simp only [List.length_cons] at *
    omega
  · intro hl
    rw [i3] at hl
    rw [i4]
    simp only [hl, ↓reduceIte]
    apply order_front ht.lrulist (touchTime log) _
      (CDBHTITEM.mk ksize vsize (hf key ksize) key val) log.length
    · simp only [touchTime, touches, itemKey, decide_True, ↓reduceIte]
    · intro k hk
      have : ¬ ((ksize, key) = k) := fun e => hk e.symm
      simp only [touchTime, touches, this, decide_False, Bool.false_eq_true, ↓reduceIte]
    · exact fun k => touchTime_le k log
    · exact h.order hl

theorem Chain_step_del {K V : Type} [DecidableEq K] (hf : K → Nat → Nat) (N : Nat)
    (hN : N ≤ 134217728) (ht : Chain.CDBHASHTABLE K V)
    (log : List (HtCall K V × Option (CDBHTITEM K V))) (h : Chain.RunInv hf N ht log)
    (key : K) (ksize : Nat) :
    ∃ r ht2, Chain.step hf ht (HtCall.del key ksize) = some (r, ht2)
      ∧ Chain.RunInv hf N ht2 ((HtCall.del key ksize, r) :: log)
      ∧ ht2.lru = ht.lru := by
  obtain ⟨_, i1, i2, i3, i4⟩ := Chain_del_spec hf N ht h.inv hN key ksize
  have hmem : ∀ it, it ∈ Chain.allItems (Chain.cdb_ht_del hf ht key ksize).2
      ↔ it ∈ Chain.allItems ht ∧ itemKey it ≠ (ksize, key) := by
    intro it
    rw [i2.mem_iff, mem_filter_keyed]
  obtain ⟨a1, a2⟩ := agree_remove (Chain.allItems ht) _ (lastIns log)
    (lastIns ((HtCall.del key ksize, (Chain.cdb_ht_del hf ht key ksize).1) :: log))
    (ksize, key) hmem (fun k => by simp only [lastIns, removes, decide_eq_true_eq])
    h.present h.absent
  refine ⟨(Chain.cdb_ht_del hf ht key ksize).1, (Chain.cdb_ht_del hf ht key ksize).2, rfl, ?_, i3⟩
  refine ⟨i1, ?_, a1, a2, ?_⟩
  · have := i2.length_eq
    have := List.length_filter_le (fun it => !decide (itemKey it = (ksize, key)))
      (Chain.allItems ht)
    have := h.len
    simp only [List.length_cons] at *
    omega
  · intro hl
    rw [i3] at hl
    rw [i4]
    have ht : ∀ k, touchTime ((HtCall.del key ksize, (Chain.cdb_ht_del hf ht key ksize).1) :: log)
        k = touchTime log k := by
      intro k
      simp only [touchTime, touches, Bool.false_eq_true, ↓reduceIte]
    simp only [ht]
    exact order_sub _ _ _ (List.filter_sublist _) (h.order hl)


theorem Chain_step_get {K V : Type} [DecidableEq K] (hf : K → Nat → Nat) (N : Nat)
    (hN : N ≤ 134217728) (ht : Chain.CDBHASHTABLE K V)
    (log : List (HtCall K V × Option (CDBHTITEM K V))) (h : Chain.RunInv hf N ht log)
    (key : K) (ksize : Nat) (mtf : Bool) :
    ∃ r ht2, Chain.step hf ht (HtCall.get key ksize mtf) = some (r, ht2)
      ∧ Chain.RunInv hf N ht2 ((HtCall.get key ksize mtf, r) :: log)
      ∧ ht2.lru = ht.lru := by
  obtain ⟨i0, i1, i2, i3, i4⟩ := Chain_get3_spec hf N ht h.inv hN key ksize mtf
  have hl0 : ∀ k, lastIns ((HtCall.get key ksize mtf,
      (Chain.cdb_ht_get3 hf ht key ksize mtf).1) :: log) k = lastIns log k := by
    intro k
    simp only [lastIns, removes, Bool.false_eq_true, ↓reduceIte]
  refine ⟨(Chain.cdb_ht_get3 hf ht key ksize mtf).1, (Chain.cdb_ht_get3 hf ht key ksize mtf).2,
    rfl, ?_, i3⟩
  refine ⟨i1, ?_, ?_, ?_, ?_⟩
  · rw [i2]
    have := h.len
    simp only [List.length_cons]
    omega
  · intro it hit
    rw [hl0]
    rw [i2] at hit
    exact h.present it hit
  · intro k hk
    rw [hl0]
    rw [i2] at hk
    exact h.absent k hk
  · intro hl
    rw [i3] at hl
    rw [i4]
    cases hr : (Chain.cdb_ht_get3 hf ht key ksize mtf).1 with
    | none =>
      have ht : ∀ k, touchTime ((HtCall.get key ksize mtf, none) :: log) k = touchTime log k := by
        intro k
        simp only [touchTime, touches, Bool.false_eq_true, ↓reduceIte]
      simp only [ht]
      exact h.order hl
    | some cur =>
      have hkey : itemKey cur = (ksize, key) := ((i0 cur).mp hr).2
      cases mtf with
      | false =>
        have ht : ∀ k, touchTime ((HtCall.get key ksize false, some cur) :: log) k
            = touchTime log k := by
          intro k
          simp only [touchTime, touches, Bool.false_and, Bool.false_eq_true, ↓reduceIte]
        simp only [ht, hl, Bool.and_false, Bool.false_eq_true, ↓reduceIte]
        exact h.order hl
      | true =>
        simp only [hl, Bool.and_self, ↓reduceIte]
        rw [← hkey]
        apply order_front ht.lrulist (touchTime log) _ cur log.length
        · simp only [touchTime, touches, hkey, decide_True, Bool.and_self, ↓reduceIte]
        · intro k hk
          have : ¬ ((ksize, key) = k) := fun e => hk (by rw [hkey, e])
          simp only [touchTime, touches, this, decide_False, Bool.and_false, Bool.false_eq_true,
            ↓reduceIte]
        · exact fun k => touchTime_le k log
        · exact h.order hl

theorem Chain_step_poptail {K V : Type} [DecidableEq K] (hf : K → Nat → Nat) (N : Nat)
    (hN : N ≤ 134217728) (ht : Chain.CDBHASHTABLE K V)
    (log : List (HtCall K V × Option (CDBHTITEM K V))) (h : Chain.RunInv hf N ht log) :
    ∃ r ht2, Chain.step hf ht HtCall.poptail = some (r, ht2)
      ∧ Chain.RunInv hf N ht2 ((HtCall.poptail, r) :: log)
      ∧ ht2.lru = ht.lru := by
  obtain ⟨p1, p2⟩ := Chain_poptail_spec hf N ht h.inv hN
  by_cases hcase : ht.lru = false ∨ ht.lrulist = []
  · have e := p1 hcase
    have hl0 : ∀ k, lastIns ((HtCall.poptail, (none : Option (CDBHTITEM K V))) :: log) k
        = lastIns log k := by
      intro k
      simp only [lastIns, removes, Bool.false_eq_true, ↓reduceIte]
    have ht0 : ∀ k, touchTime ((HtCall.poptail, (none : Option (CDBHTITEM K V))) :: log) k
        = touchTime log k := by
      intro k
      simp only [touchTime, touches, Bool.false_eq_true, ↓reduceIte]
    refine ⟨none, ht, by simp only [Chain.step, e], ?_, rfl⟩
    refine ⟨h.inv, ?_, ?_, ?_, ?_⟩
    · have := h.len
      simp only [List.length_cons]
      omega
    · intro it hit
      rw [hl0]
      exact h.present it hit
    · intro k hk
      rw [hl0]
      exact h.absent k hk
    · intro hl
      simp only [ht0]
      exact h.order hl
  · have hl : ht.lru = true := by
      cases hx : ht.lru with
      | false => exact absurd (Or.inl hx) hcase
      | true => rfl
    have hne : ht.lrulist ≠ [] := fun e => hcase (Or.inr e)
    obtain ⟨i0, _, i1, i2, i3, i4, _⟩ := p2 (ht.lrulist.getLast hne) hl
      (List.getLast?_eq_getLast _ hne)
    have hmem : ∀ it, it ∈ Chain.allItems (Chain.cdb_ht_poptail ht).2
        ↔ it ∈ Chain.allItems ht ∧ itemKey it ≠ itemKey (ht.lrulist.getLast hne) := by
      intro it
      rw [i2.mem_iff, mem_filter_keyed]
    obtain ⟨a1, a2⟩ := agree_remove (Chain.allItems ht) _ (lastIns log)
      (lastIns ((HtCall.poptail, (Chain.cdb_ht_poptail ht).1) :: log))
      (itemKey (ht.lrulist.getLast hne)) hmem
      (fun k => by rw [i0]; simp only [lastIns, removes, decide_eq_true_eq])
      h.present h.absent
    have ht0 : ∀ k, touchTime ((HtCall.poptail, (Chain.cdb_ht_poptail ht).1) :: log) k
        = touchTime log k := by
      intro k
      simp only [touchTime, touches, Bool.false_eq_true, ↓reduceIte]
    refine ⟨(Chain.cdb_ht_poptail ht).1, (Chain.cdb_ht_poptail ht).2, rfl, ?_, by rw [i3, hl]⟩
    refine ⟨i1, ?_, a1, a2, ?_⟩
    · have := i2.length_eq
      have := List.length_filter_le
        (fun it => !decide (itemKey it = itemKey (ht.lrulist.getLast hne))) (Chain.allItems ht)
      have := h.len
      simp only [List.length_cons] at *
      omega
    · intro _
      rw [i4]
      simp only [ht0]
      exact order_sub _ _ _ (List.dropLast_sublist _) (h.order hl)

/-- Every call keeps the run invariant, as long as fewer than `N` calls were
made before it. -/
theorem Chain_step_spec {K V : Type} [DecidableEq K] (hf : K → Nat → Nat) (N : Nat)
    (hN : N ≤ 134217728) (ht : Chain.CDBHASHTABLE K V)
    (log : List (HtCall K V × Option (CDBHTITEM K V))) (h : Chain.RunInv hf N ht log)
    (hlen : log.length < N) (c : HtCall K V) (hc : callOK c = true) :
    ∃ r ht2, Chain.step hf ht c = some (r, ht2)
      ∧ Chain.RunInv hf N ht2 ((c, r) :: log) ∧ ht2.lru = ht.lru := by
  cases c with
  | insert2 key ksize val vsize =>
    exact Chain_step_insert2 hf N hN ht log h hlen key ksize val vsize hc
  | del key ksize => exact Chain_step_del hf N hN ht log h key ksize
  | get key ksize mtf => exact Chain_step_get hf N hN ht log h key ksize mtf
  | poptail => exact Chain_step_poptail hf N hN ht log h

/-- A run of calls from a table and log that satisfy the run invariant
returns, and table and log satisfy the invariant again. -/
theorem Chain_run_spec {K V : Type} [DecidableEq K] (hf : K → Nat → Nat) (N : Nat)
    (hN : N ≤ 134217728) :
    ∀ (calls : List (HtCall K V)) (ht : Chain.CDBHASHTABLE K V)
      (log : List (HtCall K V × Option (CDBHTITEM K V))),
      Chain.RunInv hf N ht log → log.length + calls.length ≤ N →
      (∀ c ∈ calls, callOK c = true) →
      ∃ ht2 log2, Chain.run hf ht log calls = some (ht2, log2)
        ∧ Chain.RunInv hf N ht2 log2 ∧ ht2.lru = ht.lru
  | [], ht, log, h, _, _ => ⟨ht, log, rfl, h, rfl⟩
  | c :: cs, ht, log, h, hlen, hc => by
      simp only [List.length_cons] at hlen
      obtain ⟨r, ht1, e, h1, l1⟩ := Chain_step_spec hf N hN ht log h (by omega) c
        (hc c (List.mem_cons_self _ _))
      obtain ⟨ht2, log2, e2, h2, l2⟩ := Chain_run_spec hf N hN cs ht1 ((c, r) :: log) h1
        (by simp only [List.length_cons]; omega)
        (fun x hx => hc x (List.mem_cons_of_mem _ hx))
      exact ⟨ht2, log2, by simp only [Chain.run, e, e2], h2, by rw [l2, l1]⟩


theorem Chain_Inv_mono {K V : Type} (hf : K → Nat → Nat) (n n2 : Nat) (hn : n ≤ n2)
    (ht : Chain.CDBHASHTABLE K V) (h : Chain.Inv hf n ht) : Chain.Inv hf n2 ht :=
  { nbuckets := h.nbuckets
    bucket := fun bi b hb => Chain_BucketOK_mono hf n n2 bi b (h.bucket bi b hb) hn
    nodup := h.nodup
    count := h.count
    bound := Nat.le_trans h.bound hn
    sizes := h.sizes
    size_eq := h.size_eq
    lru_ok := h.lru_ok }

theorem Chain_allItems_new {K V : Type} (lru : Bool) :
    Chain.allItems (Chain.cdb_ht_new lru : Chain.CDBHASHTABLE K V) = [] := by
  simp only [Chain.allItems, Chain.cdb_ht_new, List.map_replicate, List.flatten_eq_nil_iff]
  intro l hl
  rw [(List.mem_replicate.mp hl).2]
  rfl

theorem Chain_RunInv_new {K V : Type} [DecidableEq K] (hf : K → Nat → Nat) (N : Nat)
    (lru : Bool) :
    Chain.RunInv hf N (Chain.cdb_ht_new lru : Chain.CDBHASHTABLE K V) [] :=
  { inv := Chain_Inv_mono hf 0 N (Nat.zero_le _) _ (Chain_Inv_new hf lru)
    len := by rw [Chain_allItems_new]; exact Nat.le_refl _
    present := by
      intro it hit
      rw [Chain_allItems_new] at hit
      cases hit
    absent := fun _ _ => rfl
    order := fun _ => List.Pairwise.nil }

/-- A run from a new table: it returns, and table and log satisfy the run
invariant. -/
theorem Chain_run_new {K V : Type} [DecidableEq K] (hf : K → Nat → Nat) (lru : Bool)
    (calls : List (HtCall K V)) (hlen : calls.length ≤ 134217728)
    (hsz : ∀ c ∈ calls, callOK c = true) :
    ∃ ht log, Chain.run hf (Chain.cdb_ht_new lru) [] calls = some (ht, log)
      ∧ Chain.RunInv hf 134217728 ht log ∧ ht.lru = lru := by
  obtain ⟨ht, log, e, h, l⟩ := Chain_run_spec hf 134217728 (Nat.le_refl _) calls
    (Chain.cdb_ht_new lru) [] (Chain_RunInv_new hf _ lru)
    (by simp only [List.length_nil, Nat.zero_add]; exact hlen) hsz
  exact ⟨ht, log, e, h, l⟩

/-- What `cdb_ht_get` returns from a table that agrees with its log: value and
`vsize` of the last insert of the key not removed since, or NULL and 0. -/
theorem Chain_get_agrees {K V : Type} [DecidableEq K] (hf : K → Nat → Nat) (N : Nat)
    (hN : N ≤ 134217728) (ht : Chain.CDBHASHTABLE K V)
    (log : List (HtCall K V × Option (CDBHTITEM K V))) (h : Chain.RunInv hf N ht log)
    (key : K) (ksize : Nat) (mtf : Bool) :
    (Chain.cdb_ht_get hf ht key ksize mtf).1 = (lastIns log (ksize, key)).map Prod.fst
    ∧ (Chain.cdb_ht_get hf ht key ksize mtf).2.1
        = ((lastIns log (ksize, key)).map Prod.snd).getD 0 := by
  obtain ⟨i0, _⟩ := Chain_get3_spec hf N ht h.inv hN key ksize mtf
  cases hr : Chain.cdb_ht_get3 hf ht key ksize mtf with
  | mk r ht1 =>
    rw [hr] at i0
    cases r with
    | none =>
      have : lastIns log (ksize, key) = none := by
        apply h.absent
        intro it hit e
        have := (i0 it).mpr ⟨hit, e⟩
        cases this
      simp only [Chain.cdb_ht_get, hr, this, Option.map_none', Option.getD_none, and_self]
    | some res =>
      obtain ⟨m1, m2⟩ := (i0 res).mp rfl
      have := h.present res m1
      rw [m2] at this
      simp only [Chain.cdb_ht_get, hr, this, Option.map_some', Option.getD_some, and_self]

/-- The item count of a table that agrees with its log is the number of
distinct keys present. -/
theorem Chain_num_agrees {K V : Type} [DecidableEq K] (hf : K → Nat → Nat) (N : Nat)
    (ht : Chain.CDBHASHTABLE K V)
    (log : List (HtCall K V × Option (CDBHTITEM K V))) (h : Chain.RunInv hf N ht log) :
    ht.num = presentKeys log := by
  have hp : List.Perm ((Chain.allItems ht).map itemKey)
      ((insertedKeys log).dedup.filter fun k => (lastIns log k).isSome) := by
    rw [List.perm_ext_iff_of_nodup h.inv.nodup
      (List.Nodup.filter _ (List.nodup_dedup _))]
    intro k
    rw [List.mem_filter, List.mem_dedup]
    constructor
    · intro hk
      obtain ⟨it, hit, e⟩ := List.mem_map.mp hk
      have := h.present it hit
      rw [e] at this
      have h2 : (lastIns log k).isSome = true := by rw [this]; rfl
      exact ⟨lastIns_inserted k log h2, h2⟩
    · intro ⟨_, h2⟩
      by_contra hno
      have := h.absent k (fun it hit e => hno (by rw [← e]; exact List.mem_map_of_mem _ hit))
      rw [this] at h2
      cases h2
  rw [h.inv.count, presentKeys, ← hp.length_eq, List.length_map]

/-- C11: for every hash function, every LRU flag and every sequence of at most
2^27 calls of `cdb_ht_insert2` (with `int` sizes), `cdb_ht_del`, `cdb_ht_get3`
and `cdb_ht_poptail` on a new table, growth of second-level arrays included,
the run returns, `cdb_ht_get` of any key then returns the value and `vsize` of
the most recent insert of the key that no delete or `poptail` removed since,
or NULL and 0 if there is none, and `ht->num` is the number of distinct keys
present. -/
theorem ht_get_returns_last_insert {K V : Type} [DecidableEq K] (hf : K → Nat → Nat)
    (lru : Bool) (calls : List (HtCall K V)) (hlen : calls.length ≤ 134217728)
    (hsz : ∀ c ∈ calls, callOK c = true) :
    ∃ ht log, Chain.run hf (Chain.cdb_ht_new lru) [] calls = some (ht, log)
      ∧ (∀ key ksize mtf,
          (Chain.cdb_ht_get hf ht key ksize mtf).1 = (lastIns log (ksize, key)).map Prod.fst
          ∧ (Chain.cdb_ht_get hf ht key ksize mtf).2.1
              = ((lastIns log (ksize, key)).map Prod.snd).getD 0)
      ∧ ht.num = presentKeys log := by
  obtain ⟨ht, log, e, h, _⟩ := Chain_run_new hf lru calls hlen hsz
  exact ⟨ht, log, e, fun key ksize mtf => Chain_get_agrees hf _ (Nat.le_refl _) ht log h key
    ksize mtf, Chain_num_agrees hf _ ht log h⟩

set_option maxRecDepth 100000 in
/-- C11 at work: ten calls on an LRU table whose hash function sends every key
to one slot; the sixth insert grows the bucket from 2 to 8 slots. -/
theorem ht_get_returns_last_insert_witness :
    (growCalls.length ≤ 134217728 ∧ (∀ c ∈ growCalls, callOK c = true))
    ∧ ((Chain.run (fun _ _ => 0) (Chain.cdb_ht_new true) [] growCalls).map
        fun r => ((Chain.bucketAt r.1 0).bnum, r.1.num)) = some (8, 4)
    ∧ ∃ ht log, Chain.run (fun _ _ => 0) (Chain.cdb_ht_new true) [] growCalls = some (ht, log)
      ∧ (∀ key ksize mtf,
          (Chain.cdb_ht_get (fun _ _ => 0) ht key ksize mtf).1
            = (lastIns log (ksize, key)).map Prod.fst
          ∧ (Chain.cdb_ht_get (fun _ _ => 0) ht key ksize mtf).2.1
              = ((lastIns log (ksize, key)).map Prod.snd).getD 0)
      ∧ ht.num = presentKeys log :=
  ⟨⟨by decide, by decide⟩, by decide,
    ht_get_returns_last_insert (fun _ _ => 0) true growCalls (by decide) (by decide)⟩


theorem Chain_get3_nomtf {K V : Type} [DecidableEq K] (hf : K → Nat → Nat)
    (ht : Chain.CDBHASHTABLE K V) (key : K) (ksize : Nat) :
    (Chain.cdb_ht_get3 hf ht key ksize false).2 = ht := by
  simp only [Chain.cdb_ht_get3, Bool.and_false, Bool.false_and, Bool.false_eq_true, ↓reduceIte]
  split <;> rfl

theorem option_ext_some {α : Type} (a b : Option α) (h : ∀ x, a = some x ↔ b = some x) :
    a = b := by
  cases a with
  | none =>
    cases b with
    | none => rfl
    | some y => exact ((h y).mpr rfl)
  | some x => exact ((h x).mp rfl).symm

/-- What `cdb_ht_poptail` and `cdb_ht_gettail` return from a table that agrees
with its log. -/
theorem Chain_poptail_agrees {K V : Type} [DecidableEq K] (hf : K → Nat → Nat) (N : Nat)
    (hN : N ≤ 134217728) (ht : Chain.CDBHASHTABLE K V)
    (log : List (HtCall K V × Option (CDBHTITEM K V))) (h : Chain.RunInv hf N ht log) :
    Chain.cdb_ht_gettail ht = (Chain.cdb_ht_poptail ht).1
    ∧ (ht.lru = false → (Chain.cdb_ht_poptail ht).1 = none)
    ∧ ((∀ k, lastIns log k = none) → (Chain.cdb_ht_poptail ht).1 = none)
    ∧ (ht.lru = true → (∃ k, (lastIns log k).isSome = true) →
        ∃ item, (Chain.cdb_ht_poptail ht).1 = some item)
    ∧ ∀ item, (Chain.cdb_ht_poptail ht).1 = some item →
        lastIns log (itemKey item) = some (item.val, item.vsize)
        ∧ (∀ k, k ≠ itemKey item → (lastIns log k).isSome = true →
            touchTime log (itemKey item) < touchTime log k)
        ∧ ∀ key ksize mtf,
            (Chain.cdb_ht_get3 hf (Chain.cdb_ht_poptail ht).2 key ksize mtf).1
              = if (ksize, key) = itemKey item then none
                else (Chain.cdb_ht_get3 hf ht key ksize mtf).1 := by
  obtain ⟨p1, p2⟩ := Chain_poptail_spec hf N ht h.inv hN
  by_cases hcase : ht.lru = false ∨ ht.lrulist = []
  · have e := p1 hcase
    have hg : Chain.cdb_ht_gettail ht = none := by
      rcases hcase with hl | hl
      · have := h.inv.lru_ok
        simp only [hl, Bool.false_eq_true, ↓reduceIte] at this
        simp only [Chain.cdb_ht_gettail, this, List.getLast?_nil]
      · simp only [Chain.cdb_ht_gettail, hl, List.getLast?_nil]
    rw [e, hg]
    refine ⟨rfl, fun _ => rfl, fun _ => rfl, ?_, ?_⟩
    · intro hl ⟨k, hk⟩
      rcases hcase with hl2 | hl2
      · rw [hl] at hl2; cases hl2
      · obtain ⟨l1, _, _⟩ := Chain_lru_facts hf N ht h.inv hl
        rw [hl2] at l1
        have hnil : Chain.allItems ht = [] := List.Perm.nil_eq l1 ▸ rfl
        have := h.absent k (by rw [hnil]; intro it hit; cases hit)
        rw [this] at hk
        cases hk
    · intro item hi
      cases hi
  · have hl : ht.lru = true := by
      cases hx : ht.lru with
      | false => exact absurd (Or.inl hx) hcase
      | true => rfl
    have hne : ht.lrulist ≠ [] := fun e => hcase (Or.inr e)
    obtain ⟨i0, ia, i1, i2, i3, i4, i5⟩ := p2 (ht.lrulist.getLast hne) hl
      (List.getLast?_eq_getLast _ hne)
    obtain ⟨l1, _, _⟩ := Chain_lru_facts hf N ht h.inv hl
    refine ⟨by rw [i0, Chain.cdb_ht_gettail, List.getLast?_eq_getLast _ hne], ?_, ?_,
      fun _ _ => ⟨_, i0⟩, ?_⟩
    · intro hf2
      rw [hl] at hf2
      cases hf2
    · intro hall
      have := h.present _ ia
      rw [hall] at this
      cases this
    · intro item hi
      rw [i0] at hi
      have hie : ht.lrulist.getLast hne = item := Option.some.inj hi
      rw [hie] at ia i2 i5
      refine ⟨h.present item ia, ?_, ?_⟩
      · intro k hk hp
        have hex : ∃ it ∈ Chain.allItems ht, itemKey it = k := by
          by_contra hno
          have := h.absent k (fun it hit e => hno ⟨it, hit, e⟩)
          rw [this] at hp
          cases hp
        obtain ⟨it, hit, e⟩ := hex
        have hil : it ∈ ht.lrulist.dropLast ++ [item] := by
          rw [← i5]; exact l1.symm.subset hit
        have hid : it ∈ ht.lrulist.dropLast := by
          rcases List.mem_append.mp hil with h1 | h1
          · exact h1
          · rw [List.mem_singleton.mp h1] at e
            exact absurd e.symm hk
        have ho := h.order hl
        rw [i5, List.map_append, List.pairwise_append] at ho
        have := ho.2.2 (itemKey it) (List.mem_map_of_mem _ hid) (itemKey item)
          (by simp only [List.map_cons, List.map_nil, List.mem_singleton])
        rw [e] at this
        exact this
      · intro key ksize mtf
        obtain ⟨g0, _⟩ := Chain_get3_spec hf N _ i1 hN key ksize mtf
        obtain ⟨g1, _⟩ := Chain_get3_spec hf N ht h.inv hN key ksize mtf
        apply option_ext_some
        intro cur
        rw [g0, i2.mem_iff, mem_filter_keyed]
        by_cases e : (ksize, key) = itemKey item
        · simp only [e, ↓reduceIte]
          constructor
          · intro ⟨⟨_, a⟩, b⟩
            exact absurd b a
          · intro hx
            cases hx
        · simp only [e, ↓reduceIte]
          rw [g1]
          constructor
          · intro ⟨⟨a, _⟩, b⟩
            exact ⟨a, b⟩
          · intro ⟨a, b⟩
            exact ⟨⟨a, by rw [b]; exact e⟩, b⟩

/-- C12: after any sequence of at most 2^27 inserts (with `int` sizes),
deletes, gets and `poptail`s on a new table, `cdb_ht_gettail` returns what
`cdb_ht_poptail` returns; a get without `mtf` leaves the table as it is; in a
non-LRU table, and when no key is present, `poptail` returns NULL; in an LRU
table with a key present it returns an item; the item it returns is present,
its most recent touch (insert, or successful get with `mtf`) is older than that
of every other present key, and afterwards it is gone while every other key is
found as before. -/
theorem ht_poptail_returns_oldest {K V : Type} [DecidableEq K] (hf : K → Nat → Nat)
    (lru : Bool) (calls : List (HtCall K V)) (hlen : calls.length ≤ 134217728)
    (hsz : ∀ c ∈ calls, callOK c = true) :
    ∃ ht log, Chain.run hf (Chain.cdb_ht_new lru) [] calls = some (ht, log)
      ∧ Chain.cdb_ht_gettail ht = (Chain.cdb_ht_poptail ht).1
      ∧ (∀ key ksize, (Chain.cdb_ht_get3 hf ht key ksize false).2 = ht)
      ∧ (lru = false → (Chain.cdb_ht_poptail ht).1 = none)
      ∧ ((∀ k, lastIns log k = none) → (Chain.cdb_ht_poptail ht).1 = none)
      ∧ (lru = true → (∃ k, (lastIns log k).isSome = true) →
          ∃ item, (Chain.cdb_ht_poptail ht).1 = some item)
      ∧ ∀ item, (Chain.cdb_ht_poptail ht).1 = some item →
          lastIns log (itemKey item) = some (item.val, item.vsize)
          ∧ (∀ k, k ≠ itemKey item → (lastIns log k).isSome = true →
              touchTime log (itemKey item) < touchTime log k)
          ∧ ∀ key ksize mtf,
              (Chain.cdb_ht_get3 hf (Chain.cdb_ht_poptail ht).2 key ksize mtf).1
                = if (ksize, key) = itemKey item then none
                  else (Chain.cdb_ht_get3 hf ht key ksize mtf).1 := by
  obtain ⟨ht, log, e, h, hl⟩ := Chain_run_new hf lru calls hlen hsz
  obtain ⟨a1, a2, a3, a4, a5⟩ := Chain_poptail_agrees hf _ (Nat.le_refl _) ht log h
  rw [hl] at a2 a4
  exact ⟨ht, log, e, a1, Chain_get3_nomtf hf ht, a2, a3, a4, a5⟩

set_option maxRecDepth 100000 in
/-- C12 at work: keys 1, 2, 3 are inserted, key 1 is fetched with `mtf` and
key 2 without; `cdb_ht_gettail` and `cdb_ht_poptail` return the item of key 2,
whose last touch is the oldest. -/
theorem ht_poptail_returns_oldest_witness :
    (lruCalls.length ≤ 134217728 ∧ (∀ c ∈ lruCalls, callOK c = true))
    ∧ ((Chain.run (fun k _ => k) (Chain.cdb_ht_new true) [] lruCalls).map
        fun r => ((Chain.cdb_ht_gettail r.1).map itemKey,
          (Chain.cdb_ht_poptail r.1).1.map itemKey,
          touchTime r.2 (4, 1), touchTime r.2 (4, 2), touchTime r.2 (4, 3)))
        = some (some (4, 2), some (4, 2), 4, 2, 3)
    ∧ ∃ ht log, Chain.run (fun k _ => k) (Chain.cdb_ht_new true) [] lruCalls = some (ht, log)
      ∧ Chain.cdb_ht_gettail ht = (Chain.cdb_ht_poptail ht).1
      ∧ ∀ item, (Chain.cdb_ht_poptail ht).1 = some item →
          ∀ k, k ≠ itemKey item → (lastIns log k).isSome = true →
            touchTime log (itemKey item) < touchTime log k := by
  refine ⟨⟨by decide, by decide⟩, by decide, ?_⟩
  obtain ⟨ht, log, e, a1, _, _, _, _, a5⟩ :=
    ht_poptail_returns_oldest (fun k _ => k) true lruCalls (by decide) (by decide)
  exact ⟨ht, log, e, a1, fun item hi => (a5 item hi).2.1⟩


/-! ## The table with its chains: memory accounting -/

/-- In a sound table `ht->size` is the accounting formula. -/
theorem Chain_sizeSpec_of_Inv {K V : Type} (hf : K → Nat → Nat) (n : Nat)
    (ht : Chain.CDBHASHTABLE K V) (h : Chain.Inv hf n ht) : ht.size = Chain.sizeSpec ht := by
  have e : (fun it : CDBHTITEM K V =>
      SIZEOF_CDBHTITEM + (if ht.lru then 2 * SIZEOF_PTR else 0) + it.ksize + it.vsize)
      = htItemBytes ht.lru := by
    funext it
    simp only [htItemBytes]
    omega
  rw [Chain.sizeSpec, e]
  exact h.size_eq

/-- The accounting formula holds after `cdb_ht_new` and after every sequence
of at most 2^27 inserts, deletes, gets and `poptail`s, and still after a
following `cdb_ht_del2` or `cdb_ht_removetail`. -/
theorem Chain_size_accounting {K V : Type} [DecidableEq K] (hf : K → Nat → Nat)
    (lru : Bool) (calls : List (HtCall K V)) (hlen : calls.length ≤ 134217728)
    (hsz : ∀ c ∈ calls, callOK c = true) :
    (Chain.cdb_ht_new lru : Chain.CDBHASHTABLE K V).size
        = Chain.sizeSpec (Chain.cdb_ht_new lru : Chain.CDBHASHTABLE K V)
    ∧ ∃ ht log, Chain.run hf (Chain.cdb_ht_new lru) [] calls = some (ht, log)
      ∧ ht.size = Chain.sizeSpec ht
      ∧ (∀ key ksize, (Chain.cdb_ht_del2 hf ht key ksize).2.size
          = Chain.sizeSpec (Chain.cdb_ht_del2 hf ht key ksize).2)
      ∧ (Chain.cdb_ht_removetail ht).size = Chain.sizeSpec (Chain.cdb_ht_removetail ht) := by
  refine ⟨Chain_sizeSpec_of_Inv hf 0 _ (Chain_Inv_new hf lru), ?_⟩
  obtain ⟨ht, log, e, h, _⟩ := Chain_run_new hf lru calls hlen hsz
  refine ⟨ht, log, e, Chain_sizeSpec_of_Inv hf _ ht h.inv, ?_, ?_⟩
  · intro key ksize
    obtain ⟨_, i1, _⟩ := Chain_del_spec hf _ ht h.inv (Nat.le_refl _) key ksize
    have e2 : (Chain.cdb_ht_del2 hf ht key ksize).2 = (Chain.cdb_ht_del hf ht key ksize).2 := by
      simp only [Chain.cdb_ht_del2]
      split <;> rename_i h1 <;> rw [h1]
    rw [e2]
    exact Chain_sizeSpec_of_Inv hf _ _ i1
  · obtain ⟨p1, p2⟩ := Chain_poptail_spec hf _ ht h.inv (Nat.le_refl _)
    by_cases hcase : ht.lru = false ∨ ht.lrulist = []
    · rw [Chain.cdb_ht_removetail, p1 hcase]
      exact Chain_sizeSpec_of_Inv hf _ ht h.inv
    · have hl : ht.lru = true := by
        cases hx : ht.lru with
        | false => exact absurd (Or.inl hx) hcase
        | true => rfl
      have hne : ht.lrulist ≠ [] := fun e => hcase (Or.inr e)
      obtain ⟨_, _, i1, _⟩ := p2 (ht.lrulist.getLast hne) hl (List.getLast?_eq_getLast _ hne)
      exact Chain_sizeSpec_of_Inv hf _ _ i1

set_option maxRecDepth 100000 in
/-- C13, evaluated: one item of 8 key bytes and 8 value bytes is inserted into
a new table and `cdb_ht_clean` is called.  The table is empty again (`num` is
0 and the accounting formula gives 8240, the size of a new table), but
`ht->size` still counts the freed item: 8276 without LRU mode, 8292 with. -/
theorem ht_clean_keeps_size :
    ((Chain.cdb_ht_insert2 (fun k _ => k) (Chain.cdb_ht_new false) 1 8 10 8).map
        fun ht : Chain.CDBHASHTABLE Nat Nat => (ht.size, Chain.sizeSpec ht,
          (Chain.cdb_ht_clean ht).num, (Chain.cdb_ht_clean ht).size,
          Chain.sizeSpec (Chain.cdb_ht_clean ht)))
      = some (8276, 8276, 0, 8276, 8240)
    ∧ ((Chain.cdb_ht_insert2 (fun k _ => k) (Chain.cdb_ht_new true) 1 8 10 8).map
        fun ht : Chain.CDBHASHTABLE Nat Nat => (ht.size, Chain.sizeSpec ht,
          (Chain.cdb_ht_clean ht).num, (Chain.cdb_ht_clean ht).size,
          Chain.sizeSpec (Chain.cdb_ht_clean ht)))
      = some (8292, 8292, 0, 8292, 8240) := by
  constructor <;> decide


/-! ## Virtual offsets -/

theorem land_255 (x : Nat) : Nat.land x 255 = x % 256 :=
  Nat.and_pow_two_sub_one_eq_mod x 8

theorem land_65535 (x : Nat) : Nat.land x 65535 = x % 65536 :=
  Nat.and_pow_two_sub_one_eq_mod x 16

theorem lor_256 (a b : Nat) (h : b < 256) : Nat.lor (256 * a) b = 256 * a + b :=
  (@Nat.mul_add_lt_is_or 8 b h a).symm

theorem lor_65536 (a b : Nat) (h : b < 65536) : Nat.lor (65536 * a) b = 65536 * a + b :=
  (@Nat.mul_add_lt_is_or 16 b h a).symm

/-- Macro `ROFF2VOFF` on a file id below 2^24 and an offset below 2^28, in
arithmetic. -/
theorem ROFF2VOFF_eq (fid roff : Nat) (hf : fid < 16777216) (hr : roff < 268435456) :
    ROFF2VOFF fid roff = { i4 := 256 * fid + roff / 16 / 65536, i2 := roff / 16 % 65536 } := by
  have h1 : (fid * 256) % U32 = 256 * fid := by
    simp only [U32]
    omega
  have h2 : roff / 16 / 65536 < 256 := by omega
  simp only [ROFF2VOFF, h1, land_65535, lor_256 fid _ h2]

/-- C22: for every file id below 2^24 and every real offset below 2^28 that
is a multiple of 16, `VOFF2ROFF` of the virtual offset that `ROFF2VOFF` makes
of them gives the file id and the offset back; that virtual offset is null
only for file id 0 and offset 0, so no offset from the 64-byte file header on
is null. -/
theorem voff_round_trip (fid roff : Nat) (hf : fid < 16777216) (ha : roff % 16 = 0)
    (hr : roff < 268435456) :
    VOFF2ROFF (ROFF2VOFF fid roff) = (fid, roff)
    ∧ (OFFNULL (ROFF2VOFF fid roff) = true ↔ fid = 0 ∧ roff = 0)
    ∧ (64 ≤ roff → OFFNOTNULL (ROFF2VOFF fid roff) = true) := by
  rw [ROFF2VOFF_eq fid roff hf hr]
  have h2 : roff / 16 / 65536 < 256 := by omega
  have h3 : roff / 16 % 65536 < 65536 := Nat.mod_lt _ (by decide)
  refine ⟨?_, ?_, ?_⟩
  · have e1 : (256 * fid + roff / 16 / 65536) / 256 = fid := by omega
    have e2 : (256 * fid + roff / 16 / 65536) % 256 = roff / 16 / 65536 := by omega
    have e3 : (roff / 16 / 65536 * 65536) % U32 = 65536 * (roff / 16 / 65536) := by
      simp only [U32]
      omega
    simp only [VOFF2ROFF, land_255, e1, e2, e3, lor_65536 _ _ h3, Prod.mk.injEq, true_and]
    simp only [U32]
    omega
  · simp only [OFFNULL, Bool.and_eq_true, beq_iff_eq]
    omega
  · intro h64
    simp only [OFFNOTNULL, Bool.or_eq_true, bne_iff_ne, ne_eq]
    omega

/-- C22 at work: file id 3 and offset 1048640 (the 64-byte header plus 1 MiB)
make the virtual offset with `i4 = 769`, `i2 = 4`, which is not null and
decodes to file id 3 and offset 1048640. -/
theorem voff_round_trip_witness :
    ((3 : Nat) < 16777216 ∧ 1048640 % 16 = 0 ∧ 1048640 < 268435456)
    ∧ ROFF2VOFF 3 1048640 = { i4 := 769, i2 := 4 }
    ∧ VOFF2ROFF (ROFF2VOFF 3 1048640) = (3, 1048640)
    ∧ OFFNOTNULL (ROFF2VOFF 3 1048640) = true := by
  obtain ⟨h1, _, h3⟩ := voff_round_trip 3 1048640 (by decide) (by decide) (by decide)
  exact ⟨⟨by decide, by decide, by decide⟩, by decide, h1, h3 (by decide)⟩

/-- The offsets of the store model are the virtual offsets of the macro: the
48-bit number of `natFOFF` is `fid * 2^24 + roff / 16`. -/
theorem ROFF2VOFF_natFOFF (fid roff : Nat) (hf : fid < 16777216) (hr : roff < 268435456) :
    ROFF2VOFF fid roff = natFOFF (fid * 16777216 + roff / 16) := by
  rw [ROFF2VOFF_eq fid roff hf hr]
  simp only [natFOFF, FOFF.mk.injEq]
  omega


/-! ## Recovery: the order of the segments -/

/-- The comparator of the recovery has the sign of the comparison of the two
first oids as long as they differ by less than 2^31. -/
theorem cmpfuncsreorder_sign_near (s1 s2 : VIOAPND2SREORDER) (h1 : s1.oidf < U64)
    (h2 : s2.oidf < U64) (hn1 : s1.oidf < s2.oidf + 2147483648)
    (hn2 : s2.oidf < s1.oidf + 2147483648) :
    (_vio_apnd2_cmpfuncsreorder s1 s2 < 0 ↔ s1.oidf < s2.oidf)
    ∧ (_vio_apnd2_cmpfuncsreorder s1 s2 = 0 ↔ s1.oidf = s2.oidf)
    ∧ (0 < _vio_apnd2_cmpfuncsreorder s1 s2 ↔ s2.oidf < s1.oidf) := by
  simp only [U64] at h1 h2
  simp only [_vio_apnd2_cmpfuncsreorder, toInt32, U64, U32]
  split <;> omega

/-- C25, evaluated: the comparator of the recovery returns the low 32 bits of
the 64-bit difference.  For first oids 2^31 and 0 it is negative although the
first is the larger one; for 2^32 and 0 it is 0 although they differ; for 0 and
2^31 + 1 it is positive although the first is the smaller one. -/
theorem cmpfuncsreorder_wrong_sign :
    _vio_apnd2_cmpfuncsreorder { fid := 1, oidf := 2147483648 } { fid := 0, oidf := 0 }
      = -2147483648
    ∧ _vio_apnd2_cmpfuncsreorder { fid := 1, oidf := 4294967296 } { fid := 0, oidf := 0 } = 0
    ∧ _vio_apnd2_cmpfuncsreorder { fid := 0, oidf := 0 } { fid := 1, oidf := 2147483649 }
      = 2147483647 := by
  decide


/-! ## The task list -/

/-- Function `cdb_bgtask_add` away from the limit: with the thread started, or
with more than 16 tasks, it returns -1 and changes nothing; with fewer than 16
tasks and no thread it stores the task at index `tnum`, increments `tnum` and
returns 0. -/
theorem cdb_bgtask_add_spec (bt : CDBBGTASK) (func arg : Nat) (intval : Int) (now : Nat)
    (hlen : bt.tasks.length = MAXTASKNUM) (h0 : 0 ≤ bt.tnum) :
    ((bt.tid ≠ 0 ∨ 16 < bt.tnum) → cdb_bgtask_add bt func arg intval now = some (-1, bt))
    ∧ (bt.tid = 0 → bt.tnum < 16 →
        ∃ bt1, cdb_bgtask_add bt func arg intval now = some (0, bt1)
          ∧ bt1.tnum = bt.tnum + 1 ∧ bt1.tnum ≤ 16 ∧ bt1.tasks.length = MAXTASKNUM
          ∧ bt1.tasks[bt.tnum.toNat]?
              = some { func := func, arg := arg, intval := intval, ltime := now })
    ∧ (bt.tid = 0 → bt.tnum = 16 → cdb_bgtask_add bt func arg intval now = none) := by
  refine ⟨?_, ?_, ?_⟩
  · intro h
    have : (bt.tid != 0 || decide (bt.tnum > (MAXTASKNUM : Int))) = true := by
      simp only [MAXTASKNUM, Bool.or_eq_true, bne_iff_ne, ne_eq, decide_eq_true_eq]
      rcases h with h | h
      · exact Or.inl h
      · exact Or.inr (by simpa using h)
    simp only [cdb_bgtask_add, this, ↓reduceIte]
  · intro ht hlt
    have h1 : (bt.tid != 0 || decide (bt.tnum > (MAXTASKNUM : Int))) = false := by
      simp only [MAXTASKNUM, ht, bne_self_eq_false, Bool.false_or, decide_eq_false_iff_not]
      simp only [Nat.cast_ofNat]
      omega
    have h2 : 0 ≤ bt.tnum ∧ bt.tnum.toNat < bt.tasks.length := by
      rw [hlen, MAXTASKNUM]
      omega
    refine ⟨{ bt with
        tasks := bt.tasks.set bt.tnum.toNat
          { func := func, arg := arg, intval := intval, ltime := now }
        tnum := bt.tnum + 1 }, ?_, rfl, ?_, ?_, ?_⟩
    · simp only [cdb_bgtask_add, h1, Bool.false_eq_true, ↓reduceIte, h2, and_self]
    · show bt.tnum + 1 ≤ 16
      omega
    · simp only [List.length_set]
      exact hlen
    · simp only [List.getElem?_set_self h2.2]
  · intro ht he
    have h1 : (bt.tid != 0 || decide (bt.tnum > (MAXTASKNUM : Int))) = false := by
      simp only [MAXTASKNUM, ht, bne_self_eq_false, Bool.false_or, decide_eq_false_iff_not]
      simp only [Nat.cast_ofNat]
      omega
    have h2 : ¬ (0 ≤ bt.tnum ∧ bt.tnum.toNat < bt.tasks.length) := by
      rw [hlen, MAXTASKNUM]
      omega
    simp only [cdb_bgtask_add, h1, Bool.false_eq_true, ↓reduceIte, h2]

/-- C28, evaluated: sixteen calls of `cdb_bgtask_add` on a new scheduler
return 0 and leave `tnum = 16`.  The seventeenth call does not return -1: the
test `tnum > MAXTASKNUM` lets 16 pass and the task is stored in `tasks[16]`,
outside the array.  With `tnum = 17` the call returns -1. -/
theorem bgtask_add_writes_past_array :
    (bgtaskAdds 16 cdb_bgtask_new).map (fun bt => (bt.tnum, bt.tid)) = some (16, 0)
    ∧ ((bgtaskAdds 16 cdb_bgtask_new).bind fun bt => cdb_bgtask_add bt 17 0 1 100) = none
    ∧ ((bgtaskAdds 16 cdb_bgtask_new).bind fun bt =>
        (cdb_bgtask_add { bt with tnum := 17 } 17 0 1 100).map (·.1)) = some (-1) := by
  decide


/-! ## A new segment file -/

/-- The search for a free file id ends within the fuel that
`_vio_apnd2_shiftnew` gives it. -/
theorem fidLoop_returns (fids : List Nat) :
    ∀ (fuel curfid tryiter : Nat), tryiter < 16777215 → 16777215 ≤ fuel + tryiter →
      ∃ r, fidLoop fids fuel curfid tryiter = some r
  | 0, _, _, h1, h2 => by omega
  | fuel + 1, curfid, tryiter, h1, h2 => by
      by_cases hin : curfid ∈ fids
      · have e : (tryiter + 1) % U32 = tryiter + 1 := by
          simp only [U32]
          omega
        by_cases ht : tryiter + 1 = 16777215
        · have e1 : (tryiter + 1) % U32 = 16777215 := by rw [e]; exact ht
          exact ⟨none, by simp only [fidLoop, hin, ↓reduceIte, e1]⟩
        · obtain ⟨r, hr⟩ := fidLoop_returns fids fuel
            (if (curfid + 1) % U32 = 16777215 then 0 else (curfid + 1) % U32) (tryiter + 1)
            (by omega) (by omega)
          exact ⟨r, by simp only [fidLoop, hin, ↓reduceIte, e, ht, hr]⟩
      · exact ⟨some curfid, by simp only [fidLoop, hin, ↓reduceIte]⟩

/-- The search for a free file id from a start below `0xffffff`: a file id
found is free and below `0xffffff`, and every file id probed before it, from
the start on with wrap-around at `0xffffff`, is in use; the search gives up
only when all the file ids it can probe are in use. -/
theorem fidLoop_spec (fids : List Nat) :
    ∀ (fuel curfid tryiter : Nat) (r : Option Nat), curfid < 16777215 → tryiter < 16777215 →
      fidLoop fids fuel curfid tryiter = some r →
      match r with
      | some fid => fid ∉ fids ∧ fid < 16777215
          ∧ ∃ k, k + tryiter < 16777215 ∧ fid = (curfid + k) % 16777215
              ∧ ∀ j, j < k → (curfid + j) % 16777215 ∈ fids
      | none => ∀ j, j + tryiter < 16777215 → (curfid + j) % 16777215 ∈ fids
  | 0, _, _, _, _, _, h => by simp [fidLoop] at h
  | fuel + 1, curfid, tryiter, r, hc, ht, h => by
      by_cases hin : curfid ∈ fids
      · have e : (tryiter + 1) % U32 = tryiter + 1 := by
          simp only [U32]
          omega
        have e2 : (curfid + 1) % U32 = curfid + 1 := by
          simp only [U32]
          omega
        have e3 : (if curfid + 1 = 16777215 then 0 else curfid + 1) = (curfid + 1) % 16777215 := by
          split <;> omega
        have hmod : ∀ j, ((curfid + 1) % 16777215 + j) % 16777215
            = (curfid + (j + 1)) % 16777215 := by
          intro j
          omega
        by_cases hlast : tryiter + 1 = 16777215
        · have e1 : (tryiter + 1) % U32 = 16777215 := by rw [e]; exact hlast
          simp only [fidLoop, hin, ↓reduceIte, e1, Option.some.injEq] at h
          subst h
          intro j hj
          have : j = 0 := by omega
          subst this
          rw [Nat.add_zero, Nat.mod_eq_of_lt hc]
          exact hin
        · simp only [fidLoop, hin, ↓reduceIte, e, e2, hlast, e3] at h
          have ih := fidLoop_spec fids fuel ((curfid + 1) % 16777215) (tryiter + 1) r
            (Nat.mod_lt _ (by decide)) (by omega) h
          cases r with
          | some fid =>
            obtain ⟨a1, a2, k, a3, a4, a5⟩ := ih
            refine ⟨a1, a2, k + 1, by omega, by rw [a4, hmod], ?_⟩
            intro j hj
            cases j with
            | zero =>
              rw [Nat.add_zero, Nat.mod_eq_of_lt hc]
              exact hin
            | succ j =>
              rw [← hmod]
              exact a5 j (by omega)
          | none =>
            intro j hj
            cases j with
            | zero =>
              rw [Nat.add_zero, Nat.mod_eq_of_lt hc]
              exact hin
            | succ j =>
              rw [← hmod]
              exact ih j (by omega)
      · simp only [fidLoop, hin, ↓reduceIte, Option.some.injEq] at h
        subst h
        exact ⟨hin, hc, 0, by omega, by rw [Nat.add_zero, Nat.mod_eq_of_lt hc],
          fun j hj => by omega⟩

/-- Function `_vio_apnd2_shiftnew` returns. -/
theorem shiftnew_returns (fids : List Nat) (iobuf : VIOAPND2IOBUF) (openfd : Int)
    (metaok : Bool) : ∃ r, _vio_apnd2_shiftnew fids iobuf openfd metaok = some r := by
  obtain ⟨r, hr⟩ := fidLoop_returns fids 16777215 iobuf.fid 0 (by decide) (by decide)
  simp only [_vio_apnd2_shiftnew, hr, Option.map_some']
  exact ⟨_, rfl⟩

/-- Function `_vio_apnd2_shiftnew` from a previous file id below `0xffffff`:
when it succeeds, the new file id is not in the segment-meta table, lies below
`0xffffff`, and every file id probed before it is in use. -/
theorem shiftnew_fresh_fid (fids : List Nat) (iobuf : VIOAPND2IOBUF) (openfd : Int)
    (metaok : Bool) (hstart : iobuf.fid < 16777215) (iobuf1 : VIOAPND2IOBUF)
    (fids1 : List Nat)
    (h : _vio_apnd2_shiftnew fids iobuf openfd metaok = some (0, iobuf1, fids1)) :
    iobuf1.fid ∉ fids ∧ iobuf1.fid < 16777215 ∧ fids1 = iobuf1.fid :: fids
    ∧ ∃ k, k < 16777215 ∧ iobuf1.fid = (iobuf.fid + k) % 16777215
        ∧ ∀ j, j < k → (iobuf.fid + j) % 16777215 ∈ fids := by
  obtain ⟨r, hr⟩ := fidLoop_returns fids 16777215 iobuf.fid 0 (by decide) (by decide)
  have hs := fidLoop_spec fids 16777215 iobuf.fid 0 r hstart (by decide) hr
  simp only [_vio_apnd2_shiftnew, hr, Option.map_some', Option.some.injEq] at h
  cases r with
  | none => simp at h
  | some fid =>
    obtain ⟨a1, a2, k, a3, a4, a5⟩ := hs
    simp only at h
    split at h
    · simp at h
    · split at h
      · simp at h
      · simp only [Prod.mk.injEq, true_and] at h
        obtain ⟨h1, h2⟩ := h
        subst h1
        exact ⟨a1, a2, h2.symm, k, by omega, a4, a5⟩

/-- C23, evaluated: segment 0 is the one being written.  A first
`_vio_apnd2_shiftnew` fails in `open` and leaves the file id `0xffffff` in the
write buffer; the next one starts its search there, finds `0xffffff` free and
makes it the new segment.  The one after that probes `0xffffff`, which is in
use, increments to `0x1000000` past the wrap-around test and assigns
`0x1000000`, which is not below 2^24: its virtual offsets are those of
segment 0. -/
theorem shiftnew_assigns_fid_of_25_bits :
    _vio_apnd2_shiftnew [0] { fd := 5, fid := 0 } (-1) true
      = some (-1, { fd := -1, fid := 16777215 }, [0])
    ∧ _vio_apnd2_shiftnew [0] { fd := -1, fid := 16777215 } 6 true
      = some (0, { fd := 6, fid := 16777215 }, [16777215, 0])
    ∧ _vio_apnd2_shiftnew [16777215, 0] { fd := 6, fid := 16777215 } 7 true
      = some (0, { fd := 7, fid := 16777216 }, [16777216, 16777215, 0])
    ∧ ROFF2VOFF 16777216 64 = ROFF2VOFF 0 64 := by
  decide


/-! ## The offset of a record written directly -/

/-- Function `_vio_apnd2_writerec`: the record is stored at the returned
offset; `rec->ooff` is that offset when the record fits the buffer limit, and
is what it was when the record is larger. -/
theorem writerec_ooff (db : CDB) (vio : VIOAPND2) (rec : CDBREC) :
    (_vio_apnd2_writerec db vio rec).2.1 = natFOFF vio.dnext
    ∧ (_vio_apnd2_writerec db vio rec).1.ooff
        = if RECHSIZE + rec.ksize + rec.vsize > vio.dlimit then rec.ooff
          else (_vio_apnd2_writerec db vio rec).2.1 := by
  simp only [_vio_apnd2_writerec]
  split <;> simp

set_option maxRecDepth 100000 in
/-- C29, evaluated: the data segment has 16 KiB left and `cdb_set2` stores a
value of 16 KiB for a new key with `CDB_INSERTCACHE`.  The record is larger
than the buffer limit, `_vio_apnd2_writerec` writes it directly at offset
number 8387584 and leaves `rec->ooff` null; `cdb_set2` returns 0, the index
holds offset number 8387584 for the key, and the record cache holds the null
offset. -/
theorem writerec_direct_path_leaves_ooff :
    (_vio_apnd2_writerec nearFullDB { vioNew with dlimit := 16384, dnext := 8387584 }
        { ooff := OFFZERO, osize := 0, key := [107], val := val16K, magic := 0, ksize := 1
          vsize := 16384, expire := 0, oid := 0 }).1.ooff = OFFZERO
    ∧ (_vio_apnd2_writerec nearFullDB { vioNew with dlimit := 16384, dnext := 8387584 }
        { ooff := OFFZERO, osize := 0, key := [107], val := val16K, magic := 0, ksize := 1
          vsize := 16384, expire := 0, oid := 0 }).2.1 = natFOFF 8387584
    ∧ run11Set.map (·.1) = some 0
    ∧ run11Set.map (fun r => getoffSpec r.2 50332161) = some (some [natFOFF 8387584])
    ∧ run11Set.map (fun r => (rcFind r.2 [107]).map fun it => rcOoff it.val)
        = some (some OFFZERO) := by
  refine ⟨by decide, by decide, ?_, ?_, ?_⟩
  · decide!
  · decide!
  · decide!


/-! ## The try-lock in `_cdb_pageout` -/

theorem trylock_not_neg (held : Bool) : ¬ (cdb_lock_trylock held < 0) := by
  cases held <;> decide

/-- The eviction loop does the same whether or not the bucket locks are
held: its test `cdb_lock_trylock(...) < 0` is never true. -/
theorem pageoutLoopTry_eq (held : Nat → Bool) :
    ∀ (fuel : Nat) (db : CDB), pageoutLoopTry held fuel db = pageoutLoop fuel db
  | 0, db => by simp only [pageoutLoopTry, pageoutLoop]
  | fuel + 1, db => by
      simp only [pageoutLoopTry, pageoutLoop, trylock_not_neg, ↓reduceIte,
        pageoutLoopTry_eq held fuel]

set_option maxRecDepth 100000 in
/-- C27, evaluated: the dirty page cache holds the page of bucket 3, the
caches exceed the limit and another thread holds the lock of bucket 3.
`cdb_lock_trylock` returns `EBUSY`, which is not negative, so `_cdb_pageout`
does not stop: it pops the page, writes it and stores its offset in
`mtable[3]`, exactly as it does with the lock free. -/
theorem pageout_ignores_busy_lock :
    cdb_lock_trylock true = 16
    ∧ dirtyBids tightDB = [(3, 3)]
    ∧ tightDB.mtable.map (fun mt => mtGet mt 3) = some OFFZERO
    ∧ PCOVERFLOW tightDB = some true
    ∧ (_cdb_pageoutTry (fun _ => true) tightDB).map dirtyBids = some []
    ∧ (_cdb_pageoutTry (fun _ => true) tightDB).map
        (fun d => d.mtable.map fun mt => mtGet mt 3) = some (some (natFOFF 4))
    ∧ _cdb_pageoutTry (fun _ => true) tightDB = _cdb_pageoutTry (fun _ => false) tightDB := by
  decide


/-! ## The handles of the branch "nothing done" -/

theorem noopFile_unset (db3 : CDB) (bid hash : Nat) (off : FOFF) (opt : Nat)
    (it : CDBHTITEM Nat CDBPAGE) (page1 : CDBPAGE)
    (h : noopFile db3 hash off opt (some it) none page1 = some (some it, none)) :
    updateFile db3 bid hash off opt (some it) none page1 = none := by
  simp only [noopFile] at h
  simp only [updateFile]
  cases hap : updateApply db3 hash off opt page1 with
  | none => rfl
  | some pr =>
    obtain ⟨page, db6⟩ := pr
    rw [hap] at h
    simp only at h ⊢
    split at h
    · rename_i hn
      simp only [hn, ↓reduceIte]
    · cases h

/-- A call of `cdb_updatepage` that enters the branch "nothing done" with an
item to put back and `tmpcache` unset does not return: it locks and inserts
through NULL.  This happens only for an insertion into a page that was in
neither cache, with the dirty page cache enabled. -/
theorem updatepage_unset_handle (db : CDB) (hash : Nat) (off : FOFF) (opt now : Nat)
    (sbuf : CDBPAGE) (it : CDBHTITEM Nat CDBPAGE)
    (h : updateNoop db hash off opt now sbuf = some (some it, none)) :
    cdb_updatepage db hash off opt now sbuf = none
    ∧ (updateTake db (bucketOf db hash)).1 = none
    ∧ opt = CDB_PAGEINSERTOFF
    ∧ (updateTake db (bucketOf db hash)).2.2.dpcache.isSome = true := by
  simp only [updateNoop] at h
  split at h
  · cases h
  · rename_i hne
    simp only [cdb_updatepage, hne, ↓reduceIte]
    change (match (updateTake db (bucketOf db hash)).1 with
      | some it => noopFinish (updateTake db (bucketOf db hash)).2.2 (bucketOf db hash) hash off
          opt now (some it) (updateTake db (bucketOf db hash)).2.1 it.val
      | none =>
          match readBucketPage (updateTake db (bucketOf db hash)).2.2 (bucketOf db hash) sbuf with
          | none => none
          | some none => none
          | some (some page0) =>
              noopFinish (updateTake db (bucketOf db hash)).2.2 (bucketOf db hash) hash off opt
                now none (updateTake db (bucketOf db hash)).2.1 page0) = some (some it, none) at h
    change (match (updateTake db (bucketOf db hash)).1 with
      | some it => updateFinish (updateTake db (bucketOf db hash)).2.2 (bucketOf db hash) hash off
          opt now (some it) (updateTake db (bucketOf db hash)).2.1 it.val
      | none =>
          match readBucketPage (updateTake db (bucketOf db hash)).2.2 (bucketOf db hash) sbuf with
          | none => none
          | some none => some (-1, (updateTake db (bucketOf db hash)).2.2)
          | some (some page0) =>
              updateFinish (updateTake db (bucketOf db hash)).2.2 (bucketOf db hash) hash off opt
                now none (updateTake db (bucketOf db hash)).2.1 page0) = none
      ∧ (updateTake db (bucketOf db hash)).1 = none ∧ opt = CDB_PAGEINSERTOFF
      ∧ (updateTake db (bucketOf db hash)).2.2.dpcache.isSome = true
    have htc : ∀ x, (updateTake db (bucketOf db hash)).1 = some x →
        (updateTake db (bucketOf db hash)).2.1 ≠ none := by
      intro x hx
      simp only [updateTake] at hx ⊢
      split
      · simp
      · rename_i hn
        simp only [hn] at hx
        simp only [hx, Option.isSome_some, ↓reduceIte, ne_eq, not_false_eq_true,
          reduceCtorEq]
    have key : ∀ (p0 : Option (CDBHTITEM Nat CDBPAGE)) (t : Option TmpCache) (page0 : CDBPAGE),
        (∀ x, p0 = some x → t ≠ none) →
        noopFinish (updateTake db (bucketOf db hash)).2.2 (bucketOf db hash) hash off opt now
          p0 t page0 = some (some it, none) →
        updateFinish (updateTake db (bucketOf db hash)).2.2 (bucketOf db hash) hash off opt now
          p0 t page0 = none
        ∧ p0 = none ∧ opt = CDB_PAGEINSERTOFF
        ∧ (updateTake db (bucketOf db hash)).2.2.dpcache.isSome = true := by
      intro p0 t page0 hp hn
      simp only [noopFinish] at hn
      simp only [updateFinish]
      split at hn
      · rename_i hg
        simp only [hg, ↓reduceIte]
        simp only [Bool.and_eq_true, beq_iff_eq] at hg
        have hfile : ∀ x tt pg, noopFile (cdb_genoid (updateTake db (bucketOf db hash)).2.2).2 hash
            off opt x tt pg = some (some it, none) → x = some it ∧ tt = none := by
          intro x tt pg hx
          simp only [noopFile] at hx
          split at hx
          · cases hx
          · split at hx
            · simp only [Option.some.injEq, Prod.mk.injEq] at hx
              exact hx
            · cases hx
        obtain ⟨e1, e2⟩ := hfile _ _ _ hn
        subst e2
        have hds : (updateTake db (bucketOf db hash)).2.2.dpcache.isSome = true := by
          by_contra hc
          simp only [hc, Bool.false_eq_true, ↓reduceIte] at e1
          cases e1
        have hp0 : p0 = none := by
          cases hpp : p0 with
          | none => rfl
          | some x => exact absurd rfl (hp x hpp)
        rw [e1] at hn ⊢
        exact ⟨noopFile_unset _ _ hash off opt it _ hn, hp0, hg.1, hds⟩
      · exfalso
        simp only [noopFile] at hn
        split at hn
        · cases hn
        · split at hn
          · simp only [Option.some.injEq, Prod.mk.injEq] at hn
            exact hp it hn.1 hn.2
          · cases hn
    cases hp : (updateTake db (bucketOf db hash)).1 with
    | some x =>
      rw [hp] at h
      simp only at h ⊢
      obtain ⟨_, k2, _⟩ := key (some x) _ x.val (fun y hy => htc x hp) h
      cases k2
    | none =>
      rw [hp] at h
      simp only at h ⊢
      cases hr : readBucketPage (updateTake db (bucketOf db hash)).2.2 (bucketOf db hash)
          sbuf with
      | none => rw [hr] at h; cases h
      | some po =>
        cases po with
        | none => rw [hr] at h; cases h
        | some page0 =>
          rw [hr] at h
          simp only at h ⊢
          obtain ⟨k1, _, k3, k4⟩ := key none _ page0 (fun y hy => by cases hy) h
          exact ⟨k1, trivial, k3, k4⟩

set_option maxRecDepth 100000 in
/-- C30, evaluated: the page of bucket 3 holds the item `(hash of k, offset
number 4)` and `cdb_updatepage` is asked to insert that item once more.  With
the page in the dirty cache the branch "nothing done" is entered with an item
and `tmpcache = dpcache`, with the page in the clean cache with an item and
`tmpcache = pcache`.  With the page on disk only (its `cap` equals its `num`,
so the insertion makes a larger copy in a new cache item) the branch is
entered with an item to put back and `tmpcache` unset. -/
theorem updatepage_noop_handle_unset :
    ((updateNoop (dbAfter run2Set1) 50332161 (natFOFF 4) CDB_PAGEINSERTOFF 100 runSbuf).map
        fun r => (r.1.isSome, r.2)) = some (true, some TmpCache.dpcache)
    ∧ (run12Getoff.map fun d =>
        (updateNoop d 50332161 (natFOFF 4) CDB_PAGEINSERTOFF 100 runSbuf).map
          fun r => (r.1.isSome, r.2)) = some (some (true, some TmpCache.pcache))
    ∧ (run10Flush.map fun d =>
        (updateNoop d 50332161 (natFOFF 5) CDB_PAGEDELETEOFF 100 runSbuf).map
          fun r => (r.1.isSome, r.2)) = some (some (false, none))
    ∧ (run10Flush.map fun d =>
        (updateNoop d 50332161 (natFOFF 4) CDB_PAGEINSERTOFF 100 runSbuf).map
          fun r => (r.1.isSome, r.2)) = some (some (true, none)) := by
  decide


/-! ## Compaction of a data segment -/

set_option maxRecDepth 100000 in
/-- C26, evaluated: the segment holds one record, at offset number 4, with
expire time 105, and the index holds its item.  Compaction at time 104
rewrites the record and the index holds the new offset; compaction at time
106 removes the item from the index.  Compaction at time 105 does neither:
the record counts as expired for the rewrite (`expire > now` is false) and as
not expired for the removal (`expire < now` is false), so the index still
holds offset number 4 of the compacted segment. -/
theorem rcyle_keeps_item_that_expires_now :
    (segRecs (dbAfter run5Set)).map (fun e => (e.1, e.2.expire)) = [(natFOFF 4, 105)]
    ∧ getoffSpec (dbAfter run5Set) 50332161 = some [natFOFF 4]
    ∧ (run13Rcyle 104).map (fun d => getoffSpec d 50332161) = some (some [natFOFF 6])
    ∧ (run13Rcyle 106).map (fun d => getoffSpec d 50332161) = some (some [])
    ∧ (run13Rcyle 105).map (fun d => getoffSpec d 50332161) = some (some [natFOFF 4])
    ∧ (run13Rcyle 105).map (fun d => d.rnum) = some 1 := by
  decide


/-! ## Recovery: the rebuild of the main table -/

theorem lastPageOf_snoc_same (pre : List CDBPAGE) (p : CDBPAGE) :
    lastPageOf (pre ++ [p]) p.bid = some p := by
  simp [lastPageOf, List.filter_append, List.filter_cons]

theorem lastPageOf_snoc_other (pre : List CDBPAGE) (p : CDBPAGE) (b : Nat) (h : b ≠ p.bid) :
    lastPageOf (pre ++ [p]) b = lastPageOf pre b := by
  have : (p.bid == b) = false := by
    simp only [beq_eq_false_iff_ne, ne_eq]
    exact fun e => h e.symm
  simp [lastPageOf, List.filter_append, List.filter_cons, this]

theorem lastPageOf_mem (pre : List CDBPAGE) (b : Nat) (q : CDBPAGE)
    (h : lastPageOf pre b = some q) : q ∈ pre := by
  have h1 : q ∈ pre.filter fun p => p.bid == b := List.mem_of_getLast?_eq_some h
  exact (List.mem_filter.mp h1).1

theorem lastPageOf_none (pre : List CDBPAGE) (b : Nat) (h : lastPageOf pre b = none) :
    ∀ q ∈ pre, q.bid ≠ b := by
  intro q hq e
  have h0 : pre.filter (fun p => p.bid == b) = [] := List.getLast?_eq_none_iff.mp h
  have h1 : q ∈ pre.filter fun p => p.bid == b :=
    List.mem_filter.mpr ⟨hq, by simp [e]⟩
  rw [h0] at h1
  cases h1

theorem sum_range_le (f : Nat → Nat) (m : Nat) (hf : ∀ b, f b ≤ m) :
    ∀ n, ((List.range n).map f).sum ≤ n * m
  | 0 => by simp
  | n + 1 => by
      have ih := sum_range_le f m hf n
      have := hf n
      simp only [List.range_succ, List.map_append, List.sum_append, List.map_cons, List.map_nil,
        List.sum_cons, List.sum_nil, Nat.add_zero]
      rw [Nat.add_mul]
      omega

theorem lastNumOf_sum_lt (pages : List CDBPAGE) (hsize : Nat) (hh : hsize ≤ U32)
    (hn : ∀ p ∈ pages, p.num < U32) :
    ((List.range hsize).map (lastNumOf pages)).sum < U64 := by
  have hb : ∀ b, lastNumOf pages b ≤ 4294967295 := by
    intro b
    unfold lastNumOf
    cases hl : lastPageOf pages b with
    | none => simp
    | some q =>
        have := hn q (lastPageOf_mem pages b q hl)
        simp only [U32] at this
        simp only
        omega
  have h1 := sum_range_le (lastNumOf pages) 4294967295 hb hsize
  have h2 : hsize * 4294967295 ≤ 4294967296 * 4294967295 := Nat.mul_le_mul_right _ hh
  simp only [U64]
  omega

theorem lastNumOf_nil_sum (n : Nat) : ((List.range n).map (lastNumOf [])).sum = 0 := by
  induction n with
  | zero => rfl
  | succ n ih =>
      simp only [List.range_succ, List.map_append, List.sum_append, ih, List.map_cons,
        List.map_nil, List.sum_cons, List.sum_nil]
      rfl

/-- The loop of the rebuild, started in the state that belongs to the pages
`pre` seen so far, ends in the state that belongs to all pages. -/
theorem recoveryIndexLoop_spec (vio : VIOAPND2) (hsize : Nat) (hh : hsize ≤ U32) :
    ∀ (rest pre : List CDBPAGE) (mt : MTable) (rnum : Nat),
      (∀ p ∈ pre ++ rest, Delivered vio hsize p) →
      (∀ b, mtGet mt b = lastOffOf pre b) →
      rnum = ((List.range hsize).map (lastNumOf pre)).sum →
      ∃ mt2, recoveryIndexLoop vio hsize rest mt rnum
          = some (mt2, ((List.range hsize).map (lastNumOf (pre ++ rest))).sum)
        ∧ ∀ b, mtGet mt2 b = lastOffOf (pre ++ rest) b
  | [], pre, mt, rnum, _, hmt, hr => by
      refine ⟨mt, ?_, ?_⟩
      · simp only [recoveryIndexLoop, List.append_nil, hr]
      · simpa using hmt
  | p :: rest, pre, mt, rnum, hd, hmt, hr => by
      have hp : Delivered vio hsize p := hd p (by simp)
      obtain ⟨hpb, hpo, hpn, hpr⟩ := hp
      have hpre : ∀ q ∈ pre, Delivered vio hsize q := fun q hq => hd q (by simp [hq])
      have hpre1 : ∀ q ∈ pre ++ [p], Delivered vio hsize q := by
        intro q hq
        apply hd q
        rcases List.mem_append.mp hq with h | h
        · simp [h]
        · simp at h; simp [h]
      -- the table after the store
      have hmt1 : ∀ b, mtGet (mtSet mt p.bid p.ooff) b = lastOffOf (pre ++ [p]) b := by
        intro b
        by_cases hb : b = p.bid
        · subst hb
          simp [mtSet, mtGet, lastOffOf, lastPageOf_snoc_same]
        · have : ¬ p.bid = b := fun e => hb e.symm
          simp [mtSet, mtGet, this, lastOffOf, lastPageOf_snoc_other pre p b hb, hmt b]
      -- the sums
      have hsum := sum_range_update (lastNumOf pre) (lastNumOf (pre ++ [p])) p.bid hsize hpb
        (by
          intro b hb _
          simp [lastNumOf, lastPageOf_snoc_other pre p b hb])
      have hnew : lastNumOf (pre ++ [p]) p.bid = p.num := by
        simp [lastNumOf, lastPageOf_snoc_same]
      rw [hnew] at hsum
      have hlt0 := lastNumOf_sum_lt pre hsize hh (fun q hq => (hpre q hq).2.2.1)
      have hlt1 := lastNumOf_sum_lt (pre ++ [p]) hsize hh (fun q hq => (hpre1 q hq).2.2.1)
      have happ : pre ++ p :: rest = (pre ++ [p]) ++ rest := by simp
      have hd1 : ∀ q ∈ (pre ++ [p]) ++ rest, Delivered vio hsize q := by
        rw [← happ]; exact hd
      have hge : ¬ hsize ≤ p.bid := by omega
      simp only [U64] at hlt0 hlt1
      by_cases hnn : OFFNOTNULL (mtGet mt p.bid) = true
      · -- the bucket has a page already
        have hoff := hmt p.bid
        cases hl : lastPageOf pre p.bid with
        | none =>
            simp only [lastOffOf, hl] at hoff
            rw [hoff] at hnn
            exact absurd hnn (by decide)
        | some q =>
            simp only [lastOffOf, hl] at hoff
            have hq := hpre q (lastPageOf_mem pre p.bid q hl)
            have hqr := hq.2.2.2
            rw [← hoff] at hqr
            cases hread : _vio_apnd2_readpage vio (mtGet mt p.bid) with
            | none => rw [hread] at hqr; cases hqr
            | some opage =>
                rw [hread] at hqr
                have hon : opage.num = q.num := by simpa using hqr
                have hold : lastNumOf pre p.bid = q.num := by simp [lastNumOf, hl]
                rw [hold] at hsum
                have hqn : q.num < U32 := hq.2.2.1
                simp only [U32] at hqn hpn
                have hrn : ((rnum + U64 - opage.num % U64) % U64 + p.num) % U64
                    = ((List.range hsize).map (lastNumOf (pre ++ [p]))).sum := by
                  rw [hon, hr]
                  simp only [U64]
                  omega
                obtain ⟨mt2, h1, h2⟩ := recoveryIndexLoop_spec vio hsize hh rest (pre ++ [p])
                  (mtSet mt p.bid p.ooff) _ hd1 hmt1 hrn
                refine ⟨mt2, ?_, ?_⟩
                · rw [recoveryIndexLoop]
                  simp only [hge, if_false, hnn, if_true, hread]
                  rw [happ]
                  exact h1
                · rw [happ]; exact h2
      · -- the bucket has no page yet
        have hoff := hmt p.bid
        have hold : lastNumOf pre p.bid = 0 := by
          cases hl : lastPageOf pre p.bid with
          | none => simp [lastNumOf, hl]
          | some q =>
              simp only [lastOffOf, hl] at hoff
              have hq := hpre q (lastPageOf_mem pre p.bid q hl)
              rw [hoff] at hnn
              exact absurd hq.2.1 hnn
        rw [hold] at hsum
        simp only [U32] at hpn
        have hrn : (rnum + p.num) % U64
            = ((List.range hsize).map (lastNumOf (pre ++ [p]))).sum := by
          rw [hr]
          simp only [U64]
          omega
        obtain ⟨mt2, h1, h2⟩ := recoveryIndexLoop_spec vio hsize hh rest (pre ++ [p])
          (mtSet mt p.bid p.ooff) _ hd1 hmt1 hrn
        refine ⟨mt2, ?_, ?_⟩
        · rw [recoveryIndexLoop]
          simp only [hge, if_false, hnn, Bool.false_eq_true]
          rw [happ]
          exact h1
        · rw [happ]; exact h2

/-- C24: the rebuild of the main table in `_vio_apnd2_recovery`.  For a table
of at most 2^32 buckets and every sequence of pages of which each one is
delivered as the iterator does it (bucket id inside the table, offset not
null, item count a `uint32_t`, and the store holds at that offset a page
with the same item count), the rebuild returns; afterwards `mtable[b]` is the
offset of the last page of the sequence with bucket id `b`, null if there is
none, and `rnum` is the sum over the buckets of the item count of that last
page; the other fields of the database are as before. -/
theorem recovery_rebuilds_index (db : CDB) (vio : VIOAPND2) (pages : List CDBPAGE)
    (hv : db.vio = some vio) (hh : db.hsize ≤ U32)
    (hd : ∀ p ∈ pages, Delivered vio db.hsize p) :
    ∃ mt, recoveryIndex db pages
        = some { db with mtable := some mt
                         rnum := ((List.range db.hsize).map (lastNumOf pages)).sum }
      ∧ (∀ b, mtGet mt b = lastOffOf pages b)
      ∧ (∀ b, lastPageOf pages b = none → OFFNULL (mtGet mt b) = true)
      ∧ ∀ b p, lastPageOf pages b = some p → mtGet mt b = p.ooff := by
  obtain ⟨mt, h1, h2⟩ := recoveryIndexLoop_spec vio db.hsize hh pages [] [] 0
    (by simpa using hd) (by intro b; simp [mtGet, lastOffOf, lastPageOf])
    (lastNumOf_nil_sum db.hsize).symm
  simp only [List.nil_append] at h1 h2
  refine ⟨mt, ?_, h2, ?_, ?_⟩
  · simp only [recoveryIndex, hv, h1, Option.map_some']
  · intro b hb
    rw [h2 b]
    simp only [lastOffOf, hb]
    decide
  · intro b p hb
    rw [h2 b]
    simp only [lastOffOf, hb]

set_option maxRecDepth 100000 in
/-- Witness for C24: the store holds a page of bucket 3 at offset number 4,
one of bucket 5 at 6 and a newer one of bucket 3 at 8; after the rebuild
bucket 3 refers to offset number 8, bucket 5 to 6, and the record count is
3 + 2. -/
theorem recovery_rebuilds_index_witness :
    (∀ p ∈ storedPages recoveryVio, Delivered recoveryVio recoveryDB.hsize p)
    ∧ (storedPages recoveryVio).map (fun p => (p.bid, p.num)) = [(3, 1), (5, 2), (3, 3)]
    ∧ ∃ mt, recoveryIndex recoveryDB (storedPages recoveryVio)
        = some { recoveryDB with
                  mtable := some mt
                  rnum := ((List.range recoveryDB.hsize).map
                    (lastNumOf (storedPages recoveryVio))).sum }
      ∧ (∀ b, mtGet mt b = lastOffOf (storedPages recoveryVio) b)
      ∧ (∀ b, lastPageOf (storedPages recoveryVio) b = none → OFFNULL (mtGet mt b) = true)
      ∧ ∀ b p, lastPageOf (storedPages recoveryVio) b = some p → mtGet mt b = p.ooff :=
  ⟨by decide, by decide,
    recovery_rebuilds_index recoveryDB recoveryVio (storedPages recoveryVio) (by decide)
      (by decide) (by decide)⟩


/-! ## Deletion of an item from its page -/

theorem htGrowth_of_bnum {K V : Type} (ht ht1 : CDBHASHTABLE K V)
    (h : ht1.buckets.map (·.bnum) = ht.buckets.map (·.bnum)) : htGrowth ht1 = htGrowth ht := by
  simp only [htGrowth, htMaxBnum, h]

theorem pcTake_fit (db : CDB) (bid : Nat) (hinv : PageInv db) (hfit : DFit db) :
    DFit (pcTake db bid).2 := by
  cases hpc : db.pcache with
  | none =>
      have e : pcTake db bid = (none, db) := by simp only [pcTake, hpc]
      rw [e]; exact hfit
  | some pc =>
      have e : pcTake db bid
          = ((cdb_ht_del _pagehash pc bid SI4).1,
              { db with pcache := some (cdb_ht_del _pagehash pc bid SI4).2 }) := by
        simp only [pcTake, hpc]
      rw [e]
      intro pc2 dpc2 h1 h2
      simp only [Option.some.injEq] at h1 h2
      obtain ⟨_, _, _, ho, _⟩ := cdb_ht_del_spec _pagehash pc bid SI4 (hinv.pc_book pc hpc)
      have := hfit pc dpc2 hpc h2
      rw [← h1, ho]
      exact this

theorem dpcTake_fit (db : CDB) (bid : Nat) (hinv : PageInv db) (hfit : DFit db) :
    DFit (dpcTake db bid).2 := by
  cases hdpc : db.dpcache with
  | none =>
      have e : dpcTake db bid = (none, db) := by simp only [dpcTake, hdpc]
      rw [e]; exact hfit
  | some dpc =>
      have e : dpcTake db bid
          = ((cdb_ht_del _pagehash dpc bid SI4).1,
              { db with dpcache := some (cdb_ht_del _pagehash dpc bid SI4).2 }) := by
        simp only [dpcTake, hdpc]
      rw [e]
      intro pc2 dpc2 h1 h2
      simp only [Option.some.injEq] at h1 h2
      obtain ⟨_, _, _, ho, hb⟩ := cdb_ht_del_spec _pagehash dpc bid SI4 (hinv.dpc_book dpc hdpc)
      have := hfit pc2 dpc h1 hdpc
      rw [← h2, ho, htGrowth_of_bnum _ _ hb]
      exact this

theorem updateTake_fit (db : CDB) (bid : Nat) (hinv : PageInv db) (hfit : DFit db) :
    DFit (updateTake db bid).2.2 := by
  obtain ⟨p1, _, _, _, _, _⟩ := pcTake_spec db bid hinv
  cases ht : (pcTake db bid).1 with
  | some it =>
      have e : updateTake db bid = (some it, some TmpCache.pcache, (pcTake db bid).2) := by
        simp only [updateTake, ht]
      rw [e]
      exact pcTake_fit db bid hinv hfit
  | none =>
      have e : updateTake db bid
          = ((dpcTake (pcTake db bid).2 bid).1,
              (if (dpcTake (pcTake db bid).2 bid).1.isSome then some TmpCache.dpcache else none),
              (dpcTake (pcTake db bid).2 bid).2) := by
        simp only [updateTake, ht]
      rw [e]
      exact dpcTake_fit _ bid p1 (pcTake_fit db bid hinv hfit)

/-- The last part of `cdb_updatepage` returns for a deletion: the page is put
back or filed, and the eviction comes to an end. -/
theorem updateFile_delete_returns (db3 : CDB) (bid hash : Nat) (off : FOFF)
    (pitem1 : Option (CDBHTITEM Nat CDBPAGE)) (tmpcache : Option TmpCache) (page1 : CDBPAGE)
    (hinv : PageInv db3) (hfit : DFit db3) (hbid : bid < db3.hsize)
    (hn1 : pcFind (cacheItems db3.pcache) bid = none)
    (hn2 : pcFind (cacheItems db3.dpcache) bid = none)
    (hwf : page1.num ≤ page1.items.length)
    (hit : ∀ it, pitem1 = some it →
      it.ksize = SI4 ∧ it.key = bid ∧ tmpcache.isSome = true ∧ db3.dpcache.isSome = true) :
    ∃ r, updateFile db3 bid hash off CDB_PAGEDELETEOFF pitem1 tmpcache page1 = some r := by
  have hap0 : ∃ pr, updateApply db3 hash off CDB_PAGEDELETEOFF page1 = some pr := by
    simp only [updateApply, beq_self_eq_true, ↓reduceIte]
    split
    · exact ⟨_, rfl⟩
    · exact ⟨_, rfl⟩
  obtain ⟨⟨page, db6⟩, hap⟩ := hap0
  obtain ⟨a1, a2, a3, a4, _, _⟩ :=
    updateApply_spec db3 db6 hash off CDB_PAGEDELETEOFF page1 page hwf hap
  have hinv6 : PageInv db6 := by
    rw [a4]
    exact PageInv_congr db3 _ rfl rfl rfl rfl rfl
      (updBf_ok db3 hash off CDB_PAGEDELETEOFF _ hinv.bf_ok) hinv
  have hpc6 : db6.pcache = db3.pcache := by rw [a4]
  have hdpc6 : db6.dpcache = db3.dpcache := by rw [a4]
  have hh6 : db6.hsize = db3.hsize := by rw [a4]
  have hl6 : db6.pclimit = db3.pclimit := by rw [a4]
  have hn1' : pcFind (cacheItems db6.pcache) bid = none := by rw [hpc6]; exact hn1
  have hn2' : pcFind (cacheItems db6.dpcache) bid = none := by rw [hdpc6]; exact hn2
  have hboth := hinv.both
  simp only [updateFile, hap]
  cases hch : (page.num == page1.num) with
  | true =>
      simp only [↓reduceIte]
      cases hp : pitem1 with
      | none => exact ⟨_, rfl⟩
      | some it =>
          obtain ⟨_, _, k3, k4⟩ := hit it hp
          cases hdd : db3.dpcache with
          | none => rw [hdd] at k4; cases k4
          | some dpc =>
            cases hpp : db3.pcache with
            | none => rw [hdd, hpp] at hboth; cases hboth
            | some pc =>
              cases htc : tmpcache with
              | none => rw [htc] at k3; cases k3
              | some tc =>
                  cases tc with
                  | pcache =>
                      simp only [pcPut, hpc6, hpp, Option.map_some']
                      exact ⟨_, rfl⟩
                  | dpcache =>
                      simp only [dpcPut, hdpc6, hdd, Option.map_some']
                      exact ⟨_, rfl⟩
  | false =>
      simp only [Bool.false_eq_true, ↓reduceIte]
      cases hp : pitem1 with
      | none =>
          simp only
          obtain ⟨vio, mt, hv, hm, hs⟩ := hinv6.store
          obtain ⟨d, vio1, mt1, hw, _, _, _, _, _, hpc, hdpc, hdata⟩ :=
            writeBucketPage_spec db6 vio mt bid page hv hm hs a2
          obtain ⟨i8, _, _, _, _, _⟩ := PageInv_write db6 d bid page hinv6 hn1' hn2' a2 hw
          have hlim : d.pclimit = db6.pclimit := by
            have := congrArg (fun x => x.2.2.2.2.2.1) hdata
            simpa [dataOf] using this
          obtain ⟨db9, h9⟩ := checkPageOverflow_returns d i8 (by
            intro pc dpc h1 h2
            rw [hpc, hpc6] at h1
            rw [hdpc, hdpc6] at h2
            have := hfit pc dpc h1 h2
            rw [hlim, hl6]
            omega)
          rw [hw]
          simp only [h9, Option.map_some']
          exact ⟨_, rfl⟩
      | some it =>
          obtain ⟨k1, k2, _, k4⟩ := hit it hp
          cases hdd : db3.dpcache with
          | none => rw [hdd] at k4; cases k4
          | some dpc =>
              have hput : dpcPut db6 { it with val := page }
                  = some { db6 with
                      dpcache := some (cdb_ht_insert _pagehash dpc { it with val := page }) } := by
                simp only [dpcPut, hdpc6, hdd]
              obtain ⟨i8, q2, q3, _, _⟩ := dpcPut_spec db6 _ { it with val := page } hinv6 k1
                (by simp only [k2, hh6]; exact hbid) a2
                (by simp only [k2]; exact hn1') (by simp only [k2]; exact hn2') hput
              obtain ⟨_, _, hov⟩ := cdb_ht_insert_spec _pagehash dpc { it with val := page }
                (hinv.dpc_book dpc hdd)
              obtain ⟨db9, h9⟩ := checkPageOverflow_returns _ i8 (by
                intro pc2 dpc2 h1 h2
                simp only [Option.some.injEq] at h2
                have h1' : db3.pcache = some pc2 := by rw [← hpc6]; exact h1
                have := hfit pc2 dpc h1' hdd
                show htOverhead pc2 + htOverhead dpc2 ≤ db6.pclimit
                rw [← h2, hl6]
                omega)
              simp only [hput, h9, Option.map_some']
              exact ⟨_, rfl⟩

/-- Function `cdb_updatepage` returns for a deletion when the index invariant
holds and the empty page caches fit the limit. -/
theorem cdb_updatepage_delete_returns (db : CDB) (hash : Nat) (off : FOFF) (now : Nat)
    (sbuf : CDBPAGE) (hinv : PageInv db) (hfit : DFit db) :
    ∃ r, cdb_updatepage db hash off CDB_PAGEDELETEOFF now sbuf = some r := by
  have hpos := hinv.hsize_pos
  have hne : ¬ db.hsize = 0 := by omega
  have hbid : bucketOf db hash < db.hsize := Nat.mod_lt _ hpos
  obtain ⟨u1, u2, u3, u4, u5, u6, u7, u8, u9⟩ := updateTake_spec db (bucketOf db hash) hinv
  obtain ⟨_, _, _, k4, _, _, _⟩ := kvOf_of_restOf db _ u2
  have hbid2 : bucketOf db hash < (updateTake db (bucketOf db hash)).2.2.hsize := by
    rw [k4]; exact hbid
  have hfit2 := updateTake_fit db (bucketOf db hash) hinv hfit
  have hfin : ∀ d bid p t page0, updateFinish d bid hash off CDB_PAGEDELETEOFF now p t page0
      = updateFile d bid hash off CDB_PAGEDELETEOFF p t page0 := by
    intro d bid p t page0
    simp [updateFinish, CDB_PAGEDELETEOFF, CDB_PAGEINSERTOFF]
  simp only [cdb_updatepage, hne, ↓reduceIte]
  change ∃ r, (match (updateTake db (bucketOf db hash)).1 with
    | some it => updateFinish (updateTake db (bucketOf db hash)).2.2 (bucketOf db hash) hash off
        CDB_PAGEDELETEOFF now (some it) (updateTake db (bucketOf db hash)).2.1 it.val
    | none =>
        match readBucketPage (updateTake db (bucketOf db hash)).2.2 (bucketOf db hash) sbuf with
        | none => none
        | some none => some (-1, (updateTake db (bucketOf db hash)).2.2)
        | some (some page0) =>
            updateFinish (updateTake db (bucketOf db hash)).2.2 (bucketOf db hash) hash off
              CDB_PAGEDELETEOFF now none (updateTake db (bucketOf db hash)).2.1 page0) = some r
  cases hp : (updateTake db (bucketOf db hash)).1 with
  | some it =>
      simp only [hfin]
      obtain ⟨q1, q2, q3, _, q5⟩ := u6 it hp
      apply updateFile_delete_returns _ _ hash off (some it) _ it.val u1 hfit2 hbid2 u4 u5 q3
      intro it2 h2
      simp only [Option.some.injEq] at h2
      subst h2
      refine ⟨q1, q2, ?_, ?_⟩
      · rcases q5 with ⟨q6, _⟩ | q6 <;> rw [q6] <;> rfl
      · rw [u9]
        cases hdd : db.dpcache with
        | none => rw [u8 hdd] at hp; cases hp
        | some c => rfl
  | none =>
      simp only
      obtain ⟨vio, mt, hv, hm, hs⟩ := u1.store
      obtain ⟨p, hrd, _, hwf⟩ := readBucketPage_ok _ vio mt hv hm hs (bucketOf db hash) sbuf
      rw [hrd]
      simp only [hfin]
      apply updateFile_delete_returns _ _ hash off none _ p u1 hfit2 hbid2 u4 u5 hwf
      intro it2 h2
      cases h2

/-- C21: deletion by shift-left in `cdb_updatepage`.  For a database whose
index invariant holds and whose empty page caches fit the limit, and every
`(hash, offset)` pair, the call with `CDB_PAGEDELETEOFF` returns.  If the
current page of the bucket has an item whose packed hash and offset both
match, the first such item is taken out and all other items keep their order,
`num` and `rnum` (a `uint64_t`) go down by one and the return value is 0; if
no item matches, the items, `num` and `rnum` are what they were and the return
value is -1.  The pages of the other buckets show what they showed. -/
theorem updatepage_delete_shift_left (db : CDB) (hash : Nat) (off : FOFF) (now : Nat)
    (sbuf : CDBPAGE) (hinv : PageInv db) (hfit : DFit db) :
    ∃ r v, cdb_updatepage db hash off CDB_PAGEDELETEOFF now sbuf = some r
      ∧ curView db (bucketOf db hash) = some v ∧ v.2.length = v.1
      ∧ (v.2.any (itemIs (mkPHASH hash) off) = true →
          r.1 = 0
          ∧ (∃ a l1 l2, v.2 = l1 ++ a :: l2 ∧ (∀ b ∈ l1, itemIs (mkPHASH hash) off b = false)
              ∧ itemIs (mkPHASH hash) off a = true
              ∧ curView r.2 (bucketOf db hash) = some (v.1 - 1, l1 ++ l2) ∧ v.1 - 1 + 1 = v.1)
          ∧ r.2.rnum = (db.rnum + U64 - 1) % U64
          ∧ (0 < db.rnum → db.rnum < U64 → r.2.rnum + 1 = db.rnum))
      ∧ (v.2.any (itemIs (mkPHASH hash) off) = false →
          r.1 = -1 ∧ curView r.2 (bucketOf db hash) = some v ∧ r.2.rnum = db.rnum)
      ∧ ∀ b, b ≠ bucketOf db hash → curView r.2 b = curView db b := by
  obtain ⟨r, hr⟩ := cdb_updatepage_delete_returns db hash off now sbuf hinv hfit
  obtain ⟨v, s1, s2, _, s4, s5, s6, _, _, s9⟩ :=
    cdb_updatepage_spec db hash off CDB_PAGEDELETEOFF now sbuf r hinv hr
  refine ⟨r, v, hr, s1, s2, ?_, ?_, s5⟩
  · intro hany
    have hch : updChanges (mkPHASH hash) off CDB_PAGEDELETEOFF v = true := by
      simp [updChanges, hany]
    simp only [updView, updRnum, hch, ↓reduceIte, beq_self_eq_true] at s4 s6 s9
    obtain ⟨a, ha, hpa⟩ := List.any_eq_true.mp hany
    obtain ⟨a1, l1, l2, h1, h2, h3, h4⟩ := List.exists_of_eraseP ha hpa
    refine ⟨s9, ⟨a1, l1, l2, h3, ?_, h2, ?_, ?_⟩, s6, ?_⟩
    · intro b hb
      simpa using h1 b hb
    · rw [s4, h4]
    · have : 0 < v.2.length := by rw [h3]; simp
      omega
    · intro h0 hlt
      rw [s6]
      simp only [U64] at hlt ⊢
      omega
  · intro hany
    have hch : updChanges (mkPHASH hash) off CDB_PAGEDELETEOFF v = false := by
      simp [updChanges, hany, CDB_PAGEDELETEOFF]
    simp only [updView, updRnum, hch, Bool.false_eq_true, ↓reduceIte] at s4 s6 s9
    exact ⟨s9, s4, s6⟩

set_option maxRecDepth 100000 in
theorem delRun_eq : runCalls freshDB delRunCalls = some delRunDB :=
  some_getD_of_isSome _ _ (by decide)

theorem PageInv_delRun : PageInv delRunDB :=
  (runCalls_count delRunCalls freshDB delRunDB PageInv_freshDB.1
    (by
      rw [indexNumSum_empty freshDB (fun b _ => by simp only [pageNum, PageInv_freshDB.2 b])]
      decide)
    delRun_eq).1

set_option maxRecDepth 100000 in
theorem DFit_delRun : DFit delRunDB := by
  intro pc dpc hp hd
  rw [← Option.some.inj hp, ← Option.some.inj hd]
  decide

set_option maxRecDepth 100000 in
/-- Witness for C21: the page of bucket 3 holds the items `(513, 4)`,
`(514, 6)` and `(513, 8)`; the deletion of `(514, 6)` returns 0 and leaves
`(513, 4)` and `(513, 8)` in this order, with `num = 2` and `rnum = 2`; the
deletion of `(514, 8)`, which is not there, returns -1 and changes
nothing. -/
theorem updatepage_delete_shift_left_witness :
    (PageInv delRunDB ∧ DFit delRunDB)
    ∧ (curView delRunDB 3, delRunDB.rnum)
        = (some (3, [{ off := natFOFF 4, hash := mkPHASH 50332161 },
                     { off := natFOFF 6, hash := mkPHASH 50332162 },
                     { off := natFOFF 8, hash := mkPHASH 50332161 }]), 3)
    ∧ (cdb_updatepage delRunDB 50332162 (natFOFF 6) CDB_PAGEDELETEOFF 100 runSbuf).map
          (fun r => (r.1, curView r.2 3, r.2.rnum))
        = some (0, some (2, [{ off := natFOFF 4, hash := mkPHASH 50332161 },
                             { off := natFOFF 8, hash := mkPHASH 50332161 }]), 2)
    ∧ (cdb_updatepage delRunDB 50332162 (natFOFF 8) CDB_PAGEDELETEOFF 100 runSbuf).map
          (fun r => (r.1, curView r.2 3, r.2.rnum))
        = some (-1, curView delRunDB 3, 3)
    ∧ ∃ r v, cdb_updatepage delRunDB 50332162 (natFOFF 6) CDB_PAGEDELETEOFF 100 runSbuf = some r
      ∧ curView delRunDB (bucketOf delRunDB 50332162) = some v ∧ v.2.length = v.1
      ∧ (v.2.any (itemIs (mkPHASH 50332162) (natFOFF 6)) = true →
          r.1 = 0
          ∧ (∃ a l1 l2, v.2 = l1 ++ a :: l2
              ∧ (∀ b ∈ l1, itemIs (mkPHASH 50332162) (natFOFF 6) b = false)
              ∧ itemIs (mkPHASH 50332162) (natFOFF 6) a = true
              ∧ curView r.2 (bucketOf delRunDB 50332162) = some (v.1 - 1, l1 ++ l2)
              ∧ v.1 - 1 + 1 = v.1)
          ∧ r.2.rnum = (delRunDB.rnum + U64 - 1) % U64
          ∧ (0 < delRunDB.rnum → delRunDB.rnum < U64 → r.2.rnum + 1 = delRunDB.rnum))
      ∧ (v.2.any (itemIs (mkPHASH 50332162) (natFOFF 6)) = false →
          r.1 = -1 ∧ curView r.2 (bucketOf delRunDB 50332162) = some v
          ∧ r.2.rnum = delRunDB.rnum)
      ∧ ∀ b, b ≠ bucketOf delRunDB 50332162 → curView r.2 b = curView delRunDB b :=
  ⟨⟨PageInv_delRun, DFit_delRun⟩, by decide, by decide, by decide,
    updatepage_delete_shift_left delRunDB 50332162 (natFOFF 6) 100 runSbuf PageInv_delRun
      DFit_delRun⟩


/-! ## Set and get with a stale record-cache entry -/

set_option maxRecDepth 100000 in
/-- C1, evaluated.  First run, key already cached: `k` has the record `[11]`
and a `cdb_get(k)` has put it into the record cache; `cdb_set2(k, [22],
CDB_OVERWRITE, 0)` returns 0, writes the record `[22]` and makes the index
lead to it, but leaves the cache entry alone, and the `cdb_get(k)` that
follows returns 0 with `[11]`, not `[22]`.  Second run, bloom filter on:
for a key of bucket 256 `cdb_set2(k, [11], CDB_OVERWRITE, 0)` returns 0 and the
`cdb_get(k)` that follows returns -3. -/
theorem set_then_get_serves_stale_cache :
    run14Get.map (fun r => (r.1, r.2.1)) = some (0, some [11])
    ∧ ((rcFind (dbAfterGet run14Get) [107]).map fun it => (it.val.drop (SI4 + SFOFF)))
        = some [11]
    ∧ run14Set2.map (·.1) = some 0
    ∧ (indexedRec runCrc (dbAfter run14Set2) [107]).map (·.val) = some [22]
    ∧ ((rcFind (dbAfter run14Set2) [107]).map fun it => (it.val.drop (SI4 + SFOFF)))
        = some [11]
    ∧ run14Get2.map (fun r => (r.1, r.2.1, r.2.2.1)) = some (0, some [11], 1)
    ∧ run9Set.map (·.1) = some 0
    ∧ run9Get.map (fun r => (r.1, r.2.1, r.2.2.1)) = some (-3, none, 0) := by
  decide

set_option maxRecDepth 100000 in
/-- C2, evaluated: `cdb_set2(k, [11], CDB_INSERTCACHE, 0)` stores the record
`[11]` and a cache entry for `k`; `cdb_set2(k, [22], CDB_OVERWRITE, 0)` returns
0, writes the record `[22]`, makes the index lead to it and keeps `rnum` at 1,
but leaves the cache entry alone; the `cdb_get(k)` that follows returns 0 with
`[11]`, not `[22]`. -/
theorem overwrite_then_get_serves_old_value :
    run1Set1.map (·.1) = some 0
    ∧ (indexedRec runCrc (dbAfter run1Set1) [107]).map (·.val) = some [11]
    ∧ (dbAfter run1Set1).rnum = 1
    ∧ run1Set2.map (·.1) = some 0
    ∧ (indexedRec runCrc (dbAfter run1Set2) [107]).map (·.val) = some [22]
    ∧ (dbAfter run1Set2).rnum = 1
    ∧ ((rcFind (dbAfter run1Set2) [107]).map fun it => (it.val.drop (SI4 + SFOFF)))
        = some [11]
    ∧ run15Get.map (fun r => (r.1, r.2.1, r.2.2.1)) = some (0, some [11], 1) := by
  decide

end CuttDB
